import Mathlib

/-!
# C-Project front end: lexer, token stream, symbol table and recursive-descent parser

A shallow embedding of `Tokenizer.cpp`, `TokenStream.cpp`, `CSTNode.cpp`,
`ErrorHandler.cpp`, `SymbolTable.cpp` and `Parser.cpp`, followed by theorems
about the embedded functions.

Conventions of the embedding
* Member functions become functions that take the object and return the
  updated object next to the C++ return value.
* `CSTNode*` is the type `CSTNode`, whose constructor `null` is `nullptr`;
  a node keeps the `leftChild` / `rightSibling` links of the source.
* A thrown `std::runtime_error` is returned as `some message`.
* Loops are recursive functions on a fuel argument; `none` means the fuel
  ran out before the loop finished.
* `int` values are `Int`. The arithmetic on them is `lineNumber++`, which
  wraps around at the ends of the 32-bit range (`toInt32`), `nextScopeId++`,
  which starts from 1 and stays in range on every run with fewer than 2^31 - 1
  calls of `enterScope`, and `std::stoi`, which carries its own range check.
* A `char` of the input file is a `Char`: the byte `b` is the character with
  code `b`. The character classes are those of the C locale, so that they
  hold of ASCII characters only.
-/

namespace CProject

/-! ## Tokenizer.h -/

/-- The reserved words of `Tokenizer.h` (`keywords`). -/
def keywords : List String :=
  ["if", "else", "while", "procedure", "function", "return",
   "int", "bool", "true", "false", "for", "char", "void"]

inductive TokenType where
  | TOKEN_IDENTIFIER
  | TOKEN_FUNCTION
  | TOKEN_PROCEDURE
  | TOKEN_KEYWORD
  | TOKEN_TYPE
  | TOKEN_INTEGER
  | TOKEN_L_PAREN
  | TOKEN_R_PAREN
  | TOKEN_L_BRACKET
  | TOKEN_R_BRACKET
  | TOKEN_L_BRACE
  | TOKEN_R_BRACE
  | TOKEN_DOUBLE_QUOTE
  | TOKEN_SINGLE_QUOTE
  | TOKEN_SEMICOLON
  | TOKEN_COMMA
  | TOKEN_ASSIGNMENT_OPERATOR
  | TOKEN_PLUS
  | TOKEN_MINUS
  | TOKEN_ASTERISK
  | TOKEN_DIVIDE
  | TOKEN_MODULO
  | TOKEN_CARET
  | TOKEN_LT
  | TOKEN_GT
  | TOKEN_LT_EQUAL
  | TOKEN_GT_EQUAL
  | TOKEN_BOOLEAN_AND
  | TOKEN_LOGICAL_OR
  | TOKEN_BOOLEAN_OR
  | TOKEN_BOOLEAN_NOT
  | TOKEN_BOOLEAN_EQUAL
  | TOKEN_BOOLEAN_NOT_EQUAL
  | TOKEN_BOOLEAN_TRUE
  | TOKEN_BOOLEAN_FALSE
  | TOKEN_CHAR_LITERAL
  | TOKEN_HEX_LITERAL
  | TOKEN_BACKSLASH
  | TOKEN_STRING
  | TOKEN_UNKNOWN
  deriving DecidableEq, Repr

open TokenType

structure Token where
  type : TokenType
  value : String
  lineNumber : Int
  deriving DecidableEq, Repr

/-- The default constructor `Token()`. -/
def Token.default : Token := ⟨TOKEN_UNKNOWN, "", -1⟩

/-! ## ErrorHandler.cpp -/

structure ErrorHandler where
  errors : List (Int × String) := []
  deriving DecidableEq, Repr

def ErrorHandler.addError (h : ErrorHandler) (line : Int) (message : String) : ErrorHandler :=
  { h with errors := h.errors ++ [(line, message)] }

def ErrorHandler.clearErrors (_h : ErrorHandler) : ErrorHandler :=
  { errors := [] }

def ErrorHandler.hasErrors (h : ErrorHandler) : Bool :=
  !h.errors.isEmpty

/-! ## CSTNode.cpp -/

/-- A `CSTNode*`: `null` is `nullptr`, `node` is a heap node with its two links. -/
inductive CSTNode where
  | null : CSTNode
  | node (name value : String) (lineNumber : Int) (leftChild rightSibling : CSTNode) : CSTNode
  deriving DecidableEq, Repr

namespace CSTNode

/-- The constructor call `new CSTNode(name, value, lineNumber)`. -/
def new (name : String) (value : String := "") (lineNumber : Int := -1) : CSTNode :=
  node name value lineNumber null null

def isNull : CSTNode → Bool
  | null => true
  | node .. => false

/-- The walk of `addChild` along the `rightSibling` links: the chain `first`
with `child` linked after its last node. -/
def appendSibling : CSTNode → CSTNode → CSTNode
  | null, child => child
  | node n v l lc rs, child => node n v l lc (appendSibling rs child)

/-- Embedding of `CSTNode::addChild`. -/
def addChild : CSTNode → CSTNode → CSTNode
  | null, _ => null
  | node n v l lc rs, child => node n v l (appendSibling lc child) rs

/-- Embedding of `CSTNode::addSibling`. -/
def addSibling : CSTNode → CSTNode → CSTNode
  | null, _ => null
  | node n v l lc rs, sibling => node n v l lc (appendSibling rs sibling)

/-- The assignment `node->name = newName`. -/
def setName : CSTNode → String → CSTNode
  | null, _ => null
  | node _ v l lc rs, newName => node newName v l lc rs

def getName : CSTNode → String
  | null => ""
  | node n _ _ _ _ => n

def getValue : CSTNode → String
  | null => ""
  | node _ v _ _ _ => v

def getLeftChild : CSTNode → CSTNode
  | null => null
  | node _ _ _ lc _ => lc

/-- A sibling chain holding the given nodes in order. -/
def chain : List CSTNode → CSTNode
  | [] => null
  | c :: cs => appendSibling c (chain cs)

/-- The node `name (value) [line]` whose children are `children`, in order. -/
def tree (name value : String) (lineNumber : Int) (children : List CSTNode) : CSTNode :=
  node name value lineNumber (chain children) null

/-- The nodes of a sibling chain, each cut from its siblings. -/
def siblings : CSTNode → List CSTNode
  | null => []
  | node n v l lc rs => node n v l lc null :: siblings rs

/-- The ordered children of a node. -/
def children : CSTNode → List CSTNode
  | null => []
  | node _ _ _ lc _ => siblings lc

end CSTNode

/-! ## TokenStream.cpp -/

structure TokenStream where
  tokens : List Token
  currentIndex : Nat := 0
  deriving DecidableEq, Repr

namespace TokenStream

/-- The token returned when the stream is exhausted. -/
def endToken : Token := ⟨TOKEN_UNKNOWN, "EOF", -1⟩

def getNextToken (ts : TokenStream) : Token × TokenStream :=
  match ts.tokens[ts.currentIndex]? with
  | some t => (t, { ts with currentIndex := ts.currentIndex + 1 })
  | none => (endToken, ts)

def rewind (ts : TokenStream) : TokenStream :=
  if ts.currentIndex > 0 then { ts with currentIndex := ts.currentIndex - 1 } else ts

def hasMoreTokens (ts : TokenStream) : Bool :=
  decide (ts.currentIndex < ts.tokens.length)

def getCurrentIndex (ts : TokenStream) : Nat :=
  ts.currentIndex

def peekNextToken (ts : TokenStream) : Token :=
  match ts.tokens[ts.currentIndex]? with
  | some t => t
  | none => endToken

end TokenStream

/-! ## SymbolTable.cpp -/

structure SymbolTableEntry where
  identifierName : String
  identifierType : String
  dataType : String
  isArray : Bool
  arraySize : Int
  scope : Int
  deriving DecidableEq, Repr

structure SymbolTable where
  entries : List SymbolTableEntry := []
  parameterLists : List (String × List SymbolTableEntry) := []
  currentScope : Int := 0
  nextScopeId : Int := 1
  scopeStack : List Int := []
  deriving DecidableEq, Repr

namespace SymbolTable

def isDefinedInCurrentScope (t : SymbolTable) (name : String) (current : Int) : Bool :=
  t.entries.any fun e => e.identifierName == name && e.scope == current

def isDefinedGlobally (t : SymbolTable) (name : String) : Bool :=
  t.entries.any fun e => e.identifierName == name && e.scope == 0

/-- The first loop of `isInParameterList`: the name of the first procedure or
function entry whose scope is `currentScope`, or the empty string. -/
def ownerOf (t : SymbolTable) (currentScope : Int) : String :=
  match t.entries.find? fun e =>
      (e.identifierType == "procedure" || e.identifierType == "function") &&
        e.scope == currentScope with
  | some e => e.identifierName
  | none => ""

def isInParameterList (t : SymbolTable) (name : String) (currentScope : Int) : Bool :=
  let owner := t.ownerOf currentScope
  if owner = "" then false
  else t.parameterLists.any fun pair =>
    pair.1 == owner && pair.2.any fun p => p.identifierName == name

/-- Embedding of `SymbolTable::addEntry`: the table after the call and the
message of the `std::runtime_error` it threw, if any. -/
def addEntry (t : SymbolTable) (entry : SymbolTableEntry) : SymbolTable × Option String :=
  if t.isDefinedInCurrentScope entry.identifierName entry.scope then
    (t, some ("variable \"" ++ entry.identifierName ++ "\" is already defined locally"))
  else if t.isInParameterList entry.identifierName entry.scope then
    (t, some ("variable \"" ++ entry.identifierName ++ "\" is already defined locally"))
  else if entry.scope ≠ 0 && t.isDefinedGlobally entry.identifierName then
    (t, some ("variable \"" ++ entry.identifierName ++ "\" is already defined globally"))
  else
    ({ t with entries := t.entries ++ [entry] }, none)

/-- The loop of `addFunctionParameter` over `parameterLists`: `none` when no
pair is keyed by `functionName`. -/
def pushParameter (functionName : String) (param : SymbolTableEntry) :
    List (String × List SymbolTableEntry) → Option (List (String × List SymbolTableEntry))
  | [] => none
  | pair :: rest =>
    if pair.1 = functionName then some ((pair.1, pair.2 ++ [param]) :: rest)
    else (pushParameter functionName param rest).map (pair :: ·)

def addFunctionParameter (t : SymbolTable) (functionName : String)
    (param : SymbolTableEntry) : SymbolTable :=
  match pushParameter functionName param t.parameterLists with
  | some lists => { t with parameterLists := lists }
  | none => { t with parameterLists := t.parameterLists ++ [(functionName, [param])] }

def enterScope (t : SymbolTable) : SymbolTable :=
  { t with
    scopeStack := t.scopeStack ++ [t.currentScope]
    currentScope := t.nextScopeId
    nextScopeId := t.nextScopeId + 1 }

def exitScope (t : SymbolTable) : SymbolTable :=
  match t.scopeStack.getLast? with
  | some top => { t with currentScope := top, scopeStack := t.scopeStack.dropLast }
  | none => t

def getCurrentScopeLevel (t : SymbolTable) : Int :=
  t.currentScope

end SymbolTable

/-! ## Tokenizer.cpp

The input file is the list of characters (bytes) not yet read. A failed `get` leaves
the stream failed, so that the `putback` after it does nothing and every
later `get` fails too: the list stays empty. `inputFile.close()` empties the
list. The character classes are those of the C locale. -/

def isspace (c : Char) : Bool :=
  c = ' ' || c = '\t' || c = '\n' || c = '\r' || c = Char.ofNat 11 || c = Char.ofNat 12

def isalpha (c : Char) : Bool := c.isAlpha

def isdigit (c : Char) : Bool := c.isDigit

def isalnum (c : Char) : Bool := c.isAlphanum

def isxdigit (c : Char) : Bool :=
  c.isDigit || ('a' ≤ c && c ≤ 'f') || ('A' ≤ c && c ≤ 'F')

/-- The value an `int` takes when the result `x` of an arithmetic operation on
`int` values is stored in it: `x` itself inside the 32-bit range, and wrapped
around modulo 2^32 outside it. -/
def toInt32 (x : Int) : Int :=
  (x + 2147483648) % 4294967296 - 2147483648

structure Tokenizer where
  inputFile : List Char
  lineNumber : Int
  tokens : List Token := []
  declaredIdentifiers : List String := []
  errorHandler : ErrorHandler := {}
  deriving DecidableEq, Repr

namespace Tokenizer

/-- The constructor, for an input file that opens and holds the characters
(bytes) of `text`. -/
def ofText (text : String) (startLine : Int) : Tokenizer :=
  { inputFile := text.data, lineNumber := startLine }

def addToken (t : Tokenizer) (type : TokenType) (value : String) (tokenLine : Int) :
    Tokenizer :=
  { t with tokens := t.tokens ++ [⟨type, value, tokenLine⟩] }

def getTokens (t : Tokenizer) : List Token :=
  t.tokens

/-- The calls `errorHandler.addError(line, message)` on the tokenizer's own
`errorHandler` member. -/
def addError (t : Tokenizer) (line : Int) (message : String) : Tokenizer :=
  { t with errorHandler := t.errorHandler.addError line message }

/-- The call `inputFile.close()`. -/
def close (t : Tokenizer) : Tokenizer :=
  { t with inputFile := [] }

/-- The loop of `skipWhitespace` on the unread characters and the line counter. -/
def skipWhitespaceLoop : List Char → Int → List Char × Int
  | [], line => ([], line)
  | c :: cs, line =>
    let line := if c = '\n' then toInt32 (line + 1) else line
    if !isspace c then (c :: cs, line) else skipWhitespaceLoop cs line

def skipWhitespace (t : Tokenizer) : Tokenizer :=
  { t with
    inputFile := (skipWhitespaceLoop t.inputFile t.lineNumber).1
    lineNumber := (skipWhitespaceLoop t.inputFile t.lineNumber).2 }

/-- The scanning loop of `processIdentifierOrKeyword` with the `putback`
after it: the word read and the characters left. -/
def scanWord : List Char → String → String × List Char
  | [], value => (value, [])
  | c :: cs, value =>
    if isalnum c || c = '_' then scanWord cs (value.push c) else (value, c :: cs)

def processIdentifierOrKeyword (t : Tokenizer) (firstChar : Char) : Tokenizer :=
  let value := (scanWord t.inputFile (String.singleton firstChar)).1
  let t := { t with inputFile := (scanWord t.inputFile (String.singleton firstChar)).2 }
  if (value.data.head?.any isdigit) ∧ value ∉ t.declaredIdentifiers then
    (t.addError t.lineNumber ("Syntax error: invalid identifier '" ++ value ++ "'")).close
  else if value = "true" then t.addToken TOKEN_BOOLEAN_TRUE value t.lineNumber
  else if value = "false" then t.addToken TOKEN_BOOLEAN_FALSE value t.lineNumber
  else if value = "procedure" then t.addToken TOKEN_PROCEDURE value t.lineNumber
  else if value = "function" then t.addToken TOKEN_FUNCTION value t.lineNumber
  else if value = "int" ∨ value = "bool" ∨ value = "char" ∨ value = "float" ∨
      value = "double" ∨ value = "void" then
    t.addToken TOKEN_TYPE value t.lineNumber
  else if value = "string" then t.addToken TOKEN_IDENTIFIER value t.lineNumber
  else if value ∈ keywords then t.addToken TOKEN_KEYWORD value t.lineNumber
  else
    { t.addToken TOKEN_IDENTIFIER value t.lineNumber with
      declaredIdentifiers := value :: t.declaredIdentifiers }

/-- The scanning loop of `processNumber`: the text read, the `invalid` flag
and the characters left. -/
def scanNumber : List Char → String → Bool → String × Bool × List Char
  | [], value, invalid => (value, invalid, [])
  | c :: cs, value, invalid =>
    if isdigit c then scanNumber cs (value.push c) invalid
    else if isalpha c then scanNumber cs (value.push c) true
    else (value, invalid, c :: cs)

def processNumber (t : Tokenizer) (firstChar : Char) : Tokenizer :=
  let scanned := scanNumber t.inputFile (String.singleton firstChar) false
  let tokenLine := t.lineNumber
  let t := { t with inputFile := scanned.2.2 }
  if scanned.2.1 then
    { t.addError tokenLine ("Syntax error: invalid integer '" ++ scanned.1 ++ "'") with
      tokens := []
      inputFile := [] }
  else t.addToken TOKEN_INTEGER scanned.1 t.lineNumber

/-- The `switch` of `processOperator` on the first character. -/
def singleOperator (t : Tokenizer) (firstChar : Char) : Tokenizer :=
  if firstChar = '=' then t.addToken TOKEN_ASSIGNMENT_OPERATOR "=" t.lineNumber
  else if firstChar = '+' then t.addToken TOKEN_PLUS "+" t.lineNumber
  else if firstChar = '-' then t.addToken TOKEN_MINUS "-" t.lineNumber
  else if firstChar = '*' then t.addToken TOKEN_ASTERISK "*" t.lineNumber
  else if firstChar = '/' then t.addToken TOKEN_DIVIDE "/" t.lineNumber
  else if firstChar = '%' then t.addToken TOKEN_MODULO "%" t.lineNumber
  else if firstChar = '<' then t.addToken TOKEN_LT "<" t.lineNumber
  else if firstChar = '>' then t.addToken TOKEN_GT ">" t.lineNumber
  else if firstChar = '!' then t.addToken TOKEN_BOOLEAN_NOT "!" t.lineNumber
  else t.addToken TOKEN_UNKNOWN (String.singleton firstChar) t.lineNumber

def processOperator (t : Tokenizer) (firstChar : Char) : Tokenizer :=
  match t.inputFile with
  | c :: cs =>
    let potentialOp := (String.singleton firstChar).push c
    let taken := { t with inputFile := cs }
    if potentialOp = "==" then taken.addToken TOKEN_BOOLEAN_EQUAL potentialOp t.lineNumber
    else if potentialOp = "!=" then
      taken.addToken TOKEN_BOOLEAN_NOT_EQUAL potentialOp t.lineNumber
    else if potentialOp = "&&" then taken.addToken TOKEN_BOOLEAN_AND potentialOp t.lineNumber
    else if potentialOp = "||" then taken.addToken TOKEN_BOOLEAN_OR potentialOp t.lineNumber
    else if potentialOp = ">=" then taken.addToken TOKEN_GT_EQUAL potentialOp t.lineNumber
    else if potentialOp = "<=" then taken.addToken TOKEN_LT_EQUAL potentialOp t.lineNumber
    else singleOperator t firstChar
  | [] => singleOperator t firstChar

def processPunctuation (t : Tokenizer) (firstChar : Char) : Tokenizer :=
  if firstChar = '(' then t.addToken TOKEN_L_PAREN "(" t.lineNumber
  else if firstChar = ')' then t.addToken TOKEN_R_PAREN ")" t.lineNumber
  else if firstChar = '\x7b' then t.addToken TOKEN_L_BRACE "\x7b" t.lineNumber
  else if firstChar = '\x7d' then t.addToken TOKEN_R_BRACE "\x7d" t.lineNumber
  else if firstChar = '[' then t.addToken TOKEN_L_BRACKET "[" t.lineNumber
  else if firstChar = ']' then t.addToken TOKEN_R_BRACKET "]" t.lineNumber
  else if firstChar = ';' then t.addToken TOKEN_SEMICOLON ";" t.lineNumber
  else if firstChar = ',' then t.addToken TOKEN_COMMA "," t.lineNumber
  else t.addToken TOKEN_UNKNOWN (String.singleton firstChar) t.lineNumber

/-- The loop `while (inputFile.get(h) && std::isxdigit(h)) value += h;` with
the `putback` after it. -/
def scanHex : List Char → String → String × List Char
  | [], value => (value, [])
  | h :: cs, value => if isxdigit h then scanHex cs (value.push h) else (value, h :: cs)

/-- The `while` loop of `processStringLiteral` (Tokenizer.cpp lines 181-218):
the text read, the `unterminated` flag and the characters left. -/
def scanString (delimiter : Char) : Nat → List Char → String → Option (String × Bool × List Char)
  | 0, _, _ => none
  | _ + 1, [], value => some (value, true, [])
  | fuel + 1, c :: cs, value =>
    if c = '\\' then
      match cs with
      | [] => some (value, true, [])
      | e :: rest =>
        if e = 'x' then
          scanString delimiter fuel (scanHex rest "x").2
            (value.push '\\' ++ (scanHex rest "x").1)
        else scanString delimiter fuel rest ((value.push '\\').push e)
    else if c = delimiter then
      if value.data.getLast? = some '\\' then scanString delimiter fuel cs (value.push c)
      else some (value.push c, false, cs)
    else scanString delimiter fuel cs (value.push c)

def processStringLiteral (fuel : Nat) (t : Tokenizer) (delimiter : Char) : Option Tokenizer :=
  let tokenLine := t.lineNumber
  if delimiter = '\'' then
    match t.inputFile with
    | c :: q :: cs =>
      if q = '\'' then
        some ({ t with inputFile := cs }.addToken TOKEN_CHAR_LITERAL
          (((String.singleton delimiter).push c).push q) tokenLine)
      else
        some ({ t with inputFile := cs }.addError tokenLine
          "Syntax error: unterminated character literal.")
    | _ =>
      some ({ t with inputFile := [] }.addError tokenLine
        "Syntax error: unterminated character literal.")
  else
    match scanString delimiter fuel t.inputFile (String.singleton delimiter) with
    | none => none
    | some (value, unterminated, rest) =>
      let t := { t with inputFile := rest }
      if unterminated then
        some (t.addError tokenLine "Syntax error: unterminated string literal starting here.").close
      else some (t.addToken TOKEN_STRING value tokenLine)

/-- How the loop of `processCharLiteral` ends. -/
inductive CharEnd where
  | closed
  | newline
  | endOfFile
  deriving DecidableEq, Repr

/-- The `while` loop of `processCharLiteral` (Tokenizer.cpp lines 236-266):
the text read, the way the loop ended and the characters left. -/
def scanChar : Nat → List Char → String → Bool → Option (String × CharEnd × List Char)
  | 0, _, _, _ => none
  | _ + 1, [], value, _ => some (value, CharEnd.endOfFile, [])
  | fuel + 1, c :: cs, value, escape =>
    let value := value.push c
    if escape then
      if c = 'x' then scanChar fuel (scanHex cs value).2 (scanHex cs value).1 false
      else scanChar fuel cs value false
    else if c = '\\' then scanChar fuel cs value true
    else if c = '\'' then some (value, CharEnd.closed, cs)
    else if c = '\n' then some (value, CharEnd.newline, cs)
    else scanChar fuel cs value false

def processCharLiteral (fuel : Nat) (t : Tokenizer) : Option Tokenizer :=
  let tokenLine := t.lineNumber
  match scanChar fuel t.inputFile "'" false with
  | none => none
  | some (value, CharEnd.closed, rest) =>
    some ({ t with inputFile := rest }.addToken TOKEN_CHAR_LITERAL value tokenLine)
  | some (_, CharEnd.newline, rest) =>
    some ({ t with inputFile := rest }.addError tokenLine
      "Syntax error: unterminated character literal.")
  | some (_, CharEnd.endOfFile, rest) =>
    some ({ t with inputFile := rest }.addError tokenLine
      "Syntax error: unterminated character literal at end of file.")

def processUnknown (t : Tokenizer) (c : Char) : Tokenizer :=
  t.addError t.lineNumber ("Unknown token encountered: '" ++ String.singleton c ++ "'")

/-- The characters sent to `processOperator` (Tokenizer.cpp lines 295-296). -/
def isOperatorChar (c : Char) : Bool :=
  c = '+' || c = '-' || c = '=' || c = '<' || c = '>' || c = '!' || c = '&' || c = '|' ||
  c = '*' || c = '/' || c = '%'

/-- The characters sent to `processPunctuation` (Tokenizer.cpp lines 310-311). -/
def isPunctuationChar (c : Char) : Bool :=
  c = '(' || c = ')' || c = '\x7b' || c = '\x7d' || c = ';' || c = ',' || c = '[' || c = ']'

/-- The main loop of `tokenize` (Tokenizer.cpp lines 279-323). -/
def tokenizeLoop : Nat → Tokenizer → Option Tokenizer
  | 0, _ => none
  | fuel + 1, t =>
    match t.inputFile with
    | [] => some t
    | c :: cs =>
      let t := { t with inputFile := cs }
      if isspace c then
        tokenizeLoop fuel
          (if c = '\n' then { t with lineNumber := toInt32 (t.lineNumber + 1) }
            else t).skipWhitespace
      else if isalpha c || c = '_' then tokenizeLoop fuel (t.processIdentifierOrKeyword c)
      else if isdigit c then tokenizeLoop fuel (t.processNumber c)
      else if isOperatorChar c then
        if c = '/' ∧ (cs.head? = some '/' ∨ cs.head? = some '*') then tokenizeLoop fuel t
        else tokenizeLoop fuel (t.processOperator c)
      else if isPunctuationChar c then tokenizeLoop fuel (t.processPunctuation c)
      else if c = '"' then
        match processStringLiteral fuel t c with
        | none => none
        | some t => tokenizeLoop fuel t
      else if c = '\'' then
        match processCharLiteral fuel t with
        | none => none
        | some t => tokenizeLoop fuel t
      else tokenizeLoop fuel (t.processUnknown c)

/-- Embedding of `Tokenizer::tokenize`. Every turn of every loop reads a
character, so one unit of fuel for each unread character and one more are
enough. -/
def tokenize (t : Tokenizer) : Option Tokenizer :=
  tokenizeLoop (t.inputFile.length + 1) { t with tokens := [] }

end Tokenizer

/-! ## Parser.cpp -/

/-- Embedding of `std::stoi` on a decimal string: leading white space is
skipped, one sign is accepted, the digit run is converted and what follows it
is ignored; `none` stands for `std::invalid_argument` (no digit) and
`std::out_of_range` (value outside `int`). -/
def stoi (s : String) : Option Int :=
  let cs := s.data.dropWhile fun c =>
    c = ' ' || c = '\t' || c = '\n' || c = '\r' || c = Char.ofNat 11 || c = Char.ofNat 12
  let negative := cs.head? = some '-'
  let cs := if cs.head? = some '-' ∨ cs.head? = some '+' then cs.tail else cs
  let digits := cs.takeWhile Char.isDigit
  if digits = [] then none
  else
    let magnitude : Nat := digits.foldl (fun acc c => 10 * acc + (c.toNat - 48)) 0
    let result : Int := if negative then -(magnitude : Int) else (magnitude : Int)
    if result < -2147483648 ∨ 2147483647 < result then none else some result

structure Parser where
  tokenStream : TokenStream
  errorHandler : ErrorHandler := {}
  symbolTable : SymbolTable := {}
  deriving DecidableEq, Repr

/-- What a parse function hands back: the returned `CSTNode*` and the parser
afterwards. -/
abbrev Parsed := CSTNode × Parser

namespace Parser

def reportError (p : Parser) (message : String) (lineNumber : Int) : Parser :=
  { p with errorHandler := p.errorHandler.addError lineNumber message }

def getNextToken (p : Parser) : Token × Parser :=
  (p.tokenStream.getNextToken.1, { p with tokenStream := p.tokenStream.getNextToken.2 })

/-- The parser after a `tokenStream.getNextToken()` whose result is not used. -/
def skipToken (p : Parser) : Parser :=
  p.getNextToken.2

def peekNextToken (p : Parser) : Token :=
  p.tokenStream.peekNextToken

def rewind (p : Parser) : Parser :=
  { p with tokenStream := p.tokenStream.rewind }

def hasMoreTokens (p : Parser) : Bool :=
  p.tokenStream.hasMoreTokens

/-- The token kinds accepted by the operator loop of `parseExpression`
(Parser.cpp lines 891-897). -/
def isChainOperator (t : TokenType) : Bool :=
  t = TOKEN_PLUS || t = TOKEN_MINUS || t = TOKEN_ASTERISK || t = TOKEN_DIVIDE ||
  t = TOKEN_MODULO || t = TOKEN_BOOLEAN_EQUAL || t = TOKEN_BOOLEAN_NOT_EQUAL ||
  t = TOKEN_LT || t = TOKEN_GT || t = TOKEN_LT_EQUAL || t = TOKEN_GT_EQUAL ||
  t = TOKEN_BOOLEAN_OR || t = TOKEN_BOOLEAN_AND || t = TOKEN_LOGICAL_OR

mutual

/-- Embedding of `Parser::parseExpression` (Parser.cpp lines 733-879); the
operator loop at its end is `parseOperators`. -/
def parseExpression : Nat → CSTNode → Bool → Parser → Option Parsed
  | 0, _, _, _ => none
  | fuel + 1, leftHandSide, stopAtParen, p =>
    if !leftHandSide.isNull then parseOperators fuel leftHandSide stopAtParen p
    else
      let token := p.getNextToken.1
      let p := p.getNextToken.2
      if token.type = TOKEN_INTEGER then
        parseOperators fuel (CSTNode.new "Operand" token.value token.lineNumber) stopAtParen p
      else if token.type = TOKEN_MINUS then
        let nextToken := p.peekNextToken
        if nextToken.type = TOKEN_INTEGER then
          parseOperators fuel
            (CSTNode.new "Operand" ("-" ++ nextToken.value) nextToken.lineNumber)
            stopAtParen p.skipToken
        else
          parseOperators fuel CSTNode.null stopAtParen p.rewind
      else if token.type = TOKEN_BOOLEAN_NOT then
        match parseExpression fuel CSTNode.null false p with
        | none => none
        | some (operand, p) =>
          if operand.isNull then some (CSTNode.null, p)
          else
            parseOperators fuel
              ((CSTNode.new "Operator" token.value token.lineNumber).addChild operand)
              stopAtParen p
      else if token.type = TOKEN_IDENTIFIER then
        let nextToken := p.peekNextToken
        if nextToken.type = TOKEN_L_PAREN then
          match parseArguments fuel
              (CSTNode.new "FunctionCall" token.value token.lineNumber) p.skipToken with
          | none => none
          | some (functionCallNode, p) =>
            if functionCallNode.isNull then some (CSTNode.null, p)
            else parseOperators fuel functionCallNode stopAtParen p
        else if nextToken.type = TOKEN_L_BRACKET then
          match parseExpression fuel CSTNode.null false p.skipToken with
          | none => none
          | some (indexNode, p) =>
            if indexNode.isNull then some (CSTNode.null, p)
            else
              let arrayAccessNode :=
                (CSTNode.new "ArrayAccess" token.value token.lineNumber).addChild indexNode
              let closingBracketToken := p.getNextToken.1
              let p := p.getNextToken.2
              if closingBracketToken.type ≠ TOKEN_R_BRACKET then
                some (CSTNode.null,
                  p.reportError "Expected ']' after array index." closingBracketToken.lineNumber)
              else parseOperators fuel arrayAccessNode stopAtParen p
        else
          parseOperators fuel (CSTNode.new "Operand" token.value token.lineNumber) stopAtParen p
      else if token.type = TOKEN_L_PAREN then
        match parseExpression fuel CSTNode.null false p with
        | none => none
        | some (inner, p) =>
          let token := p.peekNextToken
          if token.type = TOKEN_R_PAREN then
            parseOperators fuel inner stopAtParen p.skipToken
          else
            some (CSTNode.null, p.reportError "Expected ')' after expression." token.lineNumber)
      else if token.type = TOKEN_CHAR_LITERAL then
        parseOperators fuel (CSTNode.new "Operand" token.value token.lineNumber) stopAtParen p
      else if token.type = TOKEN_STRING then
        parseOperators fuel (CSTNode.new "Operand" token.value token.lineNumber) stopAtParen p
      else if token.type = TOKEN_UNKNOWN ∧ token.value = "\\" then
        let nextToken := p.getNextToken.1
        let p := p.getNextToken.2
        if nextToken.type = TOKEN_UNKNOWN ∧ (nextToken.value = "x0" ∨ nextToken.value = "n") then
          parseOperators fuel
            (CSTNode.new "EscapeSequence" ("\\" ++ nextToken.value) token.lineNumber)
            stopAtParen p
        else
          some (CSTNode.null,
            p.reportError ("Invalid or unrecognized escape sequence: \\" ++ nextToken.value)
              token.lineNumber)
      else
        some (CSTNode.null, p.reportError "Invalid expression." token.lineNumber)

/-- The operator loop of `parseExpression` (Parser.cpp lines 882-938). The two
arms of the source for `&&`/`||` and for the other operators run the same
statements and are one arm here. -/
def parseOperators : Nat → CSTNode → Bool → Parser → Option Parsed
  | 0, _, _, _ => none
  | fuel + 1, leftHandSide, stopAtParen, p =>
    let token := p.peekNextToken
    if stopAtParen = true ∧ token.type = TOKEN_R_PAREN then some (leftHandSide, p)
    else if isChainOperator token.type then
      let operatorNode :=
        (CSTNode.new "Operator" token.value token.lineNumber).addChild leftHandSide
      match parseExpression fuel CSTNode.null false p.skipToken with
      | none => none
      | some (rightHandSide, p) =>
        if rightHandSide.isNull then some (CSTNode.null, p)
        else parseOperators fuel (operatorNode.addChild rightHandSide) stopAtParen p
    else some (leftHandSide, p)

/-- The argument loop of a call expression (Parser.cpp lines 774-793). It
returns the call node when the loop is left, and `null` when the enclosing
`parseExpression` returns `nullptr` from inside the loop. -/
def parseArguments : Nat → CSTNode → Parser → Option Parsed
  | 0, _, _ => none
  | fuel + 1, functionCallNode, p =>
    if !p.hasMoreTokens then some (functionCallNode, p)
    else if p.peekNextToken.type = TOKEN_R_PAREN then some (functionCallNode, p.skipToken)
    else
      match parseExpression fuel CSTNode.null false p with
      | none => none
      | some (argumentNode, p) =>
        let functionCallNode :=
          if argumentNode.isNull then functionCallNode
          else functionCallNode.addChild argumentNode
        let argToken := p.peekNextToken
        if argToken.type = TOKEN_COMMA then parseArguments fuel functionCallNode p.skipToken
        else if argToken.type ≠ TOKEN_R_PAREN then
          some (CSTNode.null,
            p.reportError "Expected ',' or ')' in function call argument list."
              argToken.lineNumber)
        else parseArguments fuel functionCallNode p

end

/-- The size check of an array declarator and what follows it
(Parser.cpp lines 381-407): `null` when `parseStatement` returns `nullptr`. -/
def checkArraySize (signToken numberToken : Token) (sizeValue : String)
    (variableNode : CSTNode) (p : Parser) : Parsed :=
  match stoi sizeValue with
  | none =>
    (CSTNode.null,
      p.reportError "Syntax error: array declaration size must be a positive integer."
        numberToken.lineNumber)
  | some size =>
    if size ≤ 0 then
      (CSTNode.null,
        p.reportError "Syntax error: array declaration size must be a positive integer."
          numberToken.lineNumber)
    else
      let variableNode :=
        variableNode.addChild (CSTNode.new "ArraySize" sizeValue signToken.lineNumber)
      let nextToken := p.getNextToken.1
      let p := p.getNextToken.2
      if nextToken.type ≠ TOKEN_R_BRACKET then
        (CSTNode.null, p.reportError "Expected ']' after array size." nextToken.lineNumber)
      else (variableNode.setName "ArrayDeclaration", p)

/-- The `[ size ]` part of a declarator (Parser.cpp lines 349-408), entered
when the token after the name is `[`. -/
def parseArraySuffix (token : Token) (variableNode : CSTNode) (p : Parser) : Parsed :=
  if token.value ∈ keywords then
    (CSTNode.null,
      p.reportError
        ("Syntax error: reserved word '" ++ token.value ++ "' cannot be used as a variable name.")
        token.lineNumber)
  else
    let p := p.skipToken
    let signToken := p.peekNextToken
    if signToken.type = TOKEN_PLUS ∨ signToken.type = TOKEN_MINUS then
      let p := p.skipToken
      let numberToken := p.getNextToken.1
      let p := p.getNextToken.2
      if numberToken.type ≠ TOKEN_INTEGER then
        (CSTNode.null,
          p.reportError "Expected integer after '+' or '-' in array size."
            numberToken.lineNumber)
      else
        checkArraySize signToken numberToken (signToken.value ++ numberToken.value)
          variableNode p
    else
      let numberToken := p.getNextToken.1
      let p := p.getNextToken.2
      if numberToken.type ≠ TOKEN_INTEGER then
        (CSTNode.null,
          p.reportError "Expected integer size for array declaration." numberToken.lineNumber)
      else checkArraySize signToken numberToken numberToken.value variableNode p

/-- The symbol-table entry built for a declarator (Parser.cpp lines 412-418).
The `std::stoi` of line 417 reads the string that line 383 has converted, so
it cannot throw there. -/
def variableEntry (token : Token) (declarationNode variableNode : CSTNode)
    (p : Parser) : SymbolTableEntry :=
  let isArray := decide (variableNode.getName = "ArrayDeclaration")
  { identifierName := token.value
    identifierType := "datatype"
    dataType := declarationNode.getValue
    isArray := isArray
    arraySize :=
      if isArray = true ∧ variableNode.getLeftChild.isNull = false then
        (stoi variableNode.getLeftChild.getValue).getD 0
      else 0
    scope := p.symbolTable.getCurrentScopeLevel }

/-- The `while (true)` loop of a declaration (Parser.cpp lines 341-458). -/
def parseDeclarators : Nat → CSTNode → Parser → Option Parsed
  | 0, _, _ => none
  | fuel + 1, declarationNode, p =>
    let token := p.getNextToken.1
    let p := p.getNextToken.2
    if token.type = TOKEN_IDENTIFIER then
      let variableNode := CSTNode.new "Variable" token.value token.lineNumber
      let suffix :=
        if p.peekNextToken.type = TOKEN_L_BRACKET then parseArraySuffix token variableNode p
        else (variableNode, p)
      let variableNode := suffix.1
      let p := suffix.2
      if variableNode.isNull then some (CSTNode.null, p)
      else
        let declarationNode := declarationNode.addChild variableNode
        let added := p.symbolTable.addEntry (variableEntry token declarationNode variableNode p)
        let p := { p with symbolTable := added.1 }
        match added.2 with
        | some what => some (CSTNode.null, p.reportError what token.lineNumber)
        | none =>
          let token := p.peekNextToken
          if token.type = TOKEN_COMMA then parseDeclarators fuel declarationNode p.skipToken
          else if token.type = TOKEN_SEMICOLON then some (declarationNode, p.skipToken)
          else
            some (CSTNode.null,
              p.reportError "Expected ';' after variable declaration." token.lineNumber)
    else if token.value ∈ keywords then
      some (CSTNode.null,
        p.reportError
          ("Syntax error: reserved word '" ++ token.value ++
            "' cannot be used as a variable name.")
          token.lineNumber)
    else
      some (CSTNode.null, p.reportError "Expected variable name after type." token.lineNumber)

/-- The loop that skips the arguments of a call statement
(Parser.cpp lines 528-531). -/
def skipArguments : Nat → Parser → Option Parser
  | 0, _ => none
  | fuel + 1, p =>
    if !p.hasMoreTokens then some p
    else if p.getNextToken.1.type = TOKEN_R_PAREN then some p.getNextToken.2
    else skipArguments fuel p.getNextToken.2

/-- A statement that starts with an identifier (Parser.cpp lines 461-545);
`token` is the identifier, already consumed. -/
def parseIdentifierStatement (fuel : Nat) (token : Token) (p : Parser) : Option Parsed :=
  let look := p.peekNextToken
  if look.type = TOKEN_L_BRACKET then
    match parseExpression fuel CSTNode.null false p.skipToken with
    | none => none
    | some (indexExpr, p) =>
      if indexExpr.isNull then some (CSTNode.null, p)
      else
        let closeBr := p.getNextToken.1
        let p := p.getNextToken.2
        if closeBr.type ≠ TOKEN_R_BRACKET then
          some (CSTNode.null, p.reportError "Expected ']' after array index." closeBr.lineNumber)
        else
          let assignTok := p.getNextToken.1
          let p := p.getNextToken.2
          if assignTok.type ≠ TOKEN_ASSIGNMENT_OPERATOR then
            some (CSTNode.null,
              p.reportError "Expected '=' after array element." assignTok.lineNumber)
          else
            match parseExpression fuel CSTNode.null false p with
            | none => none
            | some (rhs, p) =>
              if rhs.isNull then some (CSTNode.null, p)
              else
                let semi := p.getNextToken.1
                let p := p.getNextToken.2
                if semi.type ≠ TOKEN_SEMICOLON then
                  some (CSTNode.null,
                    p.reportError "Expected ';' after assignment." semi.lineNumber)
                else
                  let arrayAccess :=
                    (CSTNode.new "ArrayAccess" token.value token.lineNumber).addChild indexExpr
                  some (((CSTNode.new "Assignment" "[]" assignTok.lineNumber).addChild
                    arrayAccess).addChild rhs, p)
  else if look.type = TOKEN_ASSIGNMENT_OPERATOR then
    match parseExpression fuel CSTNode.null false p.skipToken with
    | none => none
    | some (expr, p) =>
      if expr.isNull then some (CSTNode.null, p)
      else
        let assignNode := (CSTNode.new "Assignment" token.value token.lineNumber).addChild expr
        let semi := p.getNextToken.1
        let p := p.getNextToken.2
        if semi.type ≠ TOKEN_SEMICOLON then
          some (CSTNode.null,
            p.reportError "Expected ';' after assignment statement." semi.lineNumber)
        else some (assignNode, p)
  else if look.type = TOKEN_L_PAREN then
    match skipArguments fuel p.skipToken with
    | none => none
    | some p =>
      let semi := p.getNextToken.1
      let p := p.getNextToken.2
      if semi.type ≠ TOKEN_SEMICOLON then
        some (CSTNode.null, p.reportError "Expected ';' after function call." semi.lineNumber)
      else some (CSTNode.new "FunctionCall" token.value token.lineNumber, p)
  else some (CSTNode.null, p.reportError "Invalid statement." token.lineNumber)

/-- A `return` statement (Parser.cpp lines 626-649); `token` is the `return`
keyword, already consumed. -/
def parseReturnStatement (fuel : Nat) (token : Token) (p : Parser) : Option Parsed :=
  let returnNode := CSTNode.new "Return" "return" token.lineNumber
  if p.getNextToken.1.type ≠ TOKEN_SEMICOLON then
    match parseExpression fuel CSTNode.null false p.getNextToken.2.rewind with
    | none => none
    | some (expressionNode, p) =>
      let returnNode :=
        if expressionNode.isNull then returnNode else returnNode.addChild expressionNode
      let token := p.getNextToken.1
      let p := p.getNextToken.2
      if token.type ≠ TOKEN_SEMICOLON then
        some (CSTNode.null, p.reportError "Expected ';' after return statement." token.lineNumber)
      else some (returnNode, p)
  else some (returnNode, p.getNextToken.2)

/-- The increment clause of a `for` header (Parser.cpp lines 272-303): the
`for` node with the clause attached, or `null` when `parseStatement` returns
`nullptr`. -/
def parseForIncrement (fuel : Nat) (forNode : CSTNode) (p : Parser) : Option Parsed :=
  let idToken := p.getNextToken.1
  let p := p.getNextToken.2
  let nextToken := p.peekNextToken
  if idToken.type = TOKEN_IDENTIFIER ∧
      (nextToken.type = TOKEN_PLUS ∨ nextToken.type = TOKEN_MINUS) then
    let incrementNode :=
      (CSTNode.new "Increment" idToken.value idToken.lineNumber).addChild
        (CSTNode.new "Operator" nextToken.value nextToken.lineNumber)
    some (forNode.addChild incrementNode, p.skipToken)
  else if idToken.type = TOKEN_IDENTIFIER ∧ nextToken.type = TOKEN_ASSIGNMENT_OPERATOR then
    match parseExpression fuel CSTNode.null false p.skipToken with
    | none => none
    | some (expr, p) =>
      if expr.isNull then some (CSTNode.null, p)
      else
        some (forNode.addChild
          ((CSTNode.new "Assignment" idToken.value idToken.lineNumber).addChild expr), p)
  else
    some (CSTNode.null,
      p.reportError
        "Expected increment expression (i++, i--, or assignment) in 'for' loop increment."
        idToken.lineNumber)

mutual

/-- Embedding of `Parser::parseStatement` (Parser.cpp lines 235-701). -/
def parseStatement : Nat → Parser → Option Parsed
  | 0, _ => none
  | fuel + 1, p =>
    let token := p.getNextToken.1
    let p := p.getNextToken.2
    if token.type = TOKEN_KEYWORD ∧ token.value = "for" then
      let forNode := CSTNode.new "ForStatement" "for" token.lineNumber
      let token := p.getNextToken.1
      let p := p.getNextToken.2
      if token.type ≠ TOKEN_L_PAREN then
        some (CSTNode.null, p.reportError "Expected '(' after 'for'." token.lineNumber)
      else
        match parseStatement fuel p with
        | none => none
        | some (initNode, p) =>
          if initNode.isNull then some (CSTNode.null, p)
          else
            match parseExpression fuel CSTNode.null false p with
            | none => none
            | some (conditionNode, p) =>
              if conditionNode.isNull then some (CSTNode.null, p)
              else
                let forNode := (forNode.addChild initNode).addChild conditionNode
                let token := p.getNextToken.1
                let p := p.getNextToken.2
                if token.type ≠ TOKEN_SEMICOLON then
                  some (CSTNode.null,
                    p.reportError "Expected ';' after 'for' loop condition." token.lineNumber)
                else
                  match parseForIncrement fuel forNode p with
                  | none => none
                  | some (forNode, p) =>
                    if forNode.isNull then some (CSTNode.null, p)
                    else
                      let token := p.getNextToken.1
                      let p := p.getNextToken.2
                      if token.type ≠ TOKEN_R_PAREN then
                        some (CSTNode.null,
                          p.reportError "Expected ')' after 'for' loop header." token.lineNumber)
                      else
                        let token := p.getNextToken.1
                        let p := p.getNextToken.2
                        if token.type ≠ TOKEN_L_BRACE then
                          some (CSTNode.null,
                            p.reportError "Expected '\x7b' after 'for' loop header."
                              token.lineNumber)
                        else parseBlock fuel false forNode p
    else if token.type = TOKEN_TYPE then
      parseDeclarators fuel (CSTNode.new "Declaration" token.value token.lineNumber) p
    else if token.type = TOKEN_IDENTIFIER then
      parseIdentifierStatement fuel token p
    else if token.type = TOKEN_KEYWORD ∧ token.value = "if" then
      let ifNode := CSTNode.new "IfStatement" token.value token.lineNumber
      let token := p.getNextToken.1
      let p := p.getNextToken.2
      if token.type ≠ TOKEN_L_PAREN then
        some (CSTNode.null, p.reportError "Expected '(' after 'if' keyword." token.lineNumber)
      else
        match parseExpression fuel CSTNode.null false p with
        | none => none
        | some (conditionNode, p) =>
          if conditionNode.isNull then some (CSTNode.null, p)
          else
            let ifNode := ifNode.addChild conditionNode
            let token := p.getNextToken.1
            let p := p.getNextToken.2
            if token.type ≠ TOKEN_R_PAREN then
              some (CSTNode.null,
                p.reportError "Expected ')' after 'if' condition." token.lineNumber)
            else
              let token := p.getNextToken.1
              let p := p.getNextToken.2
              if token.type ≠ TOKEN_L_BRACE then
                some (CSTNode.null,
                  p.reportError "Expected '\x7b' after 'if' condition." token.lineNumber)
              else
                match parseBlock fuel false ifNode p with
                | none => none
                | some (ifNode, p) =>
                  let nextToken := p.peekNextToken
                  if nextToken.type = TOKEN_KEYWORD ∧ nextToken.value = "else" then
                    let p := p.skipToken
                    let elseNode := CSTNode.new "ElseStatement" "else" nextToken.lineNumber
                    let token := p.getNextToken.1
                    let p := p.getNextToken.2
                    if token.type ≠ TOKEN_L_BRACE then
                      some (CSTNode.null,
                        p.reportError "Expected '\x7b' after 'else' keyword." token.lineNumber)
                    else
                      match parseBlock fuel false elseNode p with
                      | none => none
                      | some (elseNode, p) => some (ifNode.addChild elseNode, p)
                  else some (ifNode, p)
    else if token.type = TOKEN_KEYWORD ∧ token.value = "return" then
      parseReturnStatement fuel token p
    else if token.type = TOKEN_KEYWORD ∧ token.value = "while" then
      let whileNode := CSTNode.new "WhileStatement" token.value token.lineNumber
      let token := p.getNextToken.1
      let p := p.getNextToken.2
      if token.type ≠ TOKEN_L_PAREN then
        some (CSTNode.null, p.reportError "Expected '(' after 'while' keyword." token.lineNumber)
      else
        match parseExpression fuel CSTNode.null false p with
        | none => none
        | some (conditionNode, p) =>
          if conditionNode.isNull then some (CSTNode.null, p)
          else
            let whileNode := whileNode.addChild conditionNode
            let token := p.getNextToken.1
            let p := p.getNextToken.2
            if token.type ≠ TOKEN_R_PAREN then
              some (CSTNode.null,
                p.reportError "Expected ')' after 'while' condition." token.lineNumber)
            else
              let token := p.getNextToken.1
              let p := p.getNextToken.2
              if token.type ≠ TOKEN_L_BRACE then
                some (CSTNode.null,
                  p.reportError "Expected '\x7b' after 'while' condition." token.lineNumber)
              else parseBlock fuel false whileNode p
    else some (CSTNode.null, p.reportError "Invalid statement." token.lineNumber)

/-- The statement loop of a body (Parser.cpp lines 216-229, 322-332, 580-590,
608-618 and 684-694). The loops differ in one point: the procedure body
(`closing = true`) records the closing brace as a `Symbol` child, the bodies
of `for`, `if`, `else` and `while` only leave the loop. -/
def parseBlock : Nat → Bool → CSTNode → Parser → Option Parsed
  | 0, _, _, _ => none
  | fuel + 1, closing, node, p =>
    if !p.hasMoreTokens then some (node, p)
    else
      let token := p.getNextToken.1
      let p := p.getNextToken.2
      if token.type = TOKEN_R_BRACE then
        some (if closing then node.addChild (CSTNode.new "Symbol" "\x7d" token.lineNumber)
          else node, p)
      else
        match parseStatement fuel p.rewind with
        | none => none
        | some (statementNode, p) =>
          parseBlock fuel closing
            (if statementNode.isNull then node else node.addChild statementNode) p

end

/-- How a call of `parseProcedure` or `parseProgram` ends: it returns a
`CSTNode*`, or the `std::stoi` of Parser.cpp line 156 throws and nothing up
to `main` catches the exception. -/
inductive Outcome where
  | returned (node : CSTNode) (p : Parser)
  | threw (p : Parser)
  deriving DecidableEq, Repr

/-- The parameter-list loop of `parseProcedure` (Parser.cpp lines 112-204).
`returned null` means that `parseProcedure` returns `nullptr` from inside the
loop, `returned node` that the loop is left with the procedure node `node`. -/
def parseParameters : Nat → String → Int → CSTNode → Parser → Option Outcome
  | 0, _, _, _, _ => none
  | fuel + 1, procName, currentScope, procedureNode, p =>
    if !p.hasMoreTokens then some (.returned procedureNode p)
    else
      let token := p.getNextToken.1
      let p := p.getNextToken.2
      if token.type = TOKEN_R_PAREN then
        some (.returned (procedureNode.addChild (CSTNode.new "Symbol" ")" token.lineNumber)) p)
      else
        let lookForComma := fun (procedureNode : CSTNode) (p : Parser) =>
          let lookAhead := p.peekNextToken
          if lookAhead.type = TOKEN_COMMA then
            parseParameters fuel procName currentScope
              (procedureNode.addChild (CSTNode.new "Symbol" "," lookAhead.lineNumber)) p.skipToken
          else parseParameters fuel procName currentScope procedureNode p
        if token.type = TOKEN_TYPE then
          if token.value = "void" then
            let procedureNode :=
              procedureNode.addChild (CSTNode.new "ParameterType" "void" token.lineNumber)
            let token := p.getNextToken.1
            let p := p.getNextToken.2
            if token.type ≠ TOKEN_R_PAREN then
              some (.returned CSTNode.null
                (p.reportError "Expected ')' after 'void'." token.lineNumber))
            else
              some (.returned
                (procedureNode.addChild (CSTNode.new "Symbol" ")" token.lineNumber)) p)
          else
            let paramTypeNode := CSTNode.new "ParameterType" token.value token.lineNumber
            let token := p.getNextToken.1
            let p := p.getNextToken.2
            if token.type = TOKEN_IDENTIFIER then
              let register := fun (isArrayParam : Bool) (arraySize : Int) (p : Parser) =>
                let paramNode := CSTNode.new "Parameter" token.value token.lineNumber
                let paramNode :=
                  if isArrayParam then
                    paramNode.addChild
                      (CSTNode.new "ArraySize" (toString arraySize) token.lineNumber)
                  else paramNode
                let paramEntry : SymbolTableEntry :=
                  { identifierName := token.value
                    identifierType := "parameter"
                    dataType := paramTypeNode.getValue
                    isArray := isArrayParam
                    arraySize := arraySize
                    scope := currentScope }
                lookForComma (procedureNode.addChild (paramTypeNode.addChild paramNode))
                  { p with
                    symbolTable := p.symbolTable.addFunctionParameter procName paramEntry }
              if p.peekNextToken.type = TOKEN_L_BRACKET then
                let p := p.skipToken
                let sizeTok := p.getNextToken.1
                let p := p.getNextToken.2
                if sizeTok.type ≠ TOKEN_INTEGER then
                  some (.returned CSTNode.null
                    (p.reportError "Expected integer size for array parameter."
                      sizeTok.lineNumber))
                else
                  match stoi sizeTok.value with
                  | none => some (.threw p)
                  | some arraySize =>
                    let closeBr := p.getNextToken.1
                    let p := p.getNextToken.2
                    if closeBr.type ≠ TOKEN_R_BRACKET then
                      some (.returned CSTNode.null
                        (p.reportError "Expected ']' after array size." closeBr.lineNumber))
                    else register true arraySize p
              else register false 0 p
            else if token.value ∈ keywords then
              some (.returned CSTNode.null
                (p.reportError
                  ("Syntax error: reserved word '" ++ token.value ++
                    "' cannot be used as a parameter name.")
                  token.lineNumber))
            else
              some (.returned CSTNode.null
                (p.reportError "Expected parameter name after type." token.lineNumber))
        else lookForComma procedureNode p

/-- The part of `parseProcedure` after the name is registered (Parser.cpp
lines 98-233): return type, parameter list, body and `exitScope`. -/
def parseProcedureRest (fuel : Nat) (nodeType : String) (returnTypeToken : Token)
    (procName : String) (currentScope : Int) (procedureNode : CSTNode)
    (p : Parser) : Option Outcome :=
  let procedureNode :=
    if nodeType = "Function" ∧ returnTypeToken.type ≠ TOKEN_UNKNOWN then
      procedureNode.addChild
        (CSTNode.new "ReturnType" returnTypeToken.value returnTypeToken.lineNumber)
    else procedureNode
  let token := p.getNextToken.1
  let p := p.getNextToken.2
  if token.type ≠ TOKEN_L_PAREN then
    some (.returned CSTNode.null
      (p.reportError "Expected '(' after procedure or function name." token.lineNumber))
  else
    match parseParameters fuel procName currentScope
        (procedureNode.addChild (CSTNode.new "Symbol" "(" token.lineNumber)) p with
    | none => none
    | some (.threw p) => some (.threw p)
    | some (.returned procedureNode p) =>
      if procedureNode.isNull then some (.returned CSTNode.null p)
      else
        let token := p.getNextToken.1
        let p := p.getNextToken.2
        if token.type ≠ TOKEN_L_BRACE then
          some (.returned CSTNode.null
            (p.reportError "Expected '\x7b' at the start of procedure or function body."
              token.lineNumber))
        else
          match parseBlock fuel true
              (procedureNode.addChild (CSTNode.new "Symbol" "\x7b" token.lineNumber)) p with
          | none => none
          | some (procedureNode, p) =>
            some (.returned procedureNode
              { p with symbolTable := p.symbolTable.exitScope })

/-- The symbol-table entry `parseProcedure` builds for the name
(Parser.cpp lines 83-89). -/
def procedureEntry (nodeType : String) (returnTypeToken token : Token)
    (currentScope : Int) : SymbolTableEntry :=
  { identifierName := token.value
    identifierType := if nodeType = "Function" then "function" else "procedure"
    dataType := if nodeType = "Function" then returnTypeToken.value else "NOT APPLICABLE"
    isArray := false
    arraySize := 0
    scope := currentScope }

/-- Embedding of `Parser::parseProcedure` (Parser.cpp lines 62-233); the part
after the `try` block is `parseProcedureRest`. -/
def parseProcedure (fuel : Nat) (nodeType : String) (returnTypeToken : Token)
    (p : Parser) : Option Outcome :=
  let token := p.getNextToken.1
  let p := p.getNextToken.2
  if token.type ≠ TOKEN_IDENTIFIER then
    if token.value ∈ keywords then
      some (.returned CSTNode.null
        (p.reportError
          ("Syntax error: cannot define a function with reserved word '" ++ token.value ++ "'")
          token.lineNumber))
    else
      some (.returned CSTNode.null
        (p.reportError "Expected procedure or function name." token.lineNumber))
  else
    let p := { p with symbolTable := p.symbolTable.enterScope }
    let currentScope := p.symbolTable.getCurrentScopeLevel
    let procedureNode := CSTNode.new nodeType token.value token.lineNumber
    let procEntry := procedureEntry nodeType returnTypeToken token currentScope
    let added := p.symbolTable.addEntry procEntry
    let p := { p with symbolTable := added.1 }
    match added.2 with
    | some what => some (.returned CSTNode.null (p.reportError what token.lineNumber))
    | none =>
      parseProcedureRest fuel nodeType returnTypeToken procEntry.identifierName currentScope
        procedureNode p

/-- The `while` loop of `parseProgram` (Parser.cpp lines 18-57). -/
def parseProgramLoop : Nat → CSTNode → Parser → Option Outcome
  | 0, _, _ => none
  | fuel + 1, root, p =>
    if !p.hasMoreTokens then some (.returned root p)
    else
      let token := p.getNextToken.1
      let p := p.getNextToken.2
      if token.type = TOKEN_PROCEDURE ∨ token.value = "function" then
        let isFunction := decide (token.value = "function")
        let typeName := if isFunction then "Function" else "Procedure"
        let returnTypeToken := if isFunction then p.getNextToken.1 else Token.default
        let p := if isFunction then p.getNextToken.2 else p
        if isFunction = true ∧ returnTypeToken.type ≠ TOKEN_TYPE then
          some (.returned CSTNode.null
            (p.reportError "Expected return type after 'function'." returnTypeToken.lineNumber))
        else
          match parseProcedure fuel typeName returnTypeToken p with
          | none => none
          | some (.threw p) => some (.threw p)
          | some (.returned procedureNode p) =>
            parseProgramLoop fuel
              (if procedureNode.isNull then root else root.addChild procedureNode) p
      else
        match parseStatement fuel p.rewind with
        | none => none
        | some (statementNode, p) =>
          if statementNode.isNull then
            some (.returned CSTNode.null
              (p.reportError "Expected valid statement at start of program." token.lineNumber))
          else parseProgramLoop fuel (root.addChild statementNode) p

/-- Embedding of `Parser::parseProgram` (Parser.cpp lines 15-59). -/
def parseProgram (fuel : Nat) (p : Parser) : Option Outcome :=
  parseProgramLoop fuel (CSTNode.new "Program") p

/-- The parser that has read the tokens `pre` and has `rest` ahead. -/
def reading (pre rest : List Token) (eh : ErrorHandler) (st : SymbolTable) : Parser :=
  { tokenStream := { tokens := pre ++ rest, currentIndex := pre.length }
    errorHandler := eh
    symbolTable := st }

end Parser

namespace SymbolTable

/-- Rule 1 of `addEntry` in the words of the specification: some existing
entry has the name and the scope of `e`. -/
def SameScopeDuplicate (t : SymbolTable) (e : SymbolTableEntry) : Prop :=
  ∃ x ∈ t.entries, x.identifierName = e.identifierName ∧ x.scope = e.scope

/-- The procedure or function that owns scope `s`: the first procedure or
function entry whose scope is `s`. -/
def owner? (t : SymbolTable) (s : Int) : Option SymbolTableEntry :=
  t.entries.find? fun x =>
    (x.identifierType == "procedure" || x.identifierType == "function") && x.scope == s

/-- Rule 2 in the words of the specification: the name of `e` occurs in the
parameter list of the procedure or function that owns the scope of `e`. -/
def ParameterDuplicate (t : SymbolTable) (e : SymbolTableEntry) : Prop :=
  ∃ o, t.owner? e.scope = some o ∧
    ∃ pair ∈ t.parameterLists, pair.1 = o.identifierName ∧
      ∃ q ∈ pair.2, q.identifierName = e.identifierName

/-- Rule 2 as the code applies it: as `ParameterDuplicate`, for an owner whose
name is not the empty string. -/
def NamedParameterDuplicate (t : SymbolTable) (e : SymbolTableEntry) : Prop :=
  ∃ o, t.owner? e.scope = some o ∧ o.identifierName ≠ "" ∧
    ∃ pair ∈ t.parameterLists, pair.1 = o.identifierName ∧
      ∃ q ∈ pair.2, q.identifierName = e.identifierName

/-- Rule 3 in the words of the specification: `e` is not global and some
existing entry has its name at scope 0. -/
def GlobalShadow (t : SymbolTable) (e : SymbolTableEntry) : Prop :=
  e.scope ≠ 0 ∧ ∃ x ∈ t.entries, x.identifierName = e.identifierName ∧ x.scope = 0

def locallyDefined (name : String) : String :=
  "variable \"" ++ name ++ "\" is already defined locally"

def globallyDefined (name : String) : String :=
  "variable \"" ++ name ++ "\" is already defined globally"


/-- One call of the public interface of the symbol table. -/
inductive Call where
  | addEntry (entry : SymbolTableEntry)
  | addFunctionParameter (functionName : String) (param : SymbolTableEntry)
  | enterScope
  | exitScope
  deriving DecidableEq, Repr

/-- The table after one call; a failed `addEntry` leaves the table it found. -/
def step (t : SymbolTable) : Call → SymbolTable
  | .addEntry entry => (t.addEntry entry).1
  | .addFunctionParameter functionName param => t.addFunctionParameter functionName param
  | .enterScope => t.enterScope
  | .exitScope => t.exitScope

/-- The table reached from the empty table by a sequence of calls. -/
def run (calls : List Call) : SymbolTable :=
  calls.foldl step {}

/-- No two entries of the list share both name and scope. -/
def UniqueInScope (entries : List SymbolTableEntry) : Prop :=
  entries.Pairwise fun a b => ¬(a.identifierName = b.identifierName ∧ a.scope = b.scope)

/-- The table after `addEntry` of a procedure whose name is the empty string
at scope 1 and `addFunctionParameter("", a)`. -/
def anonymousOwnerTable : SymbolTable :=
  run [.addEntry ⟨"", "procedure", "NOT APPLICABLE", false, 0, 1⟩,
       .addFunctionParameter "" ⟨"a", "parameter", "int", false, 0, 1⟩]

end SymbolTable

namespace Parser

/-- The parser `main` builds for a token list (main.cpp lines 168-169): the
cursor at the first token, the error sink cleared, the symbol table empty. -/
def ofTokens (tokens : List Token) : Parser :=
  { tokenStream := { tokens := tokens } }

/-- The `CSTNode*` a call returned, if it returned. -/
def Outcome.node? : Outcome → Option CSTNode
  | .returned node _ => some node
  | .threw _ => none

/-- The parser a call leaves behind. -/
def Outcome.parser : Outcome → Parser
  | .returned _ p => p
  | .threw p => p

/-- The diagnostics in the error sink after a call. -/
def Outcome.errors (o : Outcome) : List (Int × String) :=
  o.parser.errorHandler.errors

end Parser

namespace Tokenizer

/-- The first character of a word: a letter or an underscore. -/
def isWordStart (c : Char) : Bool := isalpha c || c = '_'

/-- A later character of a word: a letter, a digit or an underscore. -/
def isWordChar (c : Char) : Bool := isalnum c || c = '_'

/-- The words `[A-Za-z_][A-Za-z0-9_]*`. -/
def IsWord (x : String) : Prop :=
  ∃ c cs, x.data = c :: cs ∧ isWordStart c = true ∧ ∀ d ∈ cs, isWordChar d = true

/-- The words that `processIdentifierOrKeyword` turns into a type token. -/
def typeWords : List String := ["int", "bool", "char", "float", "double", "void"]

/-- The words that `processIdentifierOrKeyword` turns into an identifier
token: those that are neither reserved nor a type word. -/
def IsIdentifier (x : String) : Prop :=
  IsWord x ∧ x ∉ keywords ∧ x ∉ typeWords

end Tokenizer

namespace Parser

/-- The size text of an array declarator: the sign, when there is one, and
the digits. -/
def sizeText (sign : List Token) (n : Token) : String :=
  String.join (sign.map Token.value) ++ n.value

/-- The line of the first token of the size. -/
def sizeLine (sign : List Token) (n : Token) : Int :=
  ((sign ++ [n]).head?.map Token.lineNumber).getD n.lineNumber

/-- The tokens `[ size ]` of an array declarator: the opening bracket, the
sign tokens (none or one), the integer token and the closing bracket, and
with them the value `size` of the size text. -/
structure ArraySuffix where
  lb : Token
  sign : List Token
  n : Token
  rb : Token
  size : Int

def ArraySuffix.tokens (a : ArraySuffix) : List Token :=
  a.lb :: (a.sign ++ [a.n, a.rb])

/-- The array suffix is one that the declaration loop accepts: the tokens are
of the right kinds, and the size text converts under `std::stoi` to the
positive value `size`. -/
def ArraySuffix.WellFormed (a : ArraySuffix) : Prop :=
  a.lb.type = TOKEN_L_BRACKET ∧
    (a.sign = [] ∨ ∃ s, a.sign = [s] ∧ (s.type = TOKEN_PLUS ∨ s.type = TOKEN_MINUS)) ∧
    a.n.type = TOKEN_INTEGER ∧ a.rb.type = TOKEN_R_BRACKET ∧
    stoi (sizeText a.sign a.n) = some a.size ∧ 0 < a.size

/-- One declarator of a declaration statement: the name `x`, and for an array
`x [ size ]` the tokens of the suffix. -/
structure Declarator where
  name : Token
  suffix : Option ArraySuffix

def Declarator.tokens (d : Declarator) : List Token :=
  match d.suffix with
  | none => [d.name]
  | some a => d.name :: a.tokens

/-- The declarator is one that the declaration loop takes as far as its
`addEntry` call: the name is an identifier token and, for an array, no
reserved word, and the array suffix is well formed. -/
def Declarator.WellFormed (d : Declarator) : Prop :=
  d.name.type = TOKEN_IDENTIFIER ∧
    ∀ a, d.suffix = some a → d.name.value ∉ keywords ∧ a.WellFormed

/-- The symbol-table entry of the declarator in a declaration of type
`dataType` at scope `scope`. -/
def Declarator.entry (d : Declarator) (dataType : String) (scope : Int) : SymbolTableEntry :=
  match d.suffix with
  | none => ⟨d.name.value, "datatype", dataType, false, 0, scope⟩
  | some a => ⟨d.name.value, "datatype", dataType, true, a.size, scope⟩

/-- The CST node of the declarator. -/
def Declarator.node (d : Declarator) : CSTNode :=
  match d.suffix with
  | none => CSTNode.new "Variable" d.name.value d.name.lineNumber
  | some a =>
    CSTNode.tree "ArrayDeclaration" d.name.value d.name.lineNumber
      [CSTNode.new "ArraySize" (sizeText a.sign a.n) (sizeLine a.sign a.n)]

/-- The tokens of declarators each of which is followed by a comma. -/
def declaratorTokens : List (Declarator × Token) → List Token
  | [] => []
  | dc :: rest => dc.1.tokens ++ dc.2 :: declaratorTokens rest

/-- The symbol table after `addEntry` has accepted the entries of the
declarators, one after the other, in a declaration of type `dataType`;
`none` if it refuses one of them. -/
def declareAll (dataType : String) : SymbolTable → List (Declarator × Token) → Option SymbolTable
  | st, [] => some st
  | st, dc :: rest =>
    match (st.addEntry (dc.1.entry dataType st.currentScope)).2 with
    | some _ => none
    | none => declareAll dataType (st.addEntry (dc.1.entry dataType st.currentScope)).1 rest

end Parser

namespace Parser

/-- What every parse function leaves alone: the token list is the same,
diagnostics are only appended, and the symbol table is untouched. -/
structure Steady (p q : Parser) : Prop where
  tokens : q.tokenStream.tokens = p.tokenStream.tokens
  errors : p.errorHandler.errors <+: q.errorHandler.errors
  symbolTable : q.symbolTable = p.symbolTable

/-- What every statement-level parse function leaves alone: the token list is
the same, diagnostics and symbol-table entries are only appended, and the
scope bookkeeping is untouched. -/
structure Grows (p q : Parser) : Prop where
  tokens : q.tokenStream.tokens = p.tokenStream.tokens
  errors : p.errorHandler.errors <+: q.errorHandler.errors
  entries : p.symbolTable.entries <+: q.symbolTable.entries
  currentScope : q.symbolTable.currentScope = p.symbolTable.currentScope
  nextScopeId : q.symbolTable.nextScopeId = p.symbolTable.nextScopeId
  scopeStack : q.symbolTable.scopeStack = p.symbolTable.scopeStack

/-- What every parse function keeps, `parseProcedure` and `parseProgram`
included: the token list is the same, diagnostics and symbol-table entries
are only appended, and `nextScopeId` does not decrease. -/
structure Keeps (p q : Parser) : Prop where
  tokens : q.tokenStream.tokens = p.tokenStream.tokens
  errors : p.errorHandler.errors <+: q.errorHandler.errors
  entries : p.symbolTable.entries <+: q.symbolTable.entries
  nextScopeId : p.symbolTable.nextScopeId ≤ q.symbolTable.nextScopeId

/-- Every outcome of `o` leaves a parser related to `p` by `R`. -/
def PostO (R : Parser → Parser → Prop) (p : Parser) (o : Option Outcome) : Prop :=
  ∀ out, o = some out → R p out.parser

/-- Every result of `o` is related to `p` by `R`. -/
def Post (R : Parser → Parser → Prop) (p : Parser) (o : Option Parsed) : Prop :=
  ∀ node q, o = some (node, q) → R p q

end Parser

namespace SymbolTable

/-- The parameter list kept under `functionName`: the list of the first pair
of `parameterLists` with that key, empty when there is none. -/
def parametersOf (t : SymbolTable) (functionName : String) : List SymbolTableEntry :=
  match t.parameterLists.find? fun pair => pair.1 == functionName with
  | some pair => pair.2
  | none => []

/-- No parameter list holds two parameters of the same name. -/
def DistinctParameters (parameterLists : List (String × List SymbolTableEntry)) : Prop :=
  ∀ pair ∈ parameterLists, (pair.2.map (·.identifierName)).Nodup

/-- No entry outside scope 0 has the name of an entry of scope 0. -/
def NoGlobalShadow (entries : List SymbolTableEntry) : Prop :=
  ∀ a ∈ entries, ∀ b ∈ entries,
    a.scope = 0 → b.scope ≠ 0 → a.identifierName ≠ b.identifierName

/-- No entry outside scope 0 has the name of an entry of scope 0 that stands
before it in the list, that is, that was added earlier. -/
def NoShadowOfEarlierGlobal (entries : List SymbolTableEntry) : Prop :=
  entries.Pairwise fun a b => a.scope = 0 → b.scope ≠ 0 → a.identifierName ≠ b.identifierName

/-- The scope stack is strictly increasing from bottom to top and the current
scope is above every id on it. -/
def ScopesNested (t : SymbolTable) : Prop :=
  t.scopeStack.Pairwise (· < ·) ∧ ∀ s ∈ t.scopeStack, s < t.currentScope

/-- The bookkeeping of scope ids in a table reached from the empty one: ids
are not negative, and every id in use is below `nextScopeId`. -/
structure ScopeIdsInUse (t : SymbolTable) : Prop where
  nested : t.ScopesNested
  stackNonneg : ∀ s ∈ t.scopeStack, 0 ≤ s
  currentNonneg : 0 ≤ t.currentScope
  currentBelowNext : t.currentScope < t.nextScopeId

/-- The table after `addEntry` calls for the entries of `es`, in order. -/
def addEntries (t : SymbolTable) (es : List SymbolTableEntry) : SymbolTable :=
  es.foldl (fun t x => (t.addEntry x).1) t

/-- The table without the entries of scope `s`. -/
def withoutScope (t : SymbolTable) (s : Int) : SymbolTable :=
  { t with entries := t.entries.filter fun x => x.scope ≠ s }

end SymbolTable

namespace TokenStream

/-- One call of the interface of the token stream that the parser uses to
move or look. -/
inductive Op where
  | getNextToken
  | peekNextToken
  | rewind
  deriving DecidableEq, Repr

/-- The stream after one call. `peekNextToken` assigns to no member. -/
def apply (ts : TokenStream) : Op → TokenStream
  | .getNextToken => ts.getNextToken.2
  | .peekNextToken => ts
  | .rewind => ts.rewind

/-- The stream `TokenStream(tokens)` after the calls of `ops`, in order. -/
def after (tokens : List Token) (ops : List Op) : TokenStream :=
  ops.foldl apply { tokens := tokens }

end TokenStream

namespace Tokenizer

/-- The kind of token a word gets, as a table: the two boolean literals,
`procedure` and `function` with a kind of their own, the six type words, the
five remaining reserved words, and identifiers. -/
def wordKind (w : String) : TokenType :=
  if w = "true" then TOKEN_BOOLEAN_TRUE
  else if w = "false" then TOKEN_BOOLEAN_FALSE
  else if w = "procedure" then TOKEN_PROCEDURE
  else if w = "function" then TOKEN_FUNCTION
  else if w ∈ typeWords then TOKEN_TYPE
  else if w ∈ ["if", "else", "while", "return", "for"] then TOKEN_KEYWORD
  else TOKEN_IDENTIFIER

/-- The two-character operators and their kinds. -/
def doubleOperator (a b : Char) : Option TokenType :=
  if a = '=' ∧ b = '=' then some TOKEN_BOOLEAN_EQUAL
  else if a = '!' ∧ b = '=' then some TOKEN_BOOLEAN_NOT_EQUAL
  else if a = '&' ∧ b = '&' then some TOKEN_BOOLEAN_AND
  else if a = '|' ∧ b = '|' then some TOKEN_BOOLEAN_OR
  else if a = '>' ∧ b = '=' then some TOKEN_GT_EQUAL
  else if a = '<' ∧ b = '=' then some TOKEN_LT_EQUAL
  else none

/-- The kind of the one-character token of an operator character: the nine
one-character operators, and unknown for a single `&` or `|`. -/
def operatorKind (a : Char) : TokenType :=
  if a = '=' then TOKEN_ASSIGNMENT_OPERATOR
  else if a = '+' then TOKEN_PLUS
  else if a = '-' then TOKEN_MINUS
  else if a = '*' then TOKEN_ASTERISK
  else if a = '/' then TOKEN_DIVIDE
  else if a = '%' then TOKEN_MODULO
  else if a = '<' then TOKEN_LT
  else if a = '>' then TOKEN_GT
  else if a = '!' then TOKEN_BOOLEAN_NOT
  else TOKEN_UNKNOWN

/-- A `/` that the main loop of `tokenize` drops: one directly followed by
`/` or `*` (Tokenizer.cpp lines 297-307). -/
def DroppedSlash (a : Char) (rest : List Char) : Prop :=
  a = '/' ∧ (rest.head? = some '/' ∨ rest.head? = some '*')

/-- The message of `processNumber` for the text `value`. -/
def invalidInteger (value : String) : String :=
  "Syntax error: invalid integer '" ++ value ++ "'"

end Tokenizer

namespace Parser

/-- What every parse function does to the symbol table: a sequence of calls
of its interface. -/
structure Calls (p q : Parser) : Prop where
  calls : ∃ calls : List SymbolTable.Call,
    q.symbolTable = calls.foldl SymbolTable.step p.symbolTable

end Parser

namespace Parser

/-- The tokens of `procedure f(int a, int a) \x7b \x7d`. -/
def duplicateParameterProgram : List Token :=
  [⟨TOKEN_PROCEDURE, "procedure", 1⟩, ⟨TOKEN_IDENTIFIER, "f", 1⟩, ⟨TOKEN_L_PAREN, "(", 1⟩,
    ⟨TOKEN_TYPE, "int", 1⟩, ⟨TOKEN_IDENTIFIER, "a", 1⟩, ⟨TOKEN_COMMA, ",", 1⟩,
    ⟨TOKEN_TYPE, "int", 1⟩, ⟨TOKEN_IDENTIFIER, "a", 1⟩, ⟨TOKEN_R_PAREN, ")", 1⟩,
    ⟨TOKEN_L_BRACE, "\x7b", 1⟩, ⟨TOKEN_R_BRACE, "\x7d", 1⟩]

/-- The tokens of `procedure f(int a) \x7b int a; \x7d`. -/
def parameterAsLocalProgram : List Token :=
  [⟨TOKEN_PROCEDURE, "procedure", 1⟩, ⟨TOKEN_IDENTIFIER, "f", 1⟩, ⟨TOKEN_L_PAREN, "(", 1⟩,
    ⟨TOKEN_TYPE, "int", 1⟩, ⟨TOKEN_IDENTIFIER, "a", 1⟩, ⟨TOKEN_R_PAREN, ")", 1⟩,
    ⟨TOKEN_L_BRACE, "\x7b", 1⟩, ⟨TOKEN_TYPE, "int", 1⟩, ⟨TOKEN_IDENTIFIER, "a", 1⟩,
    ⟨TOKEN_SEMICOLON, ";", 1⟩, ⟨TOKEN_R_BRACE, "\x7d", 1⟩]

/-- The tokens of `procedure f() \x7b int x; \x7d int x;`. -/
def localThenGlobalProgram : List Token :=
  [⟨TOKEN_PROCEDURE, "procedure", 1⟩, ⟨TOKEN_IDENTIFIER, "f", 1⟩, ⟨TOKEN_L_PAREN, "(", 1⟩,
    ⟨TOKEN_R_PAREN, ")", 1⟩, ⟨TOKEN_L_BRACE, "\x7b", 1⟩, ⟨TOKEN_TYPE, "int", 1⟩,
    ⟨TOKEN_IDENTIFIER, "x", 1⟩, ⟨TOKEN_SEMICOLON, ";", 1⟩, ⟨TOKEN_R_BRACE, "\x7d", 1⟩,
    ⟨TOKEN_TYPE, "int", 1⟩, ⟨TOKEN_IDENTIFIER, "x", 1⟩, ⟨TOKEN_SEMICOLON, ";", 1⟩]

end Parser

namespace Tokenizer

/-- The lexemes of a token list, one after the other. -/
def lexemes (tokens : List Token) : String :=
  String.join (tokens.map Token.value)

end Tokenizer

namespace Parser

/-- The tokens of `f(int x, void) \x7b \x7d`, the header and body that follow
the keyword `procedure`. -/
def voidAfterParameter : List Token :=
  [⟨TOKEN_IDENTIFIER, "f", 1⟩, ⟨TOKEN_L_PAREN, "(", 1⟩, ⟨TOKEN_TYPE, "int", 1⟩,
    ⟨TOKEN_IDENTIFIER, "x", 1⟩, ⟨TOKEN_COMMA, ",", 1⟩, ⟨TOKEN_TYPE, "void", 1⟩,
    ⟨TOKEN_R_PAREN, ")", 1⟩, ⟨TOKEN_L_BRACE, "\x7b", 1⟩, ⟨TOKEN_R_BRACE, "\x7d", 1⟩]

/-- The tokens of `f(void, int x) \x7b \x7d`. -/
def parameterAfterVoid : List Token :=
  [⟨TOKEN_IDENTIFIER, "f", 1⟩, ⟨TOKEN_L_PAREN, "(", 1⟩, ⟨TOKEN_TYPE, "void", 1⟩,
    ⟨TOKEN_COMMA, ",", 1⟩, ⟨TOKEN_TYPE, "int", 1⟩, ⟨TOKEN_IDENTIFIER, "x", 1⟩,
    ⟨TOKEN_R_PAREN, ")", 1⟩, ⟨TOKEN_L_BRACE, "\x7b", 1⟩, ⟨TOKEN_R_BRACE, "\x7d", 1⟩]

/-- The tokens of `for (i = 0; i < 4; i` followed by `clause` and
`) \x7b \x7d`. -/
def forWithIncrement (clause : List Token) : List Token :=
  [⟨TOKEN_KEYWORD, "for", 1⟩, ⟨TOKEN_L_PAREN, "(", 1⟩, ⟨TOKEN_IDENTIFIER, "i", 1⟩,
    ⟨TOKEN_ASSIGNMENT_OPERATOR, "=", 1⟩, ⟨TOKEN_INTEGER, "0", 1⟩, ⟨TOKEN_SEMICOLON, ";", 1⟩,
    ⟨TOKEN_IDENTIFIER, "i", 1⟩, ⟨TOKEN_LT, "<", 1⟩, ⟨TOKEN_INTEGER, "4", 1⟩,
    ⟨TOKEN_SEMICOLON, ";", 1⟩, ⟨TOKEN_IDENTIFIER, "i", 1⟩] ++ clause ++
  [⟨TOKEN_R_PAREN, ")", 1⟩, ⟨TOKEN_L_BRACE, "\x7b", 1⟩, ⟨TOKEN_R_BRACE, "\x7d", 1⟩]

/-- As an argument of a call, the tokens `toks` are an expression with the
tree `node`: followed by a comma or a closing parenthesis, `parseExpression`
reads exactly these tokens and returns `node`, with any fuel of at least `d`. -/
def ParsesAsArgument (d : Nat) (toks : List Token) (node : CSTNode) : Prop :=
  node.isNull = false ∧
    ∀ fuel pre rest eh st,
      (∃ t, rest.head? = some t ∧ (t.type = TOKEN_COMMA ∨ t.type = TOKEN_R_PAREN)) →
        parseExpression (fuel + d) CSTNode.null false (reading pre (toks ++ rest) eh st) =
          some (node, reading (pre ++ toks) rest eh st)

/-- The tokens of the arguments after the first one: each argument with its
comma in front. An argument is given as its comma, its tokens and its tree. -/
def moreArgumentTokens : List (Token × List Token × CSTNode) → List Token
  | [] => []
  | m :: more => m.1 :: (m.2.1 ++ moreArgumentTokens more)

end Parser

namespace Tokenizer

/-- The characters `consumed` have been read as the tokens `tokens`: they
are the lexemes of the tokens, in order, with white space between them, and
only the lexeme of a string or char literal token holds white space. -/
inductive Scanned : List Char → List Token → Prop where
  | start : Scanned [] []
  | space {consumed : List Char} {tokens : List Token} (ws : List Char) :
      (∀ c ∈ ws, isspace c = true) → Scanned consumed tokens → Scanned (consumed ++ ws) tokens
  | token {consumed : List Char} {tokens : List Token} (tok : Token) :
      (tok.type = TOKEN_STRING ∨ tok.type = TOKEN_CHAR_LITERAL ∨
        ∀ c ∈ tok.value.data, isspace c = false) →
      Scanned consumed tokens → Scanned (consumed ++ tok.value.data) (tokens ++ [tok])

/-- The text holds neither `//` nor `/*`. -/
def SlashFree (text : List Char) : Prop :=
  ∀ pre post c, text = pre ++ '/' :: c :: post → c ≠ '/' ∧ c ≠ '*'

/-- What the main loop of `tokenize` keeps while no diagnostic is recorded:
the characters read so far have been read as the tokens made so far. -/
def ScannedSoFar (text : List Char) (t : Tokenizer) : Prop :=
  t.errorHandler.errors = [] →
    ∃ consumed, text = consumed ++ t.inputFile ∧ Scanned consumed t.tokens

end Tokenizer

namespace Tokenizer

/-- A diagnostic of the rejection branch of `processIdentifierOrKeyword`
(Tokenizer.cpp line 49): its text starts with "Syntax error: invalid
identifier". -/
def InvalidIdentifierMessage (message : String) : Prop :=
  "Syntax error: invalid identifier".data <+: message.data

/-- No diagnostic of the tokenizer is one of the rejection branch. -/
def NoInvalidIdentifier (t : Tokenizer) : Prop :=
  ∀ e ∈ t.errorHandler.errors, ¬InvalidIdentifierMessage e.2

/-- What one turn of the main loop of `tokenize` does to the line counter
and the token list when the counter does not wrap around: the counter does
not go back, and the token list is
kept, emptied, or gets one token more that carries the line the counter had. -/
def LineStep (t u : Tokenizer) : Prop :=
  t.lineNumber ≤ u.lineNumber ∧
    (u.tokens = t.tokens ∨ u.tokens = [] ∨
      ∃ tok, u.tokens = t.tokens ++ [tok] ∧ tok.lineNumber = t.lineNumber)

/-- The line counter holds an `int`, and the newline characters still unread
cannot take it past the largest `int`. -/
def LineBudget (t : Tokenizer) : Prop :=
  -2147483648 ≤ t.lineNumber ∧ t.lineNumber + (t.inputFile.count '\n' : Nat) ≤ 2147483647

/-- The lines of the tokens made so far: each lies between the starting line
and the line counter, and they do not decrease along the list. -/
def LinesSoFar (startLine : Int) (t : Tokenizer) : Prop :=
  startLine ≤ t.lineNumber ∧
    (∀ tok ∈ t.tokens, startLine ≤ tok.lineNumber ∧ tok.lineNumber ≤ t.lineNumber) ∧
    (t.tokens.map Token.lineNumber).Sorted (· ≤ ·)

end Tokenizer

namespace Parser

/-- The tokens `tokenize` makes of `text`, read from line 1. -/
def tokensOf (text : String) : List Token :=
  (((Tokenizer.ofText text 1).tokenize).map Tokenizer.getTokens).getD []

end Parser

namespace Parser

/-- What a statement does to the symbol table: the scope bookkeeping is
untouched, and every entry it adds carries the scope that was current. -/
structure Scoped (p q : Parser) : Prop where
  grows : Grows p q
  added : ∃ added, q.symbolTable.entries = p.symbolTable.entries ++ added ∧
    ∀ e ∈ added, e.scope = p.symbolTable.currentScope

end Parser

namespace Parser

/-- The number of tokens ahead of the cursor. -/
def remaining (p : Parser) : Nat :=
  p.tokenStream.tokens.length - p.tokenStream.currentIndex

/-- The call returns and leaves at most `k` tokens ahead of the cursor. -/
def Returns (k : Nat) (o : Option Parsed) : Prop :=
  ∃ node q, o = some (node, q) ∧ remaining q ≤ k

/-- The call ends, by a return or by the exception of `std::stoi`, and
leaves at most `k` tokens ahead of the cursor. -/
def Ends (k : Nat) (o : Option Outcome) : Prop :=
  ∃ out, o = some out ∧ remaining out.parser ≤ k

end Parser

namespace Parser

/-- The commas among tokens that the parameter loop skips which its look-ahead
records all the same: a comma that stands directly after a token skipped at
the top of the loop. `lookAhead` tells whether the first token of the list
stands directly after such a token. -/
def recordedCommas : Bool → List Token → List Token
  | _, [] => []
  | lookAhead, t :: rest =>
    if lookAhead = true ∧ t.type = TOKEN_COMMA then t :: recordedCommas false rest
    else recordedCommas true rest

/-- The procedure node with a `Symbol` child added for each of the commas. -/
def addCommas (procedureNode : CSTNode) (commas : List Token) : CSTNode :=
  commas.foldl (fun node c => node.addChild (CSTNode.new "Symbol" "," c.lineNumber))
    procedureNode

end Parser

namespace Parser

/-- What one turn of the loop of `parseProgram` does (Parser.cpp lines
19-56): it leaves the loop, or it goes on after a call of `parseProcedure` or
of `parseStatement`. -/
inductive Turn where
  /-- The loop is left: `parseProgram` returns or throws with the outcome `o`. -/
  | leave (o : Outcome)
  /-- The turn has called `parseProcedure` on the parser `called`, the call has
  returned `node`, and the loop goes on with `root` and `p`. -/
  | procedure (called : Parser) (node root : CSTNode) (p : Parser)
  /-- The turn has called `parseStatement`, the call has returned `node`, which
  is not null, and the loop goes on with `root` and `p`. -/
  | statement (node root : CSTNode) (p : Parser)
  deriving DecidableEq, Repr

/-- One turn of the `while` loop of `parseProgram` (Parser.cpp lines 19-56),
the body of `parseProgramLoop`: `fuel` is handed to the parse function the
turn calls. -/
def parseProgramTurn (fuel : Nat) (root : CSTNode) (p : Parser) : Option Turn :=
  if !p.hasMoreTokens then some (.leave (.returned root p))
  else
    let token := p.getNextToken.1
    let p := p.getNextToken.2
    if token.type = TOKEN_PROCEDURE ∨ token.value = "function" then
      let isFunction := decide (token.value = "function")
      let typeName := if isFunction then "Function" else "Procedure"
      let returnTypeToken := if isFunction then p.getNextToken.1 else Token.default
      let p := if isFunction then p.getNextToken.2 else p
      if isFunction = true ∧ returnTypeToken.type ≠ TOKEN_TYPE then
        some (.leave (.returned CSTNode.null
          (p.reportError "Expected return type after 'function'." returnTypeToken.lineNumber)))
      else
        match parseProcedure fuel typeName returnTypeToken p with
        | none => none
        | some (.threw q) => some (.leave (.threw q))
        | some (.returned procedureNode q) =>
          some (.procedure p procedureNode
            (if procedureNode.isNull then root else root.addChild procedureNode) q)
    else
      match parseStatement fuel p.rewind with
      | none => none
      | some (statementNode, q) =>
        if statementNode.isNull then
          some (.leave (.returned CSTNode.null
            (q.reportError "Expected valid statement at start of program." token.lineNumber)))
        else some (.statement statementNode (root.addChild statementNode) q)

/-- The parser with which the loop goes on after the turn, if it goes on. -/
def Turn.next? : Turn → Option Parser
  | .leave _ => none
  | .procedure _ _ _ p => some p
  | .statement _ _ p => some p

/-- The turn has left a scope open: its `parseProcedure` call has read an
identifier token as the name, so that it has called `enterScope`, and has
returned `nullptr`. -/
def Turn.leavesScopeOpen : Turn → Bool
  | .procedure called node _ _ =>
    node.isNull && decide (called.getNextToken.1.type = TOKEN_IDENTIFIER)
  | _ => false

/-- A turn of the loop of `parseProgram` that starts with the parser `p` goes
on with the parser `q`; `scopeLeftOpen` tells whether the turn has left a
scope open. -/
def LoopStep (scopeLeftOpen : Bool) (p q : Parser) : Prop :=
  ∃ fuel root turn, parseProgramTurn fuel root p = some turn ∧ turn.next? = some q ∧
    turn.leavesScopeOpen = scopeLeftOpen

/-- The loop of `parseProgram`, started with the parser `p`, comes to the
start of a turn with the parser `q`. -/
def LoopReaches (p q : Parser) : Prop :=
  Relation.ReflTransGen (fun a b => ∃ scopeLeftOpen, LoopStep scopeLeftOpen a b) p q

/-- As `LoopReaches`, through turns none of which leaves a scope open. -/
def LoopReachesClosed (p q : Parser) : Prop :=
  Relation.ReflTransGen (LoopStep false) p q

end Parser

namespace Parser

/-- The parser on `procedure f ; int y;` after the first turn of the loop of
`parseProgram`, in which `parseProcedure` has failed at the `;`. -/
def afterFailedProcedure : Parser :=
  { tokenStream := { tokens := tokensOf "procedure f ; int y;", currentIndex := 3 }
    errorHandler := { errors := [(1, "Expected '(' after procedure or function name.")] }
    symbolTable :=
      { entries := [⟨"f", "procedure", "NOT APPLICABLE", false, 0, 1⟩]
        currentScope := 1
        nextScopeId := 2
        scopeStack := [0] } }

/-- The parser on `procedure f ; int y;` after the second turn, for `int y;`. -/
def afterLaterDeclaration : Parser :=
  { tokenStream := { tokens := tokensOf "procedure f ; int y;", currentIndex := 6 }
    errorHandler := { errors := [(1, "Expected '(' after procedure or function name.")] }
    symbolTable :=
      { entries := [⟨"f", "procedure", "NOT APPLICABLE", false, 0, 1⟩,
          ⟨"y", "datatype", "int", false, 0, 1⟩]
        currentScope := 1
        nextScopeId := 2
        scopeStack := [0] } }

end Parser

/-! # Properties -/

namespace Parser

/-! ## Symbolic execution of the token stream -/

theorem getElem?_append_length (pre rest : List Token) (t : Token) :
    (pre ++ t :: rest)[pre.length]? = some t := by
  rw [List.getElem?_append_right (le_refl _)]
  simp

@[simp] theorem getNextToken_reading_cons (pre rest : List Token) (t : Token)
    (eh : ErrorHandler) (st : SymbolTable) :
    (reading pre (t :: rest) eh st).getNextToken = (t, reading (pre ++ [t]) rest eh st) := by
  simp only [reading, getNextToken, TokenStream.getNextToken, getElem?_append_length]
  simp

@[simp] theorem getNextToken_reading_nil (pre : List Token)
    (eh : ErrorHandler) (st : SymbolTable) :
    (reading pre [] eh st).getNextToken = (TokenStream.endToken, reading pre [] eh st) := by
  simp [reading, getNextToken, TokenStream.getNextToken]

@[simp] theorem skipToken_reading_cons (pre rest : List Token) (t : Token)
    (eh : ErrorHandler) (st : SymbolTable) :
    (reading pre (t :: rest) eh st).skipToken = reading (pre ++ [t]) rest eh st := by
  simp [skipToken]

@[simp] theorem peekNextToken_reading_cons (pre rest : List Token) (t : Token)
    (eh : ErrorHandler) (st : SymbolTable) :
    (reading pre (t :: rest) eh st).peekNextToken = t := by
  simp only [reading, peekNextToken, TokenStream.peekNextToken, getElem?_append_length]

@[simp] theorem peekNextToken_reading_nil (pre : List Token)
    (eh : ErrorHandler) (st : SymbolTable) :
    (reading pre [] eh st).peekNextToken = TokenStream.endToken := by
  simp [reading, peekNextToken, TokenStream.peekNextToken]

@[simp] theorem hasMoreTokens_reading_cons (pre rest : List Token) (t : Token)
    (eh : ErrorHandler) (st : SymbolTable) :
    (reading pre (t :: rest) eh st).hasMoreTokens = true := by
  simp [reading, hasMoreTokens, TokenStream.hasMoreTokens]

@[simp] theorem hasMoreTokens_reading_nil (pre : List Token)
    (eh : ErrorHandler) (st : SymbolTable) :
    (reading pre [] eh st).hasMoreTokens = false := by
  simp [reading, hasMoreTokens, TokenStream.hasMoreTokens]

@[simp] theorem rewind_reading_snoc (pre rest : List Token) (t : Token)
    (eh : ErrorHandler) (st : SymbolTable) :
    (reading (pre ++ [t]) rest eh st).rewind = reading pre (t :: rest) eh st := by
  simp [reading, rewind, TokenStream.rewind]

@[simp] theorem reportError_reading (pre rest : List Token)
    (eh : ErrorHandler) (st : SymbolTable) (m : String) (l : Int) :
    (reading pre rest eh st).reportError m l = reading pre rest (eh.addError l m) st := by
  simp [reading, reportError]

@[simp] theorem symbolTable_reading (pre rest : List Token)
    (eh : ErrorHandler) (st : SymbolTable) : (reading pre rest eh st).symbolTable = st := rfl

@[simp] theorem errorHandler_reading (pre rest : List Token)
    (eh : ErrorHandler) (st : SymbolTable) : (reading pre rest eh st).errorHandler = eh := rfl

@[simp] theorem setSymbolTable_reading (pre rest : List Token)
    (eh : ErrorHandler) (st st2 : SymbolTable) :
    { reading pre rest eh st with symbolTable := st2 } = reading pre rest eh st2 := rfl

/-- A chain operator is none of the token kinds tested before the operator loop. -/
theorem isChainOperator_ne {t : TokenType} (h : isChainOperator t = true) :
    t ≠ TOKEN_INTEGER ∧ t ≠ TOKEN_IDENTIFIER ∧ t ≠ TOKEN_L_PAREN ∧ t ≠ TOKEN_L_BRACKET ∧
      t ≠ TOKEN_R_PAREN := by
  cases t <;> simp_all [isChainOperator]

/-- One operand: an integer, or an identifier that opens neither a call nor an index. -/
theorem parseExpression_operand (fuel : Nat) (pre rest : List Token) (a : Token)
    (eh : ErrorHandler) (st : SymbolTable)
    (ha : a.type = TOKEN_INTEGER ∨ (a.type = TOKEN_IDENTIFIER ∧
      ∀ t, rest.head? = some t → t.type ≠ TOKEN_L_PAREN ∧ t.type ≠ TOKEN_L_BRACKET)) :
    parseExpression (fuel + 1) CSTNode.null false (reading pre (a :: rest) eh st) =
      parseOperators fuel (CSTNode.new "Operand" a.value a.lineNumber) false
        (reading (pre ++ [a]) rest eh st) := by
  rcases ha with ha | ⟨ha, hr⟩
  · simp [parseExpression, CSTNode.isNull, ha]
  · cases rest with
    | nil => simp [parseExpression, CSTNode.isNull, ha, TokenStream.endToken]
    | cons t rest =>
      have := hr t rfl
      simp [parseExpression, CSTNode.isNull, ha, this]

theorem parseOperators_operator (fuel : Nat) (pre rest : List Token) (o : Token)
    (lhs : CSTNode) (eh : ErrorHandler) (st : SymbolTable)
    (ho : isChainOperator o.type = true) :
    parseOperators (fuel + 1) lhs false (reading pre (o :: rest) eh st) =
      match parseExpression fuel CSTNode.null false (reading (pre ++ [o]) rest eh st) with
      | none => none
      | some (rightHandSide, p) =>
        if rightHandSide.isNull then some (CSTNode.null, p)
        else parseOperators fuel
          (((CSTNode.new "Operator" o.value o.lineNumber).addChild lhs).addChild rightHandSide)
          false p := by
  simp [parseOperators, ho]

theorem parseOperators_stop (fuel : Nat) (pre rest : List Token)
    (lhs : CSTNode) (eh : ErrorHandler) (st : SymbolTable)
    (hr : ∀ t, rest.head? = some t → isChainOperator t.type = false) :
    parseOperators (fuel + 1) lhs false (reading pre rest eh st) =
      some (lhs, reading pre rest eh st) := by
  cases rest with
  | nil => simp [parseOperators, TokenStream.endToken, isChainOperator]
  | cons t rest =>
    have := hr t rfl
    simp [parseOperators, this]

/-! ## C1: expressions are right-recursive -/

/-- C1. For operands `a`, `b`, `c` that are integer tokens or plain identifier
tokens (an identifier is plain when the token after it opens neither a call
nor an index, which for `a` and `b` follows from the operator after them)
and operators `o1`, `o2` accepted by the operator loop, `parseExpression` on
`a o1 b o2 c`, followed by a token that is no such operator or by the end of
input, returns `Operator(o1)[Operand(a), Operator(o2)[Operand(b), Operand(c)]]`
and leaves the cursor after `c`, whatever was read before and with any fuel
of at least 6. -/
theorem parseExpression_right_recursive (fuel : Nat) (pre rest : List Token)
    (a o1 b o2 c : Token) (eh : ErrorHandler) (st : SymbolTable)
    (ha : a.type = TOKEN_INTEGER ∨ a.type = TOKEN_IDENTIFIER)
    (hb : b.type = TOKEN_INTEGER ∨ b.type = TOKEN_IDENTIFIER)
    (hc : c.type = TOKEN_INTEGER ∨ (c.type = TOKEN_IDENTIFIER ∧
      ∀ t, rest.head? = some t → t.type ≠ TOKEN_L_PAREN ∧ t.type ≠ TOKEN_L_BRACKET))
    (ho1 : isChainOperator o1.type = true) (ho2 : isChainOperator o2.type = true)
    (hrest : ∀ t, rest.head? = some t → isChainOperator t.type = false) :
    parseExpression (fuel + 6) CSTNode.null false
        (reading pre (a :: o1 :: b :: o2 :: c :: rest) eh st) =
      some (CSTNode.tree "Operator" o1.value o1.lineNumber
          [CSTNode.new "Operand" a.value a.lineNumber,
           CSTNode.tree "Operator" o2.value o2.lineNumber
            [CSTNode.new "Operand" b.value b.lineNumber,
             CSTNode.new "Operand" c.value c.lineNumber]],
        reading (pre ++ [a, o1, b, o2, c]) rest eh st) := by
  have h1 := isChainOperator_ne ho1
  have h2 := isChainOperator_ne ho2
  rw [parseExpression_operand (fuel + 5) pre _ a eh st
    (by rcases ha with ha | ha
        · exact Or.inl ha
        · exact Or.inr ⟨ha, by intro t ht; simp at ht; subst ht; exact ⟨h1.2.2.1, h1.2.2.2.1⟩⟩)]
  rw [parseOperators_operator (fuel + 4) _ _ o1 _ eh st ho1]
  rw [parseExpression_operand (fuel + 3) _ _ b eh st
    (by rcases hb with hb | hb
        · exact Or.inl hb
        · exact Or.inr ⟨hb, by intro t ht; simp at ht; subst ht; exact ⟨h2.2.2.1, h2.2.2.2.1⟩⟩)]
  rw [parseOperators_operator (fuel + 2) _ _ o2 _ eh st ho2]
  rw [parseExpression_operand (fuel + 1) _ _ c eh st hc]
  rw [parseOperators_stop fuel _ _ _ eh st hrest]
  simp only [CSTNode.isNull, CSTNode.new, CSTNode.addChild, CSTNode.appendSibling]
  rw [parseOperators_stop (fuel + 1) _ _ _ eh st hrest]
  simp only [Bool.false_eq_true, if_false]
  rw [parseOperators_stop (fuel + 3) _ _ _ eh st hrest]
  simp [CSTNode.tree, CSTNode.chain, CSTNode.appendSibling]


/-- C1 at `1 + 2 * 3 ;`: the tree is `+` over `1` and `*` over `2` and `3`. -/
theorem parseExpression_right_recursive_witness :
    parseExpression 6 CSTNode.null false
        (reading []
          [⟨TOKEN_INTEGER, "1", 1⟩, ⟨TOKEN_PLUS, "+", 1⟩, ⟨TOKEN_INTEGER, "2", 1⟩,
           ⟨TOKEN_ASTERISK, "*", 1⟩, ⟨TOKEN_INTEGER, "3", 1⟩, ⟨TOKEN_SEMICOLON, ";", 1⟩]
          {} {}) =
      some (CSTNode.tree "Operator" "+" 1
          [CSTNode.new "Operand" "1" 1,
           CSTNode.tree "Operator" "*" 1
            [CSTNode.new "Operand" "2" 1, CSTNode.new "Operand" "3" 1]],
        reading
          [⟨TOKEN_INTEGER, "1", 1⟩, ⟨TOKEN_PLUS, "+", 1⟩, ⟨TOKEN_INTEGER, "2", 1⟩,
           ⟨TOKEN_ASTERISK, "*", 1⟩, ⟨TOKEN_INTEGER, "3", 1⟩]
          [⟨TOKEN_SEMICOLON, ";", 1⟩] {} {}) :=
  parseExpression_right_recursive 0 [] [⟨TOKEN_SEMICOLON, ";", 1⟩]
    ⟨TOKEN_INTEGER, "1", 1⟩ ⟨TOKEN_PLUS, "+", 1⟩ ⟨TOKEN_INTEGER, "2", 1⟩
    ⟨TOKEN_ASTERISK, "*", 1⟩ ⟨TOKEN_INTEGER, "3", 1⟩ {} {}
    (Or.inl rfl) (Or.inl rfl) (Or.inl rfl) (by decide) (by decide) (by decide)

end Parser

/-! ## C8, C9, C10: `addEntry` -/

namespace SymbolTable

theorem isDefinedInCurrentScope_iff (t : SymbolTable) (name : String) (s : Int) :
    t.isDefinedInCurrentScope name s = true ↔
      ∃ x ∈ t.entries, x.identifierName = name ∧ x.scope = s := by
  simp [isDefinedInCurrentScope]

theorem isDefinedGlobally_iff (t : SymbolTable) (name : String) :
    t.isDefinedGlobally name = true ↔
      ∃ x ∈ t.entries, x.identifierName = name ∧ x.scope = 0 := by
  simp [isDefinedGlobally]

theorem ownerOf_eq (t : SymbolTable) (s : Int) :
    t.ownerOf s = ((t.owner? s).map (·.identifierName)).getD "" := by
  unfold ownerOf owner?
  cases t.entries.find? _ <;> rfl

theorem isInParameterList_iff (t : SymbolTable) (e : SymbolTableEntry) :
    t.isInParameterList e.identifierName e.scope = true ↔ t.NamedParameterDuplicate e := by
  unfold isInParameterList NamedParameterDuplicate
  simp only [ownerOf_eq]
  cases h : t.owner? e.scope with
  | none => simp
  | some o =>
    by_cases ho : o.identifierName = ""
    · simp [ho]
    · simp [ho]

theorem sameScopeDuplicate_iff (t : SymbolTable) (e : SymbolTableEntry) :
    t.isDefinedInCurrentScope e.identifierName e.scope = true ↔ t.SameScopeDuplicate e :=
  isDefinedInCurrentScope_iff t _ _

theorem globalShadow_iff (t : SymbolTable) (e : SymbolTableEntry) :
    (e.scope ≠ 0 ∧ t.isDefinedGlobally e.identifierName = true) ↔ t.GlobalShadow e := by
  unfold GlobalShadow
  rw [isDefinedGlobally_iff]

/-- C8 (amended). For every symbol table and entry `e`, `addEntry` fails if
and only if (1) some entry has the name and scope of `e`, or (2) the first
procedure or function entry with the scope of `e` has a name other than the
empty string and the name of `e` occurs in a parameter list kept under that
name, or (3) the scope of `e` is not 0 and some entry has its name at scope 0;
the message says "already defined locally" when rule 1 or 2 holds and
"already defined globally" when only rule 3 holds. -/
theorem addEntry_fails_iff (t : SymbolTable) (e : SymbolTableEntry) :
    ((t.addEntry e).2 ≠ none ↔
        t.SameScopeDuplicate e ∨ t.NamedParameterDuplicate e ∨ t.GlobalShadow e) ∧
      (t.SameScopeDuplicate e ∨ t.NamedParameterDuplicate e →
        (t.addEntry e).2 = some (locallyDefined e.identifierName)) ∧
      (¬t.SameScopeDuplicate e ∧ ¬t.NamedParameterDuplicate e ∧ t.GlobalShadow e →
        (t.addEntry e).2 = some (globallyDefined e.identifierName)) := by
  rw [← sameScopeDuplicate_iff, ← isInParameterList_iff, ← globalShadow_iff]
  unfold addEntry locallyDefined globallyDefined
  by_cases h1 : t.isDefinedInCurrentScope e.identifierName e.scope = true
  · simp only [h1, if_true]
    simp
  · by_cases h2 : t.isInParameterList e.identifierName e.scope = true
    · simp only [h1, h2, if_true, if_false]
      simp
    · by_cases h3 : (e.scope ≠ 0 && t.isDefinedGlobally e.identifierName) = true
      · simp only [h1, h2, h3, if_true, if_false]
        simp only [Bool.and_eq_true, decide_eq_true_eq] at h3
        simp [h3]
      · simp only [h1, h2, h3, if_false]
        simp only [Bool.and_eq_true, decide_eq_true_eq] at h3
        simp [h3]

/-- C8 as stated fails: with a procedure entry named by the empty string at
scope 1 and the parameter `a` kept under that name, rule 2 of the claim holds
for a new entry `a` at scope 1, and `addEntry` does not fail. -/
theorem addEntry_fails_iff_counterexample :
    ¬((anonymousOwnerTable.addEntry ⟨"a", "datatype", "int", false, 0, 1⟩).2 ≠ none ↔
      (anonymousOwnerTable.SameScopeDuplicate ⟨"a", "datatype", "int", false, 0, 1⟩ ∨
        anonymousOwnerTable.ParameterDuplicate ⟨"a", "datatype", "int", false, 0, 1⟩ ∨
        anonymousOwnerTable.GlobalShadow ⟨"a", "datatype", "int", false, 0, 1⟩)) := by
  intro h
  have hno : (anonymousOwnerTable.addEntry ⟨"a", "datatype", "int", false, 0, 1⟩).2 = none := by
    decide
  refine (h.mpr (Or.inr (Or.inl ?_))) hno
  exact ⟨⟨"", "procedure", "NOT APPLICABLE", false, 0, 1⟩, by decide,
    ("", [⟨"a", "parameter", "int", false, 0, 1⟩]), by decide, rfl,
    ⟨"a", "parameter", "int", false, 0, 1⟩, by simp, rfl⟩

/-- The two ways `addEntry` ends. -/
theorem addEntry_outcome (t : SymbolTable) (e : SymbolTableEntry) :
    (∃ what, t.addEntry e = (t, some what)) ∨
      t.addEntry e = ({ t with entries := t.entries ++ [e] }, none) := by
  unfold addEntry
  by_cases h1 : t.isDefinedInCurrentScope e.identifierName e.scope = true
  · rw [if_pos h1]
    exact Or.inl ⟨_, rfl⟩
  · rw [if_neg h1]
    by_cases h2 : t.isInParameterList e.identifierName e.scope = true
    · rw [if_pos h2]
      exact Or.inl ⟨_, rfl⟩
    · rw [if_neg h2]
      by_cases h3 : (e.scope ≠ 0 && t.isDefinedGlobally e.identifierName) = true
      · rw [if_pos h3]
        exact Or.inl ⟨_, rfl⟩
      · rw [if_neg h3]
        exact Or.inr rfl

/-- `addEntry` accepts an entry that none of its three rules refuses. -/
theorem addEntry_of_new (t : SymbolTable) (e : SymbolTableEntry)
    (h1 : ¬t.SameScopeDuplicate e) (h2 : ¬t.NamedParameterDuplicate e)
    (h3 : ¬t.GlobalShadow e) :
    t.addEntry e = ({ t with entries := t.entries ++ [e] }, none) := by
  rw [← sameScopeDuplicate_iff] at h1
  rw [← isInParameterList_iff] at h2
  rw [← globalShadow_iff] at h3
  have h3' : ¬(e.scope ≠ 0 && t.isDefinedGlobally e.identifierName) = true := by
    simpa only [Bool.and_eq_true, decide_eq_true_eq] using h3
  unfold addEntry
  rw [if_neg h1, if_neg h2, if_neg h3']

/-- C9. `addEntry` is atomic: either it fails and returns the table it was
given, whole, or it succeeds and the table differs from the given one only in
the entry list, which is the old list with `e` appended at the end. -/
theorem addEntry_atomic (t : SymbolTable) (e : SymbolTableEntry) :
    (∃ what, t.addEntry e = (t, some what)) ∨
      t.addEntry e = ({ t with entries := t.entries ++ [e] }, none) := by
  unfold addEntry
  split_ifs <;> simp

theorem uniqueInScope_addEntry (t : SymbolTable) (e : SymbolTableEntry)
    (h : UniqueInScope t.entries) : UniqueInScope (t.addEntry e).1.entries := by
  unfold addEntry
  split_ifs with h1 h2 h3
  · exact h
  · exact h
  · exact h
  · simp only [UniqueInScope, List.pairwise_append, List.pairwise_cons, List.Pairwise.nil,
      List.mem_singleton, forall_eq]
    refine ⟨h, ⟨by simp, trivial⟩, ?_⟩
    intro x hx hxe
    exact h1 ((isDefinedInCurrentScope_iff t _ _).mpr ⟨x, hx, hxe⟩)

theorem entries_addFunctionParameter (t : SymbolTable) (f : String) (q : SymbolTableEntry) :
    (t.addFunctionParameter f q).entries = t.entries := by
  unfold addFunctionParameter
  split <;> rfl

theorem entries_enterScope (t : SymbolTable) : t.enterScope.entries = t.entries := rfl

theorem entries_exitScope (t : SymbolTable) : t.exitScope.entries = t.entries := by
  unfold exitScope
  split <;> rfl

theorem uniqueInScope_step (t : SymbolTable) (c : Call) (h : UniqueInScope t.entries) :
    UniqueInScope (t.step c).entries := by
  cases c with
  | addEntry e => exact uniqueInScope_addEntry t e h
  | addFunctionParameter f q => simpa [step, entries_addFunctionParameter] using h
  | enterScope => exact h
  | exitScope => simpa [step, entries_exitScope] using h

theorem uniqueInScope_foldl (calls : List Call) (t : SymbolTable) (h : UniqueInScope t.entries) :
    UniqueInScope (calls.foldl step t).entries := by
  induction calls generalizing t with
  | nil => exact h
  | cons c cs ih => exact ih _ (uniqueInScope_step t c h)

/-- C10. In every table reached from the empty table by `addEntry` (failed
calls included), `addFunctionParameter`, `enterScope` and `exitScope` calls,
no two entries of the entry list share both name and scope. -/
theorem run_uniqueInScope (calls : List Call) : UniqueInScope (run calls).entries :=
  uniqueInScope_foldl calls {} List.Pairwise.nil

end SymbolTable

/-! ## C2, C3: what `parseProgram` returns when something went wrong -/

namespace Parser

/-- C2 fails on the code. The text `procedure foo ;` lexes to three tokens;
`parseProcedure` records the missing `(` and returns `nullptr`, and
`parseProgram` drops the null node and returns the `Program` root with the
diagnostic in the sink. The same happens for an error inside a body: for
`procedure foo() { ; }` the body loop drops the failed statement and
`parseProgram` returns the whole tree, one diagnostic recorded. -/
theorem parseProgram_present_with_diagnostic :
    ((Tokenizer.ofText "procedure foo ;" 1).tokenize).map Tokenizer.getTokens =
        some [⟨TOKEN_PROCEDURE, "procedure", 1⟩, ⟨TOKEN_IDENTIFIER, "foo", 1⟩,
          ⟨TOKEN_SEMICOLON, ";", 1⟩] ∧
      (parseProgram 3 (ofTokens
          [⟨TOKEN_PROCEDURE, "procedure", 1⟩, ⟨TOKEN_IDENTIFIER, "foo", 1⟩,
            ⟨TOKEN_SEMICOLON, ";", 1⟩])).map (fun o => (o.node?, o.errors)) =
        some (some (CSTNode.tree "Program" "" (-1) []),
          [(1, "Expected '(' after procedure or function name.")]) ∧
      (parseProgram 4 (ofTokens
          [⟨TOKEN_PROCEDURE, "procedure", 1⟩, ⟨TOKEN_IDENTIFIER, "foo", 1⟩,
            ⟨TOKEN_L_PAREN, "(", 1⟩, ⟨TOKEN_R_PAREN, ")", 1⟩, ⟨TOKEN_L_BRACE, "\x7b", 1⟩,
            ⟨TOKEN_SEMICOLON, ";", 1⟩, ⟨TOKEN_R_BRACE, "\x7d", 1⟩])).map
          (fun o => (o.node?, o.errors)) =
        some (some (CSTNode.tree "Program" "" (-1)
            [CSTNode.tree "Procedure" "foo" 1
              [CSTNode.new "Symbol" "(" 1, CSTNode.new "Symbol" ")" 1,
               CSTNode.new "Symbol" "\x7b" 1, CSTNode.new "Symbol" "\x7d" 1]]),
          [(1, "Invalid statement.")]) := by
  refine ⟨?_, ?_, ?_⟩ <;> decide

/-- C3 fails on the code. The text `procedure f(int a[2147483648]) { }` lexes
without a diagnostic; in the parameter list `std::stoi` is given
`2147483648`, which is outside `int`, and throws: `parseProgram` does not
return, and the error sink is empty. -/
theorem parseProgram_throws_without_diagnostic :
    ((Tokenizer.ofText "procedure f(int a[2147483648]) \x7b \x7d" 1).tokenize).map
        (fun t => (t.getTokens, t.errorHandler.errors)) =
        some ([⟨TOKEN_PROCEDURE, "procedure", 1⟩, ⟨TOKEN_IDENTIFIER, "f", 1⟩,
          ⟨TOKEN_L_PAREN, "(", 1⟩, ⟨TOKEN_TYPE, "int", 1⟩, ⟨TOKEN_IDENTIFIER, "a", 1⟩,
          ⟨TOKEN_L_BRACKET, "[", 1⟩, ⟨TOKEN_INTEGER, "2147483648", 1⟩,
          ⟨TOKEN_R_BRACKET, "]", 1⟩, ⟨TOKEN_R_PAREN, ")", 1⟩, ⟨TOKEN_L_BRACE, "\x7b", 1⟩,
          ⟨TOKEN_R_BRACE, "\x7d", 1⟩], []) ∧
      stoi "2147483648" = none ∧
      (parseProgram 3 (ofTokens
          [⟨TOKEN_PROCEDURE, "procedure", 1⟩, ⟨TOKEN_IDENTIFIER, "f", 1⟩,
            ⟨TOKEN_L_PAREN, "(", 1⟩, ⟨TOKEN_TYPE, "int", 1⟩, ⟨TOKEN_IDENTIFIER, "a", 1⟩,
            ⟨TOKEN_L_BRACKET, "[", 1⟩, ⟨TOKEN_INTEGER, "2147483648", 1⟩,
            ⟨TOKEN_R_BRACKET, "]", 1⟩, ⟨TOKEN_R_PAREN, ")", 1⟩, ⟨TOKEN_L_BRACE, "\x7b", 1⟩,
            ⟨TOKEN_R_BRACE, "\x7d", 1⟩])).map (fun o => (o.node?, o.errors)) =
        some (none, []) := by
  refine ⟨?_, ?_, ?_⟩ <;> decide

end Parser

/-! ## Symbolic execution of declarations -/

namespace CSTNode

@[simp] theorem getValue_addChild (d c : CSTNode) : (d.addChild c).getValue = d.getValue := by
  cases d <;> rfl

@[simp] theorem getName_addChild (d c : CSTNode) : (d.addChild c).getName = d.getName := by
  cases d <;> rfl

@[simp] theorem isNull_addChild (d c : CSTNode) : (d.addChild c).isNull = d.isNull := by
  cases d <;> rfl

@[simp] theorem isNull_new (n v : String) (l : Int) : (CSTNode.new n v l).isNull = false := rfl

@[simp] theorem getName_new (n v : String) (l : Int) : (CSTNode.new n v l).getName = n := rfl

@[simp] theorem getValue_new (n v : String) (l : Int) : (CSTNode.new n v l).getValue = v := rfl
end CSTNode

namespace Parser

theorem parseProgramLoop_statement (fuel : Nat) (pre rest : List Token) (t : Token)
    (root : CSTNode) (eh : ErrorHandler) (st : SymbolTable)
    (ht : t.type ≠ TOKEN_PROCEDURE) (hfn : t.value ≠ "function") :
    parseProgramLoop (fuel + 1) root (reading pre (t :: rest) eh st) =
      match parseStatement fuel (reading pre (t :: rest) eh st) with
      | none => none
      | some (statementNode, p) =>
        if statementNode.isNull then
          some (.returned CSTNode.null
            (p.reportError "Expected valid statement at start of program." t.lineNumber))
        else parseProgramLoop fuel (root.addChild statementNode) p := by
  rw [parseProgramLoop]
  simp [ht, hfn]

theorem parseProgramLoop_end (fuel : Nat) (pre : List Token)
    (root : CSTNode) (eh : ErrorHandler) (st : SymbolTable) :
    parseProgramLoop (fuel + 1) root (reading pre [] eh st) =
      some (.returned root (reading pre [] eh st)) := by
  rw [parseProgramLoop]
  simp

theorem parseStatement_declaration (fuel : Nat) (pre rest : List Token) (t : Token)
    (eh : ErrorHandler) (st : SymbolTable) (ht : t.type = TOKEN_TYPE) :
    parseStatement (fuel + 1) (reading pre (t :: rest) eh st) =
      parseDeclarators fuel (CSTNode.new "Declaration" t.value t.lineNumber)
        (reading (pre ++ [t]) rest eh st) := by
  rw [parseStatement]
  simp [ht]

/-- A declarator without array suffix, up to the `addEntry` call. -/
theorem parseDeclarators_plain (fuel : Nat) (pre rest : List Token) (x : Token)
    (decl : CSTNode) (eh : ErrorHandler) (st : SymbolTable)
    (hx : x.type = TOKEN_IDENTIFIER)
    (hnext : ∀ t, rest.head? = some t → t.type ≠ TOKEN_L_BRACKET) :
    parseDeclarators (fuel + 1) decl (reading pre (x :: rest) eh st) =
      match (st.addEntry ⟨x.value, "datatype", decl.getValue, false, 0, st.currentScope⟩).2 with
      | some what =>
        some (CSTNode.null, reading (pre ++ [x]) rest (eh.addError x.lineNumber what)
          (st.addEntry ⟨x.value, "datatype", decl.getValue, false, 0, st.currentScope⟩).1)
      | none =>
        let p := reading (pre ++ [x]) rest eh
          (st.addEntry ⟨x.value, "datatype", decl.getValue, false, 0, st.currentScope⟩).1
        let node := decl.addChild (CSTNode.new "Variable" x.value x.lineNumber)
        if p.peekNextToken.type = TOKEN_COMMA then parseDeclarators fuel node p.skipToken
        else if p.peekNextToken.type = TOKEN_SEMICOLON then some (node, p.skipToken)
        else
          some (CSTNode.null,
            p.reportError "Expected ';' after variable declaration."
              p.peekNextToken.lineNumber) := by
  have hpeek : (reading (pre ++ [x]) rest eh st).peekNextToken.type ≠ TOKEN_L_BRACKET := by
    cases rest with
    | nil => simp [TokenStream.endToken]
    | cons t rest => simpa using hnext t rfl
  have hentry : variableEntry x (decl.addChild (CSTNode.new "Variable" x.value x.lineNumber))
      (CSTNode.new "Variable" x.value x.lineNumber) (reading (pre ++ [x]) rest eh st) =
      ⟨x.value, "datatype", decl.getValue, false, 0, st.currentScope⟩ := by
    simp [variableEntry, SymbolTable.getCurrentScopeLevel]
  rw [parseDeclarators]
  simp only [getNextToken_reading_cons, hx, if_true, hpeek, if_false, CSTNode.isNull_new,
    Bool.false_eq_true, hentry, symbolTable_reading, setSymbolTable_reading,
    reportError_reading]

@[simp] theorem mk_tokenStream_reading (pre rest : List Token)
    (eh eh2 : ErrorHandler) (st st2 : SymbolTable) :
    ({ tokenStream := (reading pre rest eh st).tokenStream
       errorHandler := eh2
       symbolTable := st2 } : Parser) = reading pre rest eh2 st2 := rfl

theorem parseArraySuffix_ok (pre rest : List Token) (id lb n rb : Token) (sign : List Token)
    (eh : ErrorHandler) (st : SymbolTable) (size : Int) (variableNode : CSTNode)
    (hkw : id.value ∉ keywords)
    (hsign : sign = [] ∨ ∃ s, sign = [s] ∧ (s.type = TOKEN_PLUS ∨ s.type = TOKEN_MINUS))
    (hn : n.type = TOKEN_INTEGER) (hrb : rb.type = TOKEN_R_BRACKET)
    (hsize : stoi (sizeText sign n) = some size) (hpos : 0 < size) :
    parseArraySuffix id variableNode (reading pre (lb :: (sign ++ n :: rb :: rest)) eh st) =
      ((variableNode.addChild
          (CSTNode.new "ArraySize" (sizeText sign n) (sizeLine sign n))).setName
        "ArrayDeclaration",
        reading (pre ++ lb :: (sign ++ [n, rb])) rest eh st) := by
  have hnot : ¬size ≤ 0 := by omega
  rcases hsign with rfl | ⟨s, rfl, hs⟩
  · have h1 : ¬(n.type = TOKEN_PLUS ∨ n.type = TOKEN_MINUS) := by simp [hn]
    simp only [sizeText, List.map_nil, String.join, List.foldl_nil] at hsize
    have hsize' : stoi n.value = some size := by simpa using hsize
    simp [parseArraySuffix, hkw, h1, hn, checkArraySize, hsize', hnot, hrb, sizeText, sizeLine,
      String.join]
  · have hsize' : stoi (s.value ++ n.value) = some size := by
      simpa [sizeText, String.join] using hsize
    simp [parseArraySuffix, hkw, hs, hn, checkArraySize, hsize', hnot, hrb, sizeText, sizeLine,
      String.join]

theorem currentScope_addEntry (st : SymbolTable) (e : SymbolTableEntry) :
    (st.addEntry e).1.currentScope = st.currentScope := by
  rcases SymbolTable.addEntry_outcome st e with ⟨what, h⟩ | h <;> rw [h]

/-- An array declarator, up to the `addEntry` call and the token after it. -/
theorem parseDeclarators_array (fuel : Nat) (pre rest : List Token) (x : Token)
    (a : ArraySuffix) (decl : CSTNode) (eh : ErrorHandler) (st : SymbolTable)
    (hx : x.type = TOKEN_IDENTIFIER) (hkw : x.value ∉ keywords) (ha : a.WellFormed) :
    parseDeclarators (fuel + 1) decl (reading pre (x :: (a.tokens ++ rest)) eh st) =
      match (st.addEntry ⟨x.value, "datatype", decl.getValue, true, a.size,
          st.currentScope⟩).2 with
      | some what =>
        some (CSTNode.null, reading (pre ++ x :: a.tokens) rest (eh.addError x.lineNumber what)
          (st.addEntry ⟨x.value, "datatype", decl.getValue, true, a.size, st.currentScope⟩).1)
      | none =>
        let p := reading (pre ++ x :: a.tokens) rest eh
          (st.addEntry ⟨x.value, "datatype", decl.getValue, true, a.size, st.currentScope⟩).1
        let node := decl.addChild
          (CSTNode.tree "ArrayDeclaration" x.value x.lineNumber
            [CSTNode.new "ArraySize" (sizeText a.sign a.n) (sizeLine a.sign a.n)])
        if p.peekNextToken.type = TOKEN_COMMA then parseDeclarators fuel node p.skipToken
        else if p.peekNextToken.type = TOKEN_SEMICOLON then some (node, p.skipToken)
        else
          some (CSTNode.null,
            p.reportError "Expected ';' after variable declaration."
              p.peekNextToken.lineNumber) := by
  obtain ⟨hlb, hsign, hn, hrb, hsize, hpos⟩ := ha
  have hsuffix := parseArraySuffix_ok (pre ++ [x]) rest x a.lb a.n a.rb a.sign eh st a.size
    (CSTNode.new "Variable" x.value x.lineNumber) hkw hsign hn hrb hsize hpos
  have hnode : ((CSTNode.new "Variable" x.value x.lineNumber).addChild
      (CSTNode.new "ArraySize" (sizeText a.sign a.n) (sizeLine a.sign a.n))).setName
        "ArrayDeclaration" =
      CSTNode.tree "ArrayDeclaration" x.value x.lineNumber
        [CSTNode.new "ArraySize" (sizeText a.sign a.n) (sizeLine a.sign a.n)] := rfl
  rw [hnode] at hsuffix
  have hentry : ∀ q : Parser, q.symbolTable = st →
      variableEntry x
        (decl.addChild (CSTNode.tree "ArrayDeclaration" x.value x.lineNumber
          [CSTNode.new "ArraySize" (sizeText a.sign a.n) (sizeLine a.sign a.n)]))
        (CSTNode.tree "ArrayDeclaration" x.value x.lineNumber
          [CSTNode.new "ArraySize" (sizeText a.sign a.n) (sizeLine a.sign a.n)]) q =
      ⟨x.value, "datatype", decl.getValue, true, a.size, st.currentScope⟩ := by
    intro q hq
    simp only [variableEntry, SymbolTable.getCurrentScopeLevel, hq, CSTNode.getValue_addChild]
    simp [CSTNode.tree, CSTNode.chain, CSTNode.appendSibling, CSTNode.getName,
      CSTNode.getLeftChild, CSTNode.new, CSTNode.getValue, CSTNode.isNull, hsize]
  have hnull : (CSTNode.tree "ArrayDeclaration" x.value x.lineNumber
      [CSTNode.new "ArraySize" (sizeText a.sign a.n) (sizeLine a.sign a.n)]).isNull = false :=
    rfl
  have htokens : x :: (a.tokens ++ rest) = x :: a.lb :: (a.sign ++ a.n :: a.rb :: rest) := by
    simp [ArraySuffix.tokens]
  have hpre : pre ++ x :: a.tokens = pre ++ [x] ++ a.lb :: (a.sign ++ [a.n, a.rb]) := by
    simp [ArraySuffix.tokens]
  rw [htokens, hpre, parseDeclarators]
  simp only [getNextToken_reading_cons, hx, if_true, peekNextToken_reading_cons, hlb, hsuffix,
    hnull, Bool.false_eq_true, if_false,
    hentry (reading (pre ++ [x] ++ a.lb :: (a.sign ++ [a.n, a.rb])) rest eh st) rfl,
    symbolTable_reading, setSymbolTable_reading, reportError_reading]

/-- A well-formed declarator, up to the `addEntry` call and the token after
it. -/
theorem parseDeclarators_declarator (fuel : Nat) (pre rest : List Token) (d : Declarator)
    (decl : CSTNode) (eh : ErrorHandler) (st : SymbolTable) (hd : d.WellFormed)
    (hnext : d.suffix = none → ∀ t, rest.head? = some t → t.type ≠ TOKEN_L_BRACKET) :
    parseDeclarators (fuel + 1) decl (reading pre (d.tokens ++ rest) eh st) =
      match (st.addEntry (d.entry decl.getValue st.currentScope)).2 with
      | some what =>
        some (CSTNode.null, reading (pre ++ d.tokens) rest (eh.addError d.name.lineNumber what)
          (st.addEntry (d.entry decl.getValue st.currentScope)).1)
      | none =>
        let p := reading (pre ++ d.tokens) rest eh
          (st.addEntry (d.entry decl.getValue st.currentScope)).1
        let node := decl.addChild d.node
        if p.peekNextToken.type = TOKEN_COMMA then parseDeclarators fuel node p.skipToken
        else if p.peekNextToken.type = TOKEN_SEMICOLON then some (node, p.skipToken)
        else
          some (CSTNode.null,
            p.reportError "Expected ';' after variable declaration."
              p.peekNextToken.lineNumber) := by
  obtain ⟨name, suffix⟩ := d
  obtain ⟨hname, hsuffix⟩ := hd
  cases suffix with
  | none =>
    exact parseDeclarators_plain fuel pre rest name decl eh st hname (hnext rfl)
  | some a =>
    obtain ⟨hkw, ha⟩ := hsuffix a rfl
    exact parseDeclarators_array fuel pre rest name a decl eh st hname hkw ha

/-- The declaration loop over declarators that `addEntry` accepts and that
are each followed by a comma. -/
theorem parseDeclarators_accepted (fuel : Nat) (tail : List Token) (eh : ErrorHandler)
    (st' : SymbolTable) :
    ∀ (earlier : List (Declarator × Token)) (pre : List Token) (decl : CSTNode)
      (st : SymbolTable),
      (∀ dc ∈ earlier, dc.1.WellFormed ∧ dc.2.type = TOKEN_COMMA) →
      declareAll decl.getValue st earlier = some st' →
      st'.currentScope = st.currentScope ∧
      ∃ decl', decl'.getValue = decl.getValue ∧
        parseDeclarators (fuel + earlier.length + 1) decl
            (reading pre (declaratorTokens earlier ++ tail) eh st) =
          parseDeclarators (fuel + 1) decl'
            (reading (pre ++ declaratorTokens earlier) tail eh st') := by
  intro earlier
  induction earlier with
  | nil =>
    intro pre decl st _ hacc
    simp only [declareAll, Option.some.injEq] at hacc
    subst hacc
    exact ⟨rfl, decl, rfl, by simp [declaratorTokens]⟩
  | cons dc earlier ih =>
    intro pre decl st hearlier hacc
    obtain ⟨hd, hcomma⟩ := hearlier dc (List.mem_cons_self _ _)
    have hnext : dc.1.suffix = none →
        ∀ t, (dc.2 :: (declaratorTokens earlier ++ tail)).head? = some t →
          t.type ≠ TOKEN_L_BRACKET := by
      intro _ t ht
      simp only [List.head?_cons, Option.some.injEq] at ht
      rw [← ht, hcomma]
      decide
    have hstep := parseDeclarators_declarator (fuel + earlier.length + 1) pre
      (dc.2 :: (declaratorTokens earlier ++ tail)) dc.1 decl eh st hd hnext
    rw [declareAll] at hacc
    cases hadd : (st.addEntry (dc.1.entry decl.getValue st.currentScope)).2 with
    | some what =>
      rw [hadd] at hacc
      cases hacc
    | none =>
      rw [hadd] at hacc hstep
      simp only [] at hacc
      obtain ⟨hscope, decl', hval, hrec⟩ := ih (pre ++ dc.1.tokens ++ [dc.2])
        (decl.addChild dc.1.node)
        (st.addEntry (dc.1.entry decl.getValue st.currentScope)).1
        (fun x hx => hearlier x (List.mem_cons_of_mem _ hx))
        (by rw [CSTNode.getValue_addChild]; exact hacc)
      refine ⟨by rw [hscope, currentScope_addEntry], decl', by
        rw [hval, CSTNode.getValue_addChild], ?_⟩
      simp only [peekNextToken_reading_cons, hcomma, if_true, skipToken_reading_cons] at hstep
      have htok : declaratorTokens (dc :: earlier) ++ tail =
          dc.1.tokens ++ dc.2 :: (declaratorTokens earlier ++ tail) := by
        simp [declaratorTokens]
      have hpre : pre ++ declaratorTokens (dc :: earlier) =
          pre ++ dc.1.tokens ++ [dc.2] ++ declaratorTokens earlier := by
        simp [declaratorTokens]
      rw [htok, hpre, List.length_cons,
        show fuel + (earlier.length + 1) + 1 = (fuel + earlier.length + 1) + 1 by omega,
        hstep, ← hrec]

end Parser

/-! ## C4: a name declared twice at scope 0 -/

namespace Parser

/-- The declarator `x` and the array declarator `x [ 3 ]`, on line 1. -/
theorem wellFormed_examples :
    (⟨⟨TOKEN_IDENTIFIER, "x", 1⟩, none⟩ : Declarator).WellFormed ∧
      (⟨⟨TOKEN_IDENTIFIER, "y", 1⟩, none⟩ : Declarator).WellFormed ∧
      (⟨⟨TOKEN_IDENTIFIER, "x", 1⟩,
        some ⟨⟨TOKEN_L_BRACKET, "[", 1⟩, [], ⟨TOKEN_INTEGER, "3", 1⟩,
          ⟨TOKEN_R_BRACKET, "]", 1⟩, 3⟩⟩ : Declarator).WellFormed := by
  refine ⟨⟨rfl, fun a h => by cases h⟩, ⟨rfl, fun a h => by cases h⟩, rfl, ?_⟩
  intro a h
  simp only [Option.some.injEq] at h
  subst h
  exact ⟨by decide, rfl, Or.inl rfl, rfl, rfl, by decide, by decide⟩

end Parser

/-! ## C6: the front end on `T x;` -/

namespace Tokenizer

theorem isWordStart_not_isspace {c : Char} (h : isWordStart c = true) : isspace c = false := by
  have : c ≠ ' ' ∧ c ≠ '\t' ∧ c ≠ '\n' ∧ c ≠ '\r' ∧ c ≠ Char.ofNat 11 ∧ c ≠ Char.ofNat 12 := by
    refine ⟨?_, ?_, ?_, ?_, ?_, ?_⟩ <;> (rintro rfl; revert h; decide)
  simp [isspace, this]

theorem isWordStart_not_isdigit {c : Char} (h : isWordStart c = true) : isdigit c = false := by
  simp only [isWordStart, isalpha, Char.isAlpha, Char.isUpper, Char.isLower, Bool.or_eq_true,
    Bool.and_eq_true, decide_eq_true_eq] at h
  simp only [isdigit, Char.isDigit, Bool.and_eq_false_imp, decide_eq_true_eq, decide_eq_false_iff_not]
  rcases h with (⟨h1, h2⟩ | ⟨h1, h2⟩) | h
  · intro h3 h4
    have := UInt32.le_trans h1 h4
    revert this
    decide
  · intro h3 h4
    have := UInt32.le_trans h1 h4
    revert this
    decide
  · subst h
    decide

theorem scanWord_append (cs rest : List Char) (value : String)
    (hcs : ∀ d ∈ cs, isWordChar d = true)
    (hrest : ∀ d, rest.head? = some d → isWordChar d = false) :
    scanWord (cs ++ rest) value = (⟨value.data ++ cs⟩, rest) := by
  induction cs generalizing value with
  | nil =>
    cases rest with
    | nil => simp [scanWord]
    | cons d rest =>
      have := hrest d rfl
      simp only [isWordChar] at this
      simp [scanWord, this]
  | cons c cs ih =>
    have hc := hcs c (by simp)
    simp only [isWordChar] at hc
    have := ih (value.push c) (fun d hd => hcs d (by simp [hd]))
    rw [List.cons_append, scanWord]
    simp only [hc, if_true]
    rw [this]
    simp [String.push]

theorem processIdentifierOrKeyword_identifier (t : Tokenizer) (x : String) (c : Char)
    (cs rest : List Char) (hx : x.data = c :: cs) (hc : isWordStart c = true)
    (hcs : ∀ d ∈ cs, isWordChar d = true)
    (hrest : ∀ d, rest.head? = some d → isWordChar d = false)
    (hk : x ∉ keywords) (ht : x ∉ typeWords) (hin : t.inputFile = cs ++ rest) :
    t.processIdentifierOrKeyword c =
      { inputFile := rest
        lineNumber := t.lineNumber
        tokens := t.tokens ++ [⟨TOKEN_IDENTIFIER, x, t.lineNumber⟩]
        declaredIdentifiers :=
          if x = "string" then t.declaredIdentifiers else x :: t.declaredIdentifiers
        errorHandler := t.errorHandler } := by
  have hval : (⟨(String.singleton c).data ++ cs⟩ : String) = x := by
    cases x
    simp_all [String.singleton]
  have hdig := isWordStart_not_isdigit hc
  have hk' := hk
  simp only [keywords, typeWords, List.mem_cons, List.mem_singleton, List.not_mem_nil,
    or_false, not_or] at hk ht
  unfold processIdentifierOrKeyword
  rw [hin, scanWord_append cs rest _ hcs hrest, hval]
  have hhead : x.data.head?.any isdigit = false := by simp [hx, hdig]
  simp only [hhead, Bool.false_eq_true, false_and, if_false, hk.2.2.2.2.2.2.2.2.1,
    hk.2.2.2.2.2.2.2.2.2.1, hk.2.2.2.1, hk.2.2.2.2.1, ht.1, ht.2.1, ht.2.2.1, ht.2.2.2.1,
    ht.2.2.2.2.1, ht.2.2.2.2.2, or_self, hk']
  by_cases hs : x = "string"
  · simp [hs, addToken]
  · simp [hs, addToken]

theorem processIdentifierOrKeyword_type (t : Tokenizer) (T : String) (c : Char)
    (cs rest : List Char) (hT : T ∈ typeWords) (hx : T.data = c :: cs)
    (hrest : ∀ d, rest.head? = some d → isWordChar d = false)
    (hin : t.inputFile = cs ++ rest) :
    t.processIdentifierOrKeyword c =
      { inputFile := rest
        lineNumber := t.lineNumber
        tokens := t.tokens ++ [⟨TOKEN_TYPE, T, t.lineNumber⟩]
        declaredIdentifiers := t.declaredIdentifiers
        errorHandler := t.errorHandler } := by
  have hval : (⟨(String.singleton c).data ++ cs⟩ : String) = T := by
    cases T
    simp_all [String.singleton]
  have hword : isWordStart c = true ∧ ∀ d ∈ cs, isWordChar d = true := by
    simp only [typeWords, List.mem_cons, List.mem_singleton, List.not_mem_nil, or_false] at hT
    rcases hT with rfl | rfl | rfl | rfl | rfl | rfl <;>
    · simp only [List.cons.injEq] at hx
      obtain ⟨rfl, rfl⟩ := hx
      decide
  have hdig := isWordStart_not_isdigit hword.1
  unfold processIdentifierOrKeyword
  rw [hin, scanWord_append cs rest _ hword.2 hrest, hval]
  have hhead : T.data.head?.any isdigit = false := by simp [hx, hdig]
  simp only [hhead, Bool.false_eq_true, false_and, if_false]
  simp only [typeWords, List.mem_cons, List.mem_singleton, List.not_mem_nil, or_false] at hT
  rcases hT with rfl | rfl | rfl | rfl | rfl | rfl <;> simp [addToken]

theorem tokenizeLoop_word (fuel : Nat) (t : Tokenizer) (c : Char) (cs : List Char)
    (hin : t.inputFile = c :: cs) (hc : isWordStart c = true) :
    tokenizeLoop (fuel + 1) t =
      tokenizeLoop fuel ({ t with inputFile := cs }.processIdentifierOrKeyword c) := by
  have hc' : (isalpha c || decide (c = '_')) = true := hc
  rw [tokenizeLoop]
  simp only [hin, isWordStart_not_isspace hc, hc', Bool.false_eq_true, if_false, if_true]

theorem tokenizeLoop_space (fuel : Nat) (t : Tokenizer) (cs : List Char)
    (hin : t.inputFile = ' ' :: cs) :
    tokenizeLoop (fuel + 1) t = tokenizeLoop fuel { t with inputFile := cs }.skipWhitespace := by
  rw [tokenizeLoop]
  simp [hin, isspace]

theorem tokenizeLoop_semicolon (fuel : Nat) (t : Tokenizer) (cs : List Char)
    (hin : t.inputFile = ';' :: cs) :
    tokenizeLoop (fuel + 1) t =
      tokenizeLoop fuel ({ t with inputFile := cs }.addToken TOKEN_SEMICOLON ";" t.lineNumber) := by
  rw [tokenizeLoop]
  simp [hin, isspace, isalpha, isdigit, isOperatorChar, isPunctuationChar, processPunctuation]

theorem tokenizeLoop_end (fuel : Nat) (t : Tokenizer) (hin : t.inputFile = []) :
    tokenizeLoop (fuel + 1) t = some t := by
  rw [tokenizeLoop]
  simp [hin]

theorem skipWhitespace_word (t : Tokenizer) (c : Char) (cs : List Char)
    (hin : t.inputFile = c :: cs) (hc : isWordStart c = true) : t.skipWhitespace = t := by
  have h1 := isWordStart_not_isspace hc
  have h2 : c ≠ '\n' := by
    rintro rfl
    revert hc
    decide
  cases t
  simp_all [skipWhitespace, skipWhitespaceLoop]

/-- The lexer on `T x;`. -/
theorem tokenize_declaration (T x : String) (startLine : Int)
    (hT : T ∈ typeWords) (hx : IsIdentifier x) :
    ((ofText (T ++ " " ++ x ++ ";") startLine).tokenize).map
        (fun t => (t.getTokens, t.errorHandler.errors)) =
      some ([⟨TOKEN_TYPE, T, startLine⟩, ⟨TOKEN_IDENTIFIER, x, startLine⟩,
        ⟨TOKEN_SEMICOLON, ";", startLine⟩], []) := by
  obtain ⟨⟨c, cs, hdata, hc, hcs⟩, hk, ht⟩ := hx
  have hsemi : ∀ d, [';'].head? = some d → isWordChar d = false := by
    intro d hd
    simp at hd
    subst hd
    decide
  have hspace : ∀ d, (' ' :: c :: cs ++ [';']).head? = some d → isWordChar d = false := by
    intro d hd
    simp at hd
    subst hd
    decide
  obtain ⟨b, bs, hb⟩ : ∃ b bs, T.data = b :: bs := by
    simp only [typeWords, List.mem_cons, List.mem_singleton, List.not_mem_nil, or_false] at hT
    rcases hT with rfl | rfl | rfl | rfl | rfl | rfl <;> exact ⟨_, _, rfl⟩
  have hbw : isWordStart b = true := by
    simp only [typeWords, List.mem_cons, List.mem_singleton, List.not_mem_nil, or_false] at hT
    rcases hT with rfl | rfl | rfl | rfl | rfl | rfl <;>
    · simp only [List.cons.injEq] at hb
      obtain ⟨rfl, rfl⟩ := hb
      decide
  have htext : (T ++ " " ++ x ++ ";").data = b :: (bs ++ ' ' :: c :: cs ++ [';']) := by
    simp [String.data_append, hdata, hb]
  unfold tokenize ofText
  simp only [htext, List.length_cons]
  rw [show (bs ++ ' ' :: c :: cs ++ [';']).length + 1 + 1 =
    ((bs ++ ' ' :: c :: cs ++ [';']).length - 3) + 5 by simp; omega]
  rw [tokenizeLoop_word _ _ b _ rfl hbw,
    processIdentifierOrKeyword_type _ T b bs (' ' :: c :: cs ++ [';']) hT hb hspace
      (by simp),
    tokenizeLoop_space _ _ (c :: cs ++ [';']) rfl,
    skipWhitespace_word _ c (cs ++ [';']) rfl hc,
    tokenizeLoop_word _ _ c _ rfl hc,
    processIdentifierOrKeyword_identifier _ x c cs [';'] hdata hc hcs hsemi hk ht rfl,
    tokenizeLoop_semicolon _ _ [] rfl,
    tokenizeLoop_end _ _ rfl]
  simp [addToken, getTokens]

end Tokenizer

namespace Parser

theorem ofTokens_eq_reading (tokens : List Token) : ofTokens tokens = reading [] tokens {} {} :=
  rfl

/-- C6. For every type word `T` (a word the lexer makes a type token) and
every identifier `x` (a word `[A-Za-z_][A-Za-z0-9_]*` that is neither reserved
nor a type word), the text `T x;` lexes, from any starting line, to the
tokens `[TYPE T, IDENTIFIER x, SEMICOLON]` without a diagnostic, and on these
tokens `parseProgram`, with any fuel of at least 3, returns a `Program` root
whose only child is `Declaration(T)` with the one child `Variable(x)`; the
symbol table then holds the single entry `{x, datatype, T, isArray = false,
arraySize = 0, scope = 0}` and the error sink is empty. -/
theorem declaration_front_end (T x : String) (startLine : Int) (fuel : Nat)
    (hT : T ∈ Tokenizer.typeWords) (hx : Tokenizer.IsIdentifier x) :
    ((Tokenizer.ofText (T ++ " " ++ x ++ ";") startLine).tokenize).map
        (fun t => (t.getTokens, t.errorHandler.errors)) =
        some ([⟨TOKEN_TYPE, T, startLine⟩, ⟨TOKEN_IDENTIFIER, x, startLine⟩,
          ⟨TOKEN_SEMICOLON, ";", startLine⟩], []) ∧
      parseProgram (fuel + 3)
          (ofTokens [⟨TOKEN_TYPE, T, startLine⟩, ⟨TOKEN_IDENTIFIER, x, startLine⟩,
            ⟨TOKEN_SEMICOLON, ";", startLine⟩]) =
        some (.returned
          (CSTNode.tree "Program" "" (-1)
            [CSTNode.tree "Declaration" T startLine [CSTNode.new "Variable" x startLine]])
          { tokenStream :=
              { tokens := [⟨TOKEN_TYPE, T, startLine⟩, ⟨TOKEN_IDENTIFIER, x, startLine⟩,
                  ⟨TOKEN_SEMICOLON, ";", startLine⟩]
                currentIndex := 3 }
            errorHandler := { errors := [] }
            symbolTable := { entries := [⟨x, "datatype", T, false, 0, 0⟩] } }) := by
  refine ⟨Tokenizer.tokenize_declaration T x startLine hT hx, ?_⟩
  have hfn : T ≠ "function" := by
    rintro rfl
    revert hT
    decide
  have hadd : (({} : SymbolTable).addEntry ⟨x, "datatype", T, false, 0, 0⟩) =
      ({ entries := [⟨x, "datatype", T, false, 0, 0⟩] }, none) := by
    simp [SymbolTable.addEntry, SymbolTable.isDefinedInCurrentScope,
      SymbolTable.isInParameterList, SymbolTable.ownerOf]
  rw [parseProgram, ofTokens_eq_reading,
    parseProgramLoop_statement (fuel + 2) [] _ _ _ _ _ (by simp) hfn,
    parseStatement_declaration (fuel + 1) [] _ _ _ _ rfl,
    parseDeclarators_plain fuel _ _ _ _ _ _ rfl (by simp)]
  simp only [CSTNode.getValue_new]
  rw [hadd]
  simp [parseProgramLoop_end, CSTNode.tree, CSTNode.chain, CSTNode.new, CSTNode.addChild,
    CSTNode.appendSibling, CSTNode.isNull]
  rfl


/-- C6 at `int x;`. -/
theorem declaration_front_end_witness :
    ((Tokenizer.ofText ("int" ++ " " ++ "x" ++ ";") 1).tokenize).map
        (fun t => (t.getTokens, t.errorHandler.errors)) =
        some ([⟨TOKEN_TYPE, "int", 1⟩, ⟨TOKEN_IDENTIFIER, "x", 1⟩,
          ⟨TOKEN_SEMICOLON, ";", 1⟩], []) ∧
      parseProgram (0 + 3)
          (ofTokens [⟨TOKEN_TYPE, "int", 1⟩, ⟨TOKEN_IDENTIFIER, "x", 1⟩,
            ⟨TOKEN_SEMICOLON, ";", 1⟩]) =
        some (.returned
          (CSTNode.tree "Program" "" (-1)
            [CSTNode.tree "Declaration" "int" 1 [CSTNode.new "Variable" "x" 1]])
          { tokenStream :=
              { tokens := [⟨TOKEN_TYPE, "int", 1⟩, ⟨TOKEN_IDENTIFIER, "x", 1⟩,
                  ⟨TOKEN_SEMICOLON, ";", 1⟩]
                currentIndex := 3 }
            errorHandler := { errors := [] }
            symbolTable := { entries := [⟨"x", "datatype", "int", false, 0, 0⟩] } }) :=
  declaration_front_end "int" "x" 1 0 (by decide)
    ⟨⟨'x', [], rfl, by decide, by simp⟩, by decide, by decide⟩

end Parser

/-! ## C7: array declarations -/

namespace Parser

/-- C7 as stated fails for a name that `addEntry` refuses. In
`int arr[5]; int arr[5];` the first statement is parsed as the claim says. The
second is such an array declaration as well, and on it `parseStatement`
returns `nullptr`, records `variable "arr" is already defined locally` and
adds no entry. -/
theorem array_declaration_counterexample :
    ((parseStatement 2 (ofTokens (tokensOf "int arr[5]; int arr[5];"))).bind fun r =>
        (parseStatement 2 r.2).map fun s =>
          (r.1, s.1, s.2.errorHandler.errors, s.2.symbolTable.entries)) =
      some (CSTNode.tree "Declaration" "int" 1
          [CSTNode.tree "ArrayDeclaration" "arr" 1 [CSTNode.new "ArraySize" "5" 1]],
        CSTNode.null, [(1, "variable \"arr\" is already defined locally")],
        [⟨"arr", "datatype", "int", true, 5, 0⟩]) := by
  decide

/-- C7 (amended). Let `T id [ n ] ;` or `T id [ s n ] ;` with a sign token `s`
be the next tokens, where `id` is no reserved word, the size text (the sign,
if any, and the integer token) converts under `std::stoi` to `size`, a
positive value of `int`, and none of the three rules of `addEntry` refuses
the name: no entry has the name `id` at the current scope, `id` is not in the
parameter list of the procedure or function that owns the current scope, and
no entry has the name `id` at scope 0 unless the current scope is 0. Then
`parseStatement`, with any fuel of at least 2, returns `Declaration(T)` with
the one child `ArrayDeclaration(id)`, which has exactly one child, `ArraySize`
with the size text as value, and appends the entry `{id, datatype, T,
isArray = true, arraySize = size}` at the current scope; no diagnostic is
recorded. -/
theorem parseStatement_array_declaration (fuel : Nat) (pre rest : List Token)
    (ty id lb n rb semi : Token) (sign : List Token)
    (eh : ErrorHandler) (st : SymbolTable) (size : Int)
    (hty : ty.type = TOKEN_TYPE) (hid : id.type = TOKEN_IDENTIFIER)
    (hkw : id.value ∉ keywords) (hlb : lb.type = TOKEN_L_BRACKET)
    (hsign : sign = [] ∨ ∃ s, sign = [s] ∧ (s.type = TOKEN_PLUS ∨ s.type = TOKEN_MINUS))
    (hn : n.type = TOKEN_INTEGER) (hrb : rb.type = TOKEN_R_BRACKET)
    (hsemi : semi.type = TOKEN_SEMICOLON)
    (hsize : stoi (sizeText sign n) = some size) (hpos : 0 < size)
    (hlocal : ¬st.SameScopeDuplicate
      ⟨id.value, "datatype", ty.value, true, size, st.currentScope⟩)
    (hparameter : ¬st.NamedParameterDuplicate
      ⟨id.value, "datatype", ty.value, true, size, st.currentScope⟩)
    (hglobal : ¬st.GlobalShadow
      ⟨id.value, "datatype", ty.value, true, size, st.currentScope⟩) :
    parseStatement (fuel + 2)
        (reading pre (ty :: id :: lb :: (sign ++ n :: rb :: semi :: rest)) eh st) =
      some (CSTNode.tree "Declaration" ty.value ty.lineNumber
          [CSTNode.tree "ArrayDeclaration" id.value id.lineNumber
            [CSTNode.new "ArraySize" (sizeText sign n) (sizeLine sign n)]],
        reading (pre ++ ty :: id :: lb :: (sign ++ [n, rb, semi])) rest eh
          { st with
            entries := st.entries ++
              [⟨id.value, "datatype", ty.value, true, size, st.currentScope⟩] }) := by
  have hadd' : st.addEntry ⟨id.value, "datatype", ty.value, true, size, st.currentScope⟩ =
      ({ st with
          entries := st.entries ++
            [⟨id.value, "datatype", ty.value, true, size, st.currentScope⟩] }, none) :=
    SymbolTable.addEntry_of_new st _ hlocal hparameter hglobal
  have hsuffix := parseArraySuffix_ok (pre ++ [ty] ++ [id]) (semi :: rest) id lb n rb sign eh st
    size (CSTNode.new "Variable" id.value id.lineNumber) hkw hsign hn hrb hsize hpos
  rw [parseStatement_declaration (fuel + 1) pre _ ty eh st hty, parseDeclarators]
  simp only [getNextToken_reading_cons, hid, if_true, peekNextToken_reading_cons, hlb, hsuffix]
  simp [variableEntry, CSTNode.new, CSTNode.addChild, CSTNode.appendSibling, CSTNode.setName,
    CSTNode.getName, CSTNode.getValue, CSTNode.getLeftChild, CSTNode.isNull, hsize,
    SymbolTable.getCurrentScopeLevel, hadd', hsemi, CSTNode.tree, CSTNode.chain]

/-- C7 at `int arr[5];`. -/
theorem parseStatement_array_declaration_witness :
    parseStatement 2
        (ofTokens [⟨TOKEN_TYPE, "int", 1⟩, ⟨TOKEN_IDENTIFIER, "arr", 1⟩, ⟨TOKEN_L_BRACKET, "[", 1⟩,
          ⟨TOKEN_INTEGER, "5", 1⟩, ⟨TOKEN_R_BRACKET, "]", 1⟩, ⟨TOKEN_SEMICOLON, ";", 1⟩]) =
      some (CSTNode.tree "Declaration" "int" 1
          [CSTNode.tree "ArrayDeclaration" "arr" 1 [CSTNode.new "ArraySize" "5" 1]],
        { tokenStream :=
            { tokens := [⟨TOKEN_TYPE, "int", 1⟩, ⟨TOKEN_IDENTIFIER, "arr", 1⟩,
                ⟨TOKEN_L_BRACKET, "[", 1⟩, ⟨TOKEN_INTEGER, "5", 1⟩, ⟨TOKEN_R_BRACKET, "]", 1⟩,
                ⟨TOKEN_SEMICOLON, ";", 1⟩]
              currentIndex := 6 }
          errorHandler := { errors := [] }
          symbolTable := { entries := [⟨"arr", "datatype", "int", true, 5, 0⟩] } }) :=
  parseStatement_array_declaration 0 [] [] ⟨TOKEN_TYPE, "int", 1⟩ ⟨TOKEN_IDENTIFIER, "arr", 1⟩
    ⟨TOKEN_L_BRACKET, "[", 1⟩ ⟨TOKEN_INTEGER, "5", 1⟩ ⟨TOKEN_R_BRACKET, "]", 1⟩
    ⟨TOKEN_SEMICOLON, ";", 1⟩ [] {} {} 5 rfl rfl (by decide) rfl (Or.inl rfl) rfl rfl rfl
    (by decide) (by decide)
    (by rintro ⟨x, hx, -⟩; cases hx)
    (by rintro ⟨o, ho, -⟩; cases ho)
    (by rintro ⟨h, -⟩; exact h rfl)

end Parser

/-! ## What the parse functions leave alone -/

namespace Parser

namespace Steady

theorem steady_refl (p : Parser) : Steady p p := ⟨rfl, List.prefix_refl _, rfl⟩

theorem steady_trans {p q r : Parser} (h1 : Steady p q) (h2 : Steady q r) : Steady p r :=
  ⟨h2.tokens.trans h1.tokens, h1.errors.trans h2.errors, h2.symbolTable.trans h1.symbolTable⟩

theorem steady_getNextToken {p q : Parser} (h : Steady p q) : Steady p q.getNextToken.2 := by
  refine h.steady_trans ⟨?_, List.prefix_refl _, rfl⟩
  simp only [Parser.getNextToken, TokenStream.getNextToken]
  split <;> rfl

theorem steady_skipToken {p q : Parser} (h : Steady p q) : Steady p q.skipToken :=
  h.steady_getNextToken

theorem steady_rewind {p q : Parser} (h : Steady p q) : Steady p q.rewind := by
  refine h.steady_trans ⟨?_, List.prefix_refl _, rfl⟩
  simp only [Parser.rewind, TokenStream.rewind]
  split <;> rfl

theorem steady_reportError {p q : Parser} (h : Steady p q) (m : String) (l : Int) :
    Steady p (q.reportError m l) :=
  h.steady_trans ⟨rfl, by simp [Parser.reportError, ErrorHandler.addError], rfl⟩

end Steady


theorem Post.post_none {R : Parser → Parser → Prop} {p : Parser} : Post R p none := by
  intro node q h
  cases h

theorem Post.post_some {R : Parser → Parser → Prop} {p q : Parser} {node : CSTNode} (h : R p q) :
    Post R p (some (node, q)) := by
  intro node' q' h'
  cases h'
  exact h

theorem Post.post_ite {R : Parser → Parser → Prop} {p : Parser} {c : Prop} [Decidable c]
    {a b : Option Parsed} (ha : c → Post R p a) (hb : ¬c → Post R p b) :
    Post R p (if c then a else b) := by
  by_cases hc : c
  · simpa [hc] using ha hc
  · simpa [hc] using hb hc

theorem Post.post_bind {R : Parser → Parser → Prop} {p : Parser} {o : Option Parsed}
    {k : CSTNode → Parser → Option Parsed} :
    Post R p o → (∀ node q, R p q → Post R p (k node q)) →
      Post R p (match o with
        | Option.none => Option.none
        | Option.some (node, q) => k node q) := by
  intro ho hk
  cases o with
  | none => exact Post.post_none
  | some r =>
    obtain ⟨node, q⟩ := r
    exact hk node q (ho node q rfl)

theorem Post.post_call {R : Parser → Parser → Prop} (htrans : ∀ a b c, R a b → R b c → R a c)
    {p q : Parser} {o : Option Parsed} (ho : Post R q o) (h : R p q) : Post R p o :=
  fun node r hr => htrans _ _ _ h (ho node r hr)

theorem Steady.steady_call {p q : Parser} {o : Option Parsed} (ho : Post Steady q o)
    (h : Steady p q) : Post Steady p o :=
  fun node r hr => Steady.steady_trans h (ho node r hr)

theorem steady_expression (fuel : Nat) :
    (∀ lhs b p, Post Steady p (parseExpression fuel lhs b p)) ∧
    (∀ lhs b p, Post Steady p (parseOperators fuel lhs b p)) ∧
    (∀ call p, Post Steady p (parseArguments fuel call p)) := by
  induction fuel with
  | zero =>
    refine ⟨?_, ?_, ?_⟩ <;> intros <;> first
      | (rw [parseExpression]; exact Post.post_none)
      | (rw [parseOperators]; exact Post.post_none)
      | (rw [parseArguments]; exact Post.post_none)
  | succ n ih =>
    obtain ⟨ihE, ihO, ihA⟩ := ih
    refine ⟨?_, ?_, ?_⟩
    · intro lhs b p
      rw [parseExpression]
      simp only []
      repeat (with_reducible first
        | exact Post.post_none
        | refine Post.post_some ?_
        | refine Post.post_ite (fun _ => ?_) (fun _ => ?_)
        | refine Post.post_bind ?_ (fun _ _ _ => ?_)
        | refine Steady.steady_call (ihE _ _ _) ?_
        | refine Steady.steady_call (ihO _ _ _) ?_
        | refine Steady.steady_call (ihA _ _) ?_
        | assumption
        | exact Steady.steady_refl _
        | apply Steady.steady_reportError
        | apply Steady.steady_getNextToken
        | apply Steady.steady_skipToken
        | apply Steady.steady_rewind)
    · intro lhs b p
      rw [parseOperators]
      simp only []
      repeat (with_reducible first
        | exact Post.post_none
        | refine Post.post_some ?_
        | refine Post.post_ite (fun _ => ?_) (fun _ => ?_)
        | refine Post.post_bind ?_ (fun _ _ _ => ?_)
        | refine Steady.steady_call (ihE _ _ _) ?_
        | refine Steady.steady_call (ihO _ _ _) ?_
        | refine Steady.steady_call (ihA _ _) ?_
        | assumption
        | exact Steady.steady_refl _
        | apply Steady.steady_reportError
        | apply Steady.steady_getNextToken
        | apply Steady.steady_skipToken
        | apply Steady.steady_rewind)
    · intro call p
      rw [parseArguments]
      simp only []
      repeat (with_reducible first
        | exact Post.post_none
        | refine Post.post_some ?_
        | refine Post.post_ite (fun _ => ?_) (fun _ => ?_)
        | refine Post.post_bind ?_ (fun _ _ _ => ?_)
        | refine Steady.steady_call (ihE _ _ _) ?_
        | refine Steady.steady_call (ihO _ _ _) ?_
        | refine Steady.steady_call (ihA _ _) ?_
        | assumption
        | exact Steady.steady_refl _
        | apply Steady.steady_reportError
        | apply Steady.steady_getNextToken
        | apply Steady.steady_skipToken
        | apply Steady.steady_rewind)

namespace Grows

theorem grows_refl (p : Parser) : Grows p p :=
  ⟨rfl, List.prefix_refl _, List.prefix_refl _, rfl, rfl, rfl⟩

theorem grows_trans {p q r : Parser} (h1 : Grows p q) (h2 : Grows q r) : Grows p r :=
  ⟨h2.tokens.trans h1.tokens, h1.errors.trans h2.errors, h1.entries.trans h2.entries,
    h2.currentScope.trans h1.currentScope, h2.nextScopeId.trans h1.nextScopeId,
    h2.scopeStack.trans h1.scopeStack⟩

theorem grows_of_steady {p q : Parser} (h : Steady p q) : Grows p q :=
  ⟨h.tokens, h.errors, by rw [h.symbolTable], by rw [h.symbolTable], by rw [h.symbolTable],
    by rw [h.symbolTable]⟩

theorem grows_steady {p q r : Parser} (h1 : Grows p q) (h2 : Steady q r) : Grows p r :=
  h1.grows_trans (grows_of_steady h2)

theorem grows_getNextToken {p q : Parser} (h : Grows p q) : Grows p q.getNextToken.2 :=
  h.grows_steady (Steady.steady_refl q).steady_getNextToken

theorem grows_skipToken {p q : Parser} (h : Grows p q) : Grows p q.skipToken :=
  h.grows_getNextToken

theorem grows_rewind {p q : Parser} (h : Grows p q) : Grows p q.rewind :=
  h.grows_steady (Steady.steady_refl q).steady_rewind

theorem grows_reportError {p q : Parser} (h : Grows p q) (m : String) (l : Int) :
    Grows p (q.reportError m l) :=
  h.grows_steady ((Steady.steady_refl q).steady_reportError m l)

theorem grows_addEntry {p q : Parser} (h : Grows p q) (e : SymbolTableEntry) :
    Grows p { q with symbolTable := (q.symbolTable.addEntry e).1 } := by
  refine h.grows_trans ⟨rfl, List.prefix_refl _, ?_, ?_, ?_, ?_⟩ <;>
    rcases SymbolTable.addEntry_outcome q.symbolTable e with ⟨what, h'⟩ | h' <;> simp [h']

theorem grows_addFunctionParameter {p q : Parser} (h : Grows p q) (f : String)
    (e : SymbolTableEntry) :
    Grows p { q with symbolTable := q.symbolTable.addFunctionParameter f e } := by
  refine h.grows_trans ⟨rfl, List.prefix_refl _, ?_, ?_, ?_, ?_⟩ <;>
    simp only [SymbolTable.addFunctionParameter] <;> split <;> simp

theorem grows_call {p q : Parser} {o : Option Parsed} (ho : Post Grows q o) (h : Grows p q) :
    Post Grows p o :=
  fun node r hr => h.grows_trans (ho node r hr)

theorem grows_call_steady {p q : Parser} {o : Option Parsed} (ho : Post Steady q o) (h : Grows p q) :
    Post Grows p o :=
  fun node r hr => h.grows_steady (ho node r hr)

end Grows

theorem Steady.steady_checkArraySize {p q : Parser} (h : Steady p q) (s n : Token) (v : String)
    (node : CSTNode) : Steady p (checkArraySize s n v node q).2 := by
  unfold Parser.checkArraySize
  split
  · exact h.steady_reportError _ _
  · split
    · exact h.steady_reportError _ _
    · simp only []
      split
      · exact h.steady_getNextToken.steady_reportError _ _
      · exact h.steady_getNextToken

theorem Steady.steady_parseArraySuffix {p q : Parser} (h : Steady p q) (t : Token)
    (node : CSTNode) : Steady p (parseArraySuffix t node q).2 := by
  unfold Parser.parseArraySuffix
  split
  · exact h.steady_reportError _ _
  · simp only []
    split
    · split
      · exact h.steady_skipToken.steady_skipToken.steady_getNextToken.steady_reportError _ _
      · exact Steady.steady_checkArraySize h.steady_skipToken.steady_skipToken.steady_getNextToken _ _ _ _
    · split
      · exact h.steady_skipToken.steady_getNextToken.steady_reportError _ _
      · exact Steady.steady_checkArraySize h.steady_skipToken.steady_getNextToken _ _ _ _

theorem Grows.grows_suffix {p q : Parser} (h : Grows p q) (c : Prop) [Decidable c] (t : Token)
    (node : CSTNode) :
    Grows p (if c then parseArraySuffix t node q else (node, q)).2 := by
  split
  · exact h.grows_steady (Steady.steady_parseArraySuffix (Steady.steady_refl q) t node)
  · exact h

theorem Post.post_matchWhat {R : Parser → Parser → Prop} {p : Parser} {o : Option String}
    {f : String → Option Parsed} {g : Option Parsed} :
    (∀ what, Post R p (f what)) → Post R p g →
      Post R p (match o with
        | Option.some what => f what
        | Option.none => g) := by
  intro hf hg
  cases o with
  | none => exact hg
  | some what => exact hf what

theorem grows_parseDeclarators (fuel : Nat) :
    ∀ decl p, Post Grows p (parseDeclarators fuel decl p) := by
  induction fuel with
  | zero =>
    intro decl p
    rw [parseDeclarators]
    exact Post.post_none
  | succ n ih =>
    intro decl p
    rw [parseDeclarators]
    simp only []
    repeat (with_reducible first
      | exact Post.post_none
      | refine Post.post_some ?_
      | refine Post.post_ite (fun _ => ?_) (fun _ => ?_)
      | refine Post.post_matchWhat (fun _ => ?_) ?_
      | refine Grows.grows_call (ih _ _) ?_
      | assumption
      | exact Grows.grows_refl _
      | apply Grows.grows_reportError
      | apply Grows.grows_getNextToken
      | apply Grows.grows_skipToken
      | apply Grows.grows_rewind
      | apply Grows.grows_addEntry
      | apply Grows.grows_suffix)

theorem steady_skipArguments (fuel : Nat) :
    ∀ p q, skipArguments fuel p = some q → Steady p q := by
  induction fuel with
  | zero =>
    intro p q h
    rw [skipArguments] at h
    cases h
  | succ n ih =>
    intro p q h
    rw [skipArguments] at h
    split at h
    · cases h
      exact Steady.steady_refl _
    · split at h
      · cases h
        exact (Steady.steady_refl _).steady_getNextToken
      · exact (Steady.steady_refl p).steady_getNextToken.steady_trans (ih _ _ h)

theorem Post.post_bindParser {R : Parser → Parser → Prop} {p : Parser} {o : Option Parser}
    {k : Parser → Option Parsed} :
    (∀ q, o = Option.some q → R p q) → (∀ q, R p q → Post R p (k q)) →
      Post R p (match o with
        | Option.none => Option.none
        | Option.some q => k q) := by
  intro ho hk
  cases o with
  | none => exact Post.post_none
  | some q => exact hk q (ho q rfl)

theorem Grows.grows_skipArguments {p q r : Parser} {fuel : Nat} (h : Grows p q)
    (hr : Parser.skipArguments fuel q = some r) : Grows p r :=
  h.grows_steady (steady_skipArguments fuel q r hr)

theorem grows_parseIdentifierStatement (fuel : Nat) (token : Token) (p : Parser) :
    Post Grows p (parseIdentifierStatement fuel token p) := by
  have ihE := (steady_expression fuel).1
  unfold parseIdentifierStatement
  simp only []
  repeat (with_reducible first
    | exact Post.post_none
    | refine Post.post_some ?_
    | refine Post.post_ite (fun _ => ?_) (fun _ => ?_)
    | refine Post.post_bind ?_ (fun _ _ _ => ?_)
    | refine Post.post_bindParser (fun _ hq => Grows.grows_skipArguments ?_ hq) (fun _ _ => ?_)
    | refine Grows.grows_call_steady (ihE _ _ _) ?_
    | assumption
    | exact Grows.grows_refl _
    | apply Grows.grows_reportError
    | apply Grows.grows_getNextToken
    | apply Grows.grows_skipToken
    | apply Grows.grows_rewind)

theorem grows_parseReturnStatement (fuel : Nat) (token : Token) (p : Parser) :
    Post Grows p (parseReturnStatement fuel token p) := by
  have ihE := (steady_expression fuel).1
  unfold parseReturnStatement
  simp only []
  repeat (with_reducible first
    | exact Post.post_none
    | refine Post.post_some ?_
    | refine Post.post_ite (fun _ => ?_) (fun _ => ?_)
    | refine Post.post_bind ?_ (fun _ _ _ => ?_)
    | refine Grows.grows_call_steady (ihE _ _ _) ?_
    | assumption
    | exact Grows.grows_refl _
    | apply Grows.grows_reportError
    | apply Grows.grows_getNextToken
    | apply Grows.grows_skipToken
    | apply Grows.grows_rewind)

theorem grows_parseForIncrement (fuel : Nat) (forNode : CSTNode) (p : Parser) :
    Post Grows p (parseForIncrement fuel forNode p) := by
  have ihE := (steady_expression fuel).1
  unfold parseForIncrement
  simp only []
  repeat (with_reducible first
    | exact Post.post_none
    | refine Post.post_some ?_
    | refine Post.post_ite (fun _ => ?_) (fun _ => ?_)
    | refine Post.post_bind ?_ (fun _ _ _ => ?_)
    | refine Grows.grows_call_steady (ihE _ _ _) ?_
    | assumption
    | exact Grows.grows_refl _
    | apply Grows.grows_reportError
    | apply Grows.grows_getNextToken
    | apply Grows.grows_skipToken
    | apply Grows.grows_rewind)

set_option maxRecDepth 100000 in
set_option maxHeartbeats 2000000 in
theorem grows_statement (fuel : Nat) :
    (∀ p, Post Grows p (parseStatement fuel p)) ∧
    (∀ closing node p, Post Grows p (parseBlock fuel closing node p)) := by
  induction fuel with
  | zero =>
    refine ⟨?_, ?_⟩ <;> intros <;> first
      | (rw [parseStatement]; exact Post.post_none)
      | (rw [parseBlock]; exact Post.post_none)
  | succ n ih =>
    obtain ⟨ihS, ihB⟩ := ih
    have ihE := (steady_expression n).1
    refine ⟨?_, ?_⟩
    · intro p
      rw [parseStatement]
      simp only []
      repeat (with_reducible first
        | exact Post.post_none
        | refine Post.post_some ?_
        | refine Post.post_ite (fun _ => ?_) (fun _ => ?_)
        | refine Post.post_bind ?_ (fun _ _ _ => ?_)
        | refine Grows.grows_call (ihS _) ?_
        | refine Grows.grows_call (ihB _ _ _) ?_
        | refine Grows.grows_call (grows_parseDeclarators _ _ _) ?_
        | refine Grows.grows_call (grows_parseIdentifierStatement _ _ _) ?_
        | refine Grows.grows_call (grows_parseReturnStatement _ _ _) ?_
        | refine Grows.grows_call (grows_parseForIncrement _ _ _) ?_
        | refine Grows.grows_call_steady (ihE _ _ _) ?_
        | assumption
        | exact Grows.grows_refl _
        | apply Grows.grows_reportError
        | apply Grows.grows_getNextToken
        | apply Grows.grows_skipToken
        | apply Grows.grows_rewind)
    · intro closing node p
      rw [parseBlock]
      simp only []
      repeat (with_reducible first
        | exact Post.post_none
        | refine Post.post_some ?_
        | refine Post.post_ite (fun _ => ?_) (fun _ => ?_)
        | refine Post.post_bind ?_ (fun _ _ _ => ?_)
        | refine Grows.grows_call (ihS _) ?_
        | refine Grows.grows_call (ihB _ _ _) ?_
        | assumption
        | exact Grows.grows_refl _
        | apply Grows.grows_reportError
        | apply Grows.grows_getNextToken
        | apply Grows.grows_skipToken
        | apply Grows.grows_rewind)

namespace PostO

theorem postO_none {R : Parser → Parser → Prop} {p : Parser} : PostO R p Option.none := by
  intro out h
  cases h

theorem postO_returned {R : Parser → Parser → Prop} {p q : Parser} {node : CSTNode} (h : R p q) :
    PostO R p (some (.returned node q)) := by
  intro out h'
  cases h'
  exact h

theorem postO_threw {R : Parser → Parser → Prop} {p q : Parser} (h : R p q) :
    PostO R p (some (.threw q)) := by
  intro out h'
  cases h'
  exact h

theorem postO_ite {R : Parser → Parser → Prop} {p : Parser} {c : Prop} [Decidable c]
    {a b : Option Outcome} (ha : c → PostO R p a) (hb : ¬c → PostO R p b) :
    PostO R p (if c then a else b) := by
  by_cases hc : c
  · simpa [hc] using ha hc
  · simpa [hc] using hb hc

theorem postO_matchWhat {R : Parser → Parser → Prop} {p : Parser} {o : Option String}
    {f : String → Option Outcome} {g : Option Outcome} :
    (∀ what, PostO R p (f what)) → PostO R p g →
      PostO R p (match o with
        | Option.some what => f what
        | Option.none => g) := by
  intro hf hg
  cases o with
  | none => exact hg
  | some what => exact hf what

theorem postO_matchInt {R : Parser → Parser → Prop} {p : Parser} {o : Option Int}
    {f : Int → Option Outcome} {g : Option Outcome} :
    PostO R p g → (∀ n, PostO R p (f n)) →
      PostO R p (match o with
        | Option.none => g
        | Option.some n => f n) := by
  intro hg hf
  cases o with
  | none => exact hg
  | some n => exact hf n

theorem postO_bindParsed {R : Parser → Parser → Prop} {p : Parser} {o : Option Parsed}
    {k : CSTNode → Parser → Option Outcome} :
    Post R p o → (∀ node q, R p q → PostO R p (k node q)) →
      PostO R p (match o with
        | Option.none => Option.none
        | Option.some (node, q) => k node q) := by
  intro ho hk
  cases o with
  | none => exact PostO.postO_none
  | some r =>
    obtain ⟨node, q⟩ := r
    exact hk node q (ho node q rfl)

theorem postO_bindOutcome {R : Parser → Parser → Prop} {p : Parser} {o : Option Outcome}
    {k : CSTNode → Parser → Option Outcome} :
    PostO R p o → (∀ node q, R p q → PostO R p (k node q)) →
      PostO R p (match o with
        | Option.none => Option.none
        | Option.some (.threw q) => Option.some (.threw q)
        | Option.some (.returned node q) => k node q) := by
  intro ho hk
  cases o with
  | none => exact PostO.postO_none
  | some out =>
    cases out with
    | threw q => exact PostO.postO_threw (ho _ rfl)
    | returned node q => exact hk node q (ho _ rfl)

end PostO

namespace Keeps

theorem keeps_refl (p : Parser) : Keeps p p :=
  ⟨rfl, List.prefix_refl _, List.prefix_refl _, le_refl _⟩

theorem keeps_trans {p q r : Parser} (h1 : Keeps p q) (h2 : Keeps q r) : Keeps p r :=
  ⟨h2.tokens.trans h1.tokens, h1.errors.trans h2.errors, h1.entries.trans h2.entries,
    le_trans h1.nextScopeId h2.nextScopeId⟩

theorem keeps_of_grows {p q : Parser} (h : Grows p q) : Keeps p q :=
  ⟨h.tokens, h.errors, h.entries, le_of_eq h.nextScopeId.symm⟩

theorem keeps_grows {p q r : Parser} (h1 : Keeps p q) (h2 : Grows q r) : Keeps p r :=
  h1.keeps_trans (keeps_of_grows h2)

theorem keeps_getNextToken {p q : Parser} (h : Keeps p q) : Keeps p q.getNextToken.2 :=
  h.keeps_grows (Grows.grows_refl q).grows_getNextToken

theorem keeps_skipToken {p q : Parser} (h : Keeps p q) : Keeps p q.skipToken :=
  h.keeps_getNextToken

theorem keeps_rewind {p q : Parser} (h : Keeps p q) : Keeps p q.rewind :=
  h.keeps_grows (Grows.grows_refl q).grows_rewind

theorem keeps_reportError {p q : Parser} (h : Keeps p q) (m : String) (l : Int) :
    Keeps p (q.reportError m l) :=
  h.keeps_grows ((Grows.grows_refl q).grows_reportError m l)

theorem keeps_addEntry {p q : Parser} (h : Keeps p q) (e : SymbolTableEntry) :
    Keeps p { q with symbolTable := (q.symbolTable.addEntry e).1 } :=
  h.keeps_grows ((Grows.grows_refl q).grows_addEntry e)

theorem keeps_enterScope {p q : Parser} (h : Keeps p q) :
    Keeps p { q with symbolTable := q.symbolTable.enterScope } :=
  h.keeps_trans ⟨rfl, List.prefix_refl _, List.prefix_refl _, by simp [SymbolTable.enterScope]⟩

theorem keeps_exitScope {p q : Parser} (h : Keeps p q) :
    Keeps p { q with symbolTable := q.symbolTable.exitScope } := by
  refine h.keeps_trans ⟨rfl, List.prefix_refl _, ?_, ?_⟩ <;>
    simp only [SymbolTable.exitScope] <;> split <;> simp

theorem keeps_call {p q : Parser} {o : Option Outcome} (ho : PostO Keeps q o) (h : Keeps p q) :
    PostO Keeps p o :=
  fun out hr => h.keeps_trans (ho out hr)

theorem keeps_call_grows {p q : Parser} {o : Option Outcome} (ho : PostO Grows q o)
    (h : Keeps p q) : PostO Keeps p o :=
  fun out hr => h.keeps_grows (ho out hr)

theorem keeps_call_parsed {p q : Parser} {o : Option Parsed} (ho : Post Grows q o)
    (h : Keeps p q) : Post Keeps p o :=
  fun node r hr => h.keeps_grows (ho node r hr)

end Keeps

theorem Grows.grows_callO {p q : Parser} {o : Option Outcome} (ho : PostO Grows q o)
    (h : Grows p q) : PostO Grows p o :=
  fun out hr => h.grows_trans (ho out hr)

set_option maxRecDepth 100000 in
set_option maxHeartbeats 2000000 in
theorem grows_parseParameters (fuel : Nat) :
    ∀ procName currentScope node p,
      PostO Grows p (parseParameters fuel procName currentScope node p) := by
  induction fuel with
  | zero =>
    intro procName currentScope node p
    rw [parseParameters]
    exact PostO.postO_none
  | succ n ih =>
    intro procName currentScope node p
    rw [parseParameters]
    simp only []
    repeat (with_reducible first
      | exact PostO.postO_none
      | refine PostO.postO_returned ?_
      | refine PostO.postO_threw ?_
      | refine PostO.postO_ite (fun _ => ?_) (fun _ => ?_)
      | refine PostO.postO_matchInt ?_ (fun _ => ?_)
      | refine Grows.grows_callO (ih _ _ _ _) ?_
      | assumption
      | exact Grows.grows_refl _
      | apply Grows.grows_reportError
      | apply Grows.grows_getNextToken
      | apply Grows.grows_skipToken
      | apply Grows.grows_rewind
      | apply Grows.grows_addFunctionParameter)

theorem keeps_parseProcedureRest (fuel : Nat) (nodeType : String) (rt : Token)
    (procName : String) (currentScope : Int) (node : CSTNode) (p : Parser) :
    PostO Keeps p (parseProcedureRest fuel nodeType rt procName currentScope node p) := by
  have ihB := (grows_statement fuel).2
  unfold parseProcedureRest
  simp only []
  repeat (with_reducible first
    | exact PostO.postO_none
    | refine PostO.postO_returned ?_
    | refine PostO.postO_threw ?_
    | refine PostO.postO_ite (fun _ => ?_) (fun _ => ?_)
    | refine PostO.postO_bindOutcome ?_ (fun _ _ _ => ?_)
    | refine PostO.postO_bindParsed ?_ (fun _ _ _ => ?_)
    | refine Keeps.keeps_call_grows (grows_parseParameters _ _ _ _ _) ?_
    | refine Keeps.keeps_call_parsed (ihB _ _ _) ?_
    | assumption
    | exact Keeps.keeps_refl _
    | apply Keeps.keeps_reportError
    | apply Keeps.keeps_getNextToken
    | apply Keeps.keeps_skipToken
    | apply Keeps.keeps_exitScope)

theorem keeps_parseProcedure (fuel : Nat) (nodeType : String) (rt : Token) (p : Parser) :
    PostO Keeps p (parseProcedure fuel nodeType rt p) := by
  have hreg := fun e => ((Keeps.keeps_refl p).keeps_getNextToken.keeps_enterScope).keeps_addEntry e
  unfold parseProcedure
  simp only []
  refine PostO.postO_ite (fun _ => ?_) (fun _ => ?_)
  · refine PostO.postO_ite (fun _ => ?_) (fun _ => ?_) <;>
      exact PostO.postO_returned ((Keeps.keeps_refl p).keeps_getNextToken.keeps_reportError _ _)
  · refine PostO.postO_matchWhat (fun _ => ?_) ?_
    · exact PostO.postO_returned ((hreg _).keeps_reportError _ _)
    · exact Keeps.keeps_call (keeps_parseProcedureRest _ _ _ _ _ _ _) (hreg _)

set_option maxHeartbeats 1000000 in
theorem keeps_parseProgramLoop (fuel : Nat) :
    ∀ root p, PostO Keeps p (parseProgramLoop fuel root p) := by
  induction fuel with
  | zero =>
    intro root p
    rw [parseProgramLoop]
    exact PostO.postO_none
  | succ n ih =>
    intro root p
    have ihS := (grows_statement n).1
    rw [parseProgramLoop]
    simp only []
    refine PostO.postO_ite (fun _ => PostO.postO_returned (Keeps.keeps_refl p)) (fun _ => ?_)
    refine PostO.postO_ite (fun _ => ?_) (fun _ => ?_)
    · have hp : Keeps p
          (if decide (p.getNextToken.1.value = "function") = true then
            p.getNextToken.2.getNextToken.2 else p.getNextToken.2) := by
        split
        · exact (Keeps.keeps_refl p).keeps_getNextToken.keeps_getNextToken
        · exact (Keeps.keeps_refl p).keeps_getNextToken
      refine PostO.postO_ite (fun _ => PostO.postO_returned (hp.keeps_reportError _ _)) (fun _ => ?_)
      refine PostO.postO_bindOutcome (Keeps.keeps_call (keeps_parseProcedure _ _ _ _) hp) (fun _ _ hq => ?_)
      exact Keeps.keeps_call (ih _ _) hq
    · refine PostO.postO_bindParsed
        (Keeps.keeps_call_parsed (ihS _) (Keeps.keeps_refl p).keeps_getNextToken.keeps_rewind) (fun _ _ hq => ?_)
      refine PostO.postO_ite (fun _ => PostO.postO_returned (hq.keeps_reportError _ _)) (fun _ => ?_)
      exact Keeps.keeps_call (ih _ _) hq

end Parser

/-! ## C5: the scope of a procedure's entry -/

namespace Parser

/-- C5 (amended). `parseProcedure` calls `enterScope` before it builds the
entry for the name, so the entry carries the scope entered for the procedure
itself, which is the value `nextScopeId` had before the call, and not the
caller's scope. For every call of `parseProcedure` that reads an identifier as
the name and whose `addEntry` succeeds, whatever the call returns afterwards,
the entry list then begins with the old entries followed by the entry
`{name, procedure or function, return type or "NOT APPLICABLE", scope = old
nextScopeId}`. -/
theorem procedure_entry_scope (fuel : Nat) (nodeType : String) (rt : Token)
    (pre rest : List Token) (name : Token) (eh : ErrorHandler) (st : SymbolTable)
    (out : Outcome)
    (hname : name.type = TOKEN_IDENTIFIER)
    (hadd : (st.enterScope.addEntry (procedureEntry nodeType rt name st.nextScopeId)).2 = none)
    (hout : parseProcedure fuel nodeType rt (reading pre (name :: rest) eh st) = some out) :
    st.enterScope.currentScope = st.nextScopeId ∧
      (procedureEntry nodeType rt name st.nextScopeId).scope = st.nextScopeId ∧
      st.entries ++ [procedureEntry nodeType rt name st.nextScopeId] <+:
        out.parser.symbolTable.entries := by
  refine ⟨rfl, rfl, ?_⟩
  have hadd' : st.enterScope.addEntry (procedureEntry nodeType rt name st.nextScopeId) =
      ({ st.enterScope with
          entries := st.entries ++ [procedureEntry nodeType rt name st.nextScopeId] }, none) := by
    rcases SymbolTable.addEntry_outcome st.enterScope
      (procedureEntry nodeType rt name st.nextScopeId) with ⟨what, h⟩ | h
    · rw [h] at hadd
      simp at hadd
    · exact h
  unfold parseProcedure at hout
  simp only [getNextToken_reading_cons, hname, ne_eq, not_true_eq_false, if_false,
    symbolTable_reading, setSymbolTable_reading, SymbolTable.getCurrentScopeLevel] at hout
  rw [show st.enterScope.currentScope = st.nextScopeId from rfl, hadd'] at hout
  simp only [setSymbolTable_reading] at hout
  exact (keeps_parseProcedureRest _ _ _ _ _ _ _ out hout).entries

/-- C5 at `procedure foo() { }`: the entry for `foo` has scope 1. -/
theorem procedure_entry_scope_witness :
    ({} : SymbolTable).enterScope.currentScope = 1 ∧
      (procedureEntry "Procedure" Token.default ⟨TOKEN_IDENTIFIER, "foo", 1⟩ 1).scope = 1 ∧
      [] ++ [procedureEntry "Procedure" Token.default ⟨TOKEN_IDENTIFIER, "foo", 1⟩ 1] <+:
        (Outcome.returned
          (CSTNode.tree "Procedure" "foo" 1
            [CSTNode.new "Symbol" "(" 1, CSTNode.new "Symbol" ")" 1,
             CSTNode.new "Symbol" "\x7b" 1, CSTNode.new "Symbol" "\x7d" 1])
          (reading
            [⟨TOKEN_PROCEDURE, "procedure", 1⟩, ⟨TOKEN_IDENTIFIER, "foo", 1⟩,
              ⟨TOKEN_L_PAREN, "(", 1⟩, ⟨TOKEN_R_PAREN, ")", 1⟩, ⟨TOKEN_L_BRACE, "\x7b", 1⟩,
              ⟨TOKEN_R_BRACE, "\x7d", 1⟩]
            [] {}
            { entries := [⟨"foo", "procedure", "NOT APPLICABLE", false, 0, 1⟩]
              nextScopeId := 2 })).parser.symbolTable.entries :=
  procedure_entry_scope 2 "Procedure" Token.default [⟨TOKEN_PROCEDURE, "procedure", 1⟩]
    [⟨TOKEN_L_PAREN, "(", 1⟩, ⟨TOKEN_R_PAREN, ")", 1⟩, ⟨TOKEN_L_BRACE, "\x7b", 1⟩,
      ⟨TOKEN_R_BRACE, "\x7d", 1⟩]
    ⟨TOKEN_IDENTIFIER, "foo", 1⟩ {} {} _ rfl (by decide) (by decide)

/-- C5 as stated fails: after `procedure foo() { }` the entry for `foo` carries
scope 1, the scope entered for the procedure, not the caller's scope 0; the
current scope is back at 0. -/
theorem procedure_entry_scope_counterexample :
    ((Tokenizer.ofText "procedure foo() \x7b \x7d" 1).tokenize).map Tokenizer.getTokens =
        some [⟨TOKEN_PROCEDURE, "procedure", 1⟩, ⟨TOKEN_IDENTIFIER, "foo", 1⟩,
          ⟨TOKEN_L_PAREN, "(", 1⟩, ⟨TOKEN_R_PAREN, ")", 1⟩, ⟨TOKEN_L_BRACE, "\x7b", 1⟩,
          ⟨TOKEN_R_BRACE, "\x7d", 1⟩] ∧
      (parseProgram 3 (ofTokens
          [⟨TOKEN_PROCEDURE, "procedure", 1⟩, ⟨TOKEN_IDENTIFIER, "foo", 1⟩,
            ⟨TOKEN_L_PAREN, "(", 1⟩, ⟨TOKEN_R_PAREN, ")", 1⟩, ⟨TOKEN_L_BRACE, "\x7b", 1⟩,
            ⟨TOKEN_R_BRACE, "\x7d", 1⟩])).map
          (fun o => (o.errors, o.parser.symbolTable.entries,
            o.parser.symbolTable.currentScope)) =
        some ([], [⟨"foo", "procedure", "NOT APPLICABLE", false, 0, 1⟩], 0) ∧
      ¬((parseProgram 3 (ofTokens
          [⟨TOKEN_PROCEDURE, "procedure", 1⟩, ⟨TOKEN_IDENTIFIER, "foo", 1⟩,
            ⟨TOKEN_L_PAREN, "(", 1⟩, ⟨TOKEN_R_PAREN, ")", 1⟩, ⟨TOKEN_L_BRACE, "\x7b", 1⟩,
            ⟨TOKEN_R_BRACE, "\x7d", 1⟩])).map (fun o => o.parser.symbolTable.entries) =
        some [⟨"foo", "procedure", "NOT APPLICABLE", false, 0, 0⟩]) := by
  refine ⟨?_, ?_, ?_⟩ <;> decide

end Parser

namespace Parser

theorem errors_reportError_ne_nil (p : Parser) (m : String) (l : Int) :
    (p.reportError m l).errorHandler.errors ≠ [] := by
  simp [reportError, ErrorHandler.addError]

/-- Whenever the top-level loop returns, a null result comes with a diagnostic
in the sink, and a returned tree is the root it was given, with children
added. -/
theorem parseProgramLoop_returned (fuel : Nat) :
    ∀ root p node q, root.isNull = false →
      parseProgramLoop fuel root p = some (.returned node q) →
      (node.isNull = true → q.errorHandler.errors ≠ []) ∧
        (node.isNull = false → node.getName = root.getName) := by
  induction fuel with
  | zero =>
    intro root p node q _ h
    rw [parseProgramLoop] at h
    cases h
  | succ n ih =>
    intro root p node q hroot h
    rw [parseProgramLoop] at h
    simp only [] at h
    iterate 6 (all_goals (try split at h))
    all_goals first
      | (cases h
         exact ⟨fun _ => errors_reportError_ne_nil _ _ _, by simp [CSTNode.isNull]⟩)
      | (cases h
         exact ⟨by simp [hroot], fun _ => rfl⟩)
      | exact ⟨(ih _ _ _ _ (by simp [hroot]) h).1,
          fun hn => ((ih _ _ _ _ (by simp [hroot]) h).2 hn).trans (by simp)⟩
      | cases h

end Parser

/-! ## C13, C14, C15: scope ids -/

namespace SymbolTable

theorem scopes_addEntry (t : SymbolTable) (e : SymbolTableEntry) :
    (t.addEntry e).1.currentScope = t.currentScope ∧
      (t.addEntry e).1.nextScopeId = t.nextScopeId ∧
      (t.addEntry e).1.scopeStack = t.scopeStack ∧
      (t.addEntry e).1.parameterLists = t.parameterLists := by
  rcases addEntry_outcome t e with ⟨what, h⟩ | h <;> simp [h]

theorem scopes_addFunctionParameter (t : SymbolTable) (f : String) (q : SymbolTableEntry) :
    (t.addFunctionParameter f q).currentScope = t.currentScope ∧
      (t.addFunctionParameter f q).nextScopeId = t.nextScopeId ∧
      (t.addFunctionParameter f q).scopeStack = t.scopeStack := by
  unfold addFunctionParameter
  split <;> simp

theorem exitScope_of_push (t : SymbolTable) (stack : List Int) (top : Int)
    (h : t.scopeStack = stack ++ [top]) :
    t.exitScope = { t with currentScope := top, scopeStack := stack } := by
  unfold exitScope
  simp [h]

theorem exitScope_of_empty (t : SymbolTable) (h : t.scopeStack = []) : t.exitScope = t := by
  unfold exitScope
  simp [h]

theorem scopeIdsInUse_step (t : SymbolTable) (c : Call) (h : t.ScopeIdsInUse) :
    (t.step c).ScopeIdsInUse := by
  obtain ⟨⟨hp, hc⟩, hs, h0, hn⟩ := h
  cases c with
  | addEntry e =>
    obtain ⟨h1, h2, h3, -⟩ := scopes_addEntry t e
    refine ⟨⟨?_, ?_⟩, ?_, ?_, ?_⟩ <;> simp only [step, h1, h2, h3] <;> assumption
  | addFunctionParameter f q =>
    obtain ⟨h1, h2, h3⟩ := scopes_addFunctionParameter t f q
    refine ⟨⟨?_, ?_⟩, ?_, ?_, ?_⟩ <;> simp only [step, h1, h2, h3] <;> assumption
  | enterScope =>
    refine ⟨⟨?_, ?_⟩, ?_, ?_, ?_⟩
    · simp only [step, enterScope, List.pairwise_append, List.pairwise_cons, List.mem_singleton]
      exact ⟨hp, ⟨by simp, List.Pairwise.nil⟩, fun a ha b hb => hb ▸ hc a ha⟩
    · intro s hs'
      simp only [step, enterScope, List.mem_append, List.mem_singleton] at hs' ⊢
      rcases hs' with hs' | rfl
      · exact lt_trans (hc s hs') hn
      · exact hn
    · intro s hs'
      simp only [step, enterScope, List.mem_append, List.mem_singleton] at hs'
      rcases hs' with hs' | rfl
      · exact hs s hs'
      · exact h0
    · exact le_trans h0 (le_of_lt hn)
    · simp [step, enterScope]
  | exitScope =>
    rcases List.eq_nil_or_concat t.scopeStack with hnil | ⟨stack, top, hst⟩
    · simp only [step, exitScope_of_empty t hnil]
      exact ⟨⟨hp, hc⟩, hs, h0, hn⟩
    · rw [List.concat_eq_append] at hst
      simp only [step, exitScope_of_push t stack top hst]
      rw [hst] at hp hc hs
      simp only [List.pairwise_append, List.mem_singleton, forall_eq] at hp
      refine ⟨⟨hp.1, fun s hs' => hp.2.2 s hs'⟩, fun s hs' => hs s (by simp [hs']),
        hs top (by simp), lt_trans (hc top (by simp)) hn⟩

theorem scopeIdsInUse_foldl (calls : List Call) (t : SymbolTable) (h : t.ScopeIdsInUse) :
    (calls.foldl step t).ScopeIdsInUse := by
  induction calls generalizing t with
  | nil => exact h
  | cons c cs ih => exact ih _ (scopeIdsInUse_step t c h)

theorem scopeIdsInUse_run (calls : List Call) : (run calls).ScopeIdsInUse :=
  scopeIdsInUse_foldl calls {} ⟨⟨List.Pairwise.nil, by simp⟩, by simp, le_refl _, by decide⟩

theorem nextScopeId_step (t : SymbolTable) (c : Call) : t.nextScopeId ≤ (t.step c).nextScopeId := by
  cases c with
  | addEntry e => exact le_of_eq (scopes_addEntry t e).2.1.symm
  | addFunctionParameter f q => exact le_of_eq (scopes_addFunctionParameter t f q).2.1.symm
  | enterScope => simp [step, enterScope]
  | exitScope =>
    simp only [step, exitScope]
    split <;> simp

theorem nextScopeId_foldl (calls : List Call) (t : SymbolTable) :
    t.nextScopeId ≤ (calls.foldl step t).nextScopeId := by
  induction calls generalizing t with
  | nil => exact le_refl _
  | cons c cs ih => exact le_trans (nextScopeId_step t c) (ih _)

theorem run_append (pre suf : List Call) : run (pre ++ suf) = suf.foldl step (run pre) := by
  simp [run, List.foldl_append]

end SymbolTable

namespace SymbolTable

theorem any_filter_scope (l : List SymbolTableEntry) (s : Int) (q : SymbolTableEntry → Bool)
    (hq : ∀ x, q x = true → x.scope ≠ s) :
    (l.filter fun x => x.scope ≠ s).any q = l.any q := by
  induction l with
  | nil => rfl
  | cons a l ih =>
    by_cases ha : a.scope = s
    · have hqa : q a = false := by
        cases h : q a with
        | false => rfl
        | true => exact absurd ha (hq a h)
      simpa [-List.any_filter, -List.find?_filter, List.filter_cons, ha, hqa] using ih
    · have ih2 := congrArg (q a || ·) ih
      simpa [-List.any_filter, -List.find?_filter, List.filter_cons, ha] using ih2

theorem find?_filter_scope (l : List SymbolTableEntry) (s : Int) (q : SymbolTableEntry → Bool)
    (hq : ∀ x, q x = true → x.scope ≠ s) :
    (l.filter fun x => x.scope ≠ s).find? q = l.find? q := by
  induction l with
  | nil => rfl
  | cons a l ih =>
    by_cases ha : a.scope = s
    · have hqa : q a = false := by
        cases h : q a with
        | false => rfl
        | true => exact absurd ha (hq a h)
      simpa [-List.any_filter, -List.find?_filter, List.filter_cons, ha, hqa] using ih
    · by_cases hqa : q a = true
      · simp [List.filter_cons, ha, hqa]
      · simpa [-List.any_filter, -List.find?_filter, List.filter_cons, ha, hqa] using ih

/-- The entries of a scope other than 0 and other than the scope of `e` have
no part in what `addEntry` answers for `e`. -/
theorem addEntry_withoutScope (t : SymbolTable) (e : SymbolTableEntry) (s : Int)
    (hs : s ≠ e.scope) (h0 : s ≠ 0) :
    ((t.withoutScope s).addEntry e).2 = (t.addEntry e).2 := by
  have h1 : (t.withoutScope s).isDefinedInCurrentScope e.identifierName e.scope =
      t.isDefinedInCurrentScope e.identifierName e.scope := by
    unfold isDefinedInCurrentScope withoutScope
    refine any_filter_scope _ _ _ fun x hx => ?_
    simp only [Bool.and_eq_true, beq_iff_eq] at hx
    exact fun h => hs (h.symm.trans hx.2)
  have h2 : (t.withoutScope s).isInParameterList e.identifierName e.scope =
      t.isInParameterList e.identifierName e.scope := by
    have ho : (t.withoutScope s).ownerOf e.scope = t.ownerOf e.scope := by
      unfold ownerOf withoutScope
      rw [find?_filter_scope]
      intro x hx
      simp only [Bool.and_eq_true, beq_iff_eq] at hx
      exact fun h => hs (h.symm.trans hx.2)
    unfold isInParameterList
    rw [ho]
    rfl
  have h3 : (t.withoutScope s).isDefinedGlobally e.identifierName =
      t.isDefinedGlobally e.identifierName := by
    unfold isDefinedGlobally withoutScope
    refine any_filter_scope _ _ _ fun x hx => ?_
    simp only [Bool.and_eq_true, beq_iff_eq] at hx
    exact fun h => h0 (h.symm.trans hx.2)
  unfold addEntry
  rw [h1, h2, h3]
  split_ifs <;> rfl

theorem scopes_addEntries (es : List SymbolTableEntry) (t : SymbolTable) :
    (t.addEntries es).currentScope = t.currentScope ∧
      (t.addEntries es).nextScopeId = t.nextScopeId ∧
      (t.addEntries es).scopeStack = t.scopeStack := by
  induction es generalizing t with
  | nil => exact ⟨rfl, rfl, rfl⟩
  | cons x es ih =>
    obtain ⟨h1, h2, h3⟩ := ih (t.addEntry x).1
    obtain ⟨g1, g2, g3, -⟩ := scopes_addEntry t x
    exact ⟨h1.trans g1, h2.trans g2, h3.trans g3⟩

end SymbolTable

/-! ## C11, C12: parameter lists and global names -/

namespace SymbolTable

theorem noShadow_addEntry (t : SymbolTable) (e : SymbolTableEntry)
    (h : NoShadowOfEarlierGlobal t.entries) :
    NoShadowOfEarlierGlobal (t.addEntry e).1.entries := by
  unfold addEntry
  split_ifs with h1 h2 h3
  · exact h
  · exact h
  · exact h
  · simp only [NoShadowOfEarlierGlobal, List.pairwise_append, List.pairwise_cons,
      List.Pairwise.nil, List.mem_singleton, forall_eq]
    refine ⟨h, ⟨by simp, trivial⟩, ?_⟩
    intro x hx hx0 he0 hname
    refine h3 ?_
    simp only [Bool.and_eq_true, decide_eq_true_eq]
    exact ⟨he0, (isDefinedGlobally_iff t _).mpr ⟨x, hx, hname, hx0⟩⟩

theorem noShadow_step (t : SymbolTable) (c : Call) (h : NoShadowOfEarlierGlobal t.entries) :
    NoShadowOfEarlierGlobal (t.step c).entries := by
  cases c with
  | addEntry e => exact noShadow_addEntry t e h
  | addFunctionParameter f q => simpa [step, entries_addFunctionParameter] using h
  | enterScope => exact h
  | exitScope => simpa [step, entries_exitScope] using h

theorem noShadow_foldl (calls : List Call) (t : SymbolTable)
    (h : NoShadowOfEarlierGlobal t.entries) :
    NoShadowOfEarlierGlobal (calls.foldl step t).entries := by
  induction calls generalizing t with
  | nil => exact h
  | cons c cs ih => exact ih _ (noShadow_step t c h)

theorem find?_pushParameter (f : String) (q : SymbolTableEntry)
    (lists : List (String × List SymbolTableEntry)) :
    (pushParameter f q lists = none ∧ lists.find? (fun pair => pair.1 == f) = none) ∨
      ∃ pushed params, pushParameter f q lists = some pushed ∧
        lists.find? (fun pair => pair.1 == f) = some (f, params) ∧
        pushed.find? (fun pair => pair.1 == f) = some (f, params ++ [q]) := by
  induction lists with
  | nil => exact Or.inl ⟨rfl, rfl⟩
  | cons pair rest ih =>
    by_cases hp : pair.1 = f
    · refine Or.inr ⟨(pair.1, pair.2 ++ [q]) :: rest, pair.2, ?_, ?_, ?_⟩
      · simp [pushParameter, hp]
      · simp only [List.find?_cons, hp, beq_self_eq_true]
        rw [← hp]
      · simp [List.find?_cons, hp]
    · rcases ih with ⟨h1, h2⟩ | ⟨pushed, params, h1, h2, h3⟩
      · refine Or.inl ⟨?_, ?_⟩
        · simp [pushParameter, hp, h1]
        · simp [List.find?_cons, hp, h2]
      · refine Or.inr ⟨pair :: pushed, params, ?_, ?_, ?_⟩
        · simp [pushParameter, hp, h1]
        · simp [List.find?_cons, hp, h2]
        · simp [List.find?_cons, hp, h3]

/-- The effect of `addFunctionParameter` on the list kept under the name. -/
theorem parametersOf_addFunctionParameter (t : SymbolTable) (f : String)
    (q : SymbolTableEntry) :
    (t.addFunctionParameter f q).parametersOf f = t.parametersOf f ++ [q] := by
  unfold addFunctionParameter parametersOf
  rcases find?_pushParameter f q t.parameterLists with ⟨h1, h2⟩ | ⟨pushed, params, h1, h2, h3⟩
  · simp [h1, h2, List.find?_append]
  · simp [h1, h2, h3]

end SymbolTable

/-! ## C18: words -/

namespace Tokenizer

theorem processIdentifierOrKeyword_word (t : Tokenizer) (w : String) (c : Char)
    (cs rest : List Char) (hw : w.data = c :: cs) (hc : isWordStart c = true)
    (hcs : ∀ d ∈ cs, isWordChar d = true)
    (hrest : ∀ d, rest.head? = some d → isWordChar d = false)
    (hin : t.inputFile = cs ++ rest) :
    (t.processIdentifierOrKeyword c).inputFile = rest ∧
      (t.processIdentifierOrKeyword c).lineNumber = t.lineNumber ∧
      (t.processIdentifierOrKeyword c).tokens = t.tokens ++ [⟨wordKind w, w, t.lineNumber⟩] ∧
      (t.processIdentifierOrKeyword c).errorHandler = t.errorHandler := by
  by_cases hT : w ∈ typeWords
  · rw [processIdentifierOrKeyword_type t w c cs rest hT hw hrest hin]
    refine ⟨rfl, rfl, ?_, rfl⟩
    simp only [typeWords, List.mem_cons, List.mem_singleton, List.not_mem_nil, or_false] at hT
    rcases hT with rfl | rfl | rfl | rfl | rfl | rfl <;> rfl
  by_cases hk : w ∈ keywords
  · have hval : (⟨(String.singleton c).data ++ cs⟩ : String) = w := by
      cases w
      simp_all [String.singleton]
    have hhead : w.data.head?.any isdigit = false := by
      simp [hw, isWordStart_not_isdigit hc]
    unfold processIdentifierOrKeyword
    rw [hin, scanWord_append cs rest _ hcs hrest, hval]
    simp only [hhead, Bool.false_eq_true, false_and, if_false]
    simp only [keywords, typeWords, List.mem_cons, List.mem_singleton, List.not_mem_nil,
      or_false, not_or] at hk hT
    rcases hk with rfl | rfl | rfl | rfl | rfl | rfl | rfl | rfl | rfl | rfl | rfl | rfl | rfl <;>
      first
      | exact absurd rfl hT.1
      | exact absurd rfl hT.2.1
      | exact absurd rfl hT.2.2.1
      | exact absurd rfl hT.2.2.2.2.2
      | (simp only [wordKind, typeWords, keywords]; refine ⟨?_, ?_, ?_, ?_⟩ <;> simp [addToken])
  · rw [processIdentifierOrKeyword_identifier t w c cs rest hw hc hcs hrest hk hT hin]
    refine ⟨rfl, rfl, ?_, rfl⟩
    have hk' := hk
    simp only [keywords, List.mem_cons, List.mem_singleton, List.not_mem_nil,
      or_false, not_or] at hk'
    simp [wordKind, hT, hk'.1, hk'.2.1, hk'.2.2.1, hk'.2.2.2.1, hk'.2.2.2.2.1,
      hk'.2.2.2.2.2.1, hk'.2.2.2.2.2.2.2.2.1, hk'.2.2.2.2.2.2.2.2.2.1,
      hk'.2.2.2.2.2.2.2.2.2.2.1]

/-- C18 (amended). Where the main loop of `tokenize` finds a word
`[A-Za-z_][A-Za-z0-9_]*` that ends at the end of the input or before a
character that is no letter, digit or underscore, it reads the whole word,
appends one token with the word as lexeme and records no diagnostic. The
kind of that token is identifier if and only if the word is none of the
thirteen reserved words and is neither `float` nor `double`. `float` and
`double` get the type kind, as `int`, `bool`, `char` and `void` do; `true`
and `false` get the two boolean-literal kinds; `procedure` and `function` get
a kind of their own each; `if`, `else`, `while`, `return` and `for` get the
keyword kind; `string` is an identifier. -/
theorem word_token (fuel : Nat) (t : Tokenizer) (w : String) (rest : List Char)
    (hw : IsWord w) (hin : t.inputFile = w.data ++ rest)
    (hrest : ∀ d, rest.head? = some d → isWordChar d = false) :
    (∃ u, tokenizeLoop (fuel + 1) t = tokenizeLoop fuel u ∧ u.inputFile = rest ∧
        u.lineNumber = t.lineNumber ∧
        u.tokens = t.tokens ++ [⟨wordKind w, w, t.lineNumber⟩] ∧
        u.errorHandler = t.errorHandler) ∧
      (wordKind w = TOKEN_IDENTIFIER ↔ w ∉ keywords ∧ w ≠ "float" ∧ w ≠ "double") ∧
      keywords.map wordKind =
        [TOKEN_KEYWORD, TOKEN_KEYWORD, TOKEN_KEYWORD, TOKEN_PROCEDURE, TOKEN_FUNCTION,
          TOKEN_KEYWORD, TOKEN_TYPE, TOKEN_TYPE, TOKEN_BOOLEAN_TRUE, TOKEN_BOOLEAN_FALSE,
          TOKEN_KEYWORD, TOKEN_TYPE, TOKEN_TYPE] ∧
      wordKind "float" = TOKEN_TYPE ∧ wordKind "double" = TOKEN_TYPE ∧
      wordKind "string" = TOKEN_IDENTIFIER := by
  obtain ⟨c, cs, hdata, hc, hcs⟩ := hw
  refine ⟨?_, ?_, by decide, by decide, by decide, by decide⟩
  · rw [hdata, List.cons_append] at hin
    rw [tokenizeLoop_word fuel t c _ hin hc]
    exact ⟨_, rfl,
      processIdentifierOrKeyword_word { t with inputFile := cs ++ rest } w c cs rest hdata hc hcs
        hrest rfl⟩
  · by_cases hT : w ∈ typeWords
    · simp only [typeWords, List.mem_cons, List.mem_singleton, List.not_mem_nil, or_false] at hT
      rcases hT with rfl | rfl | rfl | rfl | rfl | rfl <;> decide
    · by_cases hk : w ∈ keywords
      · simp only [keywords, List.mem_cons, List.mem_singleton, List.not_mem_nil, or_false] at hk
        rcases hk with rfl | rfl | rfl | rfl | rfl | rfl | rfl | rfl | rfl | rfl | rfl | rfl | rfl
          <;> decide
      · have hk' := hk
        have hT' := hT
        simp only [keywords, typeWords, List.mem_cons, List.mem_singleton, List.not_mem_nil,
          or_false, not_or] at hk' hT'
        simp [wordKind, hT, hk, hT'.2.2.2.1, hT'.2.2.2.2.1, hk'.1, hk'.2.1, hk'.2.2.1,
          hk'.2.2.2.1, hk'.2.2.2.2.1, hk'.2.2.2.2.2.1, hk'.2.2.2.2.2.2.2.2.1,
          hk'.2.2.2.2.2.2.2.2.2.1, hk'.2.2.2.2.2.2.2.2.2.2.1]

/-- C18 on the text `while_1 (`: the word `while_1` is an identifier. -/
theorem word_token_witness :
    (∃ u, tokenizeLoop (1 + 1) (ofText "while_1 (" 1) = tokenizeLoop 1 u ∧
        u.inputFile = [' ', '('] ∧ u.lineNumber = (ofText "while_1 (" 1).lineNumber ∧
        u.tokens = (ofText "while_1 (" 1).tokens ++
          [⟨wordKind "while_1", "while_1", (ofText "while_1 (" 1).lineNumber⟩] ∧
        u.errorHandler = (ofText "while_1 (" 1).errorHandler) ∧
      (wordKind "while_1" = TOKEN_IDENTIFIER ↔
        "while_1" ∉ keywords ∧ "while_1" ≠ "float" ∧ "while_1" ≠ "double") :=
  ⟨(word_token 1 (ofText "while_1 (" 1) "while_1" [' ', '(']
      ⟨'w', ['h', 'i', 'l', 'e', '_', '1'], rfl, by decide, by decide⟩ rfl
      (by intro d hd; simp at hd; subst hd; decide)).1,
    (word_token 1 (ofText "while_1 (" 1) "while_1" [' ', '(']
      ⟨'w', ['h', 'i', 'l', 'e', '_', '1'], rfl, by decide, by decide⟩ rfl
      (by intro d hd; simp at hd; subst hd; decide)).2.1⟩

/-- C18 as stated fails: `float` and `double` are none of the thirteen
reserved words, and the lexer gives them the type kind, not the identifier
kind. -/
theorem word_token_counterexample :
    "float" ∉ keywords ∧ "double" ∉ keywords ∧
      ((ofText "float" 1).tokenize).map getTokens = some [⟨TOKEN_TYPE, "float", 1⟩] ∧
      ((ofText "double" 1).tokenize).map getTokens = some [⟨TOKEN_TYPE, "double", 1⟩] := by
  decide

end Tokenizer

/-! ## C19: numbers -/

namespace Tokenizer

theorem isdigit_not_isspace {c : Char} (h : isdigit c = true) : isspace c = false := by
  have : c ≠ ' ' ∧ c ≠ '\t' ∧ c ≠ '\n' ∧ c ≠ '\r' ∧ c ≠ Char.ofNat 11 ∧ c ≠ Char.ofNat 12 := by
    refine ⟨?_, ?_, ?_, ?_, ?_, ?_⟩ <;> (rintro rfl; revert h; decide)
  simp [isspace, this]

theorem isdigit_not_isWordStart {c : Char} (h : isdigit c = true) : isWordStart c = false := by
  cases hw : isWordStart c with
  | false => rfl
  | true => rw [isWordStart_not_isdigit hw] at h; cases h

theorem scanNumber_append (run rest : List Char) (value : String) (invalid : Bool)
    (hrun : ∀ c ∈ run, isalnum c = true)
    (hrest : ∀ c, rest.head? = some c → isalnum c = false) :
    scanNumber (run ++ rest) value invalid =
      (⟨value.data ++ run⟩, invalid || run.any isalpha, rest) := by
  induction run generalizing value invalid with
  | nil =>
    cases rest with
    | nil => simp [scanNumber]
    | cons c rest =>
      have := hrest c rfl
      simp only [isalnum, Char.isAlphanum, Bool.or_eq_false_iff] at this
      simp [scanNumber, isdigit, isalpha, this.1, this.2]
  | cons c run ih =>
    have hc := hrun c (by simp)
    simp only [isalnum, Char.isAlphanum, Bool.or_eq_true] at hc
    rw [List.cons_append, scanNumber]
    by_cases hd : isdigit c = true
    · have ha : isalpha c = false := by
        cases ha : isalpha c with
        | false => rfl
        | true =>
          have hws : isWordStart c = true := by simp [isWordStart, ha]
          rw [isWordStart_not_isdigit hws] at hd
          cases hd
      simp only [hd, if_true]
      rw [ih _ _ (fun d hd => hrun d (by simp [hd]))]
      simp [String.push, ha]
    · have ha : isalpha c = true := by
        rcases hc with hc | hc
        · exact hc
        · exact absurd hc hd
      simp only [hd, ha, Bool.false_eq_true, if_false, if_true]
      rw [ih _ _ (fun d hd => hrun d (by simp [hd]))]
      simp [String.push, ha]

theorem tokenizeLoop_digit (fuel : Nat) (t : Tokenizer) (c : Char) (cs : List Char)
    (hin : t.inputFile = c :: cs) (hc : isdigit c = true) :
    tokenizeLoop (fuel + 1) t = tokenizeLoop fuel ({ t with inputFile := cs }.processNumber c) := by
  have hw : (isalpha c || decide (c = '_')) = false := isdigit_not_isWordStart hc
  rw [tokenizeLoop]
  simp only [hin, isdigit_not_isspace hc, hw, hc, Bool.false_eq_true, if_false, if_true]

/-- C19. Let the main loop of `tokenize` find a digit `d` followed by a run
of letters and digits that ends at the end of the input or before a character
that is neither. If the run holds a letter, the loop stops there, whatever
follows: the token list is empty, the rest of the input is not read, and the
diagnostics are those recorded before followed by one diagnostic,
"Syntax error: invalid integer '...'" with the text of the run, at the line
of the number. If the run holds no letter, one INTEGER token with the digits
as lexeme is appended and the loop goes on behind the run. -/
theorem number_token (fuel : Nat) (t : Tokenizer) (d : Char) (run rest : List Char)
    (hd : isdigit d = true) (hrun : ∀ c ∈ run, isalnum c = true)
    (hrest : ∀ c, rest.head? = some c → isalnum c = false)
    (hin : t.inputFile = d :: (run ++ rest)) :
    (run.any isalpha = true →
        tokenizeLoop (fuel + 2) t =
          some { t with
            inputFile := []
            tokens := []
            errorHandler :=
              ⟨t.errorHandler.errors ++ [(t.lineNumber, invalidInteger ⟨d :: run⟩)]⟩ }) ∧
      (run.any isalpha = false →
        tokenizeLoop (fuel + 1) t =
          tokenizeLoop fuel { t with
            inputFile := rest
            tokens := t.tokens ++ [⟨TOKEN_INTEGER, ⟨d :: run⟩, t.lineNumber⟩] }) := by
  have hscan := scanNumber_append run rest (String.singleton d) false hrun hrest
  constructor
  · intro hrun'
    rw [tokenizeLoop_digit (fuel + 1) t d _ hin hd]
    simp only [processNumber, hscan, hrun', Bool.false_or, if_true]
    rw [tokenizeLoop_end _ _ rfl]
    simp [addError, ErrorHandler.addError, invalidInteger, String.singleton]
  · intro hrun'
    rw [tokenizeLoop_digit fuel t d _ hin hd]
    simp only [processNumber, hscan, hrun', Bool.false_or, Bool.false_eq_true, if_false]
    simp [addToken, String.singleton]

/-- C19 on `int x; 12ab; y` and on `int x; 12; y`, from the state in which
`int x; ` has been read. -/
theorem number_token_witness :
    (tokenizeLoop (0 + 2)
        { inputFile := "12ab; y".data, lineNumber := 1,
          tokens := [⟨TOKEN_TYPE, "int", 1⟩, ⟨TOKEN_IDENTIFIER, "x", 1⟩,
            ⟨TOKEN_SEMICOLON, ";", 1⟩] } =
      some { inputFile := [], lineNumber := 1, tokens := [],
             errorHandler := ⟨[(1, "Syntax error: invalid integer '12ab'")]⟩ }) ∧
      ((ofText "int x; 12ab; y" 1).tokenize).map
          (fun t => (t.getTokens, t.errorHandler.errors)) =
        some ([], [(1, "Syntax error: invalid integer '12ab'")]) ∧
      ((ofText "int x; 12; y" 1).tokenize).map
          (fun t => (t.getTokens, t.errorHandler.errors)) =
        some ([⟨TOKEN_TYPE, "int", 1⟩, ⟨TOKEN_IDENTIFIER, "x", 1⟩, ⟨TOKEN_SEMICOLON, ";", 1⟩,
          ⟨TOKEN_INTEGER, "12", 1⟩, ⟨TOKEN_SEMICOLON, ";", 1⟩, ⟨TOKEN_IDENTIFIER, "y", 1⟩], []) :=
  ⟨(number_token 0
      { inputFile := "12ab; y".data, lineNumber := 1,
        tokens := [⟨TOKEN_TYPE, "int", 1⟩, ⟨TOKEN_IDENTIFIER, "x", 1⟩,
          ⟨TOKEN_SEMICOLON, ";", 1⟩] }
      '1' ['2', 'a', 'b'] [';', ' ', 'y'] (by decide) (by decide)
      (by intro c hc; simp at hc; subst hc; decide) rfl).1 (by decide),
    by decide, by decide⟩

end Tokenizer

/-! ## C20: operators -/

namespace Tokenizer

theorem tokenizeLoop_operator (fuel : Nat) (t : Tokenizer) (a : Char) (rest : List Char)
    (hin : t.inputFile = a :: rest) (ha : isOperatorChar a = true) :
    tokenizeLoop (fuel + 1) t =
      if a = '/' ∧ (rest.head? = some '/' ∨ rest.head? = some '*') then
        tokenizeLoop fuel { t with inputFile := rest }
      else tokenizeLoop fuel ({ t with inputFile := rest }.processOperator a) := by
  have h : isspace a = false ∧ (isalpha a || decide (a = '_')) = false ∧ isdigit a = false := by
    simp only [isOperatorChar, Bool.or_eq_true, decide_eq_true_eq] at ha
    rcases ha with
      (((((((((rfl | rfl) | rfl) | rfl) | rfl) | rfl) | rfl) | rfl) | rfl) | rfl) | rfl <;> decide
  rw [tokenizeLoop]
  simp only [hin, h.1, h.2.1, h.2.2, ha, Bool.false_eq_true, if_false, if_true]

theorem processOperator_double (t : Tokenizer) (a b : Char) (rest : List Char) (k : TokenType)
    (hin : t.inputFile = b :: rest) (hk : doubleOperator a b = some k) :
    t.processOperator a =
      { t with inputFile := rest, tokens := t.tokens ++ [⟨k, ⟨[a, b]⟩, t.lineNumber⟩] } := by
  have hpush : (String.singleton a).push b = ⟨[a, b]⟩ := rfl
  unfold doubleOperator at hk
  unfold processOperator
  rw [hin]
  simp only [hpush]
  split_ifs at hk with h1 h2 h3 h4 h5 h6 <;> cases hk <;>
    first
    | (obtain ⟨rfl, rfl⟩ := h1; rfl)
    | (obtain ⟨rfl, rfl⟩ := h2; rfl)
    | (obtain ⟨rfl, rfl⟩ := h3; rfl)
    | (obtain ⟨rfl, rfl⟩ := h4; rfl)
    | (obtain ⟨rfl, rfl⟩ := h5; rfl)
    | (obtain ⟨rfl, rfl⟩ := h6; rfl)

theorem singleOperator_eq (t : Tokenizer) (a : Char) :
    t.singleOperator a =
      { t with tokens := t.tokens ++ [⟨operatorKind a, String.singleton a, t.lineNumber⟩] } := by
  unfold singleOperator operatorKind addToken
  by_cases h0 : a = '='
  · rw [if_pos h0, if_pos h0]
    subst h0
    rfl
  rw [if_neg h0, if_neg h0]
  by_cases h1 : a = '+'
  · rw [if_pos h1, if_pos h1]
    subst h1
    rfl
  rw [if_neg h1, if_neg h1]
  by_cases h2 : a = '-'
  · rw [if_pos h2, if_pos h2]
    subst h2
    rfl
  rw [if_neg h2, if_neg h2]
  by_cases h3 : a = '*'
  · rw [if_pos h3, if_pos h3]
    subst h3
    rfl
  rw [if_neg h3, if_neg h3]
  by_cases h4 : a = '/'
  · rw [if_pos h4, if_pos h4]
    subst h4
    rfl
  rw [if_neg h4, if_neg h4]
  by_cases h5 : a = '%'
  · rw [if_pos h5, if_pos h5]
    subst h5
    rfl
  rw [if_neg h5, if_neg h5]
  by_cases h6 : a = '<'
  · rw [if_pos h6, if_pos h6]
    subst h6
    rfl
  rw [if_neg h6, if_neg h6]
  by_cases h7 : a = '>'
  · rw [if_pos h7, if_pos h7]
    subst h7
    rfl
  rw [if_neg h7, if_neg h7]
  by_cases h8 : a = '!'
  · rw [if_pos h8, if_pos h8]
    subst h8
    rfl
  rw [if_neg h8, if_neg h8]

theorem processOperator_single (t : Tokenizer) (a : Char)
    (hk : ∀ b, t.inputFile.head? = some b → doubleOperator a b = none) :
    t.processOperator a =
      { t with tokens := t.tokens ++ [⟨operatorKind a, String.singleton a, t.lineNumber⟩] } := by
  obtain ⟨input, line, tokens, declared, errors⟩ := t
  unfold processOperator
  cases input with
  | nil => exact singleOperator_eq _ a
  | cons b rest =>
    have hb := hk b rfl
    have hpush : (String.singleton a).push b = ⟨[a, b]⟩ := rfl
    have hne : ∀ x y : Char, ¬(a = x ∧ b = y) → (⟨[a, b]⟩ : String) ≠ ⟨[x, y]⟩ := by
      intro x y hxy h
      have hdata := congrArg String.data h
      simp only [List.cons.injEq, and_true] at hdata
      exact hxy hdata
    unfold doubleOperator at hb
    split_ifs at hb with h1 h2 h3 h4 h5 h6
    simp only [hpush]
    rw [if_neg (hne _ _ h1), if_neg (hne _ _ h2), if_neg (hne _ _ h3), if_neg (hne _ _ h4),
      if_neg (hne _ _ h5), if_neg (hne _ _ h6)]
    exact singleOperator_eq _ a

/-- C20 (amended). Where the main loop of `tokenize` finds one of the
characters `+ - = < > ! & | * / %`:
if that character and the next form one of `==`, `!=`, `&&`, `||`, `>=`,
`<=`, both are read and one token of the kind of that operator is appended;
if the character is a `/` directly followed by `/` or `*`, the `/` is dropped
without a token;
in every other case one token with the character as lexeme is appended, of
the kind of the one-character operator for `= + - * / % < > !` and of the
unknown kind for `&` and `|`.
In the last two cases the loop goes on with the next character as the start
of the next token. -/
theorem operator_token (fuel : Nat) (t : Tokenizer) (a : Char) (rest : List Char)
    (ha : isOperatorChar a = true) (hin : t.inputFile = a :: rest) :
    (∀ b tail k, rest = b :: tail → doubleOperator a b = some k →
        tokenizeLoop (fuel + 1) t =
          tokenizeLoop fuel { t with
            inputFile := tail
            tokens := t.tokens ++ [⟨k, ⟨[a, b]⟩, t.lineNumber⟩] }) ∧
      (DroppedSlash a rest →
        tokenizeLoop (fuel + 1) t = tokenizeLoop fuel { t with inputFile := rest }) ∧
      ((∀ b, rest.head? = some b → doubleOperator a b = none) → ¬DroppedSlash a rest →
        tokenizeLoop (fuel + 1) t =
          tokenizeLoop fuel { t with
            inputFile := rest
            tokens := t.tokens ++ [⟨operatorKind a, String.singleton a, t.lineNumber⟩] }) := by
  have hloop := tokenizeLoop_operator fuel t a rest hin ha
  refine ⟨?_, ?_, ?_⟩
  · intro b tail k hrest hk
    have hnot : ¬(a = '/' ∧ (rest.head? = some '/' ∨ rest.head? = some '*')) := by
      rintro ⟨rfl, h⟩
      rw [hrest] at h
      simp only [List.head?_cons, Option.some.injEq] at h
      rcases h with rfl | rfl
      · rw [show doubleOperator '/' '/' = none by decide] at hk
        cases hk
      · rw [show doubleOperator '/' '*' = none by decide] at hk
        cases hk
    rw [hloop, if_neg hnot, processOperator_double _ a b tail k hrest hk]
  · intro hdrop
    unfold DroppedSlash at hdrop
    rw [hloop, if_pos hdrop]
  · intro hk hdrop
    unfold DroppedSlash at hdrop
    rw [hloop, if_neg hdrop, processOperator_single _ a hk]

/-- C20 on `===`, `<=>`, `//` and `a&b`. -/
theorem operator_token_witness :
    (tokenizeLoop (3 + 1) (ofText "===" 1) =
        tokenizeLoop 3 { ofText "===" 1 with
          inputFile := ['=']
          tokens := (ofText "===" 1).tokens ++ [⟨TOKEN_BOOLEAN_EQUAL, ⟨['=', '=']⟩, 1⟩] }) ∧
      ((ofText "===" 1).tokenize).map getTokens =
        some [⟨TOKEN_BOOLEAN_EQUAL, "==", 1⟩, ⟨TOKEN_ASSIGNMENT_OPERATOR, "=", 1⟩] ∧
      ((ofText "<=>" 1).tokenize).map getTokens =
        some [⟨TOKEN_LT_EQUAL, "<=", 1⟩, ⟨TOKEN_GT, ">", 1⟩] ∧
      ((ofText "//" 1).tokenize).map getTokens = some [⟨TOKEN_DIVIDE, "/", 1⟩] ∧
      ((ofText "a&b" 1).tokenize).map getTokens =
        some [⟨TOKEN_IDENTIFIER, "a", 1⟩, ⟨TOKEN_UNKNOWN, "&", 1⟩, ⟨TOKEN_IDENTIFIER, "b", 1⟩] :=
  ⟨(operator_token 3 (ofText "===" 1) '=' ['=', '='] (by decide) rfl).1 '=' ['=']
      TOKEN_BOOLEAN_EQUAL rfl (by decide),
    by decide, by decide, by decide, by decide⟩

/-- C20 as stated fails: on `//` and on `/*` the first `/` is followed by a
character with which it forms no two-character operator, and no token is
emitted for it: each text gives one token, for its second character. -/
theorem operator_token_counterexample :
    doubleOperator '/' '/' = none ∧ doubleOperator '/' '*' = none ∧
      ((ofText "//" 1).tokenize).map getTokens = some [⟨TOKEN_DIVIDE, "/", 1⟩] ∧
      ((ofText "/*" 1).tokenize).map getTokens = some [⟨TOKEN_ASTERISK, "*", 1⟩] := by
  decide

end Tokenizer

/-! ## The parser changes the symbol table through its interface only -/

namespace Parser

namespace Calls

theorem calls_refl (p : Parser) : Calls p p := ⟨⟨[], rfl⟩⟩

theorem calls_trans {p q r : Parser} (h1 : Calls p q) (h2 : Calls q r) : Calls p r := by
  obtain ⟨c1, h1⟩ := h1.calls
  obtain ⟨c2, h2⟩ := h2.calls
  exact ⟨⟨c1 ++ c2, by rw [List.foldl_append, ← h1, h2]⟩⟩

theorem calls_of_steady {p q : Parser} (h : Steady p q) : Calls p q :=
  ⟨⟨[], h.symbolTable⟩⟩

theorem calls_steady {p q r : Parser} (h1 : Calls p q) (h2 : Steady q r) : Calls p r :=
  h1.calls_trans (calls_of_steady h2)

theorem calls_getNextToken {p q : Parser} (h : Calls p q) : Calls p q.getNextToken.2 :=
  h.calls_steady (Steady.steady_refl q).steady_getNextToken

theorem calls_skipToken {p q : Parser} (h : Calls p q) : Calls p q.skipToken :=
  h.calls_getNextToken

theorem calls_rewind {p q : Parser} (h : Calls p q) : Calls p q.rewind :=
  h.calls_steady (Steady.steady_refl q).steady_rewind

theorem calls_reportError {p q : Parser} (h : Calls p q) (m : String) (l : Int) :
    Calls p (q.reportError m l) :=
  h.calls_steady ((Steady.steady_refl q).steady_reportError m l)

theorem calls_step {p q : Parser} (h : Calls p q) (c : SymbolTable.Call) :
    Calls p { q with symbolTable := q.symbolTable.step c } :=
  h.calls_trans ⟨⟨[c], rfl⟩⟩

theorem calls_addEntry {p q : Parser} (h : Calls p q) (e : SymbolTableEntry) :
    Calls p { q with symbolTable := (q.symbolTable.addEntry e).1 } :=
  h.calls_step (.addEntry e)

theorem calls_addFunctionParameter {p q : Parser} (h : Calls p q) (f : String)
    (e : SymbolTableEntry) :
    Calls p { q with symbolTable := q.symbolTable.addFunctionParameter f e } :=
  h.calls_step (.addFunctionParameter f e)

theorem calls_enterScope {p q : Parser} (h : Calls p q) :
    Calls p { q with symbolTable := q.symbolTable.enterScope } :=
  h.calls_step .enterScope

theorem calls_exitScope {p q : Parser} (h : Calls p q) :
    Calls p { q with symbolTable := q.symbolTable.exitScope } :=
  h.calls_step .exitScope

theorem calls_call {p q : Parser} {o : Option Parsed} (ho : Post Calls q o) (h : Calls p q) :
    Post Calls p o :=
  fun node r hr => h.calls_trans (ho node r hr)

theorem calls_call_steady {p q : Parser} {o : Option Parsed} (ho : Post Steady q o)
    (h : Calls p q) : Post Calls p o :=
  fun node r hr => h.calls_steady (ho node r hr)

theorem calls_callO {p q : Parser} {o : Option Outcome} (ho : PostO Calls q o)
    (h : Calls p q) : PostO Calls p o :=
  fun out hr => h.calls_trans (ho out hr)

theorem calls_suffix {p q : Parser} (h : Calls p q) (c : Prop) [Decidable c] (t : Token)
    (node : CSTNode) :
    Calls p (if c then parseArraySuffix t node q else (node, q)).2 := by
  split
  · exact h.calls_steady (Steady.steady_parseArraySuffix (Steady.steady_refl q) t node)
  · exact h

theorem calls_skipArguments {p q r : Parser} {fuel : Nat} (h : Calls p q)
    (hr : Parser.skipArguments fuel q = some r) : Calls p r :=
  h.calls_steady (steady_skipArguments fuel q r hr)

end Calls

theorem calls_parseDeclarators (fuel : Nat) :
    ∀ decl p, Post Calls p (parseDeclarators fuel decl p) := by
  induction fuel with
  | zero =>
    intro decl p
    rw [parseDeclarators]
    exact Post.post_none
  | succ n ih =>
    intro decl p
    rw [parseDeclarators]
    simp only []
    repeat (with_reducible first
      | exact Post.post_none
      | refine Post.post_some ?_
      | refine Post.post_ite (fun _ => ?_) (fun _ => ?_)
      | refine Post.post_matchWhat (fun _ => ?_) ?_
      | refine Calls.calls_call (ih _ _) ?_
      | assumption
      | exact Calls.calls_refl _
      | apply Calls.calls_reportError
      | apply Calls.calls_getNextToken
      | apply Calls.calls_skipToken
      | apply Calls.calls_rewind
      | apply Calls.calls_addEntry
      | apply Calls.calls_suffix)

theorem calls_parseIdentifierStatement (fuel : Nat) (token : Token) (p : Parser) :
    Post Calls p (parseIdentifierStatement fuel token p) := by
  have ihE := (steady_expression fuel).1
  unfold parseIdentifierStatement
  simp only []
  repeat (with_reducible first
    | exact Post.post_none
    | refine Post.post_some ?_
    | refine Post.post_ite (fun _ => ?_) (fun _ => ?_)
    | refine Post.post_bind ?_ (fun _ _ _ => ?_)
    | refine Post.post_bindParser (fun _ hq => Calls.calls_skipArguments ?_ hq) (fun _ _ => ?_)
    | refine Calls.calls_call_steady (ihE _ _ _) ?_
    | assumption
    | exact Calls.calls_refl _
    | apply Calls.calls_reportError
    | apply Calls.calls_getNextToken
    | apply Calls.calls_skipToken
    | apply Calls.calls_rewind)

theorem calls_parseReturnStatement (fuel : Nat) (token : Token) (p : Parser) :
    Post Calls p (parseReturnStatement fuel token p) := by
  have ihE := (steady_expression fuel).1
  unfold parseReturnStatement
  simp only []
  repeat (with_reducible first
    | exact Post.post_none
    | refine Post.post_some ?_
    | refine Post.post_ite (fun _ => ?_) (fun _ => ?_)
    | refine Post.post_bind ?_ (fun _ _ _ => ?_)
    | refine Calls.calls_call_steady (ihE _ _ _) ?_
    | assumption
    | exact Calls.calls_refl _
    | apply Calls.calls_reportError
    | apply Calls.calls_getNextToken
    | apply Calls.calls_skipToken
    | apply Calls.calls_rewind)

theorem calls_parseForIncrement (fuel : Nat) (forNode : CSTNode) (p : Parser) :
    Post Calls p (parseForIncrement fuel forNode p) := by
  have ihE := (steady_expression fuel).1
  unfold parseForIncrement
  simp only []
  repeat (with_reducible first
    | exact Post.post_none
    | refine Post.post_some ?_
    | refine Post.post_ite (fun _ => ?_) (fun _ => ?_)
    | refine Post.post_bind ?_ (fun _ _ _ => ?_)
    | refine Calls.calls_call_steady (ihE _ _ _) ?_
    | assumption
    | exact Calls.calls_refl _
    | apply Calls.calls_reportError
    | apply Calls.calls_getNextToken
    | apply Calls.calls_skipToken
    | apply Calls.calls_rewind)

set_option maxRecDepth 100000 in
set_option maxHeartbeats 2000000 in
theorem calls_statement (fuel : Nat) :
    (∀ p, Post Calls p (parseStatement fuel p)) ∧
    (∀ closing node p, Post Calls p (parseBlock fuel closing node p)) := by
  induction fuel with
  | zero =>
    refine ⟨?_, ?_⟩ <;> intros <;> first
      | (rw [parseStatement]; exact Post.post_none)
      | (rw [parseBlock]; exact Post.post_none)
  | succ n ih =>
    obtain ⟨ihS, ihB⟩ := ih
    have ihE := (steady_expression n).1
    refine ⟨?_, ?_⟩
    · intro p
      rw [parseStatement]
      simp only []
      repeat (with_reducible first
        | exact Post.post_none
        | refine Post.post_some ?_
        | refine Post.post_ite (fun _ => ?_) (fun _ => ?_)
        | refine Post.post_bind ?_ (fun _ _ _ => ?_)
        | refine Calls.calls_call (ihS _) ?_
        | refine Calls.calls_call (ihB _ _ _) ?_
        | refine Calls.calls_call (calls_parseDeclarators _ _ _) ?_
        | refine Calls.calls_call (calls_parseIdentifierStatement _ _ _) ?_
        | refine Calls.calls_call (calls_parseReturnStatement _ _ _) ?_
        | refine Calls.calls_call (calls_parseForIncrement _ _ _) ?_
        | refine Calls.calls_call_steady (ihE _ _ _) ?_
        | assumption
        | exact Calls.calls_refl _
        | apply Calls.calls_reportError
        | apply Calls.calls_getNextToken
        | apply Calls.calls_skipToken
        | apply Calls.calls_rewind)
    · intro closing node p
      rw [parseBlock]
      simp only []
      repeat (with_reducible first
        | exact Post.post_none
        | refine Post.post_some ?_
        | refine Post.post_ite (fun _ => ?_) (fun _ => ?_)
        | refine Post.post_bind ?_ (fun _ _ _ => ?_)
        | refine Calls.calls_call (ihS _) ?_
        | refine Calls.calls_call (ihB _ _ _) ?_
        | assumption
        | exact Calls.calls_refl _
        | apply Calls.calls_reportError
        | apply Calls.calls_getNextToken
        | apply Calls.calls_skipToken
        | apply Calls.calls_rewind)

set_option maxRecDepth 100000 in
set_option maxHeartbeats 2000000 in
theorem calls_parseParameters (fuel : Nat) :
    ∀ procName currentScope node p,
      PostO Calls p (parseParameters fuel procName currentScope node p) := by
  induction fuel with
  | zero =>
    intro procName currentScope node p
    rw [parseParameters]
    exact PostO.postO_none
  | succ n ih =>
    intro procName currentScope node p
    rw [parseParameters]
    simp only []
    repeat (with_reducible first
      | exact PostO.postO_none
      | refine PostO.postO_returned ?_
      | refine PostO.postO_threw ?_
      | refine PostO.postO_ite (fun _ => ?_) (fun _ => ?_)
      | refine PostO.postO_matchInt ?_ (fun _ => ?_)
      | refine Calls.calls_callO (ih _ _ _ _) ?_
      | assumption
      | exact Calls.calls_refl _
      | apply Calls.calls_reportError
      | apply Calls.calls_getNextToken
      | apply Calls.calls_skipToken
      | apply Calls.calls_rewind
      | apply Calls.calls_addFunctionParameter)

theorem calls_parseProcedureRest (fuel : Nat) (nodeType : String) (rt : Token)
    (procName : String) (currentScope : Int) (node : CSTNode) (p : Parser) :
    PostO Calls p (parseProcedureRest fuel nodeType rt procName currentScope node p) := by
  have ihB := (calls_statement fuel).2
  unfold parseProcedureRest
  simp only []
  repeat (with_reducible first
    | exact PostO.postO_none
    | refine PostO.postO_returned ?_
    | refine PostO.postO_threw ?_
    | refine PostO.postO_ite (fun _ => ?_) (fun _ => ?_)
    | refine PostO.postO_bindOutcome ?_ (fun _ _ _ => ?_)
    | refine PostO.postO_bindParsed ?_ (fun _ _ _ => ?_)
    | refine Calls.calls_callO (calls_parseParameters _ _ _ _ _) ?_
    | refine Calls.calls_call (ihB _ _ _) ?_
    | assumption
    | exact Calls.calls_refl _
    | apply Calls.calls_reportError
    | apply Calls.calls_getNextToken
    | apply Calls.calls_skipToken
    | apply Calls.calls_exitScope)

theorem calls_parseProcedure (fuel : Nat) (nodeType : String) (rt : Token) (p : Parser) :
    PostO Calls p (parseProcedure fuel nodeType rt p) := by
  have hreg := fun e => ((Calls.calls_refl p).calls_getNextToken.calls_enterScope).calls_addEntry e
  unfold parseProcedure
  simp only []
  refine PostO.postO_ite (fun _ => ?_) (fun _ => ?_)
  · refine PostO.postO_ite (fun _ => ?_) (fun _ => ?_) <;>
      exact PostO.postO_returned ((Calls.calls_refl p).calls_getNextToken.calls_reportError _ _)
  · refine PostO.postO_matchWhat (fun _ => ?_) ?_
    · exact PostO.postO_returned ((hreg _).calls_reportError _ _)
    · exact Calls.calls_callO (calls_parseProcedureRest _ _ _ _ _ _ _) (hreg _)

set_option maxHeartbeats 1000000 in
theorem calls_parseProgramLoop (fuel : Nat) :
    ∀ root p, PostO Calls p (parseProgramLoop fuel root p) := by
  induction fuel with
  | zero =>
    intro root p
    rw [parseProgramLoop]
    exact PostO.postO_none
  | succ n ih =>
    intro root p
    have ihS := (calls_statement n).1
    rw [parseProgramLoop]
    simp only []
    refine PostO.postO_ite (fun _ => PostO.postO_returned (Calls.calls_refl p)) (fun _ => ?_)
    refine PostO.postO_ite (fun _ => ?_) (fun _ => ?_)
    · have hp : Calls p
          (if decide (p.getNextToken.1.value = "function") = true then
            p.getNextToken.2.getNextToken.2 else p.getNextToken.2) := by
        split
        · exact (Calls.calls_refl p).calls_getNextToken.calls_getNextToken
        · exact (Calls.calls_refl p).calls_getNextToken
      refine PostO.postO_ite (fun _ => PostO.postO_returned (hp.calls_reportError _ _)) (fun _ => ?_)
      refine PostO.postO_bindOutcome (Calls.calls_callO (calls_parseProcedure _ _ _ _) hp) (fun _ _ hq => ?_)
      exact Calls.calls_callO (ih _ _) hq
    · refine PostO.postO_bindParsed
        (Calls.calls_call (ihS _) (Calls.calls_refl p).calls_getNextToken.calls_rewind) (fun _ _ hq => ?_)
      refine PostO.postO_ite (fun _ => PostO.postO_returned (hq.calls_reportError _ _)) (fun _ => ?_)
      exact Calls.calls_callO (ih _ _) hq

/-- The symbol table that `parseProgram` leaves is one that calls of the
interface of the symbol table reach from the empty table. -/
theorem symbolTable_parseProgram (fuel : Nat) (tokens : List Token) (out : Outcome)
    (h : parseProgram fuel (ofTokens tokens) = some out) :
    ∃ calls, out.parser.symbolTable = SymbolTable.run calls :=
  (calls_parseProgramLoop fuel _ _ out h).calls

end Parser

/-! ## C11, C12 on the parser -/

namespace Parser

/-- C11 (amended). Parameter lists are not checked for duplicates:
`addFunctionParameter` appends the parameter to the list kept under the name
of the procedure, whatever the name of the parameter, and the header
`procedure f(int a, int a) \x7b \x7d` is lexed and parsed without a
diagnostic, leaving two parameters named `a` in the list of `f`. The error
for a parameter name is reported for a local declaration that takes it:
`procedure f(int a) \x7b int a; \x7d` records "variable "a" is already
defined locally". -/
theorem parameters_appended_unchecked :
    (∀ (t : SymbolTable) (f : String) (q : SymbolTableEntry),
        (t.addFunctionParameter f q).parametersOf f = t.parametersOf f ++ [q]) ∧
      ((Tokenizer.ofText "procedure f(int a, int a) \x7b \x7d" 1).tokenize).map
          (fun t => (t.getTokens, t.errorHandler.errors)) =
        some (duplicateParameterProgram, []) ∧
      (parseProgram 4 (ofTokens duplicateParameterProgram)).map
          (fun o => (o.errors, o.parser.symbolTable.parameterLists)) =
        some ([], [("f", [⟨"a", "parameter", "int", false, 0, 1⟩,
          ⟨"a", "parameter", "int", false, 0, 1⟩])]) ∧
      (parseProgram 4 (ofTokens parameterAsLocalProgram)).map
          (fun o => (o.errors, o.parser.symbolTable.parameterLists)) =
        some ([(1, "variable \"a\" is already defined locally"), (1, "Invalid statement.")],
          [("f", [⟨"a", "parameter", "int", false, 0, 1⟩])]) := by
  refine ⟨SymbolTable.parametersOf_addFunctionParameter, ?_, ?_, ?_⟩ <;> decide

/-- C11 as stated fails: two `addFunctionParameter` calls for `f` with a
parameter named `a` leave a list with two parameters of that name, and so
does `parseProgram` on `procedure f(int a, int a) \x7b \x7d`, without a
diagnostic. -/
theorem distinct_parameters_counterexample :
    ¬SymbolTable.DistinctParameters
        (SymbolTable.run
          [.addFunctionParameter "f" ⟨"a", "parameter", "int", false, 0, 1⟩,
            .addFunctionParameter "f" ⟨"a", "parameter", "int", false, 0, 1⟩]).parameterLists ∧
      (parseProgram 4 (ofTokens duplicateParameterProgram)).map
          (fun o => (o.errors, o.parser.symbolTable.parameterLists)) =
        some ([], [("f", [⟨"a", "parameter", "int", false, 0, 1⟩,
          ⟨"a", "parameter", "int", false, 0, 1⟩])]) ∧
      ¬SymbolTable.DistinctParameters
        [("f", [⟨"a", "parameter", "int", false, 0, 1⟩,
          (⟨"a", "parameter", "int", false, 0, 1⟩ : SymbolTableEntry)])] := by
  unfold SymbolTable.DistinctParameters
  refine ⟨?_, ?_, ?_⟩ <;> decide

/-- C12 (amended). In every table reached from the empty one by calls of the
interface of the symbol table, and in every table `parseProgram` leaves, no
entry outside scope 0 has the name of a scope-0 entry that was added before
it. (An entry of scope 0 may take the name of an earlier entry of another
scope.) -/
theorem no_shadow_of_earlier_global :
    (∀ calls, SymbolTable.NoShadowOfEarlierGlobal (SymbolTable.run calls).entries) ∧
      ∀ fuel tokens out, parseProgram fuel (ofTokens tokens) = some out →
        SymbolTable.NoShadowOfEarlierGlobal out.parser.symbolTable.entries := by
  have hrun : ∀ calls, SymbolTable.NoShadowOfEarlierGlobal (SymbolTable.run calls).entries :=
    fun calls => SymbolTable.noShadow_foldl calls {} List.Pairwise.nil
  refine ⟨hrun, fun fuel tokens out h => ?_⟩
  obtain ⟨calls, hcalls⟩ := symbolTable_parseProgram fuel tokens out h
  rw [hcalls]
  exact hrun calls

/-- C12 on `procedure f() \x7b int x; \x7d int x;`. -/
theorem no_shadow_of_earlier_global_witness :
    ∃ out, parseProgram 5 (ofTokens localThenGlobalProgram) = some out ∧
      SymbolTable.NoShadowOfEarlierGlobal out.parser.symbolTable.entries := by
  cases h : parseProgram 5 (ofTokens localThenGlobalProgram) with
  | none => exact absurd h (by decide)
  | some out => exact ⟨out, rfl, no_shadow_of_earlier_global.2 5 _ out h⟩

/-- C12 as stated fails: after `addEntry` of `x` at scope 1 and then of `x`
at scope 0 both entries are in the table, and `parseProgram` on
`procedure f() \x7b int x; \x7d int x;` leaves `x` at scope 1 and `x` at
scope 0 without a diagnostic. -/
theorem no_global_shadow_counterexample :
    ¬SymbolTable.NoGlobalShadow
        (SymbolTable.run
          [.addEntry ⟨"x", "datatype", "int", false, 0, 1⟩,
            .addEntry ⟨"x", "datatype", "int", false, 0, 0⟩]).entries ∧
      ((Tokenizer.ofText "procedure f() \x7b int x; \x7d int x;" 1).tokenize).map
          (fun t => (t.getTokens, t.errorHandler.errors)) =
        some (localThenGlobalProgram, []) ∧
      (parseProgram 5 (ofTokens localThenGlobalProgram)).map
          (fun o => (o.errors, o.parser.symbolTable.entries)) =
        some ([], [⟨"f", "procedure", "NOT APPLICABLE", false, 0, 1⟩,
          ⟨"x", "datatype", "int", false, 0, 1⟩, ⟨"x", "datatype", "int", false, 0, 0⟩]) ∧
      ¬SymbolTable.NoGlobalShadow
        [⟨"f", "procedure", "NOT APPLICABLE", false, 0, 1⟩,
          ⟨"x", "datatype", "int", false, 0, 1⟩, ⟨"x", "datatype", "int", false, 0, 0⟩] := by
  unfold SymbolTable.NoGlobalShadow
  refine ⟨?_, ?_, ?_, ?_⟩ <;> decide

end Parser

/-! ## C16, C17: the token stream -/

namespace TokenStream

/-- C16. With the cursor at `i` in a stream of `len` tokens: if `i < len`,
`getNextToken` returns the token at `i` and leaves the cursor at `i + 1`; if
`i = len`, it returns the token of kind unknown with lexeme "EOF" and line -1
and leaves the stream as it was; `peekNextToken`, which assigns to nothing,
returns what `getNextToken` returns; `hasMoreTokens` is true exactly when
`i < len`. -/
theorem getNextToken_contract (ts : TokenStream) :
    (∀ h : ts.currentIndex < ts.tokens.length,
        ts.getNextToken =
          (ts.tokens.get ⟨ts.currentIndex, h⟩, { ts with currentIndex := ts.currentIndex + 1 })) ∧
      (ts.currentIndex = ts.tokens.length →
        ts.getNextToken = (⟨TOKEN_UNKNOWN, "EOF", -1⟩, ts)) ∧
      ts.peekNextToken = ts.getNextToken.1 ∧
      (ts.hasMoreTokens = true ↔ ts.currentIndex < ts.tokens.length) := by
  refine ⟨?_, ?_, ?_, ?_⟩
  · intro h
    simp only [getNextToken, List.getElem?_eq_getElem h, List.get_eq_getElem]
  · intro h
    simp only [getNextToken, h, List.getElem?_eq_none (le_refl _), endToken]
  · simp only [peekNextToken, getNextToken]
    split <;> rfl
  · simp [hasMoreTokens]

/-- C16 on a stream of two tokens: with the cursor at 1 the second token is
returned and the cursor moves to 2, where the end token is returned. -/
theorem getNextToken_contract_witness :
    (({ tokens := [⟨TOKEN_TYPE, "int", 1⟩, ⟨TOKEN_IDENTIFIER, "x", 1⟩], currentIndex := 1 } :
        TokenStream).getNextToken =
      (⟨TOKEN_IDENTIFIER, "x", 1⟩,
        { tokens := [⟨TOKEN_TYPE, "int", 1⟩, ⟨TOKEN_IDENTIFIER, "x", 1⟩], currentIndex := 2 })) ∧
    (({ tokens := [⟨TOKEN_TYPE, "int", 1⟩, ⟨TOKEN_IDENTIFIER, "x", 1⟩], currentIndex := 2 } :
        TokenStream).getNextToken =
      (⟨TOKEN_UNKNOWN, "EOF", -1⟩,
        { tokens := [⟨TOKEN_TYPE, "int", 1⟩, ⟨TOKEN_IDENTIFIER, "x", 1⟩], currentIndex := 2 })) :=
  ⟨(getNextToken_contract
      { tokens := [⟨TOKEN_TYPE, "int", 1⟩, ⟨TOKEN_IDENTIFIER, "x", 1⟩], currentIndex := 1 }).1
      (by decide),
    (getNextToken_contract
      { tokens := [⟨TOKEN_TYPE, "int", 1⟩, ⟨TOKEN_IDENTIFIER, "x", 1⟩], currentIndex := 2 }).2.1
      rfl⟩

/-- Where a token was read, `rewind` undoes the `getNextToken`. -/
theorem rewind_getNextToken (ts : TokenStream) (h : ts.currentIndex < ts.tokens.length) :
    ts.getNextToken.2.rewind = ts := by
  simp [getNextToken, List.getElem?_eq_getElem h, rewind]

theorem currentIndex_apply (ts : TokenStream) (op : Op)
    (h : ts.currentIndex ≤ ts.tokens.length) :
    (ts.apply op).tokens = ts.tokens ∧ (ts.apply op).currentIndex ≤ ts.tokens.length := by
  cases op with
  | getNextToken =>
    simp only [apply, getNextToken]
    split
    · rename_i t ht
      have := (List.getElem?_eq_some_iff.mp ht).1
      exact ⟨rfl, this⟩
    · exact ⟨rfl, h⟩
  | peekNextToken => exact ⟨rfl, h⟩
  | rewind =>
    simp only [apply, rewind]
    split
    · exact ⟨rfl, le_trans (Nat.sub_le _ _) h⟩
    · exact ⟨rfl, h⟩

/-- The cursor stays between 0 and the number of tokens, whatever the calls. -/
theorem currentIndex_after (tokens : List Token) (ops : List Op) :
    (after tokens ops).tokens = tokens ∧ (after tokens ops).currentIndex ≤ tokens.length := by
  unfold after
  induction ops using List.reverseRecOn with
  | nil => exact ⟨rfl, Nat.zero_le _⟩
  | append_singleton ops op ih =>
    rw [List.foldl_append]
    have := currentIndex_apply (ops.foldl apply { tokens := tokens }) op (by rw [ih.1]; exact ih.2)
    simp only [List.foldl_cons, List.foldl_nil]
    exact ⟨this.1.trans ih.1, le_of_le_of_eq this.2 (congrArg List.length ih.1)⟩

/-- C17 at the end of the stream. After the only token of the stream
`return` has been read, `getNextToken` returns the end token and leaves the
cursor at 1; `rewind` then moves the cursor to 0, not back to 1, and the next
`getNextToken` returns `return` where the call before returned the end token.
`parseStatement` meets this on the program `return`: after the `rewind` of
Parser.cpp line 631 it reads the keyword `return` a second time, as the
start of an expression. -/
theorem rewind_after_end_token :
    (after [⟨TOKEN_KEYWORD, "return", 1⟩] [Op.getNextToken]).currentIndex = 1 ∧
      (after [⟨TOKEN_KEYWORD, "return", 1⟩] [Op.getNextToken]).getNextToken.1 = endToken ∧
      (after [⟨TOKEN_KEYWORD, "return", 1⟩] [Op.getNextToken]).getNextToken.2.currentIndex = 1 ∧
      (after [⟨TOKEN_KEYWORD, "return", 1⟩] [Op.getNextToken]).getNextToken.2.rewind.currentIndex
        = 0 ∧
      (after [⟨TOKEN_KEYWORD, "return", 1⟩]
        [Op.getNextToken]).getNextToken.2.rewind.getNextToken.1 = ⟨TOKEN_KEYWORD, "return", 1⟩ ∧
      (Parser.parseStatement 3 (Parser.ofTokens [⟨TOKEN_KEYWORD, "return", 1⟩])).map
          (fun r => (r.2.errorHandler.errors, r.2.tokenStream.currentIndex)) =
        some ([(1, "Invalid expression."), (-1, "Expected ';' after return statement.")], 1) := by
  decide

end TokenStream

/-! ## C21 to C26: unknown characters, literals, the slash, diagnostics and lines -/

namespace Tokenizer

theorem tokenizeLoop_unknown (fuel : Nat) (t : Tokenizer) (c : Char) (rest : List Char)
    (hin : t.inputFile = c :: rest) (hspace : isspace c = false)
    (hword : isWordStart c = false) (hdigit : isdigit c = false)
    (hop : isOperatorChar c = false) (hpunct : isPunctuationChar c = false)
    (hdq : c ≠ '"') (hsq : c ≠ '\'') :
    tokenizeLoop (fuel + 1) t =
      tokenizeLoop fuel { t with
        inputFile := rest
        errorHandler :=
          ⟨t.errorHandler.errors ++
            [(t.lineNumber, "Unknown token encountered: '" ++ String.singleton c ++ "'")]⟩ } := by
  have hw : (isalpha c || decide (c = '_')) = false := hword
  rw [tokenizeLoop]
  simp only [hin, hspace, hw, hdigit, hop, hpunct, hdq, hsq, Bool.false_eq_true, if_false]
  rfl

/-- C21 at `@` and at a lone `&`. For a character that is no white space, no
letter, digit or underscore, none of `+ - = < > ! & | * / %`, no punctuation
and no quote, the main loop of `tokenize` records the diagnostic
"Unknown token encountered" and appends no token: `a @ b` gives the tokens
`a`, `b` and one diagnostic. For a lone `&` it appends a token of kind
unknown and records no diagnostic: `a & b` gives the tokens `a`, `&`, `b` and
no diagnostic. No character gets both. -/
theorem unknown_character_token_or_diagnostic :
    (∀ (fuel : Nat) (t : Tokenizer) (c : Char) (rest : List Char),
        t.inputFile = c :: rest → isspace c = false → isWordStart c = false →
        isdigit c = false → isOperatorChar c = false → isPunctuationChar c = false →
        c ≠ '"' → c ≠ '\'' →
        tokenizeLoop (fuel + 1) t =
          tokenizeLoop fuel { t with
            inputFile := rest
            errorHandler :=
              ⟨t.errorHandler.errors ++
                [(t.lineNumber,
                  "Unknown token encountered: '" ++ String.singleton c ++ "'")]⟩ }) ∧
      ((ofText "a @ b" 1).tokenize).map (fun t => (t.getTokens, t.errorHandler.errors)) =
        some ([⟨TOKEN_IDENTIFIER, "a", 1⟩, ⟨TOKEN_IDENTIFIER, "b", 1⟩],
          [(1, "Unknown token encountered: '@'")]) ∧
      ((ofText "a & b" 1).tokenize).map (fun t => (t.getTokens, t.errorHandler.errors)) =
        some ([⟨TOKEN_IDENTIFIER, "a", 1⟩, ⟨TOKEN_UNKNOWN, "&", 1⟩, ⟨TOKEN_IDENTIFIER, "b", 1⟩],
          []) := by
  refine ⟨tokenizeLoop_unknown, ?_, ?_⟩ <;> decide

/-- C22 at a quote that follows an escaped backslash. The text of four
characters `"`, `\`, `\`, `"` is the string literal that holds one escaped
backslash; the lexer takes its second quote for an escaped one, reads on to
the end of the input and records "unterminated string literal": no token.
When more text follows, the literal runs on to the next quote:
`"`, `\`, `\`, `"`, ` `, `x`, `"` gives one STRING token of seven characters.
A quote after a single backslash is escaped, and `\x41` is copied as it
stands. -/
theorem string_after_escaped_backslash :
    ((ofText ⟨['"', '\\', '\\', '"']⟩ 1).tokenize).map
        (fun t => (t.getTokens, t.errorHandler.errors)) =
      some ([], [(1, "Syntax error: unterminated string literal starting here.")]) ∧
    ((ofText ⟨['"', '\\', '\\', '"', ' ', 'x', '"']⟩ 1).tokenize).map
        (fun t => (t.getTokens, t.errorHandler.errors)) =
      some ([⟨TOKEN_STRING, ⟨['"', '\\', '\\', '"', ' ', 'x', '"']⟩, 1⟩], []) ∧
    ((ofText ⟨['"', 'a', '\\', '"', 'b', '"', ' ', 'x']⟩ 1).tokenize).map
        (fun t => (t.getTokens, t.errorHandler.errors)) =
      some ([⟨TOKEN_STRING, ⟨['"', 'a', '\\', '"', 'b', '"']⟩, 1⟩, ⟨TOKEN_IDENTIFIER, "x", 1⟩],
        []) ∧
    ((ofText ⟨['"', '\\', 'x', '4', '1', '"']⟩ 1).tokenize).map
        (fun t => (t.getTokens, t.errorHandler.errors)) =
      some ([⟨TOKEN_STRING, ⟨['"', '\\', 'x', '4', '1', '"']⟩, 1⟩], []) := by
  refine ⟨?_, ?_, ?_, ?_⟩ <;> decide

/-- C23 at `'ab'` and `''`. The lexer makes a CHAR_LITERAL token of all the
text up to the next single quote that no backslash precedes: `'ab'`, with two
characters, and `''`, with none, each give one CHAR_LITERAL token and no
diagnostic. A newline before the closing quote and the end of the input are
reported, with two different messages and without a token. -/
theorem char_literal_of_any_length :
    ((ofText "'ab'" 1).tokenize).map (fun t => (t.getTokens, t.errorHandler.errors)) =
      some ([⟨TOKEN_CHAR_LITERAL, "'ab'", 1⟩], []) ∧
    ((ofText "''" 1).tokenize).map (fun t => (t.getTokens, t.errorHandler.errors)) =
      some ([⟨TOKEN_CHAR_LITERAL, "''", 1⟩], []) ∧
    ((ofText "'a\n" 1).tokenize).map (fun t => (t.getTokens, t.errorHandler.errors)) =
      some ([], [(1, "Syntax error: unterminated character literal.")]) ∧
    ((ofText "'a" 1).tokenize).map (fun t => (t.getTokens, t.errorHandler.errors)) =
      some ([], [(1, "Syntax error: unterminated character literal at end of file.")]) := by
  refine ⟨?_, ?_, ?_, ?_⟩ <;> decide

theorem tokenizeLoop_slash (fuel : Nat) (t : Tokenizer) (rest : List Char)
    (hin : t.inputFile = '/' :: rest) :
    tokenizeLoop (fuel + 1) t =
      if rest.head? = some '/' ∨ rest.head? = some '*' then
        tokenizeLoop fuel { t with inputFile := rest }
      else
        tokenizeLoop fuel { t with
          inputFile := rest
          tokens := t.tokens ++ [⟨TOKEN_DIVIDE, "/", t.lineNumber⟩] } := by
  rw [tokenizeLoop_operator fuel t '/' rest hin (by decide)]
  by_cases h : rest.head? = some '/' ∨ rest.head? = some '*'
  · rw [if_pos ⟨rfl, h⟩, if_pos h]
  · rw [if_neg (fun h' => h h'.2), if_neg h, processOperator_single]
    · rfl
    · intro b _
      unfold doubleOperator
      simp

/-- C25 at an unknown character and at unterminated literals. After a
diagnostic for an unknown character the lexer goes on and keeps its tokens:
`x @ y` gives the tokens `x` and `y`. After an unterminated string it stops
and keeps the tokens it has: `x "abc` gives the token `x`. After an
unterminated char literal it goes on and keeps its tokens. Only an invalid
integer empties the token list. -/
theorem tokens_kept_after_diagnostic :
    ((ofText "x @ y" 1).tokenize).map (fun t => (t.getTokens, t.errorHandler.errors)) =
      some ([⟨TOKEN_IDENTIFIER, "x", 1⟩, ⟨TOKEN_IDENTIFIER, "y", 1⟩],
        [(1, "Unknown token encountered: '@'")]) ∧
    ((ofText "x \"abc" 1).tokenize).map (fun t => (t.getTokens, t.errorHandler.errors)) =
      some ([⟨TOKEN_IDENTIFIER, "x", 1⟩],
        [(1, "Syntax error: unterminated string literal starting here.")]) ∧
    ((ofText "x 'a\ny" 1).tokenize).map (fun t => (t.getTokens, t.errorHandler.errors)) =
      some ([⟨TOKEN_IDENTIFIER, "x", 1⟩, ⟨TOKEN_IDENTIFIER, "y", 1⟩],
        [(1, "Syntax error: unterminated character literal.")]) ∧
    ((ofText "x 12ab y" 1).tokenize).map (fun t => (t.getTokens, t.errorHandler.errors)) =
      some ([], [(1, "Syntax error: invalid integer '12ab'")]) := by
  refine ⟨?_, ?_, ?_, ?_⟩ <;> decide

/-- C26 at a newline inside a string literal. In the text of the two lines
`"a` and `b" x`, read from line 1, the token `x` stands on line 2 and gets
line 1: the newline inside the string literal is not counted. Newlines
between tokens are counted: in `a`, empty line, `b` the token `b` gets line 3. -/
theorem line_after_newline_in_string :
    ((ofText "\"a\nb\" x" 1).tokenize).map (fun t => (t.getTokens, t.errorHandler.errors)) =
      some ([⟨TOKEN_STRING, "\"a\nb\"", 1⟩, ⟨TOKEN_IDENTIFIER, "x", 1⟩], []) ∧
    ((ofText "a\n\nb" 1).tokenize).map (fun t => (t.getTokens, t.errorHandler.errors)) =
      some ([⟨TOKEN_IDENTIFIER, "a", 1⟩, ⟨TOKEN_IDENTIFIER, "b", 3⟩], []) := by
  refine ⟨?_, ?_⟩ <;> decide

end Tokenizer

/-! ## Invariants of the main loop of `tokenize` -/

namespace Tokenizer

/-- A property that every turn of the main loop of `tokenize` keeps holds
when the loop ends, and the loop ends only at the end of the input. -/
theorem tokenizeLoop_invariant (P : Tokenizer → Prop)
    (hspace : ∀ (t : Tokenizer) c cs, t.inputFile = c :: cs → isspace c = true → P t →
      P (if c = '\n' then
          { t with inputFile := cs, lineNumber := toInt32 (t.lineNumber + 1) }
        else { t with inputFile := cs }).skipWhitespace)
    (hword : ∀ (t : Tokenizer) c cs, t.inputFile = c :: cs → isWordStart c = true → P t →
      P ({ t with inputFile := cs }.processIdentifierOrKeyword c))
    (hnumber : ∀ (t : Tokenizer) c cs, t.inputFile = c :: cs → isdigit c = true → P t →
      P ({ t with inputFile := cs }.processNumber c))
    (hslash : ∀ (t : Tokenizer) cs, t.inputFile = '/' :: cs →
      (cs.head? = some '/' ∨ cs.head? = some '*') → P t → P { t with inputFile := cs })
    (hoperator : ∀ (t : Tokenizer) c cs, t.inputFile = c :: cs → isOperatorChar c = true →
      ¬(c = '/' ∧ (cs.head? = some '/' ∨ cs.head? = some '*')) → P t →
      P ({ t with inputFile := cs }.processOperator c))
    (hpunctuation : ∀ (t : Tokenizer) c cs, t.inputFile = c :: cs →
      isPunctuationChar c = true → P t → P ({ t with inputFile := cs }.processPunctuation c))
    (hstring : ∀ fuel (t : Tokenizer) cs u, t.inputFile = '"' :: cs →
      processStringLiteral fuel { t with inputFile := cs } '"' = some u → P t → P u)
    (hchar : ∀ fuel (t : Tokenizer) cs u, t.inputFile = '\'' :: cs →
      processCharLiteral fuel { t with inputFile := cs } = some u → P t → P u)
    (hunknown : ∀ (t : Tokenizer) c cs, t.inputFile = c :: cs → P t →
      P ({ t with inputFile := cs }.processUnknown c)) :
    ∀ fuel t u, tokenizeLoop fuel t = some u → P t → P u ∧ u.inputFile = [] := by
  intro fuel
  induction fuel with
  | zero =>
    intro t u h
    rw [tokenizeLoop] at h
    cases h
  | succ n ih =>
    intro t u h hP
    rw [tokenizeLoop] at h
    cases hin : t.inputFile with
    | nil =>
      rw [hin] at h
      simp only [Option.some.injEq] at h
      subst h
      exact ⟨hP, hin⟩
    | cons c cs =>
      rw [hin] at h
      simp only [] at h
      by_cases h1 : isspace c = true
      · rw [if_pos h1] at h
        refine ih _ u h ?_
        have := hspace t c cs hin h1 hP
        by_cases hn : c = '\n'
        · simpa [hn] using this
        · simpa [hn] using this
      rw [if_neg h1] at h
      by_cases h2 : (isalpha c || decide (c = '_')) = true
      · rw [if_pos h2] at h
        exact ih _ u h (hword t c cs hin h2 hP)
      rw [if_neg h2] at h
      by_cases h3 : isdigit c = true
      · rw [if_pos h3] at h
        exact ih _ u h (hnumber t c cs hin h3 hP)
      rw [if_neg h3] at h
      by_cases h4 : isOperatorChar c = true
      · rw [if_pos h4] at h
        by_cases h5 : c = '/' ∧ (cs.head? = some '/' ∨ cs.head? = some '*')
        · rw [if_pos h5] at h
          obtain ⟨rfl, h5⟩ := h5
          exact ih _ u h (hslash t cs hin h5 hP)
        · rw [if_neg h5] at h
          exact ih _ u h (hoperator t c cs hin h4 h5 hP)
      rw [if_neg h4] at h
      by_cases h6 : isPunctuationChar c = true
      · rw [if_pos h6] at h
        exact ih _ u h (hpunctuation t c cs hin h6 hP)
      rw [if_neg h6] at h
      by_cases h7 : c = '"'
      · rw [if_pos h7] at h
        subst h7
        cases hs : processStringLiteral n { t with inputFile := cs } '"' with
        | none => rw [hs] at h; cases h
        | some v =>
          rw [hs] at h
          exact ih _ u h (hstring n t cs v hin hs hP)
      rw [if_neg h7] at h
      by_cases h8 : c = '\''
      · rw [if_pos h8] at h
        subst h8
        cases hs : processCharLiteral n { t with inputFile := cs } with
        | none => rw [hs] at h; cases h
        | some v =>
          rw [hs] at h
          exact ih _ u h (hchar n t cs v hin hs hP)
      rw [if_neg h8] at h
      exact ih _ u h (hunknown t c cs hin hP)

end Tokenizer

/-! ## The lexemes of the tokens and the text -/

namespace Tokenizer

theorem skipWhitespaceLoop_spec (cs : List Char) (line : Int) :
    ∃ ws, cs = ws ++ (skipWhitespaceLoop cs line).1 ∧ ∀ c ∈ ws, isspace c = true := by
  induction cs generalizing line with
  | nil => exact ⟨[], rfl, by simp⟩
  | cons c cs ih =>
    by_cases hc : isspace c = true
    · obtain ⟨ws, h1, h2⟩ := ih (if c = '\n' then toInt32 (line + 1) else line)
      refine ⟨c :: ws, ?_, ?_⟩
      · simp only [skipWhitespaceLoop, hc, Bool.not_true, Bool.false_eq_true, if_false,
          List.cons_append]
        rw [← h1]
      · intro d hd
        rcases List.mem_cons.mp hd with rfl | hd
        · exact hc
        · exact h2 d hd
    · refine ⟨[], ?_, by simp⟩
      simp [skipWhitespaceLoop, hc]

theorem scanWord_spec (cs : List Char) (value : String) :
    ∃ taken, cs = taken ++ (scanWord cs value).2 ∧
      (scanWord cs value).1.data = value.data ++ taken ∧
      (∀ d ∈ taken, isWordChar d = true) ∧
      ∀ d, (scanWord cs value).2.head? = some d → isWordChar d = false := by
  induction cs generalizing value with
  | nil => exact ⟨[], rfl, by simp [scanWord], by simp, by simp [scanWord]⟩
  | cons c cs ih =>
    by_cases hc : (isalnum c || decide (c = '_')) = true
    · obtain ⟨taken, h1, h2, h3, h4⟩ := ih (value.push c)
      refine ⟨c :: taken, ?_, ?_, ?_, ?_⟩
      · simp only [scanWord, hc, if_true, List.cons_append]
        rw [← h1]
      · simp only [scanWord, hc, if_true]
        rw [h2]
        simp [String.push]
      · intro d hd
        rcases List.mem_cons.mp hd with rfl | hd
        · exact hc
        · exact h3 d hd
      · simpa only [scanWord, hc, if_true] using h4
    · refine ⟨[], ?_, ?_, by simp, ?_⟩
      · simp [scanWord, hc]
      · simp [scanWord, hc]
      · intro d hd
        simp only [scanWord, hc, Bool.false_eq_true, if_false, List.head?_cons,
          Option.some.injEq] at hd
        subst hd
        simpa [isWordChar] using hc

theorem scanNumber_spec (cs : List Char) (value : String) (invalid : Bool) :
    ∃ taken, cs = taken ++ (scanNumber cs value invalid).2.2 ∧
      (scanNumber cs value invalid).1.data = value.data ++ taken ∧
      ∀ d ∈ taken, isalnum d = true := by
  induction cs generalizing value invalid with
  | nil => exact ⟨[], rfl, by simp [scanNumber], by simp⟩
  | cons c cs ih =>
    by_cases hd : isdigit c = true
    · obtain ⟨taken, h1, h2, h3⟩ := ih (value.push c) invalid
      refine ⟨c :: taken, ?_, ?_, ?_⟩
      · simp only [scanNumber, hd, if_true, List.cons_append]
        rw [← h1]
      · simp only [scanNumber, hd, if_true]
        rw [h2]
        simp [String.push]
      · intro d hd'
        rcases List.mem_cons.mp hd' with rfl | hd'
        · simp only [isdigit] at hd
          simp [isalnum, Char.isAlphanum, hd]
        · exact h3 d hd'
    · by_cases ha : isalpha c = true
      · obtain ⟨taken, h1, h2, h3⟩ := ih (value.push c) true
        refine ⟨c :: taken, ?_, ?_, ?_⟩
        · simp only [scanNumber, hd, ha, Bool.false_eq_true, if_false, if_true,
            List.cons_append]
          rw [← h1]
        · simp only [scanNumber, hd, ha, Bool.false_eq_true, if_false, if_true]
          rw [h2]
          simp [String.push]
        · intro d hd'
          rcases List.mem_cons.mp hd' with rfl | hd'
          · simp only [isalpha] at ha
            simp [isalnum, Char.isAlphanum, ha]
          · exact h3 d hd'
      · refine ⟨[], ?_, ?_, by simp⟩ <;> simp [scanNumber, hd, ha]

theorem scanHex_spec (cs : List Char) (value : String) :
    (scanHex cs value).1.data ++ (scanHex cs value).2 = value.data ++ cs := by
  induction cs generalizing value with
  | nil => simp [scanHex]
  | cons h cs ih =>
    by_cases hh : isxdigit h = true
    · simp only [scanHex, hh, if_true]
      rw [ih]
      simp [String.push]
    · simp [scanHex, hh]

theorem scanString_spec (delimiter : Char) (fuel : Nat) :
    ∀ (cs : List Char) (value v : String) (rest : List Char),
      scanString delimiter fuel cs value = some (v, false, rest) →
        v.data ++ rest = value.data ++ cs := by
  induction fuel with
  | zero =>
    intro cs value v rest h
    rw [scanString] at h
    cases h
  | succ n ih =>
    intro cs value v rest h
    cases cs with
    | nil =>
      rw [scanString] at h
      cases h
    | cons c cs =>
      have hrest : ∀ w, (if c = delimiter then
            if value.data.getLast? = some '\\' then scanString delimiter n cs (value.push c)
            else some (value.push c, false, cs)
          else scanString delimiter n cs (value.push c)) = some (v, false, w) →
          v.data ++ w = value.data ++ c :: cs := by
        intro w h
        by_cases h2 : c = delimiter
        · rw [if_pos h2] at h
          by_cases h3 : value.data.getLast? = some '\\'
          · rw [if_pos h3] at h
            rw [ih _ _ _ _ h]
            simp [String.push]
          · rw [if_neg h3] at h
            simp only [Option.some.injEq, Prod.mk.injEq, true_and] at h
            obtain ⟨rfl, rfl⟩ := h
            simp [String.push]
        · rw [if_neg h2] at h
          rw [ih _ _ _ _ h]
          simp [String.push]
      cases cs with
      | nil =>
        rw [scanString] at h
        by_cases h1 : c = '\\'
        · rw [if_pos h1] at h
          cases h
        · rw [if_neg h1] at h
          exact hrest _ h
      | cons e tail =>
        rw [scanString] at h
        by_cases h1 : c = '\\'
        · rw [if_pos h1] at h
          subst h1
          by_cases h2 : e = 'x'
          · rw [if_pos h2] at h
            subst h2
            rw [ih _ _ _ _ h]
            have := scanHex_spec tail "x"
            simp only [String.data_append, String.push, List.append_assoc]
            rw [this]
            rfl
          · rw [if_neg h2] at h
            rw [ih _ _ _ _ h]
            simp [String.push]
        · rw [if_neg h1] at h
          exact hrest _ h

theorem scanChar_spec (fuel : Nat) :
    ∀ (cs : List Char) (value v : String) (escape : Bool) (how : CharEnd) (rest : List Char),
      scanChar fuel cs value escape = some (v, how, rest) →
        v.data ++ rest = value.data ++ cs := by
  induction fuel with
  | zero =>
    intro cs value v escape how rest h
    rw [scanChar] at h
    cases h
  | succ n ih =>
    intro cs value v escape how rest h
    cases cs with
    | nil =>
      rw [scanChar] at h
      simp only [Option.some.injEq, Prod.mk.injEq] at h
      obtain ⟨rfl, -, rfl⟩ := h
      rfl
    | cons c cs =>
      rw [scanChar] at h
      by_cases h1 : escape = true
      · rw [if_pos h1] at h
        by_cases h2 : c = 'x'
        · rw [if_pos h2] at h
          rw [ih _ _ _ _ _ _ h, scanHex_spec]
          simp [String.push]
        · rw [if_neg h2] at h
          rw [ih _ _ _ _ _ _ h]
          simp [String.push]
      · rw [if_neg h1] at h
        by_cases h2 : c = '\\'
        · rw [if_pos h2] at h
          rw [ih _ _ _ _ _ _ h]
          simp [String.push]
        · rw [if_neg h2] at h
          by_cases h3 : c = '\''
          · rw [if_pos h3] at h
            simp only [Option.some.injEq, Prod.mk.injEq] at h
            obtain ⟨rfl, -, rfl⟩ := h
            simp [String.push]
          · rw [if_neg h3] at h
            by_cases h4 : c = '\n'
            · rw [if_pos h4] at h
              simp only [Option.some.injEq, Prod.mk.injEq] at h
              obtain ⟨rfl, -, rfl⟩ := h
              simp [String.push]
            · rw [if_neg h4] at h
              rw [ih _ _ _ _ _ _ h]
              simp [String.push]


theorem isWordChar_not_isspace {c : Char} (h : isWordChar c = true) : isspace c = false := by
  have : c ≠ ' ' ∧ c ≠ '\t' ∧ c ≠ '\n' ∧ c ≠ '\r' ∧ c ≠ Char.ofNat 11 ∧ c ≠ Char.ofNat 12 := by
    refine ⟨?_, ?_, ?_, ?_, ?_, ?_⟩ <;> (rintro rfl; revert h; decide)
  simp [isspace, this]

theorem isalnum_not_isspace {c : Char} (h : isalnum c = true) : isspace c = false :=
  isWordChar_not_isspace (by simp [isWordChar, h])

theorem isOperatorChar_not_isspace {c : Char} (h : isOperatorChar c = true) :
    isspace c = false := by
  have : c ≠ ' ' ∧ c ≠ '\t' ∧ c ≠ '\n' ∧ c ≠ '\r' ∧ c ≠ Char.ofNat 11 ∧ c ≠ Char.ofNat 12 := by
    refine ⟨?_, ?_, ?_, ?_, ?_, ?_⟩ <;> (rintro rfl; revert h; decide)
  simp [isspace, this]

theorem isPunctuationChar_not_isspace {c : Char} (h : isPunctuationChar c = true) :
    isspace c = false := by
  have : c ≠ ' ' ∧ c ≠ '\t' ∧ c ≠ '\n' ∧ c ≠ '\r' ∧ c ≠ Char.ofNat 11 ∧ c ≠ Char.ofNat 12 := by
    refine ⟨?_, ?_, ?_, ?_, ?_, ?_⟩ <;> (rintro rfl; revert h; decide)
  simp [isspace, this]

theorem errors_addError_ne_nil (t : Tokenizer) (line : Int) (message : String) :
    (t.addError line message).errorHandler.errors ≠ [] := by
  simp [addError, ErrorHandler.addError]

/-- One token more: the step of `ScannedSoFar` for a branch of the main loop
that reads `c` and what follows it as one token. -/
theorem ScannedSoFar.token_step {text : List Char} {t u : Tokenizer} {c : Char}
    {cs : List Char} (hin : t.inputFile = c :: cs) (hP : ScannedSoFar text t)
    (hu : u.errorHandler.errors = [] →
      t.errorHandler.errors = [] ∧ ∃ tok, u.tokens = t.tokens ++ [tok] ∧
        tok.value.data ++ u.inputFile = c :: cs ∧
        (tok.type = TOKEN_STRING ∨ tok.type = TOKEN_CHAR_LITERAL ∨
          ∀ d ∈ tok.value.data, isspace d = false)) :
    ScannedSoFar text u := by
  intro he
  obtain ⟨h0, tok, h1, h2, h3⟩ := hu he
  obtain ⟨consumed, hc, hs⟩ := hP h0
  refine ⟨consumed ++ tok.value.data, ?_, ?_⟩
  · rw [hc, hin, ← h2, List.append_assoc]
  · rw [h1]
    exact Scanned.token tok h3 hs

theorem processIdentifierOrKeyword_scanned (t : Tokenizer) (c : Char)
    (hc : isWordStart c = true) :
    (t.processIdentifierOrKeyword c).errorHandler = t.errorHandler ∧
      ∃ tok, (t.processIdentifierOrKeyword c).tokens = t.tokens ++ [tok] ∧
        tok.value.data ++ (t.processIdentifierOrKeyword c).inputFile = c :: t.inputFile ∧
        ∀ d ∈ tok.value.data, isspace d = false := by
  obtain ⟨taken, h1, h2, h3, h4⟩ := scanWord_spec t.inputFile (String.singleton c)
  have hw := processIdentifierOrKeyword_word t (scanWord t.inputFile (String.singleton c)).1
    c taken (scanWord t.inputFile (String.singleton c)).2 h2 hc h3 h4 h1
  refine ⟨hw.2.2.2, _, hw.2.2.1, ?_, ?_⟩
  · rw [hw.1]
    show (scanWord t.inputFile (String.singleton c)).1.data ++ _ = _
    rw [h2]
    show c :: (taken ++ _) = _
    rw [← h1]
  · intro d hd
    have hd : d ∈ (scanWord t.inputFile (String.singleton c)).1.data := hd
    rw [h2] at hd
    rcases List.mem_cons.mp hd with rfl | hd
    · exact isWordStart_not_isspace hc
    · exact isWordChar_not_isspace (h3 d hd)

theorem processNumber_scanned (t : Tokenizer) (c : Char) (hc : isdigit c = true)
    (he : (t.processNumber c).errorHandler.errors = []) :
    (t.processNumber c).errorHandler = t.errorHandler ∧
      ∃ tok, (t.processNumber c).tokens = t.tokens ++ [tok] ∧
        tok.value.data ++ (t.processNumber c).inputFile = c :: t.inputFile ∧
        ∀ d ∈ tok.value.data, isspace d = false := by
  obtain ⟨taken, h1, h2, h3⟩ := scanNumber_spec t.inputFile (String.singleton c) false
  unfold processNumber at he ⊢
  simp only [] at he ⊢
  by_cases hinv : (scanNumber t.inputFile (String.singleton c) false).2.1 = true
  · rw [if_pos hinv] at he
    exact absurd he (errors_addError_ne_nil _ _ _)
  · rw [if_neg hinv]
    refine ⟨rfl, _, rfl, ?_, ?_⟩
    · show (scanNumber t.inputFile (String.singleton c) false).1.data ++ _ = _
      rw [h2]
      exact congrArg (List.cons c) h1.symm
    · intro d hd
      have hd : d ∈ (scanNumber t.inputFile (String.singleton c) false).1.data := hd
      rw [h2] at hd
      rcases List.mem_cons.mp hd with rfl | hd
      · exact isalnum_not_isspace (by simp only [isdigit] at hc; simp [isalnum, Char.isAlphanum, hc])
      · exact isalnum_not_isspace (h3 d hd)

theorem processOperator_scanned (t : Tokenizer) (c : Char) (hc : isOperatorChar c = true) :
    (t.processOperator c).errorHandler = t.errorHandler ∧
      ∃ tok, (t.processOperator c).tokens = t.tokens ++ [tok] ∧
        tok.value.data ++ (t.processOperator c).inputFile = c :: t.inputFile ∧
        ∀ d ∈ tok.value.data, isspace d = false := by
  by_cases hd : ∃ b rest k, t.inputFile = b :: rest ∧ doubleOperator c b = some k
  · obtain ⟨b, rest, k, hin, hk⟩ := hd
    rw [processOperator_double t c b rest k hin hk]
    refine ⟨rfl, _, rfl, ?_, ?_⟩
    · rw [hin]
      rfl
    · have hb : isOperatorChar b = true := by
        unfold doubleOperator at hk
        split_ifs at hk with h1 h2 h3 h4 h5 h6
        · rw [h1.2]; decide
        · rw [h2.2]; decide
        · rw [h3.2]; decide
        · rw [h4.2]; decide
        · rw [h5.2]; decide
        · rw [h6.2]; decide
      intro d hd
      rcases List.mem_cons.mp hd with rfl | hd
      · exact isOperatorChar_not_isspace hc
      · rcases List.mem_cons.mp hd with rfl | hd
        · exact isOperatorChar_not_isspace hb
        · cases hd
  · rw [processOperator_single t c]
    · refine ⟨rfl, _, rfl, rfl, ?_⟩
      intro d hd
      rcases List.mem_cons.mp hd with rfl | hd
      · exact isOperatorChar_not_isspace hc
      · cases hd
    · intro b hb
      cases hin : t.inputFile with
      | nil => rw [hin] at hb; cases hb
      | cons b' rest =>
        rw [hin] at hb
        simp only [List.head?_cons, Option.some.injEq] at hb
        subst hb
        cases hk : doubleOperator c b' with
        | none => rfl
        | some k => exact absurd ⟨b', rest, k, hin, hk⟩ hd

theorem processPunctuation_scanned (t : Tokenizer) (c : Char)
    (hc : isPunctuationChar c = true) :
    (t.processPunctuation c).errorHandler = t.errorHandler ∧
      ∃ tok, (t.processPunctuation c).tokens = t.tokens ++ [tok] ∧
        tok.value.data ++ (t.processPunctuation c).inputFile = c :: t.inputFile ∧
        ∀ d ∈ tok.value.data, isspace d = false := by
  have hs := isPunctuationChar_not_isspace hc
  simp only [isPunctuationChar, Bool.or_eq_true, decide_eq_true_eq] at hc
  have hall : ∀ d ∈ [c], isspace d = false := by
    intro d hd
    rcases List.mem_cons.mp hd with rfl | hd
    · exact hs
    · cases hd
  rcases hc with ((((((rfl | rfl) | rfl) | rfl) | rfl) | rfl) | rfl) | rfl <;>
    exact ⟨rfl, _, rfl, rfl, hall⟩

theorem processStringLiteral_scanned (fuel : Nat) (t u : Tokenizer)
    (h : processStringLiteral fuel t '"' = some u) (he : u.errorHandler.errors = []) :
    u.errorHandler = t.errorHandler ∧
      ∃ tok, u.tokens = t.tokens ++ [tok] ∧
        tok.value.data ++ u.inputFile = '"' :: t.inputFile ∧ tok.type = TOKEN_STRING := by
  unfold processStringLiteral at h
  simp only [] at h
  rw [if_neg (by decide)] at h
  cases hs : scanString '"' fuel t.inputFile (String.singleton '"') with
  | none =>
    rw [hs] at h
    cases h
  | some r =>
    obtain ⟨v, unterminated, rest⟩ := r
    rw [hs] at h
    simp only [] at h
    cases unterminated with
    | true =>
      simp only [if_true, Option.some.injEq] at h
      subst h
      exact absurd he (errors_addError_ne_nil _ _ _)
    | false =>
      simp only [Bool.false_eq_true, if_false, Option.some.injEq] at h
      subst h
      exact ⟨rfl, _, rfl, scanString_spec _ _ _ _ _ _ hs, rfl⟩

theorem processCharLiteral_scanned (fuel : Nat) (t u : Tokenizer)
    (h : processCharLiteral fuel t = some u) (he : u.errorHandler.errors = []) :
    u.errorHandler = t.errorHandler ∧
      ∃ tok, u.tokens = t.tokens ++ [tok] ∧
        tok.value.data ++ u.inputFile = '\'' :: t.inputFile ∧
        tok.type = TOKEN_CHAR_LITERAL := by
  unfold processCharLiteral at h
  simp only [] at h
  cases hs : scanChar fuel t.inputFile "'" false with
  | none =>
    rw [hs] at h
    cases h
  | some r =>
    obtain ⟨v, how, rest⟩ := r
    rw [hs] at h
    cases how with
    | closed =>
      simp only [Option.some.injEq] at h
      subst h
      exact ⟨rfl, _, rfl, scanChar_spec _ _ _ _ _ _ _ hs, rfl⟩
    | newline =>
      simp only [Option.some.injEq] at h
      subst h
      exact absurd he (errors_addError_ne_nil _ _ _)
    | endOfFile =>
      simp only [Option.some.injEq] at h
      subst h
      exact absurd he (errors_addError_ne_nil _ _ _)

/-- The main loop of `tokenize` on a text without `//` and `/*`: while no
diagnostic is recorded, the characters read are the lexemes of the tokens
made, with white space between them. -/
theorem tokenizeLoop_scanned (text : List Char) (hfree : SlashFree text) :
    ∀ fuel t u, tokenizeLoop fuel t = some u → ScannedSoFar text t →
      ScannedSoFar text u ∧ u.inputFile = [] := by
  refine tokenizeLoop_invariant (ScannedSoFar text) ?_ ?_ ?_ ?_ ?_ ?_ ?_ ?_ ?_
  · intro t c cs hin hc hP
    have key : ∀ t1 : Tokenizer, t1.inputFile = cs → t1.tokens = t.tokens →
        t1.errorHandler = t.errorHandler → ScannedSoFar text t1.skipWhitespace := by
      intro t1 h1 h2 h3 he
      obtain ⟨ws, hw1, hw2⟩ := skipWhitespaceLoop_spec t1.inputFile t1.lineNumber
      have he0 : t.errorHandler.errors = [] := by
        rw [← h3]
        exact he
      obtain ⟨consumed, hc1, hc2⟩ := hP he0
      refine ⟨consumed ++ c :: ws, ?_, ?_⟩
      · rw [hc1, hin, List.append_assoc]
        show _ = consumed ++ (c :: ws ++ (skipWhitespaceLoop t1.inputFile t1.lineNumber).1)
        rw [List.cons_append, ← hw1, h1]
      · show Scanned (consumed ++ c :: ws) t1.tokens
        rw [h2]
        refine Scanned.space (c :: ws) ?_ hc2
        intro d hd
        rcases List.mem_cons.mp hd with rfl | hd
        · exact hc
        · exact hw2 d hd
    by_cases hn : c = '\n'
    · rw [if_pos hn]
      exact key _ rfl rfl rfl
    · rw [if_neg hn]
      exact key _ rfl rfl rfl
  · intro t c cs hin hc hP
    refine ScannedSoFar.token_step hin hP fun he => ?_
    obtain ⟨h1, tok, h2, h3, h4⟩ := processIdentifierOrKeyword_scanned { t with inputFile := cs } c hc
    exact ⟨by rw [← h1]; exact he, tok, h2, h3, Or.inr (Or.inr h4)⟩
  · intro t c cs hin hc hP
    refine ScannedSoFar.token_step hin hP fun he => ?_
    obtain ⟨h1, tok, h2, h3, h4⟩ := processNumber_scanned { t with inputFile := cs } c hc he
    exact ⟨by rw [← h1]; exact he, tok, h2, h3, Or.inr (Or.inr h4)⟩
  · intro t cs hin hc hP he
    obtain ⟨consumed, h1, -⟩ := hP he
    rw [hin] at h1
    cases cs with
    | nil => simp at hc
    | cons d post =>
      have := hfree consumed post d h1
      simp only [List.head?_cons, Option.some.injEq] at hc
      rcases hc with rfl | rfl
      · exact absurd rfl this.1
      · exact absurd rfl this.2
  · intro t c cs hin hc _ hP
    refine ScannedSoFar.token_step hin hP fun he => ?_
    obtain ⟨h1, tok, h2, h3, h4⟩ := processOperator_scanned { t with inputFile := cs } c hc
    exact ⟨by rw [← h1]; exact he, tok, h2, h3, Or.inr (Or.inr h4)⟩
  · intro t c cs hin hc hP
    refine ScannedSoFar.token_step hin hP fun he => ?_
    obtain ⟨h1, tok, h2, h3, h4⟩ := processPunctuation_scanned { t with inputFile := cs } c hc
    exact ⟨by rw [← h1]; exact he, tok, h2, h3, Or.inr (Or.inr h4)⟩
  · intro fuel t cs u hin h hP
    refine ScannedSoFar.token_step hin hP fun he => ?_
    obtain ⟨h1, tok, h2, h3, h4⟩ := processStringLiteral_scanned fuel _ u h he
    exact ⟨by rw [← h1]; exact he, tok, h2, h3, Or.inl h4⟩
  · intro fuel t cs u hin h hP
    refine ScannedSoFar.token_step hin hP fun he => ?_
    obtain ⟨h1, tok, h2, h3, h4⟩ := processCharLiteral_scanned fuel _ u h he
    exact ⟨by rw [← h1]; exact he, tok, h2, h3, Or.inr (Or.inl h4)⟩
  · intro t c cs hin hP he
    exact absurd he (errors_addError_ne_nil _ _ _)

/-- Round trip of `tokenize`. On a text without `//` and `/*` on which no
diagnostic is recorded, the text is the lexemes of the tokens, in order,
with white space between them; only the lexeme of a STRING or CHAR_LITERAL
token holds white space. -/
theorem tokenize_scanned (text : String) (startLine : Int) (u : Tokenizer)
    (hfree : SlashFree text.data) (h : (ofText text startLine).tokenize = some u)
    (he : u.errorHandler.errors = []) : Scanned text.data u.getTokens := by
  unfold tokenize at h
  obtain ⟨hP, hend⟩ := tokenizeLoop_scanned text.data hfree _ _ u h
    (fun _ => ⟨[], rfl, Scanned.start⟩)
  obtain ⟨consumed, h1, h2⟩ := hP he
  rw [hend, List.append_nil] at h1
  rw [h1]
  exact h2

theorem lexemes_append (tokens : List Token) (tok : Token) :
    lexemes (tokens ++ [tok]) = lexemes tokens ++ tok.value := by
  simp [lexemes, String.join, List.foldl_append]

/-- What `Scanned` says of the concatenated lexemes: they are the text with
some white space left out, and if no token is a STRING or CHAR_LITERAL
token, with all white space left out. -/
theorem Scanned.lexemes_eq {consumed : List Char} {tokens : List Token}
    (h : Scanned consumed tokens) :
    (lexemes tokens).data.Sublist consumed ∧
      ((∀ tok ∈ tokens, tok.type ≠ TOKEN_STRING ∧ tok.type ≠ TOKEN_CHAR_LITERAL) →
        (lexemes tokens).data = consumed.filter fun c => !isspace c) := by
  induction h with
  | start => exact ⟨List.Sublist.refl _, fun _ => rfl⟩
  | space ws hws _ ih =>
    refine ⟨ih.1.trans (List.sublist_append_left _ _), fun hl => ?_⟩
    rw [List.filter_append, ← ih.2 hl]
    have : ws.filter (fun c => !isspace c) = [] := by
      rw [List.filter_eq_nil_iff]
      intro c hc
      simp [hws c hc]
    rw [this, List.append_nil]
  | token tok htok _ ih =>
    rw [lexemes_append, String.data_append]
    refine ⟨List.Sublist.append ih.1 (List.Sublist.refl _), fun hl => ?_⟩
    have hl1 : ∀ k ∈ _, _ := fun k hk => hl k (List.mem_append_left _ hk)
    have htype := hl tok (List.mem_append_right _ (List.mem_singleton.mpr rfl))
    rw [List.filter_append, ← ih.2 hl1]
    rcases htok with h1 | h1 | h1
    · exact absurd h1 htype.1
    · exact absurd h1 htype.2
    · congr 1
      symm
      rw [List.filter_eq_self]
      intro c hc
      simp [h1 c hc]

end Tokenizer

/-! ## `tokenize` returns -/

namespace Tokenizer

theorem length_scanHex (cs : List Char) (value : String) :
    (scanHex cs value).2.length ≤ cs.length := by
  induction cs generalizing value with
  | nil => simp [scanHex]
  | cons h cs ih =>
    by_cases hh : isxdigit h = true
    · simp only [scanHex, hh, if_true, List.length_cons]
      exact Nat.le_succ_of_le (ih _)
    · simp [scanHex, hh]

theorem scanString_returns (delimiter : Char) (fuel : Nat) :
    ∀ (cs : List Char) (value : String), cs.length < fuel →
      ∃ v b rest, scanString delimiter fuel cs value = some (v, b, rest) ∧
        rest.length ≤ cs.length := by
  induction fuel with
  | zero =>
    intro cs value h
    cases h
  | succ n ih =>
    intro cs value h
    cases cs with
    | nil => exact ⟨_, _, _, by rw [scanString], Nat.le_refl _⟩
    | cons c cs =>
      have hcs : cs.length < n := Nat.lt_of_succ_lt_succ h
      have hrest : ∃ v b rest, (if c = delimiter then
            if value.data.getLast? = some '\\' then scanString delimiter n cs (value.push c)
            else some (value.push c, false, cs)
          else scanString delimiter n cs (value.push c)) = some (v, b, rest) ∧
          rest.length ≤ (c :: cs).length := by
        by_cases h2 : c = delimiter
        · rw [if_pos h2]
          by_cases h3 : value.data.getLast? = some '\\'
          · rw [if_pos h3]
            obtain ⟨v, b, rest, h4, h5⟩ := ih cs (value.push c) hcs
            exact ⟨v, b, rest, h4, Nat.le_succ_of_le h5⟩
          · rw [if_neg h3]
            exact ⟨_, _, _, rfl, Nat.le_succ _⟩
        · rw [if_neg h2]
          obtain ⟨v, b, rest, h4, h5⟩ := ih cs (value.push c) hcs
          exact ⟨v, b, rest, h4, Nat.le_succ_of_le h5⟩
      cases cs with
      | nil =>
        rw [scanString]
        by_cases h1 : c = '\\'
        · rw [if_pos h1]
          exact ⟨_, _, _, rfl, Nat.zero_le _⟩
        · rw [if_neg h1]
          exact hrest
      | cons e tail =>
        rw [scanString]
        by_cases h1 : c = '\\'
        · rw [if_pos h1]
          have htail : tail.length < n := Nat.lt_of_succ_lt hcs
          by_cases h2 : e = 'x'
          · rw [if_pos h2]
            obtain ⟨v, b, rest, h4, h5⟩ := ih (scanHex tail "x").2
              (value.push '\\' ++ (scanHex tail "x").1)
              (Nat.lt_of_le_of_lt (length_scanHex _ _) htail)
            refine ⟨v, b, rest, h4, ?_⟩
            have := length_scanHex tail "x"
            simp only [List.length_cons]
            omega
          · rw [if_neg h2]
            obtain ⟨v, b, rest, h4, h5⟩ := ih tail ((value.push '\\').push e) htail
            refine ⟨v, b, rest, h4, ?_⟩
            simp only [List.length_cons]
            omega
        · rw [if_neg h1]
          exact hrest

theorem scanChar_returns (fuel : Nat) :
    ∀ (cs : List Char) (value : String) (escape : Bool), cs.length < fuel →
      ∃ v how rest, scanChar fuel cs value escape = some (v, how, rest) ∧
        rest.length ≤ cs.length := by
  induction fuel with
  | zero =>
    intro cs value escape h
    cases h
  | succ n ih =>
    intro cs value escape h
    cases cs with
    | nil => exact ⟨_, _, _, by rw [scanChar], Nat.le_refl _⟩
    | cons c cs =>
      have hcs : cs.length < n := Nat.lt_of_succ_lt_succ h
      have hnext : ∀ value escape, ∃ v how rest,
          scanChar n cs value escape = some (v, how, rest) ∧
            rest.length ≤ (c :: cs).length := by
        intro value escape
        obtain ⟨v, how, rest, h4, h5⟩ := ih cs value escape hcs
        exact ⟨v, how, rest, h4, Nat.le_succ_of_le h5⟩
      rw [scanChar]
      by_cases h1 : escape = true
      · rw [if_pos h1]
        by_cases h2 : c = 'x'
        · rw [if_pos h2]
          obtain ⟨v, how, rest, h4, h5⟩ := ih (scanHex cs (value.push c)).2
            (scanHex cs (value.push c)).1 false
            (Nat.lt_of_le_of_lt (length_scanHex _ _) hcs)
          refine ⟨v, how, rest, h4, ?_⟩
          have := length_scanHex cs (value.push c)
          simp only [List.length_cons]
          omega
        · rw [if_neg h2]
          exact hnext _ _
      · rw [if_neg h1]
        by_cases h2 : c = '\\'
        · rw [if_pos h2]
          exact hnext _ _
        · rw [if_neg h2]
          by_cases h3 : c = '\''
          · rw [if_pos h3]
            exact ⟨_, _, _, rfl, Nat.le_succ _⟩
          · rw [if_neg h3]
            by_cases h4 : c = '\n'
            · rw [if_pos h4]
              exact ⟨_, _, _, rfl, Nat.le_succ _⟩
            · rw [if_neg h4]
              exact hnext _ _

theorem processStringLiteral_returns (fuel : Nat) (t : Tokenizer)
    (h : t.inputFile.length < fuel) :
    ∃ u, processStringLiteral fuel t '"' = some u ∧ u.inputFile.length ≤ t.inputFile.length := by
  obtain ⟨v, b, rest, h1, h2⟩ := scanString_returns '"' fuel t.inputFile (String.singleton '"') h
  unfold processStringLiteral
  simp only []
  rw [if_neg (by decide), h1]
  cases b with
  | true => exact ⟨_, rfl, Nat.zero_le _⟩
  | false => exact ⟨_, rfl, h2⟩

theorem processCharLiteral_returns (fuel : Nat) (t : Tokenizer)
    (h : t.inputFile.length < fuel) :
    ∃ u, processCharLiteral fuel t = some u ∧ u.inputFile.length ≤ t.inputFile.length := by
  obtain ⟨v, how, rest, h1, h2⟩ := scanChar_returns fuel t.inputFile "'" false h
  unfold processCharLiteral
  simp only []
  rw [h1]
  cases how with
  | closed => exact ⟨_, rfl, h2⟩
  | newline => exact ⟨_, rfl, h2⟩
  | endOfFile => exact ⟨_, rfl, h2⟩

theorem length_skipWhitespace (t : Tokenizer) :
    t.skipWhitespace.inputFile.length ≤ t.inputFile.length := by
  obtain ⟨ws, h1, -⟩ := skipWhitespaceLoop_spec t.inputFile t.lineNumber
  show (skipWhitespaceLoop t.inputFile t.lineNumber).1.length ≤ _
  have := congrArg List.length h1
  rw [List.length_append] at this
  omega

theorem length_processIdentifierOrKeyword (t : Tokenizer) (c : Char)
    (hc : isWordStart c = true) :
    (t.processIdentifierOrKeyword c).inputFile.length ≤ t.inputFile.length := by
  obtain ⟨taken, h1, h2, h3, h4⟩ := scanWord_spec t.inputFile (String.singleton c)
  have hw := processIdentifierOrKeyword_word t (scanWord t.inputFile (String.singleton c)).1
    c taken (scanWord t.inputFile (String.singleton c)).2 h2 hc h3 h4 h1
  rw [hw.1]
  have := congrArg List.length h1
  rw [List.length_append] at this
  omega

theorem length_processNumber (t : Tokenizer) (c : Char) :
    (t.processNumber c).inputFile.length ≤ t.inputFile.length := by
  obtain ⟨taken, h1, -, -⟩ := scanNumber_spec t.inputFile (String.singleton c) false
  have := congrArg List.length h1
  rw [List.length_append] at this
  unfold processNumber
  simp only []
  by_cases hinv : (scanNumber t.inputFile (String.singleton c) false).2.1 = true
  · rw [if_pos hinv]
    exact Nat.zero_le _
  · rw [if_neg hinv]
    show (scanNumber t.inputFile (String.singleton c) false).2.2.length ≤ _
    omega

theorem length_processOperator (t : Tokenizer) (c : Char) :
    (t.processOperator c).inputFile.length ≤ t.inputFile.length := by
  by_cases hd : ∃ b rest k, t.inputFile = b :: rest ∧ doubleOperator c b = some k
  · obtain ⟨b, rest, k, hin, hk⟩ := hd
    rw [processOperator_double t c b rest k hin hk, hin]
    exact Nat.le_succ _
  · rw [processOperator_single t c]
    intro b hb
    cases hin : t.inputFile with
    | nil => rw [hin] at hb; cases hb
    | cons b' rest =>
      rw [hin] at hb
      simp only [List.head?_cons, Option.some.injEq] at hb
      subst hb
      cases hk : doubleOperator c b' with
      | none => rfl
      | some k => exact absurd ⟨b', rest, k, hin, hk⟩ hd

theorem inputFile_processPunctuation (t : Tokenizer) (c : Char) :
    (t.processPunctuation c).inputFile = t.inputFile := by
  unfold processPunctuation
  split_ifs <;> rfl

/-- The main loop of `tokenize` returns when it has more fuel than there are
unread characters. -/
theorem tokenizeLoop_returns :
    ∀ fuel (t : Tokenizer), t.inputFile.length < fuel → ∃ u, tokenizeLoop fuel t = some u := by
  intro fuel
  induction fuel with
  | zero =>
    intro t h
    cases h
  | succ n ih =>
    intro t h
    rw [tokenizeLoop]
    cases hin : t.inputFile with
    | nil => exact ⟨t, rfl⟩
    | cons c cs =>
      rw [hin] at h
      have hcs : cs.length < n := Nat.lt_of_succ_lt_succ h
      simp only []
      by_cases h1 : isspace c = true
      · rw [if_pos h1]
        refine ih _ (Nat.lt_of_le_of_lt (length_skipWhitespace _) ?_)
        by_cases hn : c = '\n'
        · rw [if_pos hn]
          exact hcs
        · rw [if_neg hn]
          exact hcs
      rw [if_neg h1]
      by_cases h2 : (isalpha c || decide (c = '_')) = true
      · rw [if_pos h2]
        exact ih _ (Nat.lt_of_le_of_lt (length_processIdentifierOrKeyword _ c h2) hcs)
      rw [if_neg h2]
      by_cases h3 : isdigit c = true
      · rw [if_pos h3]
        exact ih _ (Nat.lt_of_le_of_lt (length_processNumber _ c) hcs)
      rw [if_neg h3]
      by_cases h4 : isOperatorChar c = true
      · rw [if_pos h4]
        by_cases h5 : c = '/' ∧ (cs.head? = some '/' ∨ cs.head? = some '*')
        · rw [if_pos h5]
          exact ih _ hcs
        · rw [if_neg h5]
          exact ih _ (Nat.lt_of_le_of_lt (length_processOperator _ c) hcs)
      rw [if_neg h4]
      by_cases h6 : isPunctuationChar c = true
      · rw [if_pos h6]
        refine ih _ ?_
        rw [inputFile_processPunctuation]
        exact hcs
      rw [if_neg h6]
      by_cases h7 : c = '"'
      · rw [if_pos h7]
        subst h7
        obtain ⟨v, hv, hlen⟩ := processStringLiteral_returns n { t with inputFile := cs } hcs
        rw [hv]
        exact ih _ (Nat.lt_of_le_of_lt hlen hcs)
      rw [if_neg h7]
      by_cases h8 : c = '\''
      · rw [if_pos h8]
        obtain ⟨v, hv, hlen⟩ := processCharLiteral_returns n { t with inputFile := cs } hcs
        rw [hv]
        exact ih _ (Nat.lt_of_le_of_lt hlen hcs)
      rw [if_neg h8]
      exact ih _ hcs

/-- Totality of `tokenize`: it returns on every input. -/
theorem tokenize_returns (t : Tokenizer) : ∃ u, t.tokenize = some u :=
  tokenizeLoop_returns _ _ (Nat.lt_succ_self _)

/-- Round trip of `tokenize`, with its return. On a text without `//` and
`/*`, `tokenize` returns, and if it has recorded no diagnostic the text is
the lexemes of its tokens, in order, with white space between them. -/
theorem tokenize_round_trip (text : String) (startLine : Int)
    (hfree : SlashFree text.data) :
    ∃ u, (ofText text startLine).tokenize = some u ∧
      (u.errorHandler.errors = [] → Scanned text.data u.getTokens) := by
  obtain ⟨u, hu⟩ := tokenize_returns (ofText text startLine)
  exact ⟨u, hu, tokenize_scanned text startLine u hfree hu⟩

end Tokenizer

/-! ## C27: the lexemes and the text -/

namespace Tokenizer

/-- C27 at white space between a complete literal and a later quote. The
text of six characters `"`, `\`, `\`, `"`, space, `"` starts with the complete
string literal `"\\"`, and the space after it stands outside that literal;
the lexer takes the second quote for an escaped one, makes one STRING token
of all six characters and records no diagnostic, so the lexemes keep the
space. In the same way it makes one CHAR_LITERAL token of `'a b'`, which is
no char literal, and keeps its space. On `int  x = "a b" ;`, where the
literal ends as the specification says, the lexemes are `intx="a b";`.
Relative to the STRING and CHAR_LITERAL tokens that the lexer makes the
round trip holds on every text without `//` and `/*`
(`tokenize_round_trip`). -/
theorem lexemes_keep_space_outside_literal :
    ((ofText ⟨['"', '\\', '\\', '"', ' ', '"']⟩ 1).tokenize).map
        (fun t => (t.getTokens, lexemes t.getTokens, t.errorHandler.errors)) =
      some ([⟨TOKEN_STRING, ⟨['"', '\\', '\\', '"', ' ', '"']⟩, 1⟩],
        ⟨['"', '\\', '\\', '"', ' ', '"']⟩, []) ∧
    ((ofText "'a b'" 1).tokenize).map
        (fun t => (t.getTokens, lexemes t.getTokens, t.errorHandler.errors)) =
      some ([⟨TOKEN_CHAR_LITERAL, "'a b'", 1⟩], "'a b'", []) ∧
    ((ofText "int  x = \"a b\" ;" 1).tokenize).map
        (fun t => (lexemes t.getTokens, t.errorHandler.errors)) =
      some ("intx=\"a b\";", []) := by
  refine ⟨?_, ?_, ?_⟩ <;> decide

end Tokenizer

/-! ## C28, C29: `void` in a parameter list, the increment clause of `for` -/

namespace Parser

/-- C28 at `procedure f(int x, void)`. The text `f(int x, void) \x7b \x7d`
lexes to nine tokens, and `parseProcedure` accepts the `void` that follows
the parameter `x`: it returns the procedure node, with the children
`ParameterType(int)` and `ParameterType(void)`, and records no diagnostic.
A `void` that is followed by something else than `)` is rejected:
`f(void, int x) \x7b \x7d` records "Expected ')' after 'void'." and
`parseProcedure` returns null. -/
theorem void_after_parameter_accepted :
    ((Tokenizer.ofText "f(int x, void) \x7b \x7d" 1).tokenize).map
        (fun t => (t.getTokens, t.errorHandler.errors)) = some (voidAfterParameter, []) ∧
      (parseProcedure 4 "Procedure" Token.default (ofTokens voidAfterParameter)).map
          (fun o => (o.node?, o.errors)) =
        some (some (CSTNode.tree "Procedure" "f" 1
          [CSTNode.new "Symbol" "(" 1,
            CSTNode.tree "ParameterType" "int" 1 [CSTNode.new "Parameter" "x" 1],
            CSTNode.new "Symbol" "," 1, CSTNode.new "ParameterType" "void" 1,
            CSTNode.new "Symbol" ")" 1, CSTNode.new "Symbol" "\x7b" 1,
            CSTNode.new "Symbol" "\x7d" 1]), []) ∧
      (parseProcedure 4 "Procedure" Token.default (ofTokens parameterAfterVoid)).map
          (fun o => (o.node?, o.errors)) =
        some (some CSTNode.null, [(1, "Expected ')' after 'void'.")]) := by
  refine ⟨?_, ?_, ?_⟩ <;> decide

/-- C29 at `for (i = 0; i < 4; i++) \x7b \x7d`. The lexer has no token `++`:
it makes two PLUS tokens of `i++`. `parseStatement` takes the first for the
increment operator, finds the second where it expects `)`, records
"Expected ')' after 'for' loop header." and returns null; the same for
`i--`. With one operator sign, `i+`, it returns the `ForStatement` with the
third child `Increment(i)` over one `Operator(+)`. The clause `i = i + 1`
gives the third child `Assignment(i)` over the expression. -/
theorem for_increment_clause :
    ((Tokenizer.ofText "for (i = 0; i < 4; i++) \x7b \x7d" 1).tokenize).map
        (fun t => (t.getTokens, t.errorHandler.errors)) =
      some (forWithIncrement [⟨TOKEN_PLUS, "+", 1⟩, ⟨TOKEN_PLUS, "+", 1⟩], []) ∧
    (parseStatement 5
        (ofTokens (forWithIncrement [⟨TOKEN_PLUS, "+", 1⟩, ⟨TOKEN_PLUS, "+", 1⟩]))).map
        (fun r => (r.1, r.2.errorHandler.errors)) =
      some (CSTNode.null, [(1, "Expected ')' after 'for' loop header.")]) ∧
    ((Tokenizer.ofText "for (i = 0; i < 4; i--) \x7b \x7d" 1).tokenize).map
        (fun t => (t.getTokens, t.errorHandler.errors)) =
      some (forWithIncrement [⟨TOKEN_MINUS, "-", 1⟩, ⟨TOKEN_MINUS, "-", 1⟩], []) ∧
    (parseStatement 5
        (ofTokens (forWithIncrement [⟨TOKEN_MINUS, "-", 1⟩, ⟨TOKEN_MINUS, "-", 1⟩]))).map
        (fun r => (r.1, r.2.errorHandler.errors)) =
      some (CSTNode.null, [(1, "Expected ')' after 'for' loop header.")]) ∧
    (parseStatement 5 (ofTokens (forWithIncrement [⟨TOKEN_PLUS, "+", 1⟩]))).map
        (fun r => (r.1, r.2.errorHandler.errors)) =
      some (CSTNode.tree "ForStatement" "for" 1
        [CSTNode.tree "Assignment" "i" 1 [CSTNode.new "Operand" "0" 1],
          CSTNode.tree "Operator" "<" 1
            [CSTNode.new "Operand" "i" 1, CSTNode.new "Operand" "4" 1],
          CSTNode.tree "Increment" "i" 1 [CSTNode.new "Operator" "+" 1]], []) ∧
    (parseStatement 6
        (ofTokens (forWithIncrement
          [⟨TOKEN_ASSIGNMENT_OPERATOR, "=", 1⟩, ⟨TOKEN_IDENTIFIER, "i", 1⟩,
            ⟨TOKEN_PLUS, "+", 1⟩, ⟨TOKEN_INTEGER, "1", 1⟩]))).map
        (fun r => (r.1, r.2.errorHandler.errors)) =
      some (CSTNode.tree "ForStatement" "for" 1
        [CSTNode.tree "Assignment" "i" 1 [CSTNode.new "Operand" "0" 1],
          CSTNode.tree "Operator" "<" 1
            [CSTNode.new "Operand" "i" 1, CSTNode.new "Operand" "4" 1],
          CSTNode.tree "Assignment" "i" 1
            [CSTNode.tree "Operator" "+" 1
              [CSTNode.new "Operand" "i" 1, CSTNode.new "Operand" "1" 1]]], []) := by
  refine ⟨?_, ?_, ?_, ?_, ?_, ?_⟩ <;> decide

end Parser

/-! ## C30: call statements and call expressions -/

namespace CSTNode

theorem appendSibling_null (a : CSTNode) : appendSibling a null = a := by
  induction a with
  | null => rfl
  | node n v l lc rs _ ih => simp [appendSibling, ih]

theorem appendSibling_assoc (a b c : CSTNode) :
    appendSibling (appendSibling a b) c = appendSibling a (appendSibling b c) := by
  induction a with
  | null => rfl
  | node n v l lc rs _ ih => simp [appendSibling, ih]

theorem chain_append (cs : List CSTNode) (c : CSTNode) :
    chain (cs ++ [c]) = appendSibling (chain cs) c := by
  induction cs with
  | nil => simp [chain, appendSibling, appendSibling_null]
  | cons x cs ih => simp [chain, ih, appendSibling_assoc]

theorem addChild_tree (name value : String) (line : Int) (cs : List CSTNode) (c : CSTNode) :
    (tree name value line cs).addChild c = tree name value line (cs ++ [c]) := by
  simp [tree, addChild, chain_append]

theorem isNull_tree (name value : String) (line : Int) (cs : List CSTNode) :
    (tree name value line cs).isNull = false := rfl

theorem isNull_null : CSTNode.null.isNull = true := rfl

theorem new_eq_tree (name value : String) (line : Int) :
    CSTNode.new name value line = tree name value line [] := rfl

end CSTNode

namespace Parser

theorem skipArguments_reading (fuel : Nat) (args : List Token) :
    ∀ (pre rest : List Token) (rp : Token) (eh : ErrorHandler) (st : SymbolTable),
      (∀ a ∈ args, a.type ≠ TOKEN_R_PAREN) → rp.type = TOKEN_R_PAREN →
      skipArguments (fuel + args.length + 1) (reading pre (args ++ rp :: rest) eh st) =
        some (reading (pre ++ args ++ [rp]) rest eh st) := by
  induction args with
  | nil =>
    intro pre rest rp eh st _ hrp
    simp [skipArguments, hrp]
  | cons a args ih =>
    intro pre rest rp eh st hargs hrp
    have ha := hargs a (by simp)
    have := ih (pre ++ [a]) rest rp eh st (fun b hb => hargs b (by simp [hb])) hrp
    rw [show fuel + (a :: args).length + 1 = (fuel + args.length + 1) + 1 by simp; omega]
    rw [skipArguments]
    simp only [List.cons_append, hasMoreTokens_reading_cons, getNextToken_reading_cons, ha,
      Bool.not_true, Bool.false_eq_true, if_false]
    rw [this]
    simp

/-- A call statement: the tokens between `(` and the first `)` are skipped. -/
theorem parseStatement_call (fuel : Nat) (pre args rest : List Token) (f lp rp semi : Token)
    (eh : ErrorHandler) (st : SymbolTable)
    (hf : f.type = TOKEN_IDENTIFIER) (hlp : lp.type = TOKEN_L_PAREN)
    (hargs : ∀ a ∈ args, a.type ≠ TOKEN_R_PAREN) (hrp : rp.type = TOKEN_R_PAREN)
    (hsemi : semi.type = TOKEN_SEMICOLON) :
    parseStatement (fuel + args.length + 2)
        (reading pre (f :: lp :: (args ++ rp :: semi :: rest)) eh st) =
      some (CSTNode.tree "FunctionCall" f.value f.lineNumber [],
        reading (pre ++ f :: lp :: (args ++ [rp, semi])) rest eh st) := by
  rw [show fuel + args.length + 2 = (fuel + args.length + 1) + 1 by omega, parseStatement]
  simp only [getNextToken_reading_cons, hf, reduceCtorEq, false_and, if_false, if_true]
  unfold parseIdentifierStatement
  simp only [peekNextToken_reading_cons, hlp, reduceCtorEq, if_false, if_true,
    skipToken_reading_cons]
  rw [skipArguments_reading fuel args _ _ rp eh st hargs hrp]
  simp [hsemi, CSTNode.new_eq_tree]

/-- A call statement whose first `)` is not followed by `;`: the tokens up to
that `)` are skipped, the token after it is consumed and reported. -/
theorem parseStatement_call_rejected (fuel : Nat) (pre args rest : List Token)
    (f lp rp t : Token) (eh : ErrorHandler) (st : SymbolTable)
    (hf : f.type = TOKEN_IDENTIFIER) (hlp : lp.type = TOKEN_L_PAREN)
    (hargs : ∀ a ∈ args, a.type ≠ TOKEN_R_PAREN) (hrp : rp.type = TOKEN_R_PAREN)
    (ht : t.type ≠ TOKEN_SEMICOLON) :
    parseStatement (fuel + args.length + 2)
        (reading pre (f :: lp :: (args ++ rp :: t :: rest)) eh st) =
      some (CSTNode.null,
        reading (pre ++ f :: lp :: (args ++ [rp, t])) rest
          (eh.addError t.lineNumber "Expected ';' after function call.") st) := by
  rw [show fuel + args.length + 2 = (fuel + args.length + 1) + 1 by omega, parseStatement]
  simp only [getNextToken_reading_cons, hf, reduceCtorEq, false_and, if_false, if_true]
  unfold parseIdentifierStatement
  simp only [peekNextToken_reading_cons, hlp, reduceCtorEq, if_false, if_true,
    skipToken_reading_cons]
  rw [skipArguments_reading fuel args _ _ rp eh st hargs hrp]
  simp [ht]

theorem ParsesAsArgument.head_ne_rparen {d : Nat} {toks : List Token} {node : CSTNode}
    (h : ParsesAsArgument d toks node) :
    ∃ t ts, toks = t :: ts ∧ t.type ≠ TOKEN_R_PAREN := by
  obtain ⟨hnode, hparse⟩ := h
  have key := hparse 1 [] [⟨TOKEN_R_PAREN, ")", 0⟩] {} {} ⟨_, rfl, Or.inr rfl⟩
  cases toks with
  | nil =>
    exfalso
    rw [show 1 + d = d + 1 by omega, parseExpression] at key
    simp [CSTNode.isNull] at key
    rw [← key.1] at hnode
    simp [CSTNode.isNull] at hnode
  | cons t ts =>
    refine ⟨t, ts, rfl, fun ht => ?_⟩
    rw [show 1 + d = d + 1 by omega, parseExpression] at key
    simp [CSTNode.isNull, ht] at key
    rw [← key.1] at hnode
    simp [CSTNode.isNull] at hnode

/-- The argument loop, from the start of an argument to the closing
parenthesis. -/
theorem parseArguments_reading (d : Nat) (more : List (Token × List Token × CSTNode)) :
    ∀ (fuel : Nat) (pre rest : List Token) (first : List Token × CSTNode) (rp : Token)
      (name value : String) (line : Int) (children : List CSTNode)
      (eh : ErrorHandler) (st : SymbolTable),
      rp.type = TOKEN_R_PAREN → ParsesAsArgument d first.1 first.2 →
      (∀ m ∈ more, m.1.type = TOKEN_COMMA ∧ ParsesAsArgument d m.2.1 m.2.2) →
      parseArguments (fuel + d + more.length + 2) (CSTNode.tree name value line children)
          (reading pre (first.1 ++ moreArgumentTokens more ++ rp :: rest) eh st) =
        some (CSTNode.tree name value line (children ++ first.2 :: more.map (·.2.2)),
          reading (pre ++ (first.1 ++ moreArgumentTokens more ++ [rp])) rest eh st) := by
  induction more with
  | nil =>
    intro fuel pre rest first rp name value line children eh st hrp hfirst _
    obtain ⟨t, ts, hts, ht⟩ := hfirst.head_ne_rparen
    have hparse := hfirst.2 (fuel + 1) pre (rp :: rest) eh st ⟨rp, rfl, Or.inr hrp⟩
    rw [show fuel + 1 + d = fuel + d + 1 by omega] at hparse
    simp only [moreArgumentTokens, List.append_nil, List.length_nil, Nat.add_zero, List.map_nil]
    rw [parseArguments]
    rw [hts] at hparse ⊢
    simp only [List.cons_append, hasMoreTokens_reading_cons, peekNextToken_reading_cons, ht,
      Bool.not_true, Bool.false_eq_true, if_false]
    simp only [List.cons_append] at hparse
    rw [hparse]
    simp only [hfirst.1, Bool.false_eq_true, if_false, peekNextToken_reading_cons, hrp,
      reduceCtorEq, ne_eq, not_true_eq_false]
    rw [parseArguments]
    simp [hrp, CSTNode.addChild_tree]
  | cons m more ih =>
    intro fuel pre rest first rp name value line children eh st hrp hfirst hmore
    obtain ⟨t, ts, hts, ht⟩ := hfirst.head_ne_rparen
    obtain ⟨hm, hmarg⟩ := hmore m (by simp)
    have hparse := hfirst.2 (fuel + more.length + 2) pre
      (m.1 :: (m.2.1 ++ moreArgumentTokens more) ++ rp :: rest) eh st ⟨m.1, rfl, Or.inl hm⟩
    rw [show fuel + more.length + 2 + d = fuel + d + more.length + 2 by omega] at hparse
    have hrec := ih fuel (pre ++ first.1 ++ [m.1]) rest (m.2.1, m.2.2) rp name value line
      (children ++ [first.2]) eh st hrp hmarg (fun x hx => hmore x (by simp [hx]))
    simp only [moreArgumentTokens, List.length_cons, List.map_cons]
    rw [show fuel + d + (more.length + 1) + 2 = (fuel + d + more.length + 2) + 1 by omega]
    rw [parseArguments]
    rw [hts] at hparse ⊢
    simp only [List.cons_append, List.append_assoc, hasMoreTokens_reading_cons,
      peekNextToken_reading_cons, ht, Bool.not_true, Bool.false_eq_true, if_false]
    simp only [List.cons_append, List.append_assoc] at hparse
    rw [hparse]
    simp only [hfirst.1, Bool.false_eq_true, if_false, peekNextToken_reading_cons, hm, if_true,
      skipToken_reading_cons, CSTNode.addChild_tree]
    rw [hts] at hrec
    simp only [List.cons_append, List.append_assoc, List.nil_append] at hrec ⊢
    rw [hrec]

/-- A call used as an operand: one child for each argument, in order. -/
theorem parseExpression_call (fuel d : Nat) (pre rest : List Token) (f lp rp : Token)
    (first : List Token × CSTNode) (more : List (Token × List Token × CSTNode))
    (eh : ErrorHandler) (st : SymbolTable)
    (hf : f.type = TOKEN_IDENTIFIER) (hlp : lp.type = TOKEN_L_PAREN)
    (hrp : rp.type = TOKEN_R_PAREN) (hfirst : ParsesAsArgument d first.1 first.2)
    (hmore : ∀ m ∈ more, m.1.type = TOKEN_COMMA ∧ ParsesAsArgument d m.2.1 m.2.2)
    (hrest : ∀ t, rest.head? = some t → isChainOperator t.type = false) :
    parseExpression (fuel + d + more.length + 3) CSTNode.null false
        (reading pre (f :: lp :: (first.1 ++ moreArgumentTokens more ++ rp :: rest)) eh st) =
      some (CSTNode.tree "FunctionCall" f.value f.lineNumber
          (first.2 :: more.map (·.2.2)),
        reading (pre ++ f :: lp :: (first.1 ++ moreArgumentTokens more ++ [rp])) rest eh st) := by
  have hargs := parseArguments_reading d more fuel (pre ++ [f] ++ [lp]) rest first rp
    "FunctionCall" f.value f.lineNumber [] eh st hrp hfirst hmore
  rw [parseExpression]
  simp only [CSTNode.isNull_null, Bool.not_true, Bool.false_eq_true, if_false,
    getNextToken_reading_cons, hf, reduceCtorEq, peekNextToken_reading_cons, hlp, if_true,
    skipToken_reading_cons, CSTNode.new_eq_tree]
  rw [hargs]
  simp only [CSTNode.isNull_tree, Bool.false_eq_true, if_false, List.nil_append]
  rw [show fuel + d + more.length + 2 = (fuel + d + more.length + 1) + 1 by omega,
    parseOperators_stop _ _ _ _ eh st hrest]
  simp

/-- An integer token, or an identifier token, is an argument by itself. -/
theorem parsesAsArgument_operand (a : Token)
    (ha : a.type = TOKEN_INTEGER ∨ a.type = TOKEN_IDENTIFIER) :
    ParsesAsArgument 2 [a] (CSTNode.new "Operand" a.value a.lineNumber) := by
  refine ⟨rfl, ?_⟩
  rintro fuel pre rest eh st ⟨t, ht, htype⟩
  have hnot : t.type ≠ TOKEN_L_PAREN ∧ t.type ≠ TOKEN_L_BRACKET ∧
      isChainOperator t.type = false := by
    rcases htype with h | h <;> rw [h] <;> decide
  rw [show fuel + 2 = (fuel + 1) + 1 by rfl, List.singleton_append,
    parseExpression_operand (fuel + 1) pre rest a eh st
      (ha.imp id fun h => ⟨h, fun u hu => by
        rw [ht] at hu
        cases hu
        exact ⟨hnot.1, hnot.2.1⟩⟩),
    parseOperators_stop fuel _ _ _ eh st (fun u hu => by
      rw [ht] at hu
      cases hu
      exact hnot.2.2)]

/-- C30 as stated fails for a call statement with a `)` among its arguments.
On `f(g(x));` the loop that skips the arguments stops at the first `)`, the
second `)` is read where `;` is expected, and `parseStatement` records
"Expected ';' after function call." and returns `nullptr`. As an operand, in
`y = f(g(x));`, the same call gives `FunctionCall(f)` with the child
`FunctionCall(g)`. -/
theorem call_statement_counterexample :
    (parseStatement 6 (ofTokens (tokensOf "f(g(x));"))).map
        (fun r => (r.1, r.2.errorHandler.errors, r.2.tokenStream.currentIndex)) =
      some (CSTNode.null, [(1, "Expected ';' after function call.")], 7) ∧
    (parseStatement 12 (ofTokens (tokensOf "y = f(g(x));"))).map
        (fun r => (r.1, r.2.errorHandler.errors)) =
      some (CSTNode.tree "Assignment" "y" 1
          [CSTNode.tree "FunctionCall" "f" 1
            [CSTNode.tree "FunctionCall" "g" 1 [CSTNode.new "Operand" "x" 1]]], []) := by
  refine ⟨?_, ?_⟩ <;> decide

/-- C30 (amended). A call statement `f ( args ) ;`, where `args` are any
tokens other than `)`, so that the first `)` after `f (` is followed by `;`:
`parseStatement` skips `args`, reads `)` and `;`, and returns the node
`FunctionCall(f)` without children, with no diagnostic and nothing else
changed; fuel `args.length + 2` or more is enough. The same call as an operand
`f ( a1 , ... , an )` with n at least one, each `ai` a token sequence that
`parseExpression` reads as an argument with the tree `ti`:
`parseExpression` returns `FunctionCall(f)` with the children `t1, ..., tn`
in this order; fuel `d + n + 2` or more is enough when `d` is enough for each
argument. Where the first `)` after `f (` is followed by a token `t` other
than `;`, as it is when `args` holds a `)`, `parseStatement` consumes `t`,
records "Expected ';' after function call." at its line and returns
`nullptr`. -/
theorem call_statement_and_call_expression :
    (∀ (fuel : Nat) (pre args rest : List Token) (f lp rp semi : Token)
        (eh : ErrorHandler) (st : SymbolTable),
        f.type = TOKEN_IDENTIFIER → lp.type = TOKEN_L_PAREN →
        (∀ a ∈ args, a.type ≠ TOKEN_R_PAREN) → rp.type = TOKEN_R_PAREN →
        semi.type = TOKEN_SEMICOLON →
        parseStatement (fuel + args.length + 2)
            (reading pre (f :: lp :: (args ++ rp :: semi :: rest)) eh st) =
          some (CSTNode.tree "FunctionCall" f.value f.lineNumber [],
            reading (pre ++ f :: lp :: (args ++ [rp, semi])) rest eh st)) ∧
      (∀ (fuel d : Nat) (pre rest : List Token) (f lp rp : Token)
        (first : List Token × CSTNode) (more : List (Token × List Token × CSTNode))
        (eh : ErrorHandler) (st : SymbolTable),
        f.type = TOKEN_IDENTIFIER → lp.type = TOKEN_L_PAREN → rp.type = TOKEN_R_PAREN →
        ParsesAsArgument d first.1 first.2 →
        (∀ m ∈ more, m.1.type = TOKEN_COMMA ∧ ParsesAsArgument d m.2.1 m.2.2) →
        (∀ t, rest.head? = some t → isChainOperator t.type = false) →
        parseExpression (fuel + d + more.length + 3) CSTNode.null false
            (reading pre (f :: lp :: (first.1 ++ moreArgumentTokens more ++ rp :: rest)) eh st) =
          some (CSTNode.tree "FunctionCall" f.value f.lineNumber
              (first.2 :: more.map (·.2.2)),
            reading (pre ++ f :: lp :: (first.1 ++ moreArgumentTokens more ++ [rp])) rest
              eh st)) ∧
      (∀ (fuel : Nat) (pre args rest : List Token) (f lp rp t : Token)
        (eh : ErrorHandler) (st : SymbolTable),
        f.type = TOKEN_IDENTIFIER → lp.type = TOKEN_L_PAREN →
        (∀ a ∈ args, a.type ≠ TOKEN_R_PAREN) → rp.type = TOKEN_R_PAREN →
        t.type ≠ TOKEN_SEMICOLON →
        parseStatement (fuel + args.length + 2)
            (reading pre (f :: lp :: (args ++ rp :: t :: rest)) eh st) =
          some (CSTNode.null,
            reading (pre ++ f :: lp :: (args ++ [rp, t])) rest
              (eh.addError t.lineNumber "Expected ';' after function call.") st)) :=
  ⟨fun fuel pre args rest f lp rp semi eh st hf hlp hargs hrp hsemi =>
      parseStatement_call fuel pre args rest f lp rp semi eh st hf hlp hargs hrp hsemi,
    fun fuel d pre rest f lp rp first more eh st hf hlp hrp hfirst hmore hrest =>
      parseExpression_call fuel d pre rest f lp rp first more eh st hf hlp hrp hfirst hmore
        hrest,
    fun fuel pre args rest f lp rp t eh st hf hlp hargs hrp ht =>
      parseStatement_call_rejected fuel pre args rest f lp rp t eh st hf hlp hargs hrp ht⟩

/-- C30 on the statement `f(a, b);` and on the operand `f(a, b)` in
`x = f(a, b);`. -/
theorem call_statement_and_call_expression_witness :
    parseStatement (0 + 3 + 2)
        (reading []
          (⟨TOKEN_IDENTIFIER, "f", 1⟩ :: ⟨TOKEN_L_PAREN, "(", 1⟩ ::
            ([⟨TOKEN_IDENTIFIER, "a", 1⟩, ⟨TOKEN_COMMA, ",", 1⟩, ⟨TOKEN_IDENTIFIER, "b", 1⟩] ++
              ⟨TOKEN_R_PAREN, ")", 1⟩ :: ⟨TOKEN_SEMICOLON, ";", 1⟩ :: [])) {} {}) =
      some (CSTNode.tree "FunctionCall" "f" 1 [],
        reading
          ([] ++ ⟨TOKEN_IDENTIFIER, "f", 1⟩ :: ⟨TOKEN_L_PAREN, "(", 1⟩ ::
            ([⟨TOKEN_IDENTIFIER, "a", 1⟩, ⟨TOKEN_COMMA, ",", 1⟩, ⟨TOKEN_IDENTIFIER, "b", 1⟩] ++
              [⟨TOKEN_R_PAREN, ")", 1⟩, ⟨TOKEN_SEMICOLON, ";", 1⟩])) [] {} {}) ∧
    parseExpression (0 + 2 + 1 + 3) CSTNode.null false
        (reading [⟨TOKEN_IDENTIFIER, "x", 1⟩, ⟨TOKEN_ASSIGNMENT_OPERATOR, "=", 1⟩]
          (⟨TOKEN_IDENTIFIER, "f", 1⟩ :: ⟨TOKEN_L_PAREN, "(", 1⟩ ::
            ([⟨TOKEN_IDENTIFIER, "a", 1⟩] ++
              moreArgumentTokens
                [(⟨TOKEN_COMMA, ",", 1⟩, [⟨TOKEN_IDENTIFIER, "b", 1⟩],
                  CSTNode.new "Operand" "b" 1)] ++
              ⟨TOKEN_R_PAREN, ")", 1⟩ :: [⟨TOKEN_SEMICOLON, ";", 1⟩])) {} {}) =
      some (CSTNode.tree "FunctionCall" "f" 1
          [CSTNode.new "Operand" "a" 1, CSTNode.new "Operand" "b" 1],
        reading
          ([⟨TOKEN_IDENTIFIER, "x", 1⟩, ⟨TOKEN_ASSIGNMENT_OPERATOR, "=", 1⟩] ++
            ⟨TOKEN_IDENTIFIER, "f", 1⟩ :: ⟨TOKEN_L_PAREN, "(", 1⟩ ::
            ([⟨TOKEN_IDENTIFIER, "a", 1⟩] ++
              moreArgumentTokens
                [(⟨TOKEN_COMMA, ",", 1⟩, [⟨TOKEN_IDENTIFIER, "b", 1⟩],
                  CSTNode.new "Operand" "b" 1)] ++
              [⟨TOKEN_R_PAREN, ")", 1⟩]))
          [⟨TOKEN_SEMICOLON, ";", 1⟩] {} {}) :=
  ⟨call_statement_and_call_expression.1 0 []
      [⟨TOKEN_IDENTIFIER, "a", 1⟩, ⟨TOKEN_COMMA, ",", 1⟩, ⟨TOKEN_IDENTIFIER, "b", 1⟩] []
      ⟨TOKEN_IDENTIFIER, "f", 1⟩ ⟨TOKEN_L_PAREN, "(", 1⟩ ⟨TOKEN_R_PAREN, ")", 1⟩
      ⟨TOKEN_SEMICOLON, ";", 1⟩ {} {} rfl rfl (by decide) rfl rfl,
    call_statement_and_call_expression.2.1 0 2
      [⟨TOKEN_IDENTIFIER, "x", 1⟩, ⟨TOKEN_ASSIGNMENT_OPERATOR, "=", 1⟩]
      [⟨TOKEN_SEMICOLON, ";", 1⟩]
      ⟨TOKEN_IDENTIFIER, "f", 1⟩ ⟨TOKEN_L_PAREN, "(", 1⟩ ⟨TOKEN_R_PAREN, ")", 1⟩
      ([⟨TOKEN_IDENTIFIER, "a", 1⟩], CSTNode.new "Operand" "a" 1)
      [(⟨TOKEN_COMMA, ",", 1⟩, [⟨TOKEN_IDENTIFIER, "b", 1⟩], CSTNode.new "Operand" "b" 1)]
      {} {} rfl rfl rfl
      (parsesAsArgument_operand ⟨TOKEN_IDENTIFIER, "a", 1⟩ (Or.inr rfl))
      (by
        intro m hm
        simp only [List.mem_singleton] at hm
        subst hm
        exact ⟨rfl, parsesAsArgument_operand ⟨TOKEN_IDENTIFIER, "b", 1⟩ (Or.inr rfl)⟩)
      (by decide)⟩

end Parser

/-! ## C35: the rejection branch of `processIdentifierOrKeyword` -/

namespace Tokenizer

theorem not_invalidIdentifier_of_isPrefixOf (message : String)
    (h : List.isPrefixOf "Syntax error: invalid identifier".data message.data = false) :
    ¬InvalidIdentifierMessage message := by
  intro hp
  have := List.isPrefixOf_iff_prefix.mpr hp
  rw [h] at this
  cases this

theorem not_invalidIdentifier_invalidInteger (value : String) :
    ¬InvalidIdentifierMessage ("Syntax error: invalid integer '" ++ value ++ "'") :=
  not_invalidIdentifier_of_isPrefixOf _ rfl

theorem not_invalidIdentifier_unknown (c : Char) :
    ¬InvalidIdentifierMessage ("Unknown token encountered: '" ++ String.singleton c ++ "'") :=
  not_invalidIdentifier_of_isPrefixOf _ rfl

theorem NoInvalidIdentifier.of_eq {t u : Tokenizer} (h : NoInvalidIdentifier t)
    (he : u.errorHandler = t.errorHandler) : NoInvalidIdentifier u := by
  intro e hm
  rw [he] at hm
  exact h e hm

theorem NoInvalidIdentifier.addError {t : Tokenizer} (h : NoInvalidIdentifier t)
    (line : Int) (message : String) (hm : ¬InvalidIdentifierMessage message) :
    ∀ e ∈ (t.addError line message).errorHandler.errors, ¬InvalidIdentifierMessage e.2 := by
  intro e he
  simp only [Tokenizer.addError, ErrorHandler.addError, List.mem_append, List.mem_singleton] at he
  rcases he with he | rfl
  · exact h e he
  · exact hm

theorem noInvalidIdentifier_processNumber {t : Tokenizer} (h : NoInvalidIdentifier t)
    (c : Char) : NoInvalidIdentifier (t.processNumber c) := by
  unfold processNumber
  simp only []
  by_cases hinv : (scanNumber t.inputFile (String.singleton c) false).2.1 = true
  · rw [if_pos hinv]
    exact NoInvalidIdentifier.addError (t := { t with inputFile := _ }) h _ _
      (not_invalidIdentifier_invalidInteger _)
  · rw [if_neg hinv]
    exact h

theorem noInvalidIdentifier_processStringLiteral {t u : Tokenizer} (fuel : Nat)
    (h : NoInvalidIdentifier t) (hu : processStringLiteral fuel t '"' = some u) :
    NoInvalidIdentifier u := by
  unfold processStringLiteral at hu
  simp only [] at hu
  rw [if_neg (by decide)] at hu
  cases hs : scanString '"' fuel t.inputFile (String.singleton '"') with
  | none =>
    rw [hs] at hu
    cases hu
  | some r =>
    obtain ⟨v, unterminated, rest⟩ := r
    rw [hs] at hu
    simp only [] at hu
    cases unterminated with
    | true =>
      simp only [if_true, Option.some.injEq] at hu
      subst hu
      exact NoInvalidIdentifier.addError (t := { t with inputFile := _ }) h _ _
        (not_invalidIdentifier_of_isPrefixOf _ rfl)
    | false =>
      simp only [Bool.false_eq_true, if_false, Option.some.injEq] at hu
      subst hu
      exact h

theorem noInvalidIdentifier_processCharLiteral {t u : Tokenizer} (fuel : Nat)
    (h : NoInvalidIdentifier t) (hu : processCharLiteral fuel t = some u) :
    NoInvalidIdentifier u := by
  unfold processCharLiteral at hu
  simp only [] at hu
  cases hs : scanChar fuel t.inputFile "'" false with
  | none =>
    rw [hs] at hu
    cases hu
  | some r =>
    obtain ⟨v, how, rest⟩ := r
    rw [hs] at hu
    cases how with
    | closed =>
      simp only [Option.some.injEq] at hu
      subst hu
      exact h
    | newline =>
      simp only [Option.some.injEq] at hu
      subst hu
      exact NoInvalidIdentifier.addError (t := { t with inputFile := _ }) h _ _
        (not_invalidIdentifier_of_isPrefixOf _ rfl)
    | endOfFile =>
      simp only [Option.some.injEq] at hu
      subst hu
      exact NoInvalidIdentifier.addError (t := { t with inputFile := _ }) h _ _
        (not_invalidIdentifier_of_isPrefixOf _ rfl)

theorem noInvalidIdentifier_tokenizeLoop :
    ∀ fuel t u, tokenizeLoop fuel t = some u → NoInvalidIdentifier t →
      NoInvalidIdentifier u ∧ u.inputFile = [] := by
  refine tokenizeLoop_invariant NoInvalidIdentifier ?_ ?_ ?_ ?_ ?_ ?_ ?_ ?_ ?_
  · intro t c cs _ _ hP
    by_cases hn : c = '\n'
    · rw [if_pos hn]
      exact hP
    · rw [if_neg hn]
      exact hP
  · intro t c cs _ hc hP
    exact NoInvalidIdentifier.of_eq (t := t) hP
      (processIdentifierOrKeyword_scanned { t with inputFile := cs } c hc).1
  · intro t c cs _ _ hP
    exact noInvalidIdentifier_processNumber (t := { t with inputFile := cs }) hP c
  · intro t cs _ _ hP
    exact hP
  · intro t c cs _ hc _ hP
    exact NoInvalidIdentifier.of_eq (t := t) hP
      (processOperator_scanned { t with inputFile := cs } c hc).1
  · intro t c cs _ hc hP
    exact NoInvalidIdentifier.of_eq (t := t) hP
      (processPunctuation_scanned { t with inputFile := cs } c hc).1
  · intro fuel t cs u _ hu hP
    exact noInvalidIdentifier_processStringLiteral (t := { t with inputFile := cs }) fuel hP hu
  · intro fuel t cs u _ hu hP
    exact noInvalidIdentifier_processCharLiteral (t := { t with inputFile := cs }) fuel hP hu
  · intro t c cs _ hP
    exact NoInvalidIdentifier.addError (t := { t with inputFile := cs }) hP _ _
      (not_invalidIdentifier_unknown c)

/-- C35. The rejection branch of `processIdentifierOrKeyword` is dead code.
A word scanned from a first character that is a letter or an underscore does
not start with a digit, so that the test of the rejection branch fails and
the call records no diagnostic. The main loop of `tokenize` calls
`processIdentifierOrKeyword` at such a character only, and so for every text
and every starting line `tokenize` returns and none of the diagnostics it
has recorded starts with "Syntax error: invalid identifier". -/
theorem invalid_identifier_unreachable :
    (∀ (t : Tokenizer) (c : Char), isWordStart c = true →
      ((scanWord t.inputFile (String.singleton c)).1.data.head?.any isdigit) = false ∧
        (t.processIdentifierOrKeyword c).errorHandler = t.errorHandler) ∧
    (∀ (text : String) (startLine : Int),
      ∃ u, (ofText text startLine).tokenize = some u ∧
        ∀ e ∈ u.errorHandler.errors, ¬InvalidIdentifierMessage e.2) := by
  refine ⟨fun t c hc => ⟨?_, (processIdentifierOrKeyword_scanned t c hc).1⟩, ?_⟩
  · obtain ⟨taken, -, h2, -, -⟩ := scanWord_spec t.inputFile (String.singleton c)
    rw [h2]
    simp [String.singleton, isWordStart_not_isdigit hc]
  · intro text startLine
    obtain ⟨u, hu⟩ := tokenize_returns (ofText text startLine)
    refine ⟨u, hu, ?_⟩
    unfold tokenize at hu
    exact (noInvalidIdentifier_tokenizeLoop _ _ u hu (fun e he => by cases he)).1

/-- C35 at the word `a1`: the scanned word starts with `a`, and the call
leaves the diagnostics as they are. -/
theorem invalid_identifier_unreachable_witness :
    isWordStart 'a' = true ∧
      ((scanWord ['1', ';'] (String.singleton 'a')).1.data.head?.any isdigit) = false ∧
      (({ inputFile := ['1', ';'], lineNumber := 1 } : Tokenizer).processIdentifierOrKeyword
        'a').errorHandler = {} :=
  ⟨by decide, invalid_identifier_unreachable.1 { inputFile := ['1', ';'], lineNumber := 1 } 'a'
    (by decide)⟩

end Tokenizer

/-! ## C38: the lines of the tokens -/

namespace Tokenizer

theorem LineStep.token {t u : Tokenizer} (tok : Token) (hl : u.lineNumber = t.lineNumber)
    (ht : u.tokens = t.tokens ++ [tok]) (hk : tok.lineNumber = t.lineNumber) : LineStep t u :=
  ⟨le_of_eq hl.symm, Or.inr (Or.inr ⟨tok, ht, hk⟩)⟩

theorem LinesSoFar.step {startLine : Int} {t u : Tokenizer} (h : LinesSoFar startLine t)
    (hs : LineStep t u) : LinesSoFar startLine u := by
  obtain ⟨h1, h2, h3⟩ := h
  obtain ⟨hl, ht | ht | ⟨tok, ht, hk⟩⟩ := hs
  · refine ⟨le_trans h1 hl, ?_, ?_⟩
    · rw [ht]
      exact fun tok hm => ⟨(h2 tok hm).1, le_trans (h2 tok hm).2 hl⟩
    · rw [ht]
      exact h3
  · refine ⟨le_trans h1 hl, ?_, ?_⟩
    · rw [ht]
      intro tok hm
      cases hm
    · rw [ht]
      exact List.sorted_nil
  · refine ⟨le_trans h1 hl, ?_, ?_⟩
    · rw [ht]
      intro k hm
      rcases List.mem_append.mp hm with hm | hm
      · exact ⟨(h2 k hm).1, le_trans (h2 k hm).2 hl⟩
      · rw [List.mem_singleton.mp hm, hk]
        exact ⟨h1, hl⟩
    · rw [ht, List.map_append, List.Sorted, List.pairwise_append]
      refine ⟨h3, List.pairwise_singleton _ _, ?_⟩
      intro a ha b hb
      obtain ⟨k, hk1, rfl⟩ := List.mem_map.mp ha
      rw [List.map_singleton, List.mem_singleton] at hb
      rw [hb, hk]
      exact (h2 k hk1).2

theorem lineStep_processIdentifierOrKeyword (t : Tokenizer) (c : Char)
    (hc : isWordStart c = true) : LineStep t (t.processIdentifierOrKeyword c) := by
  obtain ⟨taken, h1, h2, h3, h4⟩ := scanWord_spec t.inputFile (String.singleton c)
  have hw := processIdentifierOrKeyword_word t (scanWord t.inputFile (String.singleton c)).1
    c taken (scanWord t.inputFile (String.singleton c)).2 h2 hc h3 h4 h1
  exact LineStep.token _ hw.2.1 hw.2.2.1 rfl

theorem lineStep_processNumber (t : Tokenizer) (c : Char) : LineStep t (t.processNumber c) := by
  unfold processNumber
  simp only []
  by_cases hinv : (scanNumber t.inputFile (String.singleton c) false).2.1 = true
  · rw [if_pos hinv]
    exact ⟨le_refl _, Or.inr (Or.inl rfl)⟩
  · rw [if_neg hinv]
    exact LineStep.token _ rfl rfl rfl

theorem lineStep_processOperator (t : Tokenizer) (c : Char) :
    LineStep t (t.processOperator c) := by
  by_cases hd : ∃ b rest k, t.inputFile = b :: rest ∧ doubleOperator c b = some k
  · obtain ⟨b, rest, k, hin, hk⟩ := hd
    rw [processOperator_double t c b rest k hin hk]
    exact LineStep.token _ rfl rfl rfl
  · rw [processOperator_single t c]
    · exact LineStep.token _ rfl rfl rfl
    · intro b hb
      cases hin : t.inputFile with
      | nil => rw [hin] at hb; cases hb
      | cons b' rest =>
        rw [hin] at hb
        simp only [List.head?_cons, Option.some.injEq] at hb
        subst hb
        cases hk : doubleOperator c b' with
        | none => rfl
        | some k => exact absurd ⟨b', rest, k, hin, hk⟩ hd

theorem lineStep_processPunctuation (t : Tokenizer) (c : Char) :
    LineStep t (t.processPunctuation c) := by
  unfold processPunctuation
  split_ifs <;> exact LineStep.token _ rfl rfl rfl

theorem lineStep_processStringLiteral (fuel : Nat) (t u : Tokenizer)
    (hu : processStringLiteral fuel t '"' = some u) : LineStep t u := by
  unfold processStringLiteral at hu
  simp only [] at hu
  rw [if_neg (by decide)] at hu
  cases hs : scanString '"' fuel t.inputFile (String.singleton '"') with
  | none =>
    rw [hs] at hu
    cases hu
  | some r =>
    obtain ⟨v, unterminated, rest⟩ := r
    rw [hs] at hu
    simp only [] at hu
    cases unterminated with
    | true =>
      simp only [if_true, Option.some.injEq] at hu
      subst hu
      exact ⟨le_refl _, Or.inl rfl⟩
    | false =>
      simp only [Bool.false_eq_true, if_false, Option.some.injEq] at hu
      subst hu
      exact LineStep.token _ rfl rfl rfl

theorem lineStep_processCharLiteral (fuel : Nat) (t u : Tokenizer)
    (hu : processCharLiteral fuel t = some u) : LineStep t u := by
  unfold processCharLiteral at hu
  simp only [] at hu
  cases hs : scanChar fuel t.inputFile "'" false with
  | none =>
    rw [hs] at hu
    cases hu
  | some r =>
    obtain ⟨v, how, rest⟩ := r
    rw [hs] at hu
    cases how with
    | closed =>
      simp only [Option.some.injEq] at hu
      subst hu
      exact LineStep.token _ rfl rfl rfl
    | newline =>
      simp only [Option.some.injEq] at hu
      subst hu
      exact ⟨le_refl _, Or.inl rfl⟩
    | endOfFile =>
      simp only [Option.some.injEq] at hu
      subst hu
      exact ⟨le_refl _, Or.inl rfl⟩

theorem toInt32_of_bounds (x : Int) (h1 : -2147483648 ≤ x) (h2 : x ≤ 2147483647) :
    toInt32 x = x := by
  unfold toInt32
  omega

theorem LineBudget.of_suffix {t u : Tokenizer} (h : LineBudget t)
    (hl : u.lineNumber = t.lineNumber) (hs : u.inputFile <:+ t.inputFile) : LineBudget u := by
  obtain ⟨h1, h2⟩ := h
  have hc := hs.sublist.count_le '\n'
  unfold LineBudget
  rw [hl]
  omega

theorem LineBudget.tail {t : Tokenizer} {c : Char} {cs : List Char} (h : LineBudget t)
    (hin : t.inputFile = c :: cs) : LineBudget { t with inputFile := cs } :=
  h.of_suffix rfl (by rw [hin]; exact List.suffix_cons c cs)

/-- The loop of `skipWhitespace` under a line budget: the counter does not go
back, and it rises by no more than the newline characters the loop reads. -/
theorem skipWhitespaceLoop_line (cs : List Char) :
    ∀ line : Int, -2147483648 ≤ line → line + (cs.count '\n' : Nat) ≤ 2147483647 →
      line ≤ (skipWhitespaceLoop cs line).2 ∧
        (skipWhitespaceLoop cs line).2 + (((skipWhitespaceLoop cs line).1).count '\n' : Nat) ≤
          line + (cs.count '\n' : Nat) := by
  induction cs with
  | nil =>
    intro line _ _
    exact ⟨le_refl _, le_refl _⟩
  | cons c cs ih =>
    intro line hlo hhi
    rw [skipWhitespaceLoop]
    by_cases hn : c = '\n'
    · subst hn
      have hcount : (('\n' :: cs).count '\n' : Nat) = cs.count '\n' + 1 := List.count_cons_self _ _
      rw [hcount] at hhi ⊢
      have hw : toInt32 (line + 1) = line + 1 :=
        toInt32_of_bounds _ (by omega) (by push_cast at hhi; omega)
      have hsp : (!isspace '\n') = false := by decide
      simp only [if_true, hsp, Bool.false_eq_true, if_false, hw]
      obtain ⟨h1, h2⟩ := ih (line + 1) (by omega) (by push_cast at hhi ⊢; omega)
      refine ⟨by omega, ?_⟩
      push_cast at h2 ⊢
      omega
    · have hcount : ((c :: cs).count '\n' : Nat) = cs.count '\n' :=
        List.count_cons_of_ne (fun h => hn h.symm) _
      simp only [if_neg hn]
      by_cases hc : (!isspace c) = true
      · rw [if_pos hc]
        exact ⟨le_refl _, le_refl _⟩
      · rw [if_neg hc, hcount]
        rw [hcount] at hhi
        exact ih line hlo hhi

theorem suffix_scanHex (cs : List Char) (value : String) : (scanHex cs value).2 <:+ cs := by
  induction cs generalizing value with
  | nil => simp [scanHex]
  | cons h cs ih =>
    by_cases hh : isxdigit h = true
    · simp only [scanHex, hh, if_true]
      exact (ih _).trans (List.suffix_cons h cs)
    · simp [scanHex, hh]

theorem suffix_scanString (delimiter : Char) (fuel : Nat) :
    ∀ (cs : List Char) (value v : String) (b : Bool) (rest : List Char),
      scanString delimiter fuel cs value = some (v, b, rest) → rest <:+ cs := by
  induction fuel with
  | zero =>
    intro cs value v b rest h
    rw [scanString] at h
    cases h
  | succ n ih =>
    intro cs value v b rest h
    cases cs with
    | nil =>
      rw [scanString] at h
      simp only [Option.some.injEq, Prod.mk.injEq] at h
      rw [← h.2.2]
    | cons c cs =>
      have hrest : (if c = delimiter then
            if value.data.getLast? = some '\\' then scanString delimiter n cs (value.push c)
            else some (value.push c, false, cs)
          else scanString delimiter n cs (value.push c)) = some (v, b, rest) →
          rest <:+ c :: cs := by
        intro h
        by_cases h2 : c = delimiter
        · rw [if_pos h2] at h
          by_cases h3 : value.data.getLast? = some '\\'
          · rw [if_pos h3] at h
            exact (ih _ _ _ _ _ h).trans (List.suffix_cons c cs)
          · rw [if_neg h3] at h
            simp only [Option.some.injEq, Prod.mk.injEq] at h
            rw [← h.2.2]
            exact List.suffix_cons c cs
        · rw [if_neg h2] at h
          exact (ih _ _ _ _ _ h).trans (List.suffix_cons c cs)
      cases cs with
      | nil =>
        rw [scanString] at h
        by_cases h1 : c = '\\'
        · rw [if_pos h1] at h
          simp only [Option.some.injEq, Prod.mk.injEq] at h
          rw [← h.2.2]
          exact List.nil_suffix
        · rw [if_neg h1] at h
          exact hrest h
      | cons e tail =>
        rw [scanString] at h
        by_cases h1 : c = '\\'
        · rw [if_pos h1] at h
          have h0 : tail <:+ c :: e :: tail :=
            (List.suffix_cons e tail).trans (List.suffix_cons c _)
          by_cases h2 : e = 'x'
          · rw [if_pos h2] at h
            exact ((ih _ _ _ _ _ h).trans (suffix_scanHex tail "x")).trans h0
          · rw [if_neg h2] at h
            exact (ih _ _ _ _ _ h).trans h0
        · rw [if_neg h1] at h
          exact hrest h

theorem suffix_scanChar (fuel : Nat) :
    ∀ (cs : List Char) (value : String) (escape : Bool) (v : String) (how : CharEnd)
      (rest : List Char),
      scanChar fuel cs value escape = some (v, how, rest) → rest <:+ cs := by
  induction fuel with
  | zero =>
    intro cs value escape v how rest h
    rw [scanChar] at h
    cases h
  | succ n ih =>
    intro cs value escape v how rest h
    cases cs with
    | nil =>
      rw [scanChar] at h
      simp only [Option.some.injEq, Prod.mk.injEq] at h
      rw [← h.2.2]
    | cons c cs =>
      have hc := List.suffix_cons c cs
      rw [scanChar] at h
      by_cases h1 : escape = true
      · rw [if_pos h1] at h
        by_cases h2 : c = 'x'
        · rw [if_pos h2] at h
          exact ((ih _ _ _ _ _ _ h).trans (suffix_scanHex cs _)).trans hc
        · rw [if_neg h2] at h
          exact (ih _ _ _ _ _ _ h).trans hc
      · rw [if_neg h1] at h
        by_cases h2 : c = '\\'
        · rw [if_pos h2] at h
          exact (ih _ _ _ _ _ _ h).trans hc
        · rw [if_neg h2] at h
          by_cases h3 : c = '\''
          · rw [if_pos h3] at h
            simp only [Option.some.injEq, Prod.mk.injEq] at h
            rw [← h.2.2]
            exact hc
          · rw [if_neg h3] at h
            by_cases h4 : c = '\n'
            · rw [if_pos h4] at h
              simp only [Option.some.injEq, Prod.mk.injEq] at h
              rw [← h.2.2]
              exact hc
            · rw [if_neg h4] at h
              exact (ih _ _ _ _ _ _ h).trans hc

theorem lineBudget_processIdentifierOrKeyword (t : Tokenizer) (c : Char)
    (hc : isWordStart c = true) (h : LineBudget t) :
    LineBudget (t.processIdentifierOrKeyword c) := by
  obtain ⟨taken, h1, h2, h3, h4⟩ := scanWord_spec t.inputFile (String.singleton c)
  have hw := processIdentifierOrKeyword_word t (scanWord t.inputFile (String.singleton c)).1
    c taken (scanWord t.inputFile (String.singleton c)).2 h2 hc h3 h4 h1
  refine h.of_suffix hw.2.1 ?_
  rw [hw.1]
  exact ⟨taken, h1.symm⟩

theorem lineBudget_processNumber (t : Tokenizer) (c : Char) (h : LineBudget t) :
    LineBudget (t.processNumber c) := by
  obtain ⟨taken, h1, -, -⟩ := scanNumber_spec t.inputFile (String.singleton c) false
  unfold processNumber
  simp only []
  by_cases hinv : (scanNumber t.inputFile (String.singleton c) false).2.1 = true
  · rw [if_pos hinv]
    exact h.of_suffix rfl (List.nil_suffix)
  · rw [if_neg hinv]
    exact h.of_suffix rfl ⟨taken, h1.symm⟩

theorem lineBudget_processOperator (t : Tokenizer) (c : Char) (h : LineBudget t) :
    LineBudget (t.processOperator c) := by
  by_cases hd : ∃ b rest k, t.inputFile = b :: rest ∧ doubleOperator c b = some k
  · obtain ⟨b, rest, k, hin, hk⟩ := hd
    rw [processOperator_double t c b rest k hin hk]
    exact h.of_suffix rfl (by rw [hin]; exact List.suffix_cons b rest)
  · rw [processOperator_single t c]
    · exact h.of_suffix rfl (List.suffix_refl _)
    · intro b hb
      cases hin : t.inputFile with
      | nil => rw [hin] at hb; cases hb
      | cons b' rest =>
        rw [hin] at hb
        simp only [List.head?_cons, Option.some.injEq] at hb
        subst hb
        cases hk : doubleOperator c b' with
        | none => rfl
        | some k => exact absurd ⟨b', rest, k, hin, hk⟩ hd

theorem lineBudget_processPunctuation (t : Tokenizer) (c : Char) (h : LineBudget t) :
    LineBudget (t.processPunctuation c) := by
  unfold processPunctuation
  split_ifs <;> exact h.of_suffix rfl (List.suffix_refl _)

theorem lineBudget_processStringLiteral (fuel : Nat) (t u : Tokenizer)
    (hu : processStringLiteral fuel t '"' = some u) (h : LineBudget t) : LineBudget u := by
  unfold processStringLiteral at hu
  simp only [] at hu
  rw [if_neg (by decide)] at hu
  cases hs : scanString '"' fuel t.inputFile (String.singleton '"') with
  | none =>
    rw [hs] at hu
    cases hu
  | some r =>
    obtain ⟨v, unterminated, rest⟩ := r
    have hsuf := suffix_scanString '"' fuel _ _ _ _ _ hs
    rw [hs] at hu
    simp only [] at hu
    cases unterminated with
    | true =>
      simp only [if_true, Option.some.injEq] at hu
      subst hu
      exact h.of_suffix rfl (List.nil_suffix)
    | false =>
      simp only [Bool.false_eq_true, if_false, Option.some.injEq] at hu
      subst hu
      exact h.of_suffix rfl hsuf

theorem lineBudget_processCharLiteral (fuel : Nat) (t u : Tokenizer)
    (hu : processCharLiteral fuel t = some u) (h : LineBudget t) : LineBudget u := by
  unfold processCharLiteral at hu
  simp only [] at hu
  cases hs : scanChar fuel t.inputFile "'" false with
  | none =>
    rw [hs] at hu
    cases hu
  | some r =>
    obtain ⟨v, how, rest⟩ := r
    have hsuf := suffix_scanChar fuel _ _ _ _ _ _ hs
    rw [hs] at hu
    cases how with
    | closed =>
      simp only [Option.some.injEq] at hu
      subst hu
      exact h.of_suffix rfl hsuf
    | newline =>
      simp only [Option.some.injEq] at hu
      subst hu
      exact h.of_suffix rfl hsuf
    | endOfFile =>
      simp only [Option.some.injEq] at hu
      subst hu
      exact h.of_suffix rfl hsuf

theorem linesSoFar_tokenizeLoop (startLine : Int) :
    ∀ fuel t u, tokenizeLoop fuel t = some u → LinesSoFar startLine t ∧ LineBudget t →
      (LinesSoFar startLine u ∧ LineBudget u) ∧ u.inputFile = [] := by
  refine tokenizeLoop_invariant (fun t => LinesSoFar startLine t ∧ LineBudget t)
    ?_ ?_ ?_ ?_ ?_ ?_ ?_ ?_ ?_
  · intro t c cs hin _ hP
    obtain ⟨hP, hlo, hhi⟩ := hP
    rw [hin] at hhi
    by_cases hn : c = '\n'
    · subst hn
      have hcount : (('\n' :: cs).count '\n' : Nat) = cs.count '\n' + 1 :=
        List.count_cons_self _ _
      rw [hcount] at hhi
      have hw : toInt32 (t.lineNumber + 1) = t.lineNumber + 1 :=
        toInt32_of_bounds _ (by omega) (by push_cast at hhi; omega)
      rw [if_pos rfl, hw]
      obtain ⟨h1, h2⟩ := skipWhitespaceLoop_line cs (t.lineNumber + 1) (by omega)
        (by push_cast at hhi ⊢; omega)
      exact ⟨hP.step ⟨le_trans (by omega) h1, Or.inl rfl⟩, le_trans (by omega) h1, h2.trans
        (by push_cast at hhi ⊢; omega)⟩
    · have hcount : ((c :: cs).count '\n' : Nat) = cs.count '\n' :=
        List.count_cons_of_ne (fun h => hn h.symm) _
      rw [hcount] at hhi
      rw [if_neg hn]
      obtain ⟨h1, h2⟩ := skipWhitespaceLoop_line cs t.lineNumber hlo hhi
      exact ⟨hP.step ⟨h1, Or.inl rfl⟩, le_trans hlo h1, h2.trans hhi⟩
  · intro t c cs hin hc hP
    exact ⟨hP.1.step (lineStep_processIdentifierOrKeyword { t with inputFile := cs } c hc),
      lineBudget_processIdentifierOrKeyword _ c hc (hP.2.tail hin)⟩
  · intro t c cs hin _ hP
    exact ⟨hP.1.step (lineStep_processNumber { t with inputFile := cs } c),
      lineBudget_processNumber _ c (hP.2.tail hin)⟩
  · intro t cs hin _ hP
    exact ⟨hP.1.step ⟨le_refl _, Or.inl rfl⟩, hP.2.tail hin⟩
  · intro t c cs hin _ _ hP
    exact ⟨hP.1.step (lineStep_processOperator { t with inputFile := cs } c),
      lineBudget_processOperator _ c (hP.2.tail hin)⟩
  · intro t c cs hin _ hP
    exact ⟨hP.1.step (lineStep_processPunctuation { t with inputFile := cs } c),
      lineBudget_processPunctuation _ c (hP.2.tail hin)⟩
  · intro fuel t cs u hin hu hP
    exact ⟨hP.1.step (lineStep_processStringLiteral fuel { t with inputFile := cs } u hu),
      lineBudget_processStringLiteral fuel _ u hu (hP.2.tail hin)⟩
  · intro fuel t cs u hin hu hP
    exact ⟨hP.1.step (lineStep_processCharLiteral fuel { t with inputFile := cs } u hu),
      lineBudget_processCharLiteral fuel _ u hu (hP.2.tail hin)⟩
  · intro t c cs hin hP
    exact ⟨hP.1.step ⟨le_refl _, Or.inl rfl⟩, hP.2.tail hin⟩

/-- C38, the claim as worded fails at the end of the `int` range. Read from
the starting line 2147483647, the text of the two lines `a` and `b` gives the
token `a` the line 2147483647 and the token `b` the line -2147483648: the
increment of the `int` line counter at the newline wraps around. The lines
decrease along the token list, and the second lies below the starting line. -/
theorem token_lines_counterexample :
    ((ofText "a\nb" 2147483647).tokenize).map getTokens =
        some [⟨TOKEN_IDENTIFIER, "a", 2147483647⟩, ⟨TOKEN_IDENTIFIER, "b", -2147483648⟩] ∧
      ¬ ∃ u, (ofText "a\nb" 2147483647).tokenize = some u ∧
        (u.getTokens.map Token.lineNumber).Sorted (· ≤ ·) ∧
        ∀ tok ∈ u.getTokens, (2147483647 : Int) ≤ tok.lineNumber := by
  have h : ((ofText "a\nb" 2147483647).tokenize).map getTokens =
      some [⟨TOKEN_IDENTIFIER, "a", 2147483647⟩, ⟨TOKEN_IDENTIFIER, "b", -2147483648⟩] := by
    decide
  refine ⟨h, ?_⟩
  rintro ⟨u, hu, -, hall⟩
  rw [hu] at h
  simp only [Option.map_some', Option.some.injEq] at h
  have := hall ⟨TOKEN_IDENTIFIER, "b", -2147483648⟩ (by rw [h]; simp)
  exact absurd this (by decide)

/-- C38, amended. For every text and every starting line that is an `int` and
that the newline characters of the text cannot take past the largest `int`
(starting line plus number of newline characters at most 2147483647),
`tokenize` returns, the line fields of its tokens do not decrease along the
token list, and each of them is at least the starting line. -/
theorem token_lines_sorted (text : String) (startLine : Int)
    (hlow : -2147483648 ≤ startLine)
    (hhigh : startLine + (text.data.count '\n' : Nat) ≤ 2147483647) :
    ∃ u, (ofText text startLine).tokenize = some u ∧
      (u.getTokens.map Token.lineNumber).Sorted (· ≤ ·) ∧
      ∀ tok ∈ u.getTokens, startLine ≤ tok.lineNumber := by
  obtain ⟨u, hu⟩ := tokenize_returns (ofText text startLine)
  refine ⟨u, hu, ?_⟩
  unfold tokenize at hu
  obtain ⟨⟨⟨-, h2, h3⟩, -⟩, -⟩ := linesSoFar_tokenizeLoop startLine _ _ u hu
    ⟨⟨le_refl _, fun tok hm => absurd hm (List.not_mem_nil _), List.sorted_nil⟩, hlow, hhigh⟩
  exact ⟨h3, fun tok hm => (h2 tok hm).1⟩

/-- C38 at the last starting line the bound admits for a text with one
newline: the text of the two lines `a` and `b` read from line 2147483646. -/
theorem token_lines_sorted_witness :
    (-2147483648 : Int) ≤ 2147483646 ∧
      (2147483646 : Int) + (("a\nb".data).count '\n' : Nat) ≤ 2147483647 ∧
      ∃ u, (ofText "a\nb" 2147483646).tokenize = some u ∧
        (u.getTokens.map Token.lineNumber).Sorted (· ≤ ·) ∧
        ∀ tok ∈ u.getTokens, (2147483646 : Int) ≤ tok.lineNumber :=
  ⟨by decide, by decide, token_lines_sorted "a\nb" 2147483646 (by decide) (by decide)⟩

end Tokenizer

/-! ## C36: a minus sign at the start of an operand -/

namespace Parser

theorem addChild_new_null (name value : String) (line : Int) :
    (CSTNode.new name value line).addChild CSTNode.null = CSTNode.new name value line := rfl

/-- C36. Where an operand starts with a `-` token: if the next token is an
integer token `n`, `parseExpression` consumes both and enters its operator
loop with the one node `Operand("-" ++ n.value)` on the line of `n`; if the
next token is no integer token, or there is none, it builds no operand, puts
the `-` back and enters the operator loop with no left-hand side, and the
operator loop consumes the `-`, parses what follows as the right-hand side
and makes the node `Operator(-)` with that right-hand side as its child. -/
theorem negative_literal_folding (fuel : Nat) (pre rest : List Token) (minus : Token)
    (stopAtParen : Bool) (eh : ErrorHandler) (st : SymbolTable)
    (hm : minus.type = TOKEN_MINUS) :
    (∀ n : Token, n.type = TOKEN_INTEGER →
      parseExpression (fuel + 1) CSTNode.null stopAtParen
          (reading pre (minus :: n :: rest) eh st) =
        parseOperators fuel (CSTNode.new "Operand" ("-" ++ n.value) n.lineNumber) stopAtParen
          (reading (pre ++ [minus, n]) rest eh st)) ∧
    ((∀ t, rest.head? = some t → t.type ≠ TOKEN_INTEGER) →
      parseExpression (fuel + 2) CSTNode.null stopAtParen
          (reading pre (minus :: rest) eh st) =
        parseOperators (fuel + 1) CSTNode.null stopAtParen
          (reading pre (minus :: rest) eh st) ∧
      parseOperators (fuel + 1) CSTNode.null stopAtParen
          (reading pre (minus :: rest) eh st) =
        match parseExpression fuel CSTNode.null false (reading (pre ++ [minus]) rest eh st) with
        | none => none
        | some (rightHandSide, p) =>
          if rightHandSide.isNull then some (CSTNode.null, p)
          else
            parseOperators fuel
              ((CSTNode.new "Operator" minus.value minus.lineNumber).addChild rightHandSide)
              stopAtParen p) := by
  refine ⟨fun n hn => ?_, fun hr => ⟨?_, ?_⟩⟩
  · rw [parseExpression]
    simp [CSTNode.isNull, hm, hn]
  · rw [parseExpression]
    cases rest with
    | nil => simp [CSTNode.isNull, hm, TokenStream.endToken]
    | cons t rest =>
      have := hr t rfl
      simp [CSTNode.isNull, hm, this]
  · rw [parseOperators]
    simp [hm, isChainOperator, addChild_new_null]

/-- C36 at `-42 ;` and at `- y ;`: the first gives the node `Operand(-42)`,
the second the node `Operator(-)` over `Operand(y)`. -/
theorem negative_literal_folding_witness :
    parseExpression 2 CSTNode.null false
        (reading [] [⟨TOKEN_MINUS, "-", 1⟩, ⟨TOKEN_INTEGER, "42", 1⟩, ⟨TOKEN_SEMICOLON, ";", 1⟩]
          {} {}) =
      parseOperators 1 (CSTNode.new "Operand" "-42" 1) false
        (reading [⟨TOKEN_MINUS, "-", 1⟩, ⟨TOKEN_INTEGER, "42", 1⟩] [⟨TOKEN_SEMICOLON, ";", 1⟩]
          {} {}) ∧
    parseExpression 4 CSTNode.null false
        (reading [] [⟨TOKEN_MINUS, "-", 1⟩, ⟨TOKEN_IDENTIFIER, "y", 1⟩, ⟨TOKEN_SEMICOLON, ";", 1⟩]
          {} {}) =
      some (CSTNode.tree "Operator" "-" 1 [CSTNode.new "Operand" "y" 1],
        reading [⟨TOKEN_MINUS, "-", 1⟩, ⟨TOKEN_IDENTIFIER, "y", 1⟩] [⟨TOKEN_SEMICOLON, ";", 1⟩]
          {} {}) :=
  ⟨(negative_literal_folding 1 [] [⟨TOKEN_SEMICOLON, ";", 1⟩] ⟨TOKEN_MINUS, "-", 1⟩ false {} {}
      rfl).1 ⟨TOKEN_INTEGER, "42", 1⟩ rfl,
    ((negative_literal_folding 2 [] [⟨TOKEN_IDENTIFIER, "y", 1⟩, ⟨TOKEN_SEMICOLON, ";", 1⟩]
      ⟨TOKEN_MINUS, "-", 1⟩ false {} {} rfl).2
      (by intro t ht; cases ht; decide)).1.trans (by decide)⟩

end Parser

/-! ## C39: `rewind` after the end token -/

namespace TokenStream

theorem getLast_eq_getElem? (tokens : List Token) (h : tokens ≠ []) :
    tokens[tokens.length - 1]? = some (tokens.getLast h) := by
  rw [List.getLast_eq_getElem, List.getElem?_eq_getElem]

end TokenStream

namespace Parser

/-- C39. In a non-empty stream with the cursor at the end, `getNextToken`
returns the end token and leaves the stream as it is, the `rewind` after it
moves the cursor to `len - 1`, and the next `getNextToken` returns the last
token of the stream, which the call before the `rewind` had not returned,
and puts the cursor back at the end. `parseStatement` does this where
`return` is the last token: after the `rewind` of Parser.cpp line 631 it
reads `return` again as the start of an expression, records "Invalid
expression." on the line of `return`, then "Expected ';' after return
statement." on line -1, and returns `nullptr`. -/
theorem rewind_after_sentinel_rereads :
    (∀ (ts : TokenStream) (h : ts.tokens ≠ []), ts.currentIndex = ts.tokens.length →
      ts.getNextToken = (TokenStream.endToken, ts) ∧
        ts.getNextToken.2.rewind.currentIndex = ts.tokens.length - 1 ∧
        ts.getNextToken.2.rewind.getNextToken =
          (ts.tokens.getLast h, ts)) ∧
    (∀ (fuel : Nat) (pre : List Token) (ret : Token) (eh : ErrorHandler) (st : SymbolTable),
      ret.type = TOKEN_KEYWORD → ret.value = "return" →
        parseStatement (fuel + 2) (reading pre [ret] eh st) =
          some (CSTNode.null,
            reading (pre ++ [ret]) []
              ((eh.addError ret.lineNumber "Invalid expression.").addError (-1)
                "Expected ';' after return statement.") st)) := by
  refine ⟨fun ts h hc => ?_, fun fuel pre ret eh st ht hv => ?_⟩
  · have hlen : 0 < ts.tokens.length := List.length_pos.mpr h
    have h1 : ts.getNextToken = (TokenStream.endToken, ts) := by
      simp only [TokenStream.getNextToken, hc, List.getElem?_eq_none (le_refl _)]
    have h2 : ts.rewind = { ts with currentIndex := ts.tokens.length - 1 } := by
      simp only [TokenStream.rewind, hc, gt_iff_lt, hlen, if_true]
    refine ⟨h1, ?_, ?_⟩
    · rw [h1, h2]
    · rw [h1]
      simp only []
      rw [h2]
      simp only [TokenStream.getNextToken, TokenStream.getLast_eq_getElem? ts.tokens h]
      obtain ⟨tokens, idx⟩ := ts
      simp only [] at hc hlen ⊢
      subst hc
      simp only [Nat.sub_add_cancel hlen]
  · rw [parseStatement]
    simp [ht, hv, parseReturnStatement, TokenStream.endToken, parseExpression, CSTNode.isNull]

/-- C39 on the stream whose only token is `return`, with the cursor at 1. -/
theorem rewind_after_sentinel_rereads_witness :
    (({ tokens := [⟨TOKEN_KEYWORD, "return", 1⟩], currentIndex := 1 } :
        TokenStream).getNextToken =
      (TokenStream.endToken, { tokens := [⟨TOKEN_KEYWORD, "return", 1⟩], currentIndex := 1 })) ∧
    ({ tokens := [⟨TOKEN_KEYWORD, "return", 1⟩], currentIndex := 1 } :
        TokenStream).getNextToken.2.rewind.currentIndex = 0 ∧
    ({ tokens := [⟨TOKEN_KEYWORD, "return", 1⟩], currentIndex := 1 } :
        TokenStream).getNextToken.2.rewind.getNextToken =
      (⟨TOKEN_KEYWORD, "return", 1⟩,
        { tokens := [⟨TOKEN_KEYWORD, "return", 1⟩], currentIndex := 1 }) :=
  rewind_after_sentinel_rereads.1 { tokens := [⟨TOKEN_KEYWORD, "return", 1⟩], currentIndex := 1 }
    (by decide) rfl

end Parser

/-! ## C31, C32, C33, C40: sizes, punctuation, open bodies, stray parameter tokens -/

namespace Parser

/-- C31 fails on the code for an array parameter of size zero. For
`f(int a[0]) { }` `parseProcedure` returns the procedure node, with
`ArraySize(0)` under the parameter, records no diagnostic and enters `a` in
the parameter list of `f` as an array of size 0. The declaration path does
what the claim says: `int a[0];`, `int a[-3];` and `int a[x];` each record a
diagnostic, `parseStatement` returns `nullptr`, and no entry is made. So
does the parameter path for a size that is no integer token: `f(int a[x])`
records "Expected integer size for array parameter.", `parseProcedure`
returns `nullptr`, and `f` gets no parameter. -/
theorem array_parameter_of_size_zero :
    (parseProcedure 4 "Procedure" Token.default
        (ofTokens (tokensOf "f(int a[0]) \x7b \x7d"))).map
        (fun o => (o.node?, o.errors, o.parser.symbolTable.parametersOf "f")) =
      some (some (CSTNode.tree "Procedure" "f" 1
          [CSTNode.new "Symbol" "(" 1,
            CSTNode.tree "ParameterType" "int" 1
              [CSTNode.tree "Parameter" "a" 1 [CSTNode.new "ArraySize" "0" 1]],
            CSTNode.new "Symbol" ")" 1, CSTNode.new "Symbol" "\x7b" 1,
            CSTNode.new "Symbol" "\x7d" 1]),
        [], [⟨"a", "parameter", "int", true, 0, 1⟩]) ∧
    (parseStatement 2 (ofTokens (tokensOf "int a[0];"))).map
        (fun r => (r.1, r.2.errorHandler.errors, r.2.symbolTable.entries)) =
      some (CSTNode.null,
        [(1, "Syntax error: array declaration size must be a positive integer.")], []) ∧
    (parseStatement 2 (ofTokens (tokensOf "int a[-3];"))).map
        (fun r => (r.1, r.2.errorHandler.errors, r.2.symbolTable.entries)) =
      some (CSTNode.null,
        [(1, "Syntax error: array declaration size must be a positive integer.")], []) ∧
    (parseStatement 2 (ofTokens (tokensOf "int a[x];"))).map
        (fun r => (r.1, r.2.errorHandler.errors, r.2.symbolTable.entries)) =
      some (CSTNode.null, [(1, "Expected integer size for array declaration.")], []) ∧
    (parseProcedure 4 "Procedure" Token.default
        (ofTokens (tokensOf "f(int a[x]) \x7b \x7d"))).map
        (fun o => (o.node?, o.errors, o.parser.symbolTable.parametersOf "f")) =
      some (some CSTNode.null, [(1, "Expected integer size for array parameter.")], []) := by
  refine ⟨?_, ?_, ?_, ?_, ?_⟩ <;> decide

/-- C32 fails on the code for the punctuation of statements. For
`if (x) { }` `parseStatement` returns the node `IfStatement` whose only
child is the condition `Operand(x)`: the four punctuation tokens are consumed
and no `Symbol` node is made; the same holds for `while (x) { }` and for
the call statement `f(a, b);`. The procedure header and body do record
them: `f(int x, int y) { }` gives `Symbol` children for `(`, `,`, `)`,
the opening and the closing brace, in source order. -/
theorem statement_punctuation_not_recorded :
    (parseStatement 3 (ofTokens (tokensOf "if (x) \x7b \x7d"))).map
        (fun r => (r.1, r.2.errorHandler.errors, r.2.tokenStream.currentIndex)) =
      some (CSTNode.tree "IfStatement" "if" 1 [CSTNode.new "Operand" "x" 1], [], 6) ∧
    (parseStatement 3 (ofTokens (tokensOf "while (x) \x7b \x7d"))).map
        (fun r => (r.1, r.2.errorHandler.errors, r.2.tokenStream.currentIndex)) =
      some (CSTNode.tree "WhileStatement" "while" 1 [CSTNode.new "Operand" "x" 1], [], 6) ∧
    (parseStatement 5 (ofTokens (tokensOf "f(a, b);"))).map
        (fun r => (r.1, r.2.errorHandler.errors, r.2.tokenStream.currentIndex)) =
      some (CSTNode.new "FunctionCall" "f" 1, [], 7) ∧
    (parseProcedure 4 "Procedure" Token.default
        (ofTokens (tokensOf "f(int x, int y) \x7b \x7d"))).map
        (fun o => (o.node?, o.errors)) =
      some (some (CSTNode.tree "Procedure" "f" 1
          [CSTNode.new "Symbol" "(" 1,
            CSTNode.tree "ParameterType" "int" 1 [CSTNode.new "Parameter" "x" 1],
            CSTNode.new "Symbol" "," 1,
            CSTNode.tree "ParameterType" "int" 1 [CSTNode.new "Parameter" "y" 1],
            CSTNode.new "Symbol" ")" 1, CSTNode.new "Symbol" "\x7b" 1,
            CSTNode.new "Symbol" "\x7d" 1]), []) := by
  refine ⟨?_, ?_, ?_, ?_⟩ <;> decide

/-- C33 as stated fails at its own example: for `procedure foo() {`
`parseProgram` returns the `Program` node with the `Procedure` node, which
has no `Symbol` child for a closing brace, and records no diagnostic. -/
theorem open_body_counterexample :
    (parseProgram 3 (ofTokens (tokensOf "procedure foo() \x7b"))).map
        (fun o => (o.node?, o.errors)) =
      some (some (CSTNode.tree "Program" "" (-1)
          [CSTNode.tree "Procedure" "foo" 1
            [CSTNode.new "Symbol" "(" 1, CSTNode.new "Symbol" ")" 1,
              CSTNode.new "Symbol" "\x7b" 1]]), []) := by
  decide

/-- C33 (amended). The statement loop of a body, which is the same for the
bodies of procedures, functions, `if`, `else`, `while` and `for`, ends where
no token is left: it returns the node built so far and leaves the parser,
its diagnostics included, as it is. So a body that is not closed by a
closing brace before the end of input is accepted as if it were closed
there, without a diagnostic, and `parseProgram` returns the `Program` node:
for an open procedure body, function body, `if` body, `else` body, `while`
body and `for` body, and for an open body inside an open body. -/
theorem open_body_accepted :
    (∀ (fuel : Nat) (closing : Bool) (node : CSTNode) (p : Parser),
      p.hasMoreTokens = false → parseBlock (fuel + 1) closing node p = some (node, p)) ∧
    (parseProgram 20 (ofTokens (tokensOf "procedure foo() \x7b"))).map
        (fun o => (o.node?.map CSTNode.isNull, o.errors)) = some (some false, []) ∧
    (parseProgram 20 (ofTokens (tokensOf "function int g() \x7b x = 1;"))).map
        (fun o => (o.node?.map CSTNode.isNull, o.errors)) = some (some false, []) ∧
    (parseProgram 20 (ofTokens (tokensOf "if (x) \x7b"))).map
        (fun o => (o.node?.map CSTNode.isNull, o.errors)) = some (some false, []) ∧
    (parseProgram 20 (ofTokens (tokensOf "if (x) \x7b \x7d else \x7b y = 1;"))).map
        (fun o => (o.node?.map CSTNode.isNull, o.errors)) = some (some false, []) ∧
    (parseProgram 20 (ofTokens (tokensOf "while (x) \x7b y = 1;"))).map
        (fun o => (o.node?.map CSTNode.isNull, o.errors)) = some (some false, []) ∧
    (parseProgram 20 (ofTokens (tokensOf "for (i = 0; i < 4; i = i + 1) \x7b"))).map
        (fun o => (o.node?.map CSTNode.isNull, o.errors)) = some (some false, []) ∧
    (parseProgram 20 (ofTokens (tokensOf "procedure foo() \x7b if (x) \x7b while (y) \x7b"))).map
        (fun o => (o.node?, o.errors)) =
      some (some (CSTNode.tree "Program" "" (-1)
          [CSTNode.tree "Procedure" "foo" 1
            [CSTNode.new "Symbol" "(" 1, CSTNode.new "Symbol" ")" 1,
              CSTNode.new "Symbol" "\x7b" 1,
              CSTNode.tree "IfStatement" "if" 1
                [CSTNode.new "Operand" "x" 1,
                  CSTNode.tree "WhileStatement" "while" 1 [CSTNode.new "Operand" "y" 1]]]]),
        []) := by
  refine ⟨fun fuel closing node p h => ?_, ?_, ?_, ?_, ?_, ?_, ?_, ?_⟩
  · rw [parseBlock]
    simp [h]
  all_goals decide

/-- C33 (amended) at the end of the stream `procedure foo ( ) {`: the body
loop returns the node it was given. -/
theorem open_body_accepted_witness :
    parseBlock 1 true (CSTNode.new "Procedure" "foo" 1)
        { tokenStream := { tokens := tokensOf "procedure foo() \x7b", currentIndex := 5 } } =
      some (CSTNode.new "Procedure" "foo" 1,
        { tokenStream := { tokens := tokensOf "procedure foo() \x7b", currentIndex := 5 } }) :=
  open_body_accepted.1 0 true (CSTNode.new "Procedure" "foo" 1)
    { tokenStream := { tokens := tokensOf "procedure foo() \x7b", currentIndex := 5 } } (by decide)

/-- The parameter loop at a token that is neither `)` nor a type token and is
not followed by a comma. -/
theorem parseParameters_skip (fuel : Nat) (procName : String) (currentScope : Int)
    (procedureNode : CSTNode) (pre rest : List Token) (t : Token) (eh : ErrorHandler)
    (st : SymbolTable) (h1 : t.type ≠ TOKEN_R_PAREN) (h2 : t.type ≠ TOKEN_TYPE)
    (h3 : ∀ c, rest.head? = some c → c.type ≠ TOKEN_COMMA) :
    parseParameters (fuel + 1) procName currentScope procedureNode
        (reading pre (t :: rest) eh st) =
      parseParameters fuel procName currentScope procedureNode
        (reading (pre ++ [t]) rest eh st) := by
  rw [parseParameters]
  cases rest with
  | nil => simp [h1, h2, TokenStream.endToken]
  | cons c rest =>
    have := h3 c rfl
    simp [h1, h2, this]

/-- The parameter loop at a token that is neither `)` nor a type token and is
followed by a comma. -/
theorem parseParameters_skip_comma (fuel : Nat) (procName : String) (currentScope : Int)
    (procedureNode : CSTNode) (pre rest : List Token) (t c : Token) (eh : ErrorHandler)
    (st : SymbolTable) (h1 : t.type ≠ TOKEN_R_PAREN) (h2 : t.type ≠ TOKEN_TYPE)
    (h3 : c.type = TOKEN_COMMA) :
    parseParameters (fuel + 1) procName currentScope procedureNode
        (reading pre (t :: c :: rest) eh st) =
      parseParameters fuel procName currentScope
        (procedureNode.addChild (CSTNode.new "Symbol" "," c.lineNumber))
        (reading (pre ++ [t, c]) rest eh st) := by
  rw [parseParameters]
  simp [h1, h2, h3]

/-- The parameter loop on a parameter list that holds no type token: all its
tokens are consumed, and the commas in look-ahead position are recorded. -/
theorem parseParameters_stray (procName : String) (currentScope : Int) (rp : Token)
    (rest : List Token) (eh : ErrorHandler) (st : SymbolTable)
    (hrp : rp.type = TOKEN_R_PAREN) :
    ∀ (n : Nat) (ts : List Token), ts.length = n →
      ∀ (fuel : Nat) (procedureNode : CSTNode) (pre : List Token),
        (∀ t ∈ ts, t.type ≠ TOKEN_R_PAREN ∧ t.type ≠ TOKEN_TYPE) →
        parseParameters (fuel + ts.length + 1) procName currentScope procedureNode
            (reading pre (ts ++ rp :: rest) eh st) =
          some (.returned
            ((addCommas procedureNode (recordedCommas false ts)).addChild
              (CSTNode.new "Symbol" ")" rp.lineNumber))
            (reading (pre ++ ts ++ [rp]) rest eh st)) := by
  intro n
  induction n using Nat.strong_induction_on with
  | _ n ih =>
    intro ts hn fuel procedureNode pre hts
    cases ts with
    | nil =>
      rw [parseParameters]
      simp [hrp, recordedCommas, addCommas]
    | cons t ts =>
      obtain ⟨h1, h2⟩ := hts t (List.mem_cons_self _ _)
      cases ts with
      | nil =>
        have hnext : ∀ c, (rp :: rest).head? = some c → c.type ≠ TOKEN_COMMA := by
          intro c hc
          simp only [List.head?_cons, Option.some.injEq] at hc
          rw [← hc, hrp]
          decide
        have hrec := ih 0 (by rw [← hn]; simp) [] rfl fuel procedureNode (pre ++ [t])
          (fun _ h => absurd h (List.not_mem_nil _))
        simp only [List.length_nil, List.nil_append, Nat.add_zero] at hrec
        simp only [List.length_singleton, List.singleton_append]
        rw [show fuel + 1 + 1 = (fuel + 1) + 1 by rfl,
          parseParameters_skip (fuel + 1) procName currentScope procedureNode pre _ t eh st
            h1 h2 hnext, hrec]
        simp [recordedCommas]
      | cons c ts =>
        by_cases hc : c.type = TOKEN_COMMA
        · have hrec := ih ts.length (by rw [← hn]; simp; omega) ts rfl (fuel + 1)
            (procedureNode.addChild (CSTNode.new "Symbol" "," c.lineNumber)) (pre ++ [t, c])
            (fun x hx => hts x (List.mem_cons_of_mem _ (List.mem_cons_of_mem _ hx)))
          simp only [List.length_cons, List.cons_append]
          rw [show fuel + (ts.length + 1 + 1) + 1 = (fuel + 1 + ts.length + 1) + 1 by omega,
            parseParameters_skip_comma _ procName currentScope procedureNode pre _ t c eh st
              h1 h2 hc, hrec]
          simp [recordedCommas, hc, addCommas]
        · have hnext : ∀ d, (c :: (ts ++ rp :: rest)).head? = some d → d.type ≠ TOKEN_COMMA := by
            intro d hd
            simp only [List.head?_cons, Option.some.injEq] at hd
            rw [← hd]
            exact hc
          have hrec := ih (ts.length + 1) (by rw [← hn]; simp) (c :: ts) rfl fuel
            procedureNode (pre ++ [t])
            (fun x hx => hts x (List.mem_cons_of_mem _ hx))
          simp only [List.length_cons, List.cons_append] at hrec ⊢
          rw [show fuel + (ts.length + 1 + 1) + 1 = (fuel + (ts.length + 1) + 1) + 1 by omega,
            parseParameters_skip _ procName currentScope procedureNode pre _ t eh st
              h1 h2 hnext, hrec]
          simp [recordedCommas, hc]

/-- C40 as stated fails for a comma that follows a skipped token. In
`f(x, y) { }` the identifier `x` is skipped, and the comma after it, which is
neither `)` nor a type token, is consumed by the look-ahead of the same turn
and gets the CST node `Symbol(,)`. -/
theorem stray_comma_counterexample :
    (parseProcedure 6 "Procedure" Token.default
        (ofTokens (tokensOf "f(x, y) \x7b \x7d"))).map
        (fun o => (o.node?, o.errors, o.parser.symbolTable.parametersOf "f")) =
      some (some (CSTNode.tree "Procedure" "f" 1
          [CSTNode.new "Symbol" "(" 1, CSTNode.new "Symbol" "," 1,
            CSTNode.new "Symbol" ")" 1, CSTNode.new "Symbol" "\x7b" 1,
            CSTNode.new "Symbol" "\x7d" 1]), [], []) := by
  decide

/-- C40 (amended). In the parameter-list loop of `parseProcedure`, a token
read at the top of the loop that is neither `)` nor a type token is consumed
and nothing else happens: the loop goes on with the same procedure node, the
same diagnostics and the same symbol table. As after a parameter, a comma
that follows it directly is consumed by the look-ahead of the same turn and
recorded as a `Symbol` child. So a parameter list `ts )` in which no token of
`ts` is a type token is consumed whole, without a diagnostic and without a
parameter entry, and the procedure node gets a `Symbol` child for each comma
in look-ahead position and for `)`, and no other. `f(x) { }` and
`f(1 2 3) { }` parse without a diagnostic, the node of `f` has the children
`(`, `)`, and the braces only, and `f` has no parameter. -/
theorem stray_parameter_tokens_skipped :
    (∀ (fuel : Nat) (procName : String) (currentScope : Int) (procedureNode : CSTNode)
        (pre rest : List Token) (t : Token) (eh : ErrorHandler) (st : SymbolTable),
      t.type ≠ TOKEN_R_PAREN → t.type ≠ TOKEN_TYPE →
        (∀ c, rest.head? = some c → c.type ≠ TOKEN_COMMA) →
        parseParameters (fuel + 1) procName currentScope procedureNode
            (reading pre (t :: rest) eh st) =
          parseParameters fuel procName currentScope procedureNode
            (reading (pre ++ [t]) rest eh st)) ∧
    (∀ (fuel : Nat) (procName : String) (currentScope : Int) (procedureNode : CSTNode)
        (pre rest : List Token) (t c : Token) (eh : ErrorHandler) (st : SymbolTable),
      t.type ≠ TOKEN_R_PAREN → t.type ≠ TOKEN_TYPE → c.type = TOKEN_COMMA →
        parseParameters (fuel + 1) procName currentScope procedureNode
            (reading pre (t :: c :: rest) eh st) =
          parseParameters fuel procName currentScope
            (procedureNode.addChild (CSTNode.new "Symbol" "," c.lineNumber))
            (reading (pre ++ [t, c]) rest eh st)) ∧
    (∀ (fuel : Nat) (procName : String) (currentScope : Int) (procedureNode : CSTNode)
        (pre ts rest : List Token) (rp : Token) (eh : ErrorHandler) (st : SymbolTable),
      (∀ t ∈ ts, t.type ≠ TOKEN_R_PAREN ∧ t.type ≠ TOKEN_TYPE) → rp.type = TOKEN_R_PAREN →
        parseParameters (fuel + ts.length + 1) procName currentScope procedureNode
            (reading pre (ts ++ rp :: rest) eh st) =
          some (.returned
            ((addCommas procedureNode (recordedCommas false ts)).addChild
              (CSTNode.new "Symbol" ")" rp.lineNumber))
            (reading (pre ++ ts ++ [rp]) rest eh st))) ∧
    (parseProcedure 4 "Procedure" Token.default (ofTokens (tokensOf "f(x) \x7b \x7d"))).map
        (fun o => (o.node?, o.errors, o.parser.symbolTable.parametersOf "f")) =
      some (some (CSTNode.tree "Procedure" "f" 1
          [CSTNode.new "Symbol" "(" 1, CSTNode.new "Symbol" ")" 1,
            CSTNode.new "Symbol" "\x7b" 1, CSTNode.new "Symbol" "\x7d" 1]), [], []) ∧
    (parseProcedure 6 "Procedure" Token.default (ofTokens (tokensOf "f(1 2 3) \x7b \x7d"))).map
        (fun o => (o.node?, o.errors, o.parser.symbolTable.parametersOf "f")) =
      some (some (CSTNode.tree "Procedure" "f" 1
          [CSTNode.new "Symbol" "(" 1, CSTNode.new "Symbol" ")" 1,
            CSTNode.new "Symbol" "\x7b" 1, CSTNode.new "Symbol" "\x7d" 1]), [], []) := by
  refine ⟨?_, ?_, ?_, ?_, ?_⟩
  · intro fuel procName currentScope procedureNode pre rest t eh st h1 h2 h3
    exact parseParameters_skip fuel procName currentScope procedureNode pre rest t eh st h1 h2 h3
  · intro fuel procName currentScope procedureNode pre rest t c eh st h1 h2 h3
    exact parseParameters_skip_comma fuel procName currentScope procedureNode pre rest t c eh st
      h1 h2 h3
  · intro fuel procName currentScope procedureNode pre ts rest rp eh st hts hrp
    exact parseParameters_stray procName currentScope rp rest eh st hrp ts.length ts rfl fuel
      procedureNode pre hts
  · decide
  · decide

/-- C40 at the identifier `x` of `f(x) { }`, and on the parameter list
`x , 1 2 )`. -/
theorem stray_parameter_tokens_skipped_witness :
    parseParameters 2 "f" 1 (CSTNode.new "Procedure" "f" 1)
        (reading [⟨TOKEN_IDENTIFIER, "f", 1⟩, ⟨TOKEN_L_PAREN, "(", 1⟩]
          [⟨TOKEN_IDENTIFIER, "x", 1⟩, ⟨TOKEN_R_PAREN, ")", 1⟩] {} {}) =
      parseParameters 1 "f" 1 (CSTNode.new "Procedure" "f" 1)
        (reading [⟨TOKEN_IDENTIFIER, "f", 1⟩, ⟨TOKEN_L_PAREN, "(", 1⟩, ⟨TOKEN_IDENTIFIER, "x", 1⟩]
          [⟨TOKEN_R_PAREN, ")", 1⟩] {} {}) ∧
    parseParameters (0 + 4 + 1) "f" 1 (CSTNode.new "Procedure" "f" 1)
        (reading [⟨TOKEN_IDENTIFIER, "f", 1⟩, ⟨TOKEN_L_PAREN, "(", 1⟩]
          ([⟨TOKEN_IDENTIFIER, "x", 1⟩, ⟨TOKEN_COMMA, ",", 1⟩, ⟨TOKEN_INTEGER, "1", 1⟩,
              ⟨TOKEN_INTEGER, "2", 1⟩] ++ ⟨TOKEN_R_PAREN, ")", 1⟩ :: []) {} {}) =
      some (.returned
        ((addCommas (CSTNode.new "Procedure" "f" 1)
            (recordedCommas false
              [⟨TOKEN_IDENTIFIER, "x", 1⟩, ⟨TOKEN_COMMA, ",", 1⟩, ⟨TOKEN_INTEGER, "1", 1⟩,
                ⟨TOKEN_INTEGER, "2", 1⟩])).addChild (CSTNode.new "Symbol" ")" 1))
        (reading
          ([⟨TOKEN_IDENTIFIER, "f", 1⟩, ⟨TOKEN_L_PAREN, "(", 1⟩] ++
            [⟨TOKEN_IDENTIFIER, "x", 1⟩, ⟨TOKEN_COMMA, ",", 1⟩, ⟨TOKEN_INTEGER, "1", 1⟩,
              ⟨TOKEN_INTEGER, "2", 1⟩] ++ [⟨TOKEN_R_PAREN, ")", 1⟩]) [] {} {})) :=
  ⟨stray_parameter_tokens_skipped.1 1 "f" 1 (CSTNode.new "Procedure" "f" 1)
      [⟨TOKEN_IDENTIFIER, "f", 1⟩, ⟨TOKEN_L_PAREN, "(", 1⟩] [⟨TOKEN_R_PAREN, ")", 1⟩]
      ⟨TOKEN_IDENTIFIER, "x", 1⟩ {} {} (by decide) (by decide)
      (by intro c hc; cases hc; decide),
    stray_parameter_tokens_skipped.2.2.1 0 "f" 1 (CSTNode.new "Procedure" "f" 1)
      [⟨TOKEN_IDENTIFIER, "f", 1⟩, ⟨TOKEN_L_PAREN, "(", 1⟩]
      [⟨TOKEN_IDENTIFIER, "x", 1⟩, ⟨TOKEN_COMMA, ",", 1⟩, ⟨TOKEN_INTEGER, "1", 1⟩,
        ⟨TOKEN_INTEGER, "2", 1⟩] [] ⟨TOKEN_R_PAREN, ")", 1⟩ {} {} (by decide) rfl⟩

end Parser

/-! ## C37: the scope a failed `parseProcedure` leaves behind -/

namespace Parser

namespace Scoped

theorem scoped_refl (p : Parser) : Scoped p p :=
  ⟨Grows.grows_refl p, [], (List.append_nil _).symm, fun _ h => absurd h (List.not_mem_nil _)⟩

theorem scoped_trans {p q r : Parser} (h1 : Scoped p q) (h2 : Scoped q r) : Scoped p r := by
  obtain ⟨g1, a1, e1, s1⟩ := h1
  obtain ⟨g2, a2, e2, s2⟩ := h2
  refine ⟨g1.grows_trans g2, a1 ++ a2, ?_, ?_⟩
  · rw [e2, e1, List.append_assoc]
  · intro e he
    rcases List.mem_append.mp he with he | he
    · exact s1 e he
    · rw [s2 e he, g1.currentScope]

theorem scoped_of_steady {p q : Parser} (h : Steady p q) : Scoped p q :=
  ⟨Grows.grows_of_steady h, [], by rw [h.symbolTable, List.append_nil],
    fun _ h => absurd h (List.not_mem_nil _)⟩

theorem scoped_steady {p q r : Parser} (h1 : Scoped p q) (h2 : Steady q r) : Scoped p r :=
  h1.scoped_trans (scoped_of_steady h2)

theorem scoped_getNextToken {p q : Parser} (h : Scoped p q) : Scoped p q.getNextToken.2 :=
  h.scoped_steady (Steady.steady_refl q).steady_getNextToken

theorem scoped_skipToken {p q : Parser} (h : Scoped p q) : Scoped p q.skipToken :=
  h.scoped_getNextToken

theorem scoped_rewind {p q : Parser} (h : Scoped p q) : Scoped p q.rewind :=
  h.scoped_steady (Steady.steady_refl q).steady_rewind

theorem scoped_reportError {p q : Parser} (h : Scoped p q) (m : String) (l : Int) :
    Scoped p (q.reportError m l) :=
  h.scoped_steady ((Steady.steady_refl q).steady_reportError m l)

theorem scoped_addVariable {p q : Parser} (h : Scoped p q) (t : Token) (d v : CSTNode) :
    Scoped p { q with symbolTable := (q.symbolTable.addEntry (variableEntry t d v q)).1 } := by
  refine h.scoped_trans ⟨(Grows.grows_refl q).grows_addEntry _, ?_⟩
  rcases SymbolTable.addEntry_outcome q.symbolTable (variableEntry t d v q) with ⟨what, h1⟩ | h1
  · exact ⟨[], by rw [h1, List.append_nil], fun _ h => absurd h (List.not_mem_nil _)⟩
  · refine ⟨[variableEntry t d v q], by rw [h1], ?_⟩
    intro e he
    rw [List.mem_singleton.mp he]
    rfl

theorem scoped_suffix {p q : Parser} (h : Scoped p q) (c : Prop) [Decidable c] (t : Token)
    (node : CSTNode) :
    Scoped p (if c then parseArraySuffix t node q else (node, q)).2 := by
  split
  · exact h.scoped_steady (Steady.steady_parseArraySuffix (Steady.steady_refl q) t node)
  · exact h

theorem scoped_call {p q : Parser} {o : Option Parsed} (ho : Post Scoped q o)
    (h : Scoped p q) : Post Scoped p o :=
  fun node r hr => h.scoped_trans (ho node r hr)

theorem scoped_call_steady {p q : Parser} {o : Option Parsed} (ho : Post Steady q o)
    (h : Scoped p q) : Post Scoped p o :=
  fun node r hr => h.scoped_steady (ho node r hr)

end Scoped

theorem scoped_parseDeclarators (fuel : Nat) :
    ∀ decl p, Post Scoped p (parseDeclarators fuel decl p) := by
  induction fuel with
  | zero =>
    intro decl p
    rw [parseDeclarators]
    exact Post.post_none
  | succ n ih =>
    intro decl p
    rw [parseDeclarators]
    simp only []
    repeat (with_reducible first
      | exact Post.post_none
      | refine Post.post_some ?_
      | refine Post.post_ite (fun _ => ?_) (fun _ => ?_)
      | refine Post.post_matchWhat (fun _ => ?_) ?_
      | refine Scoped.scoped_call (ih _ _) ?_
      | assumption
      | exact Scoped.scoped_refl _
      | apply Scoped.scoped_reportError
      | apply Scoped.scoped_getNextToken
      | apply Scoped.scoped_skipToken
      | apply Scoped.scoped_rewind
      | apply Scoped.scoped_addVariable
      | apply Scoped.scoped_suffix)

theorem steady_parseIdentifierStatement (fuel : Nat) (token : Token) (p : Parser) :
    Post Steady p (parseIdentifierStatement fuel token p) := by
  have ihE := (steady_expression fuel).1
  unfold parseIdentifierStatement
  simp only []
  repeat (with_reducible first
    | exact Post.post_none
    | refine Post.post_some ?_
    | refine Post.post_ite (fun _ => ?_) (fun _ => ?_)
    | refine Post.post_bind ?_ (fun _ _ _ => ?_)
    | refine Post.post_bindParser
        (fun _ hq => Steady.steady_trans ?_ (steady_skipArguments _ _ _ hq)) (fun _ _ => ?_)
    | refine Steady.steady_call (ihE _ _ _) ?_
    | assumption
    | exact Steady.steady_refl _
    | apply Steady.steady_reportError
    | apply Steady.steady_getNextToken
    | apply Steady.steady_skipToken
    | apply Steady.steady_rewind)

theorem steady_parseReturnStatement (fuel : Nat) (token : Token) (p : Parser) :
    Post Steady p (parseReturnStatement fuel token p) := by
  have ihE := (steady_expression fuel).1
  unfold parseReturnStatement
  simp only []
  repeat (with_reducible first
    | exact Post.post_none
    | refine Post.post_some ?_
    | refine Post.post_ite (fun _ => ?_) (fun _ => ?_)
    | refine Post.post_bind ?_ (fun _ _ _ => ?_)
    | refine Steady.steady_call (ihE _ _ _) ?_
    | assumption
    | exact Steady.steady_refl _
    | apply Steady.steady_reportError
    | apply Steady.steady_getNextToken
    | apply Steady.steady_skipToken
    | apply Steady.steady_rewind)

theorem steady_parseForIncrement (fuel : Nat) (forNode : CSTNode) (p : Parser) :
    Post Steady p (parseForIncrement fuel forNode p) := by
  have ihE := (steady_expression fuel).1
  unfold parseForIncrement
  simp only []
  repeat (with_reducible first
    | exact Post.post_none
    | refine Post.post_some ?_
    | refine Post.post_ite (fun _ => ?_) (fun _ => ?_)
    | refine Post.post_bind ?_ (fun _ _ _ => ?_)
    | refine Steady.steady_call (ihE _ _ _) ?_
    | assumption
    | exact Steady.steady_refl _
    | apply Steady.steady_reportError
    | apply Steady.steady_getNextToken
    | apply Steady.steady_skipToken
    | apply Steady.steady_rewind)

set_option maxRecDepth 100000 in
set_option maxHeartbeats 2000000 in
theorem scoped_statement (fuel : Nat) :
    (∀ p, Post Scoped p (parseStatement fuel p)) ∧
    (∀ closing node p, Post Scoped p (parseBlock fuel closing node p)) := by
  induction fuel with
  | zero =>
    refine ⟨?_, ?_⟩ <;> intros <;> first
      | (rw [parseStatement]; exact Post.post_none)
      | (rw [parseBlock]; exact Post.post_none)
  | succ n ih =>
    obtain ⟨ihS, ihB⟩ := ih
    have ihE := (steady_expression n).1
    refine ⟨?_, ?_⟩
    · intro p
      rw [parseStatement]
      simp only []
      repeat (with_reducible first
        | exact Post.post_none
        | refine Post.post_some ?_
        | refine Post.post_ite (fun _ => ?_) (fun _ => ?_)
        | refine Post.post_bind ?_ (fun _ _ _ => ?_)
        | refine Scoped.scoped_call (ihS _) ?_
        | refine Scoped.scoped_call (ihB _ _ _) ?_
        | refine Scoped.scoped_call (scoped_parseDeclarators _ _ _) ?_
        | refine Scoped.scoped_call_steady (steady_parseIdentifierStatement _ _ _) ?_
        | refine Scoped.scoped_call_steady (steady_parseReturnStatement _ _ _) ?_
        | refine Scoped.scoped_call_steady (steady_parseForIncrement _ _ _) ?_
        | refine Scoped.scoped_call_steady (ihE _ _ _) ?_
        | assumption
        | exact Scoped.scoped_refl _
        | apply Scoped.scoped_reportError
        | apply Scoped.scoped_getNextToken
        | apply Scoped.scoped_skipToken
        | apply Scoped.scoped_rewind)
    · intro closing node p
      rw [parseBlock]
      simp only []
      repeat (with_reducible first
        | exact Post.post_none
        | refine Post.post_some ?_
        | refine Post.post_ite (fun _ => ?_) (fun _ => ?_)
        | refine Post.post_bind ?_ (fun _ _ _ => ?_)
        | refine Scoped.scoped_call (ihS _) ?_
        | refine Scoped.scoped_call (ihB _ _ _) ?_
        | assumption
        | exact Scoped.scoped_refl _
        | apply Scoped.scoped_reportError
        | apply Scoped.scoped_getNextToken
        | apply Scoped.scoped_skipToken
        | apply Scoped.scoped_rewind)

theorem parseBlock_isNull (fuel : Nat) :
    ∀ closing node p r, parseBlock fuel closing node p = some r → r.1.isNull = node.isNull := by
  induction fuel with
  | zero =>
    intro closing node p r h
    rw [parseBlock] at h
    cases h
  | succ n ih =>
    intro closing node p r h
    rw [parseBlock] at h
    by_cases h1 : (!p.hasMoreTokens) = true
    · rw [if_pos h1] at h
      cases h
      rfl
    · rw [if_neg h1] at h
      simp only [] at h
      by_cases h2 : p.getNextToken.1.type = TOKEN_R_BRACE
      · rw [if_pos h2] at h
        cases h
        cases closing <;> simp
      · rw [if_neg h2] at h
        cases hs : parseStatement n p.getNextToken.2.rewind with
        | none =>
          rw [hs] at h
          cases h
        | some s =>
          obtain ⟨sn, sp⟩ := s
          rw [hs] at h
          simp only [] at h
          rw [ih _ _ _ _ h]
          split <;> simp

theorem parseProcedureRest_scopes (fuel : Nat) (nodeType : String) (rt : Token)
    (procName : String) (currentScope : Int) (node : CSTNode) (p : Parser) (out : Outcome)
    (hnode : node.isNull = false)
    (h : parseProcedureRest fuel nodeType rt procName currentScope node p = some out) :
    (∃ q, out = .threw q ∧ Grows p q) ∨ (∃ q, out = .returned CSTNode.null q ∧ Grows p q) ∨
      ∃ result q, out = .returned result { q with symbolTable := q.symbolTable.exitScope } ∧
        result.isNull = false ∧ Grows p q := by
  unfold parseProcedureRest at h
  simp only [] at h
  have hnode1 : (if nodeType = "Function" ∧ rt.type ≠ TOKEN_UNKNOWN then
      node.addChild (CSTNode.new "ReturnType" rt.value rt.lineNumber) else node).isNull = false := by
    split <;> simp [hnode]
  generalize (if nodeType = "Function" ∧ rt.type ≠ TOKEN_UNKNOWN then
      node.addChild (CSTNode.new "ReturnType" rt.value rt.lineNumber) else node) = node1 at h hnode1
  have g1 : Grows p p.getNextToken.2 := (Grows.grows_refl p).grows_getNextToken
  by_cases h1 : p.getNextToken.1.type ≠ TOKEN_L_PAREN
  · rw [if_pos h1] at h
    cases h
    exact Or.inr (Or.inl ⟨_, rfl, g1.grows_reportError _ _⟩)
  · rw [if_neg h1] at h
    cases hp : parseParameters fuel procName currentScope
        (node1.addChild (CSTNode.new "Symbol" "(" p.getNextToken.1.lineNumber))
        p.getNextToken.2 with
    | none =>
      rw [hp] at h
      cases h
    | some o =>
      have g2 : Grows p o.parser := g1.grows_trans (grows_parseParameters _ _ _ _ _ o hp)
      rw [hp] at h
      cases o with
      | threw q =>
        simp only [Option.some.injEq] at h
        subst h
        exact Or.inl ⟨_, rfl, g2⟩
      | returned node2 q =>
        simp only [] at h
        have g2 : Grows p q := g2
        by_cases h2 : node2.isNull = true
        · rw [if_pos h2] at h
          cases h
          exact Or.inr (Or.inl ⟨_, rfl, g2⟩)
        · rw [if_neg h2] at h
          by_cases h3 : q.getNextToken.1.type ≠ TOKEN_L_BRACE
          · rw [if_pos h3] at h
            cases h
            exact Or.inr (Or.inl ⟨_, rfl, g2.grows_getNextToken.grows_reportError _ _⟩)
          · rw [if_neg h3] at h
            cases hb : parseBlock fuel true
                (node2.addChild (CSTNode.new "Symbol" "\x7b" q.getNextToken.1.lineNumber))
                q.getNextToken.2 with
            | none =>
              rw [hb] at h
              cases h
            | some r =>
              obtain ⟨node3, q3⟩ := r
              rw [hb] at h
              simp only [Option.some.injEq] at h
              subst h
              refine Or.inr (Or.inr ⟨node3, q3, rfl, ?_, ?_⟩)
              · have := parseBlock_isNull _ _ _ _ _ hb
                simp only [CSTNode.isNull_addChild] at this
                rw [this]
                simpa using h2
              · exact g2.grows_getNextToken.grows_trans ((grows_statement fuel).2 _ _ _ _ _ hb)

theorem parseProcedure_scopes (fuel : Nat) (nodeType : String) (rt : Token) (p : Parser)
    (node : CSTNode) (q : Parser) (hname : p.getNextToken.1.type = TOKEN_IDENTIFIER)
    (h : parseProcedure fuel nodeType rt p = some (.returned node q)) :
    (node.isNull = true →
      q.symbolTable.currentScope = p.symbolTable.nextScopeId ∧
        q.symbolTable.scopeStack = p.symbolTable.scopeStack ++ [p.symbolTable.currentScope]) ∧
    (node.isNull = false →
      q.symbolTable.currentScope = p.symbolTable.currentScope ∧
        q.symbolTable.scopeStack = p.symbolTable.scopeStack) := by
  unfold parseProcedure at h
  simp only [] at h
  rw [if_neg (not_not.mpr hname)] at h
  have hst : p.getNextToken.2.symbolTable = p.symbolTable := rfl
  generalize p.getNextToken.2 = p1 at h hst
  generalize p.getNextToken.1 = token at h
  rcases SymbolTable.addEntry_outcome p1.symbolTable.enterScope
      (procedureEntry nodeType rt token p1.symbolTable.enterScope.getCurrentScopeLevel)
    with ⟨what, ha⟩ | ha
  · rw [ha] at h
    simp only [Option.some.injEq, Outcome.returned.injEq] at h
    obtain ⟨rfl, rfl⟩ := h
    refine ⟨fun _ => ?_, fun hn => absurd hn (by simp [CSTNode.isNull])⟩
    rw [← hst]
    exact ⟨rfl, rfl⟩
  · rw [ha] at h
    simp only [] at h
    rcases parseProcedureRest_scopes _ _ _ _ _ _ _ _ (CSTNode.isNull_new _ _ _) h with
      ⟨q1, hq, g⟩ | ⟨q1, hq, g⟩ | ⟨result, q1, hq, hres, g⟩
    · cases hq
    · cases hq
      refine ⟨fun _ => ?_, fun hn => absurd hn (by simp [CSTNode.isNull])⟩
      rw [g.currentScope, g.scopeStack, ← hst]
      exact ⟨rfl, rfl⟩
    · cases hq
      refine ⟨fun hn => absurd hn (by simp [hres]), fun _ => ?_⟩
      have hs : q1.symbolTable.scopeStack =
          p.symbolTable.scopeStack ++ [p.symbolTable.currentScope] := by
        rw [g.scopeStack, ← hst]
        rfl
      show q1.symbolTable.exitScope.currentScope = _ ∧ q1.symbolTable.exitScope.scopeStack = _
      rw [SymbolTable.exitScope_of_push _ _ _ hs]
      exact ⟨rfl, rfl⟩

end Parser

namespace Parser

/-- The loop of `parseProgram` is its turn, repeated. -/
theorem parseProgramLoop_turn (fuel : Nat) (root : CSTNode) (p : Parser) :
    parseProgramLoop (fuel + 1) root p =
      match parseProgramTurn fuel root p with
      | none => none
      | some (.leave o) => some o
      | some (.procedure _ _ root' q) => parseProgramLoop fuel root' q
      | some (.statement _ root' q) => parseProgramLoop fuel root' q := by
  rw [parseProgramLoop]
  unfold parseProgramTurn
  simp only []
  by_cases h1 : (!p.hasMoreTokens) = true
  · rw [if_pos h1, if_pos h1]
  rw [if_neg h1, if_neg h1]
  by_cases h2 : p.getNextToken.1.type = TOKEN_PROCEDURE ∨ p.getNextToken.1.value = "function"
  · rw [if_pos h2, if_pos h2]
    by_cases h3 : decide (p.getNextToken.1.value = "function") = true ∧
        (if decide (p.getNextToken.1.value = "function") = true then
          p.getNextToken.2.getNextToken.1 else Token.default).type ≠ TOKEN_TYPE
    · rw [if_pos h3, if_pos h3]
    · rw [if_neg h3, if_neg h3]
      cases parseProcedure fuel
          (if decide (p.getNextToken.1.value = "function") = true then "Function"
            else "Procedure")
          (if decide (p.getNextToken.1.value = "function") = true then
            p.getNextToken.2.getNextToken.1 else Token.default)
          (if decide (p.getNextToken.1.value = "function") = true then
            p.getNextToken.2.getNextToken.2 else p.getNextToken.2) with
      | none => rfl
      | some o => cases o <;> rfl
  · rw [if_neg h2, if_neg h2]
    cases parseStatement fuel p.getNextToken.2.rewind with
    | none => rfl
    | some r =>
      obtain ⟨node, q⟩ := r
      simp only []
      by_cases h4 : node.isNull = true
      · rw [if_pos h4, if_pos h4]
      · rw [if_neg h4, if_neg h4]

end Parser

namespace Parser

theorem parseProgramTurn_procedure {fuel : Nat} {root : CSTNode} {p called : Parser}
    {node root' : CSTNode} {q : Parser}
    (h : parseProgramTurn fuel root p = some (.procedure called node root' q)) :
    called.symbolTable = p.symbolTable ∧
      ∃ nodeType rt, parseProcedure fuel nodeType rt called = some (.returned node q) := by
  unfold parseProgramTurn at h
  simp only [] at h
  by_cases h1 : (!p.hasMoreTokens) = true
  · rw [if_pos h1] at h
    cases h
  rw [if_neg h1] at h
  by_cases h2 : p.getNextToken.1.type = TOKEN_PROCEDURE ∨ p.getNextToken.1.value = "function"
  · rw [if_pos h2] at h
    by_cases h3 : decide (p.getNextToken.1.value = "function") = true ∧
        (if decide (p.getNextToken.1.value = "function") = true then
          p.getNextToken.2.getNextToken.1 else Token.default).type ≠ TOKEN_TYPE
    · rw [if_pos h3] at h
      cases h
    · rw [if_neg h3] at h
      cases hp : parseProcedure fuel
          (if decide (p.getNextToken.1.value = "function") = true then "Function"
            else "Procedure")
          (if decide (p.getNextToken.1.value = "function") = true then
            p.getNextToken.2.getNextToken.1 else Token.default)
          (if decide (p.getNextToken.1.value = "function") = true then
            p.getNextToken.2.getNextToken.2 else p.getNextToken.2) with
      | none =>
        rw [hp] at h
        cases h
      | some o =>
        rw [hp] at h
        cases o with
        | threw r => cases h
        | returned node2 r =>
          simp only [Option.some.injEq, Turn.procedure.injEq] at h
          obtain ⟨hc, hn, -, hq⟩ := h
          subst hc hn hq
          refine ⟨?_, _, _, hp⟩
          split <;> rfl
  · rw [if_neg h2] at h
    cases hs : parseStatement fuel p.getNextToken.2.rewind with
    | none =>
      rw [hs] at h
      cases h
    | some r =>
      obtain ⟨node2, q2⟩ := r
      rw [hs] at h
      simp only [] at h
      by_cases h4 : node2.isNull = true
      · rw [if_pos h4] at h
        cases h
      · rw [if_neg h4] at h
        cases h

theorem parseProgramTurn_statement {fuel : Nat} {root : CSTNode} {p : Parser}
    {node root' : CSTNode} {q : Parser}
    (h : parseProgramTurn fuel root p = some (.statement node root' q)) :
    parseStatement fuel p.getNextToken.2.rewind = some (node, q) ∧ node.isNull = false := by
  unfold parseProgramTurn at h
  simp only [] at h
  by_cases h1 : (!p.hasMoreTokens) = true
  · rw [if_pos h1] at h
    cases h
  rw [if_neg h1] at h
  by_cases h2 : p.getNextToken.1.type = TOKEN_PROCEDURE ∨ p.getNextToken.1.value = "function"
  · rw [if_pos h2] at h
    by_cases h3 : decide (p.getNextToken.1.value = "function") = true ∧
        (if decide (p.getNextToken.1.value = "function") = true then
          p.getNextToken.2.getNextToken.1 else Token.default).type ≠ TOKEN_TYPE
    · rw [if_pos h3] at h
      cases h
    · rw [if_neg h3] at h
      cases hp : parseProcedure fuel
          (if decide (p.getNextToken.1.value = "function") = true then "Function"
            else "Procedure")
          (if decide (p.getNextToken.1.value = "function") = true then
            p.getNextToken.2.getNextToken.1 else Token.default)
          (if decide (p.getNextToken.1.value = "function") = true then
            p.getNextToken.2.getNextToken.2 else p.getNextToken.2) with
      | none =>
        rw [hp] at h
        cases h
      | some o =>
        rw [hp] at h
        cases o <;> cases h
  · rw [if_neg h2] at h
    cases hs : parseStatement fuel p.getNextToken.2.rewind with
    | none =>
      rw [hs] at h
      cases h
    | some r =>
      obtain ⟨node2, q2⟩ := r
      rw [hs] at h
      simp only [] at h
      by_cases h4 : node2.isNull = true
      · rw [if_pos h4] at h
        cases h
      · rw [if_neg h4] at h
        simp only [Option.some.injEq, Turn.statement.injEq] at h
        obtain ⟨hn, -, hq⟩ := h
        subst hn hq
        exact ⟨rfl, by simpa using h4⟩

/-- A call of `parseProcedure` that does not read an identifier as the name
returns `nullptr` and leaves the symbol table alone. -/
theorem parseProcedure_without_name (fuel : Nat) (nodeType : String) (rt : Token)
    (p : Parser) (node : CSTNode) (q : Parser)
    (hname : p.getNextToken.1.type ≠ TOKEN_IDENTIFIER)
    (h : parseProcedure fuel nodeType rt p = some (.returned node q)) :
    node.isNull = true ∧ q.symbolTable = p.symbolTable := by
  unfold parseProcedure at h
  simp only [] at h
  rw [if_pos hname] at h
  by_cases hk : p.getNextToken.1.value ∈ keywords
  · rw [if_pos hk] at h
    simp only [Option.some.injEq, Outcome.returned.injEq] at h
    obtain ⟨rfl, rfl⟩ := h
    exact ⟨rfl, rfl⟩
  · rw [if_neg hk] at h
    simp only [Option.some.injEq, Outcome.returned.injEq] at h
    obtain ⟨rfl, rfl⟩ := h
    exact ⟨rfl, rfl⟩

/-- No turn of the loop of `parseProgram` lowers `nextScopeId`. -/
theorem loopStep_nextScopeId {b : Bool} {p q : Parser} (h : LoopStep b p q) :
    p.symbolTable.nextScopeId ≤ q.symbolTable.nextScopeId := by
  obtain ⟨fuel, root, turn, hturn, hnext, -⟩ := h
  cases turn with
  | leave o => cases hnext
  | procedure called node root' r =>
    simp only [Turn.next?, Option.some.injEq] at hnext
    subst hnext
    obtain ⟨hst, nodeType, rt, hp⟩ := parseProgramTurn_procedure hturn
    rw [← hst]
    exact (keeps_parseProcedure fuel nodeType rt called _ hp).nextScopeId
  | statement node root' r =>
    simp only [Turn.next?, Option.some.injEq] at hnext
    subst hnext
    obtain ⟨hs, -⟩ := parseProgramTurn_statement hturn
    exact le_of_eq ((grows_statement fuel).1 _ _ _ hs).nextScopeId.symm

/-- A turn that leaves a scope open leaves the scope that `enterScope` has
handed out as the current scope, on top of the scope it was called from. -/
theorem loopStep_opened {p q : Parser} (h : LoopStep true p q) :
    q.symbolTable.currentScope = p.symbolTable.nextScopeId ∧
      q.symbolTable.scopeStack = p.symbolTable.scopeStack ++ [p.symbolTable.currentScope] := by
  obtain ⟨fuel, root, turn, hturn, hnext, hopen⟩ := h
  cases turn with
  | leave o => cases hnext
  | statement node root' r => cases hopen
  | procedure called node root' r =>
    simp only [Turn.next?, Option.some.injEq] at hnext
    subst hnext
    simp only [Turn.leavesScopeOpen, Bool.and_eq_true, decide_eq_true_eq] at hopen
    obtain ⟨hst, nodeType, rt, hp⟩ := parseProgramTurn_procedure hturn
    rw [← hst]
    exact (parseProcedure_scopes fuel nodeType rt called node _ hopen.2 hp).1 hopen.1

/-- A turn that leaves no scope open leaves the current scope and the scope
stack as they were. -/
theorem loopStep_closed {p q : Parser} (h : LoopStep false p q) :
    q.symbolTable.currentScope = p.symbolTable.currentScope ∧
      q.symbolTable.scopeStack = p.symbolTable.scopeStack := by
  obtain ⟨fuel, root, turn, hturn, hnext, hopen⟩ := h
  cases turn with
  | leave o => cases hnext
  | statement node root' r =>
    simp only [Turn.next?, Option.some.injEq] at hnext
    subst hnext
    obtain ⟨hs, -⟩ := parseProgramTurn_statement hturn
    have g := (grows_statement fuel).1 _ _ _ hs
    exact ⟨g.currentScope, g.scopeStack⟩
  | procedure called node root' r =>
    simp only [Turn.next?, Option.some.injEq] at hnext
    subst hnext
    obtain ⟨hst, nodeType, rt, hp⟩ := parseProgramTurn_procedure hturn
    rw [← hst]
    by_cases hname : called.getNextToken.1.type = TOKEN_IDENTIFIER
    · have hnode : node.isNull = false := by
        simp only [Turn.leavesScopeOpen, hname, decide_True, Bool.and_true] at hopen
        exact hopen
      exact (parseProcedure_scopes fuel nodeType rt called node _ hname hp).2 hnode
    · have := (parseProcedure_without_name fuel nodeType rt called node _ hname hp).2
      rw [this]
      exact ⟨rfl, rfl⟩

/-- At the start of every turn of the loop of `parseProgram`, `nextScopeId`
is positive. -/
theorem loopReaches_nextScopeId (tokens : List Token) (p : Parser)
    (h : LoopReaches (ofTokens tokens) p) : 0 < p.symbolTable.nextScopeId := by
  induction h with
  | refl => exact Int.one_pos
  | tail _ hstep ih =>
    obtain ⟨b, hstep⟩ := hstep
    exact lt_of_lt_of_le ih (loopStep_nextScopeId hstep)

theorem loopReachesClosed_scope {p q : Parser} (h : LoopReachesClosed p q) :
    q.symbolTable.currentScope = p.symbolTable.currentScope ∧
      q.symbolTable.scopeStack = p.symbolTable.scopeStack := by
  induction h with
  | refl => exact ⟨rfl, rfl⟩
  | tail _ hstep ih =>
    obtain ⟨h1, h2⟩ := loopStep_closed hstep
    exact ⟨h1.trans ih.1, h2.trans ih.2⟩

/-- A top-level statement enters its declarations with the current scope. -/
theorem parseProgramTurn_scoped {fuel : Nat} {root : CSTNode} {p : Parser}
    {node root' : CSTNode} {q : Parser}
    (h : parseProgramTurn fuel root p = some (.statement node root' q)) :
    ∃ added, q.symbolTable.entries = p.symbolTable.entries ++ added ∧
      ∀ e ∈ added, e.scope = p.symbolTable.currentScope := by
  obtain ⟨hs, -⟩ := parseProgramTurn_statement h
  exact ((scoped_statement fuel).1 _ _ _ hs).added

end Parser

namespace Parser

/-- C37 as stated fails after a second procedure that fails in the same way.
In `procedure f ; procedure g ; int y;` both calls of `parseProcedure` fail
after the name is accepted: `f` is entered with scope 1 and `g` with scope 2,
and the later top-level declaration of `y` is entered with scope 2, not with
the scope 1 that the failed procedure `f` has left. A procedure that fails
before its name is accepted, as in `procedure f ; procedure 5`, leaves the
scope of `f`. -/
theorem later_declaration_counterexample :
    (parseProgram 20 (ofTokens (tokensOf "procedure f ; procedure g ; int y;"))).map
        (fun o => (o.errors,
          o.parser.symbolTable.entries.map (fun e => (e.identifierName, e.scope)),
          o.parser.symbolTable.currentScope)) =
      some ([(1, "Expected '(' after procedure or function name."),
          (1, "Expected '(' after procedure or function name.")],
        [("f", 1), ("g", 2), ("y", 2)], 2) ∧
    (parseProgram 20 (ofTokens (tokensOf "procedure f ; procedure 5 int y;"))).map
        (fun o => (o.errors,
          o.parser.symbolTable.entries.map (fun e => (e.identifierName, e.scope)),
          o.parser.symbolTable.currentScope)) =
      some ([(1, "Expected '(' after procedure or function name."),
          (1, "Expected procedure or function name.")],
        [("f", 1), ("y", 1)], 1) := by
  refine ⟨?_, ?_⟩ <;> decide

/-- C37 (amended). Where `parseProcedure` has accepted the name and returns
`nullptr` (the name is refused by the symbol table, `(` is missing, a
parameter is bad, the opening brace is missing), `exitScope` has not been
called: the current scope is the id that `enterScope` gave to the failed
procedure, and the scope it was called from is still on the stack.
`parseProgram` drops the null node and goes on with the next token, for
`procedure` and for `function` alike. In every run of `parseProgram` that id
is not 0, and it stays the current scope at the start of every later turn of
the loop up to the next turn in which `parseProcedure` fails in the same
way: every statement leaves the current scope and the scope stack as they
are, and so does a procedure that is parsed to its end or fails before its
name is accepted. So every top-level statement up to there enters its
declarations with the scope of the failed procedure, not with scope 0: in the
texts below `y` gets scope 1, also after the complete procedure `g`. -/
theorem failed_procedure_keeps_scope :
    (∀ (fuel : Nat) (nodeType : String) (rt : Token) (p q : Parser),
      p.getNextToken.1.type = TOKEN_IDENTIFIER →
      parseProcedure fuel nodeType rt p = some (.returned CSTNode.null q) →
        q.symbolTable.currentScope = p.symbolTable.nextScopeId ∧
          q.symbolTable.scopeStack = p.symbolTable.scopeStack ++ [p.symbolTable.currentScope]) ∧
    (∀ (fuel : Nat) (root : CSTNode) (p : Parser),
      parseProgramLoop (fuel + 1) root p =
        match parseProgramTurn fuel root p with
        | none => none
        | some (.leave o) => some o
        | some (.procedure _ _ root' q) => parseProgramLoop fuel root' q
        | some (.statement _ root' q) => parseProgramLoop fuel root' q) ∧
    (∀ (tokens : List Token) (p q0 : Parser), LoopReaches (ofTokens tokens) p →
      LoopStep true p q0 →
        q0.symbolTable.currentScope = p.symbolTable.nextScopeId ∧
          q0.symbolTable.currentScope ≠ 0 ∧
          ∀ q, LoopReachesClosed q0 q →
            q.symbolTable.currentScope = q0.symbolTable.currentScope ∧
              ∀ (fuel : Nat) (root node root' : CSTNode) (r : Parser),
                parseProgramTurn fuel root q = some (.statement node root' r) →
                  ∃ added, r.symbolTable.entries = q.symbolTable.entries ++ added ∧
                    ∀ e ∈ added, e.scope = q0.symbolTable.currentScope) ∧
    (∀ (fuel : Nat) (root : CSTNode) (p q : Parser), p.hasMoreTokens = true →
      p.getNextToken.1.type = TOKEN_PROCEDURE → p.getNextToken.1.value ≠ "function" →
      parseProcedure fuel "Procedure" Token.default p.getNextToken.2 =
          some (.returned CSTNode.null q) →
        parseProgramLoop (fuel + 1) root p = parseProgramLoop fuel root q) ∧
    (∀ (fuel : Nat) (root : CSTNode) (p q : Parser), p.hasMoreTokens = true →
      p.getNextToken.1.value = "function" →
      p.getNextToken.2.getNextToken.1.type = TOKEN_TYPE →
      parseProcedure fuel "Function" p.getNextToken.2.getNextToken.1
          p.getNextToken.2.getNextToken.2 = some (.returned CSTNode.null q) →
        parseProgramLoop (fuel + 1) root p = parseProgramLoop fuel root q) ∧
    (∀ (fuel : Nat) (p : Parser) (node : CSTNode) (q : Parser),
      parseStatement fuel p = some (node, q) →
        q.symbolTable.currentScope = p.symbolTable.currentScope ∧
          q.symbolTable.scopeStack = p.symbolTable.scopeStack ∧
          ∃ added, q.symbolTable.entries = p.symbolTable.entries ++ added ∧
            ∀ e ∈ added, e.scope = p.symbolTable.currentScope) ∧
    (∀ (fuel : Nat) (nodeType : String) (rt : Token) (p : Parser) (node : CSTNode)
        (q : Parser), p.getNextToken.1.type = TOKEN_IDENTIFIER → node.isNull = false →
      parseProcedure fuel nodeType rt p = some (.returned node q) →
        q.symbolTable.currentScope = p.symbolTable.currentScope ∧
          q.symbolTable.scopeStack = p.symbolTable.scopeStack) ∧
    (parseProgram 20 (ofTokens (tokensOf "int f; procedure f int y;"))).map
        (fun o => (o.errors,
          o.parser.symbolTable.entries.map (fun e => (e.identifierName, e.scope)),
          o.parser.symbolTable.currentScope)) =
      some ([(1, "variable \"f\" is already defined globally")], [("f", 0), ("y", 1)], 1) ∧
    (parseProgram 20 (ofTokens (tokensOf "procedure f ; int y;"))).map
        (fun o => (o.errors,
          o.parser.symbolTable.entries.map (fun e => (e.identifierName, e.scope)),
          o.parser.symbolTable.currentScope)) =
      some ([(1, "Expected '(' after procedure or function name.")],
        [("f", 1), ("y", 1)], 1) ∧
    (parseProgram 20 (ofTokens (tokensOf "procedure f(int ; int y;"))).map
        (fun o => (o.errors,
          o.parser.symbolTable.entries.map (fun e => (e.identifierName, e.scope)),
          o.parser.symbolTable.currentScope)) =
      some ([(1, "Expected parameter name after type.")], [("f", 1), ("y", 1)], 1) ∧
    (parseProgram 20 (ofTokens (tokensOf "procedure f() ; int y;"))).map
        (fun o => (o.errors,
          o.parser.symbolTable.entries.map (fun e => (e.identifierName, e.scope)),
          o.parser.symbolTable.currentScope)) =
      some ([(1, "Expected '\x7b' at the start of procedure or function body.")],
        [("f", 1), ("y", 1)], 1) ∧
    (parseProgram 20
        (ofTokens (tokensOf "procedure f ; procedure g() \x7b int z; \x7d int y;"))).map
        (fun o => (o.errors,
          o.parser.symbolTable.entries.map (fun e => (e.identifierName, e.scope)),
          o.parser.symbolTable.currentScope)) =
      some ([(1, "Expected '(' after procedure or function name.")],
        [("f", 1), ("g", 2), ("z", 2), ("y", 1)], 1) := by
  refine ⟨?_, ?_, ?_, ?_, ?_, ?_, ?_, ?_, ?_, ?_, ?_, ?_⟩
  · intro fuel nodeType rt p q hname h
    exact (parseProcedure_scopes fuel nodeType rt p _ q hname h).1 rfl
  · exact parseProgramLoop_turn
  · intro tokens p q0 hp hstep
    have hopen := loopStep_opened hstep
    have hpos := loopReaches_nextScopeId tokens p hp
    refine ⟨hopen.1, by rw [hopen.1]; omega, ?_⟩
    intro q hq
    have hscope := (loopReachesClosed_scope hq).1
    refine ⟨hscope, ?_⟩
    intro fuel root node root' r hturn
    obtain ⟨added, h1, h2⟩ := parseProgramTurn_scoped hturn
    exact ⟨added, h1, fun e he => (h2 e he).trans hscope⟩
  · intro fuel root p q hmore ht hv h
    rw [parseProgramLoop]
    simp [hmore, ht, hv, h, CSTNode.isNull]
  · intro fuel root p q hmore hv ht h
    rw [parseProgramLoop]
    simp [hmore, hv, ht, h, CSTNode.isNull]
  · intro fuel p node q h
    obtain ⟨g, added⟩ := (scoped_statement fuel).1 p node q h
    exact ⟨g.currentScope, g.scopeStack, added⟩
  · intro fuel nodeType rt p node q hname hnode h
    exact (parseProcedure_scopes fuel nodeType rt p node q hname h).2 hnode
  all_goals decide

/-- C37 on `procedure f ; int y;`: the first turn of the loop leaves the scope
1 of `f` open, and the turn for `int y;` enters `y` with scope 1. -/
theorem failed_procedure_keeps_scope_witness :
    LoopReaches (ofTokens (tokensOf "procedure f ; int y;"))
        (ofTokens (tokensOf "procedure f ; int y;")) ∧
      LoopStep true (ofTokens (tokensOf "procedure f ; int y;")) afterFailedProcedure ∧
      afterFailedProcedure.symbolTable.currentScope = 1 ∧
      afterFailedProcedure.symbolTable.currentScope ≠ 0 ∧
      ∃ added,
        afterLaterDeclaration.symbolTable.entries =
          afterFailedProcedure.symbolTable.entries ++ added ∧
        ∀ e ∈ added, e.scope = 1 := by
  have hstep : LoopStep true (ofTokens (tokensOf "procedure f ; int y;"))
      afterFailedProcedure :=
    ⟨3, CSTNode.new "Program",
      .procedure
        { tokenStream := { tokens := tokensOf "procedure f ; int y;", currentIndex := 1 } }
        CSTNode.null (CSTNode.new "Program") afterFailedProcedure,
      by decide, rfl, rfl⟩
  have h := failed_procedure_keeps_scope.2.2.1 (tokensOf "procedure f ; int y;") _ _
    Relation.ReflTransGen.refl hstep
  exact ⟨Relation.ReflTransGen.refl, hstep, h.1, h.2.1,
    (h.2.2 _ Relation.ReflTransGen.refl).2 3 (CSTNode.new "Program")
      (CSTNode.tree "Declaration" "int" 1 [CSTNode.new "Variable" "y" 1])
      ((CSTNode.new "Program").addChild
        (CSTNode.tree "Declaration" "int" 1 [CSTNode.new "Variable" "y" 1]))
      afterLaterDeclaration (by decide)⟩

end Parser

/-! ## C34: the parser terminates -/

namespace Parser

theorem remaining_getNextToken (p : Parser) :
    remaining p.getNextToken.2 = remaining p - 1 := by
  simp only [remaining, getNextToken, TokenStream.getNextToken]
  cases h : p.tokenStream.tokens[p.tokenStream.currentIndex]? with
  | none =>
    have := List.getElem?_eq_none_iff.mp h
    simp only []
    omega
  | some t =>
    simp only []
    omega

theorem remaining_skipToken (p : Parser) : remaining p.skipToken = remaining p - 1 :=
  remaining_getNextToken p

theorem remaining_reportError (p : Parser) (m : String) (l : Int) :
    remaining (p.reportError m l) = remaining p := rfl

theorem remaining_setSymbolTable (p : Parser) (st : SymbolTable) :
    remaining { p with symbolTable := st } = remaining p := rfl

theorem hasMoreTokens_iff (p : Parser) : p.hasMoreTokens = true ↔ 0 < remaining p := by
  simp [hasMoreTokens, TokenStream.hasMoreTokens, remaining]

theorem getNextToken_of_remaining_eq_zero (p : Parser) (h : remaining p = 0) :
    p.getNextToken = (TokenStream.endToken, p) := by
  have : p.tokenStream.tokens.length ≤ p.tokenStream.currentIndex := by
    simp only [remaining] at h
    omega
  simp only [getNextToken, TokenStream.getNextToken, List.getElem?_eq_none this]

theorem peekNextToken_eq (p : Parser) : p.peekNextToken = p.getNextToken.1 := by
  simp only [peekNextToken, getNextToken, TokenStream.peekNextToken, TokenStream.getNextToken]
  split <;> rfl

theorem remaining_pos_of_type (p : Parser) (h : p.getNextToken.1.type ≠ TOKEN_UNKNOWN) :
    0 < remaining p := by
  rcases Nat.eq_zero_or_pos (remaining p) with h0 | h0
  · rw [getNextToken_of_remaining_eq_zero p h0] at h
    exact absurd rfl h
  · exact h0

theorem rewind_getNextToken_of_pos (p : Parser) (h : 0 < remaining p) :
    p.getNextToken.2.rewind = p := by
  have hlt : p.tokenStream.currentIndex < p.tokenStream.tokens.length := by
    simp only [remaining] at h
    omega
  simp [getNextToken, TokenStream.getNextToken, List.getElem?_eq_getElem hlt, rewind,
    TokenStream.rewind]

theorem remaining_rewind_getNextToken (p : Parser) :
    remaining p.getNextToken.2.rewind ≤ remaining p ∨ remaining p.getNextToken.2.rewind ≤ 1 := by
  rcases Nat.eq_zero_or_pos (remaining p) with h0 | h0
  · right
    rw [getNextToken_of_remaining_eq_zero p h0]
    simp only [remaining, rewind, TokenStream.rewind] at h0 ⊢
    split
    · simp only []
      omega
    · omega
  · left
    rw [rewind_getNextToken_of_pos p h0]

namespace Returns

theorem returns_some {k : Nat} {node : CSTNode} {q : Parser} (h : remaining q ≤ k) :
    Returns k (some (node, q)) :=
  ⟨node, q, rfl, h⟩

theorem returns_mono {j k : Nat} {o : Option Parsed} (h : j ≤ k) (ho : Returns j o) :
    Returns k o := by
  obtain ⟨node, q, h1, h2⟩ := ho
  exact ⟨node, q, h1, le_trans h2 h⟩

theorem returns_ite {k : Nat} {c : Prop} [Decidable c] {a b : Option Parsed}
    (ha : c → Returns k a) (hb : ¬c → Returns k b) : Returns k (if c then a else b) := by
  by_cases hc : c
  · simpa [hc] using ha hc
  · simpa [hc] using hb hc

theorem returns_bind {j k : Nat} {o : Option Parsed} {f : CSTNode → Parser → Option Parsed} :
    Returns j o → (∀ node q, remaining q ≤ j → Returns k (f node q)) →
      Returns k (match o with
        | Option.none => Option.none
        | Option.some (node, q) => f node q) := by
  intro ho hf
  obtain ⟨node, q, h1, h2⟩ := ho
  subst h1
  exact hf node q h2

theorem returns_matchWhat {k : Nat} {o : Option String} {f : String → Option Parsed}
    {g : Option Parsed} (hf : ∀ what, Returns k (f what)) (hg : Returns k g) :
    Returns k (match o with
      | Option.some what => f what
      | Option.none => g) := by
  cases o with
  | none => exact hg
  | some what => exact hf what

theorem returns_bindParser {j k : Nat} {o : Option Parser} {f : Parser → Option Parsed} :
    (∃ q, o = some q ∧ remaining q ≤ j) → (∀ q, remaining q ≤ j → Returns k (f q)) →
      Returns k (match o with
        | Option.none => Option.none
        | Option.some q => f q) := by
  intro ho hf
  obtain ⟨q, h1, h2⟩ := ho
  subst h1
  exact hf q h2

end Returns

/-- At the end of the input the operator loop returns what it was given. -/
theorem parseOperators_of_remaining_eq_zero (fuel : Nat) (lhs : CSTNode) (s : Bool)
    (p : Parser) (h : remaining p = 0) : parseOperators (fuel + 1) lhs s p = some (lhs, p) := by
  rw [parseOperators]
  simp [peekNextToken_eq, getNextToken_of_remaining_eq_zero p h, TokenStream.endToken,
    isChainOperator]

theorem parseExpression_of_remaining_eq_zero (fuel : Nat) (s : Bool)
    (p : Parser) (h : remaining p = 0) :
    parseExpression (fuel + 1) CSTNode.null s p =
      some (CSTNode.null, p.reportError "Invalid expression." (-1)) := by
  rw [parseExpression]
  simp [getNextToken_of_remaining_eq_zero p h, TokenStream.endToken, CSTNode.isNull]

set_option maxRecDepth 100000 in
set_option maxHeartbeats 2000000 in
/-- With fuel for twice the tokens ahead, the expression functions return,
and they do not move the cursor back: `parseExpression` without a left-hand
side moves it forward unless no token is left, and so does the operator loop
at an operator. -/
theorem returns_expression (n : Nat) :
    (∀ s p, 2 * remaining p + 2 ≤ n →
      Returns (remaining p - 1) (parseExpression n CSTNode.null s p)) ∧
    (∀ lhs s p, 2 * remaining p + 1 ≤ n → isChainOperator p.peekNextToken.type = true →
      Returns (remaining p - 1) (parseOperators n lhs s p)) ∧
    (∀ lhs s p, 2 * remaining p + 1 ≤ n → Returns (remaining p) (parseOperators n lhs s p)) ∧
    (∀ call p, 2 * remaining p + 3 ≤ n → Returns (remaining p) (parseArguments n call p)) := by
  induction n with
  | zero =>
    refine ⟨?_, ?_, ?_, ?_⟩ <;> intros <;> omega
  | succ n ih =>
    obtain ⟨ihE, ihO', ihO, ihA⟩ := ih
    have hO' : ∀ lhs s p, 2 * remaining p + 1 ≤ n + 1 →
        isChainOperator p.peekNextToken.type = true →
        Returns (remaining p - 1) (parseOperators (n + 1) lhs s p) := by
      intro lhs s p hn hc
      have hr : 0 < remaining p := by
        apply remaining_pos_of_type
        rw [← peekNextToken_eq]
        intro hu
        rw [hu] at hc
        exact absurd hc (by decide)
      rw [parseOperators]
      simp only []
      rw [if_neg (fun h => (isChainOperator_ne hc).2.2.2.2 h.2), if_pos hc]
      refine Returns.returns_bind (ihE _ _ ?_) (fun _ q hq => ?_)
      · rw [remaining_skipToken]
        omega
      · rw [remaining_skipToken] at hq
        refine Returns.returns_ite (fun _ => Returns.returns_some (by omega)) (fun _ => ?_)
        exact Returns.returns_mono (by omega) (ihO _ _ _ (by omega))
    have hO : ∀ lhs s p, 2 * remaining p + 1 ≤ n + 1 →
        Returns (remaining p) (parseOperators (n + 1) lhs s p) := by
      intro lhs s p hn
      by_cases hc : isChainOperator p.peekNextToken.type = true
      · exact Returns.returns_mono (Nat.sub_le _ _) (hO' lhs s p hn hc)
      · rw [parseOperators]
        simp only []
        rw [if_neg hc]
        exact Returns.returns_ite (fun _ => Returns.returns_some (le_refl _))
          (fun _ => Returns.returns_some (le_refl _))
    refine ⟨?_, hO', hO, ?_⟩
    · intro s p hn
      rcases Nat.eq_zero_or_pos (remaining p) with hr | hr
      · rw [parseExpression_of_remaining_eq_zero n s p hr]
        exact Returns.returns_some (by rw [remaining_reportError]; omega)
      rw [parseExpression]
      rw [if_neg (by decide)]
      simp only []
      refine Returns.returns_ite (fun _ => ?_) (fun _ => ?_)
      · exact Returns.returns_mono (by rw [remaining_getNextToken])
          (ihO _ _ _ (by rw [remaining_getNextToken]; omega))
      refine Returns.returns_ite (fun hminus => ?_) (fun _ => ?_)
      · refine Returns.returns_ite (fun _ => ?_) (fun _ => ?_)
        · exact Returns.returns_mono
            (by rw [remaining_skipToken, remaining_getNextToken]; omega)
            (ihO _ _ _ (by rw [remaining_skipToken, remaining_getNextToken]; omega))
        · rw [rewind_getNextToken_of_pos p hr]
          refine ihO' _ _ _ (by omega) ?_
          rw [peekNextToken_eq, hminus]
          rfl
      repeat (with_reducible first
        | refine Returns.returns_some ?_
        | refine Returns.returns_ite (fun _ => ?_) (fun _ => ?_)
        | refine Returns.returns_bind (ihE _ _ ?_) (fun _ _ _ => ?_)
        | refine Returns.returns_bind (ihA _ _ ?_) (fun _ _ _ => ?_)
        | refine Returns.returns_mono ?_ (ihO _ _ _ ?_)
        | (simp only [remaining_getNextToken, remaining_skipToken, remaining_reportError] at *
           omega))
    · intro call p hn
      rw [parseArguments]
      rcases Nat.eq_zero_or_pos (remaining p) with hr | hr
      · have : p.hasMoreTokens = false := by
          rw [← Bool.not_eq_true, hasMoreTokens_iff]
          omega
        simp only [this, Bool.not_false, if_true]
        exact Returns.returns_some (le_refl _)
      · have : p.hasMoreTokens = true := (hasMoreTokens_iff p).mpr hr
        simp only [this, Bool.not_true, Bool.false_eq_true, if_false]
        repeat (with_reducible first
          | refine Returns.returns_some ?_
          | refine Returns.returns_ite (fun _ => ?_) (fun _ => ?_)
          | refine Returns.returns_bind (ihE _ _ ?_) (fun _ _ _ => ?_)
          | refine Returns.returns_mono ?_ (ihA _ _ ?_)
          | (simp only [remaining_getNextToken, remaining_skipToken, remaining_reportError] at *
             omega))

end Parser

namespace Parser

theorem returns_skipArguments (n : Nat) :
    ∀ p, remaining p + 1 ≤ n → ∃ q, skipArguments n p = some q ∧ remaining q ≤ remaining p := by
  induction n with
  | zero =>
    intro p h
    omega
  | succ n ih =>
    intro p hn
    rw [skipArguments]
    rcases Nat.eq_zero_or_pos (remaining p) with hr | hr
    · have : p.hasMoreTokens = false := by
        rw [← Bool.not_eq_true, hasMoreTokens_iff]
        omega
      simp only [this, Bool.not_false, if_true]
      exact ⟨p, rfl, le_refl _⟩
    · have : p.hasMoreTokens = true := (hasMoreTokens_iff p).mpr hr
      simp only [this, Bool.not_true, Bool.false_eq_true, if_false]
      split
      · exact ⟨_, rfl, by rw [remaining_getNextToken]; omega⟩
      · obtain ⟨q, h1, h2⟩ := ih p.getNextToken.2 (by rw [remaining_getNextToken]; omega)
        exact ⟨q, h1, by rw [remaining_getNextToken] at h2; omega⟩

theorem remaining_checkArraySize (s t : Token) (v : String) (node : CSTNode) (q : Parser) :
    remaining (checkArraySize s t v node q).2 ≤ remaining q := by
  unfold checkArraySize
  split
  · exact le_refl _
  · split
    · exact le_refl _
    · simp only []
      split
      · rw [remaining_reportError, remaining_getNextToken]
        omega
      · rw [remaining_getNextToken]
        omega

theorem remaining_parseArraySuffix (t : Token) (node : CSTNode) (q : Parser) :
    remaining (parseArraySuffix t node q).2 ≤ remaining q := by
  unfold parseArraySuffix
  split
  · exact le_refl _
  · simp only []
    split
    · split
      · rw [remaining_reportError, remaining_getNextToken, remaining_skipToken,
          remaining_skipToken]
        omega
      · refine le_trans (remaining_checkArraySize _ _ _ _ _) ?_
        rw [remaining_getNextToken, remaining_skipToken, remaining_skipToken]
        omega
    · split
      · rw [remaining_reportError, remaining_getNextToken, remaining_skipToken]
        omega
      · refine le_trans (remaining_checkArraySize _ _ _ _ _) ?_
        rw [remaining_getNextToken, remaining_skipToken]
        omega

theorem remaining_suffix (c : Prop) [Decidable c] (t : Token) (node : CSTNode) (q : Parser) :
    remaining (if c then parseArraySuffix t node q else (node, q)).2 ≤ remaining q := by
  split
  · exact remaining_parseArraySuffix t node q
  · exact le_refl _

theorem parseDeclarators_of_remaining_eq_zero (fuel : Nat) (decl : CSTNode) (p : Parser)
    (h : remaining p = 0) :
    parseDeclarators (fuel + 1) decl p =
      some (CSTNode.null, p.reportError "Expected variable name after type." (-1)) := by
  rw [parseDeclarators]
  simp [getNextToken_of_remaining_eq_zero p h, TokenStream.endToken, keywords]

theorem parseStatement_of_remaining_eq_zero (fuel : Nat) (p : Parser) (h : remaining p = 0) :
    parseStatement (fuel + 1) p =
      some (CSTNode.null, p.reportError "Invalid statement." (-1)) := by
  rw [parseStatement]
  simp [getNextToken_of_remaining_eq_zero p h, TokenStream.endToken]

set_option maxRecDepth 100000 in
set_option maxHeartbeats 2000000 in
theorem returns_parseDeclarators (n : Nat) :
    ∀ decl p, 2 * remaining p + 1 ≤ n → Returns (remaining p) (parseDeclarators n decl p) := by
  induction n with
  | zero =>
    intro decl p h
    omega
  | succ n ih =>
    intro decl p hn
    rcases Nat.eq_zero_or_pos (remaining p) with hr | hr
    · rw [parseDeclarators_of_remaining_eq_zero n decl p hr]
      exact Returns.returns_some (le_refl _)
    rw [parseDeclarators]
    simp only []
    have hsuf := remaining_suffix (p.getNextToken.2.peekNextToken.type = TOKEN_L_BRACKET)
      p.getNextToken.1
      (CSTNode.new "Variable" p.getNextToken.1.value p.getNextToken.1.lineNumber)
      p.getNextToken.2
    repeat (with_reducible first
      | refine Returns.returns_some ?_
      | refine Returns.returns_ite (fun _ => ?_) (fun _ => ?_)
      | refine Returns.returns_matchWhat (fun _ => ?_) ?_
      | refine Returns.returns_mono ?_ (ih _ _ ?_)
      | (simp only [remaining_getNextToken, remaining_skipToken, remaining_reportError,
          remaining_setSymbolTable] at *
         omega))

set_option maxRecDepth 100000 in
set_option maxHeartbeats 2000000 in
theorem returns_parseIdentifierStatement (n : Nat) (token : Token) (p : Parser)
    (hn : 2 * remaining p + 2 ≤ n) :
    Returns (remaining p) (parseIdentifierStatement n token p) := by
  have ihE := (returns_expression n).1
  have ihK := returns_skipArguments n
  unfold parseIdentifierStatement
  simp only []
  repeat (with_reducible first
    | refine Returns.returns_some ?_
    | refine Returns.returns_ite (fun _ => ?_) (fun _ => ?_)
    | refine Returns.returns_bind (ihE _ _ ?_) (fun _ _ _ => ?_)
    | refine Returns.returns_bindParser (ihK _ ?_) (fun _ _ => ?_)
    | (simp only [remaining_getNextToken, remaining_skipToken, remaining_reportError] at *
       omega))

theorem returns_parseReturnStatement (n : Nat) (token : Token) (p : Parser)
    (hn : 2 * remaining p + 4 ≤ n) :
    Returns (remaining p) (parseReturnStatement n token p) := by
  have ihE := (returns_expression n).1
  have hrw := remaining_rewind_getNextToken p
  unfold parseReturnStatement
  simp only []
  generalize p.getNextToken.2.rewind = p1 at hrw ⊢
  repeat (with_reducible first
    | refine Returns.returns_some ?_
    | refine Returns.returns_ite (fun _ => ?_) (fun _ => ?_)
    | refine Returns.returns_bind (ihE _ _ ?_) (fun _ _ _ => ?_)
    | (simp only [remaining_getNextToken, remaining_skipToken, remaining_reportError] at *
       omega))

theorem returns_parseForIncrement (n : Nat) (forNode : CSTNode) (p : Parser)
    (hn : 2 * remaining p + 2 ≤ n) :
    Returns (remaining p) (parseForIncrement n forNode p) := by
  have ihE := (returns_expression n).1
  unfold parseForIncrement
  simp only []
  repeat (with_reducible first
    | refine Returns.returns_some ?_
    | refine Returns.returns_ite (fun _ => ?_) (fun _ => ?_)
    | refine Returns.returns_bind (ihE _ _ ?_) (fun _ _ _ => ?_)
    | (simp only [remaining_getNextToken, remaining_skipToken, remaining_reportError] at *
       omega))

set_option maxRecDepth 100000 in
set_option maxHeartbeats 4000000 in
/-- With fuel for twice the tokens ahead, `parseStatement` and the statement
loop of a body return; `parseStatement` moves the cursor forward unless no
token is left, and the loop does not move it back. -/
theorem returns_statement (n : Nat) :
    (∀ p, 2 * remaining p + 3 ≤ n → Returns (remaining p - 1) (parseStatement n p)) ∧
    (∀ closing node p, 2 * remaining p + 4 ≤ n →
      Returns (remaining p) (parseBlock n closing node p)) := by
  induction n with
  | zero =>
    refine ⟨?_, ?_⟩ <;> intros <;> omega
  | succ n ih =>
    obtain ⟨ihS, ihB⟩ := ih
    have ihE := (returns_expression n).1
    have ihD := returns_parseDeclarators n
    have ihI := returns_parseIdentifierStatement n
    have ihR := returns_parseReturnStatement n
    have ihF := returns_parseForIncrement n
    refine ⟨?_, ?_⟩
    · intro p hn
      rcases Nat.eq_zero_or_pos (remaining p) with hr | hr
      · rw [parseStatement_of_remaining_eq_zero n p hr]
        exact Returns.returns_some (by rw [remaining_reportError]; omega)
      rw [parseStatement]
      simp only []
      repeat (with_reducible first
        | refine Returns.returns_some ?_
        | refine Returns.returns_ite (fun _ => ?_) (fun _ => ?_)
        | refine Returns.returns_bind (ihS _ ?_) (fun _ _ _ => ?_)
        | refine Returns.returns_bind (ihE _ _ ?_) (fun _ _ _ => ?_)
        | refine Returns.returns_bind (ihF _ _ ?_) (fun _ _ _ => ?_)
        | refine Returns.returns_bind (ihB _ _ _ ?_) (fun _ _ _ => ?_)
        | refine Returns.returns_mono ?_ (ihB _ _ _ ?_)
        | refine Returns.returns_mono ?_ (ihD _ _ ?_)
        | refine Returns.returns_mono ?_ (ihI _ _ ?_)
        | refine Returns.returns_mono ?_ (ihR _ _ ?_)
        | (simp only [remaining_getNextToken, remaining_skipToken, remaining_reportError] at *
           omega))
    · intro closing node p hn
      rw [parseBlock]
      rcases Nat.eq_zero_or_pos (remaining p) with hr | hr
      · have : p.hasMoreTokens = false := by
          rw [← Bool.not_eq_true, hasMoreTokens_iff]
          omega
        simp only [this, Bool.not_false, if_true]
        exact Returns.returns_some (le_refl _)
      · have : p.hasMoreTokens = true := (hasMoreTokens_iff p).mpr hr
        simp only [this, Bool.not_true, Bool.false_eq_true, if_false,
          rewind_getNextToken_of_pos p hr]
        repeat (with_reducible first
          | refine Returns.returns_some ?_
          | refine Returns.returns_ite (fun _ => ?_) (fun _ => ?_)
          | refine Returns.returns_bind (ihS _ ?_) (fun _ _ _ => ?_)
          | refine Returns.returns_mono ?_ (ihB _ _ _ ?_)
          | (simp only [remaining_getNextToken, remaining_skipToken, remaining_reportError] at *
             omega))

end Parser

namespace Parser

namespace Ends

theorem ends_returned {k : Nat} {node : CSTNode} {q : Parser} (h : remaining q ≤ k) :
    Ends k (some (.returned node q)) :=
  ⟨_, rfl, h⟩

theorem ends_threw {k : Nat} {q : Parser} (h : remaining q ≤ k) : Ends k (some (.threw q)) :=
  ⟨_, rfl, h⟩

theorem ends_mono {j k : Nat} {o : Option Outcome} (h : j ≤ k) (ho : Ends j o) : Ends k o := by
  obtain ⟨out, h1, h2⟩ := ho
  exact ⟨out, h1, le_trans h2 h⟩

theorem ends_ite {k : Nat} {c : Prop} [Decidable c] {a b : Option Outcome}
    (ha : c → Ends k a) (hb : ¬c → Ends k b) : Ends k (if c then a else b) := by
  by_cases hc : c
  · simpa [hc] using ha hc
  · simpa [hc] using hb hc

theorem ends_matchWhat {k : Nat} {o : Option String} {f : String → Option Outcome}
    {g : Option Outcome} (hf : ∀ what, Ends k (f what)) (hg : Ends k g) :
    Ends k (match o with
      | Option.some what => f what
      | Option.none => g) := by
  cases o with
  | none => exact hg
  | some what => exact hf what

theorem ends_matchInt {k : Nat} {o : Option Int} {f : Int → Option Outcome}
    {g : Option Outcome} (hg : Ends k g) (hf : ∀ n, Ends k (f n)) :
    Ends k (match o with
      | Option.none => g
      | Option.some n => f n) := by
  cases o with
  | none => exact hg
  | some n => exact hf n

theorem ends_bindParsed {j k : Nat} {o : Option Parsed} {f : CSTNode → Parser → Option Outcome} :
    Returns j o → (∀ node q, remaining q ≤ j → Ends k (f node q)) →
      Ends k (match o with
        | Option.none => Option.none
        | Option.some (node, q) => f node q) := by
  intro ho hf
  obtain ⟨node, q, h1, h2⟩ := ho
  subst h1
  exact hf node q h2

theorem ends_bindOutcome {j k : Nat} {o : Option Outcome}
    {f : CSTNode → Parser → Option Outcome} :
    Ends j o → j ≤ k → (∀ node q, remaining q ≤ j → Ends k (f node q)) →
      Ends k (match o with
        | Option.none => Option.none
        | Option.some (.threw q) => Option.some (.threw q)
        | Option.some (.returned node q) => f node q) := by
  intro ho hjk hf
  obtain ⟨out, h1, h2⟩ := ho
  subst h1
  cases out with
  | threw q => exact ends_threw (le_trans h2 hjk)
  | returned node q => exact hf node q h2

end Ends

set_option maxRecDepth 100000 in
set_option maxHeartbeats 4000000 in
theorem ends_parseParameters (n : Nat) :
    ∀ procName currentScope node p, 2 * remaining p + 1 ≤ n →
      Ends (remaining p) (parseParameters n procName currentScope node p) := by
  induction n with
  | zero =>
    intro procName currentScope node p h
    omega
  | succ n ih =>
    intro procName currentScope node p hn
    rw [parseParameters]
    refine Ends.ends_ite (fun _ => Ends.ends_returned (le_refl _)) (fun hmore => ?_)
    have hr : 0 < remaining p := by
      rw [← hasMoreTokens_iff]
      simpa using hmore
    clear hmore
    simp only []
    repeat (with_reducible first
      | refine Ends.ends_returned ?_
      | refine Ends.ends_threw ?_
      | refine Ends.ends_ite (fun _ => ?_) (fun _ => ?_)
      | refine Ends.ends_matchInt ?_ (fun _ => ?_)
      | refine Ends.ends_mono ?_ (ih _ _ _ _ ?_)
      | (simp only [remaining_getNextToken, remaining_skipToken, remaining_reportError,
          remaining_setSymbolTable] at *
         omega))

set_option maxRecDepth 100000 in
set_option maxHeartbeats 4000000 in
theorem ends_parseProcedureRest (n : Nat) (nodeType : String) (rt : Token)
    (procName : String) (currentScope : Int) (node : CSTNode) (p : Parser)
    (hn : 2 * remaining p + 4 ≤ n) :
    Ends (remaining p) (parseProcedureRest n nodeType rt procName currentScope node p) := by
  have ihP := ends_parseParameters n
  have ihB := (returns_statement n).2
  unfold parseProcedureRest
  simp only []
  repeat (with_reducible first
    | refine Ends.ends_returned ?_
    | refine Ends.ends_threw ?_
    | refine Ends.ends_ite (fun _ => ?_) (fun _ => ?_)
    | refine Ends.ends_bindOutcome (ihP _ _ _ _ ?_) ?_ (fun _ _ _ => ?_)
    | refine Ends.ends_bindParsed (ihB _ _ _ ?_) (fun _ _ _ => ?_)
    | (simp only [remaining_getNextToken, remaining_skipToken, remaining_reportError,
        remaining_setSymbolTable] at *
       omega))

theorem ends_parseProcedure (n : Nat) (nodeType : String) (rt : Token) (p : Parser)
    (hn : 2 * remaining p + 4 ≤ n) :
    Ends (remaining p) (parseProcedure n nodeType rt p) := by
  unfold parseProcedure
  simp only []
  repeat (with_reducible first
    | refine Ends.ends_returned ?_
    | refine Ends.ends_ite (fun _ => ?_) (fun _ => ?_)
    | refine Ends.ends_matchWhat (fun _ => ?_) ?_
    | refine Ends.ends_mono ?_ (ends_parseProcedureRest _ _ _ _ _ _ _ ?_)
    | (simp only [remaining_getNextToken, remaining_skipToken, remaining_reportError,
        remaining_setSymbolTable] at *
       omega))

set_option maxRecDepth 100000 in
set_option maxHeartbeats 4000000 in
theorem ends_parseProgramLoop (n : Nat) :
    ∀ root p, 2 * remaining p + 4 ≤ n → Ends (remaining p) (parseProgramLoop n root p) := by
  induction n with
  | zero =>
    intro root p h
    omega
  | succ n ih =>
    intro root p hn
    have ihS := (returns_statement n).1
    rw [parseProgramLoop]
    rcases Nat.eq_zero_or_pos (remaining p) with hr | hr
    · have : p.hasMoreTokens = false := by
        rw [← Bool.not_eq_true, hasMoreTokens_iff]
        omega
      simp only [this, Bool.not_false, if_true]
      exact Ends.ends_returned (le_refl _)
    · have : p.hasMoreTokens = true := (hasMoreTokens_iff p).mpr hr
      simp only [this, Bool.not_true, Bool.false_eq_true, if_false,
        rewind_getNextToken_of_pos p hr]
      refine Ends.ends_ite (fun _ => ?_) (fun _ => ?_)
      · have hp : remaining (if decide (p.getNextToken.1.value = "function") = true then
            p.getNextToken.2.getNextToken.2 else p.getNextToken.2) ≤ remaining p - 1 := by
          split
          · rw [remaining_getNextToken, remaining_getNextToken]
            omega
          · rw [remaining_getNextToken]
        generalize (if decide (p.getNextToken.1.value = "function") = true then
            p.getNextToken.2.getNextToken.2 else p.getNextToken.2) = p1 at hp ⊢
        refine Ends.ends_ite
          (fun _ => Ends.ends_returned (by rw [remaining_reportError]; omega)) (fun _ => ?_)
        refine Ends.ends_bindOutcome (ends_parseProcedure _ _ _ _ (by omega)) (by omega)
          (fun _ q hq => ?_)
        exact Ends.ends_mono (by omega) (ih _ _ (by omega))
      · refine Ends.ends_bindParsed (ihS _ (by omega)) (fun _ q hq => ?_)
        refine Ends.ends_ite
          (fun _ => Ends.ends_returned (by rw [remaining_reportError]; omega)) (fun _ => ?_)
        exact Ends.ends_mono (by omega) (ih _ _ (by omega))

/-- C34. `parseProgram` ends on every token list, from every cursor
position: with fuel for twice the tokens ahead and four more the model ends,
by a return or by the exception of `std::stoi`, and so do `parseStatement`
and `parseExpression` with three and two more. The cursor is what bounds
them: `parseExpression` and `parseStatement` leave it further on than they
found it unless they were called at the end of the input, and no function
leaves it further back; the `rewind` after the end token in a `return`
statement gives back one token, which the `parseExpression` that follows
reads again. For a token list `tokens`, `2 * tokens.length + 4` is enough
fuel. -/
theorem parseProgram_terminates :
    (∀ (n : Nat) (p : Parser), 2 * remaining p + 4 ≤ n →
      ∃ out, parseProgram n p = some out ∧ remaining out.parser ≤ remaining p) ∧
    (∀ (n : Nat) (p : Parser), 2 * remaining p + 3 ≤ n →
      ∃ node q, parseStatement n p = some (node, q) ∧ remaining q ≤ remaining p - 1) ∧
    (∀ (n : Nat) (stopAtParen : Bool) (p : Parser), 2 * remaining p + 2 ≤ n →
      ∃ node q, parseExpression n CSTNode.null stopAtParen p = some (node, q) ∧
        remaining q ≤ remaining p - 1) ∧
    (∀ (n : Nat) (nodeType : String) (rt : Token) (p : Parser), 2 * remaining p + 4 ≤ n →
      ∃ out, parseProcedure n nodeType rt p = some out ∧
        remaining out.parser ≤ remaining p) ∧
    (∀ tokens : List Token, ∃ out, parseProgram (2 * tokens.length + 4) (ofTokens tokens) =
      some out) := by
  refine ⟨fun n p hn => ends_parseProgramLoop n _ p hn, fun n p hn => (returns_statement n).1 p hn,
    fun n s p hn => (returns_expression n).1 s p hn,
    fun n nodeType rt p hn => ends_parseProcedure n nodeType rt p hn, fun tokens => ?_⟩
  obtain ⟨out, h, -⟩ := ends_parseProgramLoop (2 * tokens.length + 4) (CSTNode.new "Program")
    (ofTokens tokens) (by simp [remaining, ofTokens])
  exact ⟨out, h⟩

/-- C34 on the one token `return`: with fuel 6 `parseProgram` ends. -/
theorem parseProgram_terminates_witness :
    2 * remaining (ofTokens [⟨TOKEN_KEYWORD, "return", 1⟩]) + 4 ≤ 6 ∧
      ∃ out, parseProgram 6 (ofTokens [⟨TOKEN_KEYWORD, "return", 1⟩]) = some out ∧
        remaining out.parser ≤ remaining (ofTokens [⟨TOKEN_KEYWORD, "return", 1⟩]) :=
  ⟨by decide, parseProgram_terminates.1 6 (ofTokens [⟨TOKEN_KEYWORD, "return", 1⟩]) (by decide)⟩

end Parser

end CProject
